import Mathlib

/-!
# A shallow embedding of the UFS engine of `gunrock_web/LocalFileSystem.cpp`

The device is a function from block numbers to blocks, a block is a function
from byte offsets to byte values.  Every engine operation is a function into
`Option`: `none` stands for an execution that does not return, either because
the block device rejects a block number (fatal in `Disk`) or because the C++
code reads or writes outside one of its local arrays or shifts by a negative
amount (undefined behaviour).  Machine integers are `Int` (for `int`) and `Nat`
(for `unsigned`), with explicit conversions where C++ converts.
-/

set_option linter.all false

namespace UFS

/-! ## Constants of `ufs.h` and `LocalFileSystem.h` -/

/-- Modelled from the spec: the block size `B` of `ufs.h` (the header is not
among the sources). -/
def UFS_BLOCK_SIZE : Nat := 4096

/-- Modelled from the spec: the number `D` of direct pointers of an inode. -/
def DIRECT_PTRS : Nat := 30

/-- Modelled from the spec: `NAME_MAX`, the size of the name field of an entry. -/
def DIR_ENT_NAME_SIZE : Nat := 28

/-- Modelled from the spec: the maximum file size `D * B`. -/
def MAX_FILE_SIZE : Nat := DIRECT_PTRS * UFS_BLOCK_SIZE

/-- Modelled from the spec: the type tag of a regular file. -/
def UFS_REGULAR_FILE : Int := 1

/-- Modelled from the spec: the type tag of a directory. -/
def UFS_DIRECTORY : Int := 2

/-- Modelled from the spec: `sizeof(inode_t)`, two `int`s and `D` unsigned words. -/
def SIZEOF_INODE : Nat := 128

/-- Modelled from the spec: `sizeof(dir_ent_t)`. -/
def SIZEOF_DIR_ENT : Nat := 32

/-- Modelled from the spec: the error kinds of section 7 are distinct positive
numbers, returned negated; their numeric values are not given, the order of the
list is used. -/
def EINVALIDINODE : Int := 1
/-- Modelled from the spec: error kind INVALID_SIZE. -/
def EINVALIDSIZE : Int := 2
/-- Modelled from the spec: error kind INVALID_TYPE. -/
def EINVALIDTYPE : Int := 3
/-- Modelled from the spec: error kind INVALID_NAME. -/
def EINVALIDNAME : Int := 4
/-- Modelled from the spec: error kind NOT_FOUND. -/
def ENOTFOUND : Int := 5
/-- Modelled from the spec: error kind NOT_ENOUGH_SPACE. -/
def ENOTENOUGHSPACE : Int := 6
/-- Modelled from the spec: error kind DIR_NOT_EMPTY. -/
def EDIRNOTEMPTY : Int := 7
/-- Modelled from the spec: error kind UNLINK_NOT_ALLOWED. -/
def EUNLINKNOTALLOWED : Int := 8

/-! ## Bytes and machine words -/

/-- A block, or any byte buffer: the byte stored at each offset. -/
abbrev Block := Nat → Nat

/-- The buffer `buf + off`. -/
def shiftBuf (buf : Block) (off : Nat) : Block := fun k => buf (off + k)

/-- The all-zero buffer (`memset(buf, 0, ...)`). -/
def zeroBlock : Block := fun _ => 0

/-- Conversion of an `int` to `unsigned int`. -/
def toU32 (x : Int) : Nat := (x % 4294967296).toNat

/-- Conversion of an `int` to `size_t` (64 bits). -/
def toU64 (x : Int) : Nat := (x % 18446744073709551616).toNat

/-- Conversion of an unsigned value to `int` (two's complement). -/
def toI32 (x : Nat) : Int :=
  if x % 4294967296 < 2147483648 then ((x % 4294967296 : Nat) : Int)
  else ((x % 4294967296 : Nat) : Int) - 4294967296

/-- Byte `k` (0 is the least significant) of the word `w`. -/
def byteOf (w : Nat) (k : Nat) : Nat := w / 256 ^ k % 256

/-- The little-endian unsigned 32-bit word stored at offset `off`. -/
def getU32 (b : Block) (off : Nat) : Nat :=
  b off % 256 + 256 * (b (off + 1) % 256) + 65536 * (b (off + 2) % 256)
    + 16777216 * (b (off + 3) % 256)

/-- The `int` stored at offset `off`. -/
def getI32 (b : Block) (off : Nat) : Int := toI32 (getU32 b off)

/-- Store the 32-bit word `w` at offset `off` of a buffer. -/
def putU32 (b : Block) (off : Nat) (w : Nat) : Block :=
  fun k => if off ≤ k ∧ k < off + 4 then byteOf w (k - off) else b k

/-- C division of `int`s (rounds towards zero). -/
def cdiv (a b : Int) : Int := Int.tdiv a b

/-- C remainder of `int`s (sign of the dividend). -/
def cmod (a b : Int) : Int := Int.tmod a b

/-- The generic `for (j = 0; j < n; ++j) if (p j) break;` search: the least
index below `n` satisfying `p`, searched from `start`. -/
def findFirstFrom (p : Nat → Bool) : Nat → Nat → Option Nat
  | _, 0 => none
  | start, k + 1 => if p start then some start else findFirstFrom p (start + 1) k

/-- The least `j < n` with `p j`. -/
def findFirst (p : Nat → Bool) (n : Nat) : Option Nat := findFirstFrom p 0 n

/-! ## The block device -/

/-- Modelled from the spec: the block device of `Disk.h`, a fixed number of
blocks; within one request reads observe the writes made before them. -/
structure Disk where
  numberOfBlocks : Nat
  blocks : Nat → Block

/-- Modelled from the spec: `Disk::readBlock`; an out-of-range block number is
fatal. -/
def Disk.readBlock (d : Disk) (blockNumber : Int) : Option Block :=
  if 0 ≤ blockNumber ∧ blockNumber < d.numberOfBlocks then
    some (d.blocks blockNumber.toNat)
  else none

/-- Modelled from the spec: `Disk::writeBlock`, which stores the
`UFS_BLOCK_SIZE` bytes found at `buffer`; an out-of-range block number is
fatal. -/
def Disk.writeBlock (d : Disk) (blockNumber : Int) (buffer : Block) : Option Disk :=
  if 0 ≤ blockNumber ∧ blockNumber < d.numberOfBlocks then
    some { d with blocks := fun n =>
      if n = blockNumber.toNat then (fun off => if off < UFS_BLOCK_SIZE then buffer off else 0)
      else d.blocks n }
  else none

/-! ## On-disk records -/

/-- Modelled from the spec: the superblock record `super_t` with the fields of
section 3, each an `int`, in the order listed there. -/
structure super_t where
  inode_bitmap_addr : Int
  inode_bitmap_len : Int
  data_bitmap_addr : Int
  data_bitmap_len : Int
  inode_region_addr : Int
  inode_region_len : Int
  data_region_addr : Int
  num_inodes : Int
  num_data : Int

/-- The inode record `inode_t`: `{type, size, direct[DIRECT_PTRS]}` (the field
order is that of the initialiser `{type, 0, {0}}` in `create`). -/
structure inode_t where
  type : Int
  size : Int
  direct : Nat → Nat

/-- The all-zero inode record. -/
def zeroInode : inode_t := ⟨0, 0, fun _ => 0⟩

/-- `memcpy(super, buffer, sizeof(super_t))`. -/
def decodeSuper (b : Block) : super_t :=
  { inode_bitmap_addr := getI32 b 0
    inode_bitmap_len := getI32 b 4
    data_bitmap_addr := getI32 b 8
    data_bitmap_len := getI32 b 12
    inode_region_addr := getI32 b 16
    inode_region_len := getI32 b 20
    data_region_addr := getI32 b 24
    num_inodes := getI32 b 28
    num_data := getI32 b 32 }

/-- `memcpy(inode, buffer + off, sizeof(inode_t))`. -/
def decodeInode (b : Block) (off : Nat) : inode_t :=
  { type := getI32 b off
    size := getI32 b (off + 4)
    direct := fun i => if i < DIRECT_PTRS then getU32 b (off + 8 + 4 * i) else 0 }

/-- Byte `r` of the in-memory image of an inode record. -/
def inodeByte (ino : inode_t) (r : Nat) : Nat :=
  if r < 4 then byteOf (toU32 ino.type) r
  else if r < 8 then byteOf (toU32 ino.size) (r - 4)
  else byteOf (ino.direct ((r - 8) / 4)) ((r - 8) % 4)

/-- Modelled from the spec: offset of the field `inum` in `dir_ent_t`, the
record `{inum, name[NAME_MAX]}`. -/
def ENT_INUM_OFF : Nat := 0

/-- Modelled from the spec: offset of the field `name` in `dir_ent_t`. -/
def ENT_NAME_OFF : Nat := 4

/-- The C string starting at offset `off`: the bytes before the first NUL, at
most `n` of them. -/
def cstr (b : Block) : Nat → Nat → List Nat
  | _, 0 => []
  | off, n + 1 => if b off = 0 then [] else b off :: cstr b (off + 1) n

/-- `string(dirEntries[j].name)`. -/
def entName (b : Block) (j : Nat) : List Nat :=
  cstr b (SIZEOF_DIR_ENT * j + ENT_NAME_OFF) DIR_ENT_NAME_SIZE

/-- `dirEntries[j].inum`. -/
def entInum (b : Block) (j : Nat) : Int := getI32 b (SIZEOF_DIR_ENT * j + ENT_INUM_OFF)

/-- `name.c_str()` read as a C string: the characters before the first NUL. -/
def c_str (name : List Nat) : List Nat := name.takeWhile (fun c => c != 0)

/-- The three statements `dirEntries[j].inum = inum; strncpy(dirEntries[j].name,
name.c_str(), DIR_ENT_NAME_SIZE - 1); dirEntries[j].name[DIR_ENT_NAME_SIZE - 1] = 0`. -/
def setEntry (b : Block) (j : Nat) (inum : Int) (name : List Nat) : Block :=
  fun k =>
    if SIZEOF_DIR_ENT * j ≤ k ∧ k < SIZEOF_DIR_ENT * j + SIZEOF_DIR_ENT then
      let r := k - SIZEOF_DIR_ENT * j
      if ENT_NAME_OFF ≤ r then
        (if r - ENT_NAME_OFF < DIR_ENT_NAME_SIZE - 1 then (c_str name).getD (r - ENT_NAME_OFF) 0
         else 0)
      else byteOf (toU32 inum) (r - ENT_INUM_OFF)
    else b k

/-- `dirEntries[j] = dirEntries[k]`. -/
def copyEntry (b : Block) (j k : Nat) : Block :=
  fun o =>
    if SIZEOF_DIR_ENT * j ≤ o ∧ o < SIZEOF_DIR_ENT * j + SIZEOF_DIR_ENT then
      b (SIZEOF_DIR_ENT * k + (o - SIZEOF_DIR_ENT * j))
    else b o

/-- `memset(&dirEntries[k], 0, sizeof(dir_ent_t))`. -/
def zeroEntry (b : Block) (k : Nat) : Block :=
  fun o => if SIZEOF_DIR_ENT * k ≤ o ∧ o < SIZEOF_DIR_ENT * k + SIZEOF_DIR_ENT then 0 else b o

/-! ## Layout codec: whole-region readers and writers -/

/-- `LocalFileSystem::readSuperBlock`. -/
def readSuperBlock (d : Disk) : Option super_t :=
  (d.readBlock 0).map decodeSuper

/-- The loop shared by `readInodeBitmap` and `readDataBitmap`: blocks
`start .. start + n - 1` are read in order into a buffer of `n` blocks. -/
def readRegion (d : Disk) (start : Int) : Nat → Option Block
  | 0 => some zeroBlock
  | k + 1 =>
    match readRegion d start k with
    | none => none
    | some acc =>
      match d.readBlock (start + k) with
      | none => none
      | some blk =>
        some (fun idx => if idx / UFS_BLOCK_SIZE = k then blk (idx % UFS_BLOCK_SIZE) else acc idx)

/-- The loop shared by `writeInodeBitmap` and `writeDataBitmap`. -/
def writeRegion (d : Disk) (start : Int) (buf : Block) : Nat → Option Disk
  | 0 => some d
  | k + 1 =>
    match writeRegion d start buf k with
    | none => none
    | some d1 => d1.writeBlock (start + k) (shiftBuf buf (k * UFS_BLOCK_SIZE))

/-- `LocalFileSystem::readInodeBitmap`. -/
def readInodeBitmap (d : Disk) (super : super_t) : Option Block :=
  readRegion d super.inode_bitmap_addr super.inode_bitmap_len.toNat

/-- `LocalFileSystem::readDataBitmap`. -/
def readDataBitmap (d : Disk) (super : super_t) : Option Block :=
  readRegion d super.data_bitmap_addr super.data_bitmap_len.toNat

/-- `LocalFileSystem::writeInodeBitmap`. -/
def writeInodeBitmap (d : Disk) (super : super_t) (inodeBitmap : Block) : Option Disk :=
  writeRegion d super.inode_bitmap_addr inodeBitmap super.inode_bitmap_len.toNat

/-- `LocalFileSystem::writeDataBitmap`. -/
def writeDataBitmap (d : Disk) (super : super_t) (dataBitmap : Block) : Option Disk :=
  writeRegion d super.data_bitmap_addr dataBitmap super.data_bitmap_len.toNat

/-- The loop of `readInodeRegion` over the first `n` blocks of the inode
region; array elements never assigned are the zero record here. -/
def readInodeLoop (d : Disk) (super : super_t) : Nat → Option (Nat → inode_t)
  | 0 => some (fun _ => zeroInode)
  | k + 1 =>
    match readInodeLoop d super k with
    | none => none
    | some acc =>
      match d.readBlock (super.inode_region_addr + k) with
      | none => none
      | some buffer =>
        some (fun idx =>
          if idx / (UFS_BLOCK_SIZE / SIZEOF_INODE) = k ∧ (idx : Int) < super.num_inodes then
            decodeInode buffer (idx % (UFS_BLOCK_SIZE / SIZEOF_INODE) * SIZEOF_INODE)
          else acc idx)

/-- `LocalFileSystem::readInodeRegion`. -/
def readInodeRegion (d : Disk) (super : super_t) : Option (Nat → inode_t) :=
  readInodeLoop d super super.inode_region_len.toNat

/-- The buffer that `writeInodeRegion` builds for block `i` of the inode
region; the bytes of the local buffer that the loop does not assign are zero
here. -/
def inodeBlockImage (super : super_t) (inodes : Nat → inode_t) (i : Nat) : Block :=
  fun off =>
    if ((i * (UFS_BLOCK_SIZE / SIZEOF_INODE) + off / SIZEOF_INODE : Nat) : Int) < super.num_inodes
        ∧ off < UFS_BLOCK_SIZE then
      inodeByte (inodes (i * (UFS_BLOCK_SIZE / SIZEOF_INODE) + off / SIZEOF_INODE))
        (off % SIZEOF_INODE)
    else 0

/-- The loop of `writeInodeRegion` over the first `n` blocks of the region. -/
def writeInodeLoop (d : Disk) (super : super_t) (inodes : Nat → inode_t) : Nat → Option Disk
  | 0 => some d
  | k + 1 =>
    match writeInodeLoop d super inodes k with
    | none => none
    | some d1 => d1.writeBlock (super.inode_region_addr + k) (inodeBlockImage super inodes k)

/-- `LocalFileSystem::writeInodeRegion`. -/
def writeInodeRegion (d : Disk) (super : super_t) (inodes : Nat → inode_t) : Option Disk :=
  writeInodeLoop d super inodes super.inode_region_len.toNat

/-! ## Bitmaps held in memory -/

/-- The test `(bitmap[i / 8] & (1 << (i % 8))) == 0`. -/
def bitClear (bm : Block) (i : Nat) : Bool := bm (i / 8) &&& (1 <<< (i % 8)) == 0

/-- The statement `bitmap[i / 8] |= (1 << (i % 8))`. -/
def setBit (bm : Block) (i : Nat) : Block :=
  fun k => if k = i / 8 then bm k ||| (1 <<< (i % 8)) else bm k

/-- The statement `bitmap[i / 8] &= ~(1 << (i % 8))` on an array of
`unsigned char`. -/
def clearBit (bm : Block) (i : Nat) : Block :=
  fun k => if k = i / 8 then bm k &&& (255 - (1 <<< (i % 8))) else bm k

/-- The loop `for (i = 0; i < n; ++i) if (bit i is clear) { found = i; break; }`
over a bitmap array of `cap` bytes, from index `i` with `k` indices left.  The
outer `none` is a read outside the array. -/
def scanFree (bm : Block) (cap : Nat) : Nat → Nat → Option (Option Nat)
  | _, 0 => some none
  | i, k + 1 =>
    if cap ≤ i / 8 then none
    else if bitClear bm i then some (some i)
    else scanFree bm cap (i + 1) k

/-! ## The engine -/

/-- `LocalFileSystem::stat`; the second component is the record behind the
out-parameter after the call. -/
def stat (d : Disk) (inodeNumber : Int) (inode : inode_t) : Option (Int × inode_t) :=
  match readSuperBlock d with
  | none => none
  | some super =>
    if inodeNumber < 0 ∨ inodeNumber ≥ super.num_inodes then some (-EINVALIDINODE, inode)
    else
      let inodesPerBlock : Int := ((UFS_BLOCK_SIZE / SIZEOF_INODE : Nat) : Int)
      let blockNumber := super.inode_region_addr + cdiv inodeNumber inodesPerBlock
      let inodeOffset := cmod inodeNumber inodesPerBlock * (SIZEOF_INODE : Int)
      match d.readBlock blockNumber with
      | none => none
      | some buffer => some (0, decodeInode buffer inodeOffset.toNat)

/-- The number of blocks `size / B`, plus one when `size % B != 0`. -/
def blocksOf (size : Int) : Int :=
  cdiv size UFS_BLOCK_SIZE + (if cmod size UFS_BLOCK_SIZE ≠ 0 then 1 else 0)

/-- The expression `min(UFS_BLOCK_SIZE/sizeof(dir_ent_t),
(size % UFS_BLOCK_SIZE)/sizeof(dir_ent_t))`, computed in `size_t`. -/
def tailEntries (size : Int) : Nat :=
  min (UFS_BLOCK_SIZE / SIZEOF_DIR_ENT) (toU64 (cmod size UFS_BLOCK_SIZE) / SIZEOF_DIR_ENT)

/-- The block loop of `lookup`, at block index `i` with `k` blocks left. -/
def lookupLoop (d : Disk) (parentInode : inode_t) (name : List Nat) (numEntries : Nat) :
    Nat → Nat → Option Int
  | _, 0 => some (-ENOTFOUND)
  | i, k + 1 =>
    if DIRECT_PTRS ≤ i then none
    else
      match d.readBlock (toI32 (parentInode.direct i)) with
      | none => none
      | some blockBuffer =>
        match findFirst (fun j => decide (name = entName blockBuffer j)) numEntries with
        | some j => some (entInum blockBuffer j)
        | none => lookupLoop d parentInode name numEntries (i + 1) k

/-- `LocalFileSystem::lookup`. -/
def lookup (d : Disk) (parentInodeNumber : Int) (name : List Nat) : Option Int :=
  match readSuperBlock d with
  | none => none
  | some super =>
    if parentInodeNumber < 0 ∨ parentInodeNumber ≥ super.num_inodes then some (-EINVALIDINODE)
    else
      match stat d parentInodeNumber zeroInode with
      | none => none
      | some (ret, parentInode) =>
        if ret ≠ 0 then some (-EINVALIDINODE)
        else if parentInode.type ≠ UFS_DIRECTORY then some (-EINVALIDINODE)
        else
          lookupLoop d parentInode name (tailEntries parentInode.size) 0
            (blocksOf parentInode.size).toNat

/-- The function `min_of_three`. -/
def min_of_three (a b c : Int) : Int :=
  let min := a
  let min := if b < min then b else min
  let min := if c < min then c else min
  min

/-- The `while` loop of `read`; the first argument bounds the number of
iterations. -/
def readLoop (d : Disk) (inode : inode_t) (size : Int) :
    Nat → Int → Block → Option (Int × Block)
  | 0, _, _ => none
  | fuel + 1, bytesRead, buffer =>
    if bytesRead < size ∧ bytesRead < inode.size then
      let blockIndex := cdiv bytesRead UFS_BLOCK_SIZE
      let blockOffset := cmod bytesRead UFS_BLOCK_SIZE
      let remaining_bytes_required := size - bytesRead
      let remaining_bytes_cur_block := (UFS_BLOCK_SIZE : Int) - blockOffset
      let remaining_bytes_in_file := inode.size - bytesRead
      let bytesReadCurrent :=
        min_of_three remaining_bytes_required remaining_bytes_cur_block remaining_bytes_in_file
      if blockIndex < 0 ∨ (DIRECT_PTRS : Int) ≤ blockIndex ∨ bytesRead < 0 ∨ blockOffset < 0
          ∨ bytesReadCurrent < 0 then none
      else
        match d.readBlock (toI32 (inode.direct blockIndex.toNat)) with
        | none => none
        | some blockBuffer =>
          readLoop d inode size fuel (bytesRead + bytesReadCurrent)
            (fun k =>
              if bytesRead.toNat ≤ k ∧ k < bytesRead.toNat + bytesReadCurrent.toNat then
                blockBuffer (blockOffset.toNat + (k - bytesRead.toNat))
              else buffer k)
    else some (bytesRead, buffer)

/-- `LocalFileSystem::read`; the second component is the caller's buffer after
the call. -/
def read (d : Disk) (inodeNumber : Int) (buffer : Block) (size : Int) : Option (Int × Block) :=
  if size < 0 ∨ size > MAX_FILE_SIZE then some (-EINVALIDSIZE, buffer)
  else
    match readSuperBlock d with
    | none => none
    | some super =>
      if inodeNumber < 0 ∨ inodeNumber ≥ super.num_inodes then some (-EINVALIDINODE, buffer)
      else
        match stat d inodeNumber zeroInode with
        | none => none
        | some (ret, inode) =>
          if ret ≠ 0 then some (-EINVALIDINODE, buffer)
          else readLoop d inode size (size.toNat + 1) 0 buffer

/-- The loop of `create` that checks for an existing name, at block index `i`
with `k` blocks left; `some true` when the name was found. -/
def createNameLoop (d : Disk) (parentInode : inode_t) (name : List Nat) :
    Nat → Nat → Option Bool
  | _, 0 => some false
  | i, k + 1 =>
    if DIRECT_PTRS ≤ i then none
    else
      match d.readBlock (toI32 (parentInode.direct i)) with
      | none => none
      | some blockBuffer =>
        match findFirst (fun j => decide (name = entName blockBuffer j))
            (UFS_BLOCK_SIZE / SIZEOF_DIR_ENT) with
        | some _ => some true
        | none => createNameLoop d parentInode name (i + 1) k

/-- The loop of `create` that appends the entry to a used block of the parent,
at pointer index `i` with `k` pointers left; the result is the device, the
in-memory parent inode and the flag `entryAdded`. -/
def createAppend (d : Disk) (parentInode : inode_t) (freeInodeNum : Int) (name : List Nat) :
    Nat → Nat → Option (Disk × inode_t × Bool)
  | _, 0 => some (d, parentInode, false)
  | i, k + 1 =>
    if parentInode.direct i ≠ 0 then
      match d.readBlock (toI32 (parentInode.direct i)) with
      | none => none
      | some blockBuffer =>
        let numEntries := toU64 parentInode.size / SIZEOF_DIR_ENT % 4294967296
        if numEntries < UFS_BLOCK_SIZE / SIZEOF_DIR_ENT then
          match d.writeBlock (toI32 (parentInode.direct i))
              (setEntry blockBuffer numEntries freeInodeNum name) with
          | none => none
          | some d1 =>
            some (d1, { parentInode with size := parentInode.size + SIZEOF_DIR_ENT }, true)
        else createAppend d parentInode freeInodeNum name (i + 1) k
    else createAppend d parentInode freeInodeNum name (i + 1) k

/-- The block `if (!entryAdded) { ... }` of `create`, which allocates a data
block for the parent.  The inner `none` is the `return -ENOTENOUGHSPACE` in it;
otherwise the device, the parent inode, the data bitmap and `entryAdded`. -/
def createParentBlock (d : Disk) (super : super_t) (parentInode : inode_t) (dataBitmap : Block)
    (freeInodeNum : Int) (name : List Nat) (entryAdded : Bool) :
    Option (Option (Disk × inode_t × Block × Bool)) :=
  if entryAdded then some (some (d, parentInode, dataBitmap, true))
  else
    match scanFree dataBitmap (super.data_bitmap_len.toNat * UFS_BLOCK_SIZE) 0
        super.num_data.toNat with
    | none => none
    | some none => some none
    | some (some i) =>
      let firstFreeBlockNum : Int := (i : Int) + super.data_region_addr
      let dataBitmap1 := setBit dataBitmap i
      match findFirst (fun s => parentInode.direct s == 0) DIRECT_PTRS with
      | none => some (some (d, parentInode, dataBitmap1, false))
      | some s =>
        let direct1 : Nat → Nat :=
          fun t => if t = s then toU32 firstFreeBlockNum else parentInode.direct t
        match d.writeBlock (toI32 (direct1 s)) (setEntry zeroBlock 0 freeInodeNum name) with
        | none => none
        | some d1 =>
          some (some (d1, { parentInode with
                              direct := direct1
                              size := parentInode.size + SIZEOF_DIR_ENT }, dataBitmap1, true))

/-- `LocalFileSystem::create`; the result is the device after the call and the
returned value. -/
def create (d : Disk) (parentInodeNumber : Int) (type : Int) (name : List Nat) :
    Option (Disk × Int) :=
  match readSuperBlock d with
  | none => none
  | some super =>
  if parentInodeNumber < 0 ∨ parentInodeNumber ≥ super.num_inodes then
    some (d, -EINVALIDINODE)
  else if (name.length : Int) ≥ (DIR_ENT_NAME_SIZE : Int) - 1 then some (d, -EINVALIDNAME)
  else if type ≠ UFS_REGULAR_FILE ∧ type ≠ UFS_DIRECTORY then some (d, -EINVALIDTYPE)
  else
  match stat d parentInodeNumber zeroInode with
  | none => none
  | some (ret, parentInode) =>
  if ret ≠ 0 ∨ parentInode.type ≠ UFS_DIRECTORY then some (d, -EINVALIDINODE)
  else
  match readInodeRegion d super with
  | none => none
  | some inodes =>
  match createNameLoop d parentInode name 0 (blocksOf parentInode.size).toNat with
  | none => none
  | some true => some (d, -EINVALIDNAME)
  | some false =>
  match readInodeBitmap d super with
  | none => none
  | some inodeBitmap =>
  match scanFree inodeBitmap (super.inode_bitmap_len.toNat * UFS_BLOCK_SIZE) 0
      super.num_inodes.toNat with
  | none => none
  | some none => some (d, -ENOTENOUGHSPACE)
  | some (some freeInodeNum) =>
  match createAppend d parentInode freeInodeNum name 0 DIRECT_PTRS with
  | none => none
  | some (d1, parentInode1, entryAdded1) =>
  match readDataBitmap d1 super with
  | none => none
  | some dataBitmap =>
  match createParentBlock d1 super parentInode1 dataBitmap freeInodeNum name entryAdded1 with
  | none => none
  | some none => some (d1, -ENOTENOUGHSPACE)
  | some (some (d2, parentInode2, dataBitmap2, entryAdded2)) =>
  if !entryAdded2 then some (d2, -ENOTENOUGHSPACE)
  else
  let newInode : inode_t := ⟨type, 0, fun _ => 0⟩
  let finish (d3 : Disk) (newInode : inode_t) (dataBitmap3 : Block) : Option (Disk × Int) :=
    let inodes1 : Nat → inode_t := fun k => if k = freeInodeNum then newInode else inodes k
    let inodes2 : Nat → inode_t :=
      fun k => if k = parentInodeNumber.toNat then parentInode2 else inodes1 k
    let inodeBitmap1 := setBit inodeBitmap freeInodeNum
    match writeInodeRegion d3 super inodes2 with
    | none => none
    | some d4 =>
      match writeInodeBitmap d4 super inodeBitmap1 with
      | none => none
      | some d5 =>
        match writeDataBitmap d5 super dataBitmap3 with
        | none => none
        | some d6 => some (d6, (freeInodeNum : Int))
  if type = UFS_DIRECTORY then
    let blockBuffer :=
      setEntry (setEntry zeroBlock 0 freeInodeNum [46]) 1 parentInodeNumber [46, 46]
    match scanFree dataBitmap2 (super.data_bitmap_len.toNat * UFS_BLOCK_SIZE) 0
        super.num_data.toNat with
    | none => none
    | some none => some (d2, -ENOTENOUGHSPACE)
    | some (some i) =>
      let secondFreeBlockNum : Int := (i : Int) + super.data_region_addr
      let dataBitmap3 := setBit dataBitmap2 i
      match d2.writeBlock secondFreeBlockNum blockBuffer with
      | none => none
      | some d3 =>
        finish d3
          { newInode with
              direct := fun t => if t = 0 then toU32 secondFreeBlockNum else 0
              size := 2 * (SIZEOF_DIR_ENT : Int) }
          dataBitmap3
  else finish d2 newInode dataBitmap2

/-- The loop of `unlink` that searches the parent's blocks for the entry and
removes it from its block, at pointer index `i` with `k` pointers left.  The
inner `some` is `found`: the device after `writeBlock` and `inodeToRemove`. -/
def unlinkScan (d : Disk) (parentInode : inode_t) (name : List Nat) (parentFileBlocks : Int) :
    Nat → Nat → Option (Option (Disk × Int))
  | _, 0 => some none
  | i, k + 1 =>
    if parentInode.direct i = 0 then some none
    else
      match d.readBlock (toI32 (parentInode.direct i)) with
      | none => none
      | some blockBuffer =>
        let numEntries : Int :=
          if (i : Int) = parentFileBlocks - 1 then
            toI32 (toU64 (cmod parentInode.size UFS_BLOCK_SIZE) / SIZEOF_DIR_ENT)
          else (tailEntries parentInode.size : Int)
        match findFirst (fun j => decide (entName blockBuffer j = c_str name))
            numEntries.toNat with
        | some j =>
          match d.writeBlock (toI32 (parentInode.direct i))
              (zeroEntry (copyEntry blockBuffer j (numEntries.toNat - 1))
                (numEntries.toNat - 1)) with
          | none => none
          | some d1 => some (some (d1, entInum blockBuffer j))
        | none => unlinkScan d parentInode name parentFileBlocks (i + 1) k

/-- The loop of `unlink` that releases the data blocks of the removed inode, at
pointer index `i` with `k` pointers left, threading the device and the data
bitmap (an array of `cap` bytes). -/
def unlinkFree (super : super_t) (inodeToDelete : inode_t) (cap : Nat) :
    Nat → Nat → Disk → Block → Option (Disk × Block)
  | _, 0, d, dataBitmap => some (d, dataBitmap)
  | i, k + 1, d, dataBitmap =>
    if inodeToDelete.direct i = 0 then some (d, dataBitmap)
    else
      let bitmapIndex : Int :=
        toI32 (toU32 ((inodeToDelete.direct i : Int) - super.data_region_addr))
      if bitmapIndex < 0 ∨ (cap : Int) ≤ cdiv bitmapIndex 8 then none
      else
        match d.writeBlock (toI32 (inodeToDelete.direct i)) zeroBlock with
        | none => none
        | some d1 =>
          unlinkFree super inodeToDelete cap (i + 1) k d1 (clearBit dataBitmap bitmapIndex.toNat)

/-- `LocalFileSystem::unlink`; the result is the device after the call and the
returned value. -/
def unlink (d : Disk) (parentInodeNumber : Int) (name : List Nat) : Option (Disk × Int) :=
  if name = [46] ∨ name = [46, 46] then some (d, -EUNLINKNOTALLOWED)
  else
  match readSuperBlock d with
  | none => none
  | some super =>
  if parentInodeNumber < 0 ∨ parentInodeNumber ≥ super.num_inodes then
    some (d, -EINVALIDINODE)
  else if name = [] ∨ (name.length : Int) ≥ (DIR_ENT_NAME_SIZE : Int) - 1 then
    some (d, -EINVALIDNAME)
  else
  match stat d parentInodeNumber zeroInode with
  | none => none
  | some (ret, parentInode) =>
  if ret < 0 ∨ parentInode.type ≠ UFS_DIRECTORY then some (d, -EINVALIDINODE)
  else
  match lookup d parentInodeNumber name with
  | none => none
  | some found =>
  if found < 0 then some (d, 0)
  else
  match readInodeRegion d super with
  | none => none
  | some inodes =>
  let parentFileBlocks : Int := cdiv (parentInode.size + UFS_BLOCK_SIZE - 1) UFS_BLOCK_SIZE
  match unlinkScan d parentInode name parentFileBlocks 0 DIRECT_PTRS with
  | none => none
  | some none => some (d, 0)
  | some (some (d1, inodeToRemove)) =>
  if inodeToRemove < 0 ∨ inodeToRemove ≥ super.num_inodes then none
  else
  let inodeToDelete := inodes inodeToRemove.toNat
  if inodeToDelete.type = UFS_DIRECTORY ∧ toU32 inodeToDelete.size > 2 * SIZEOF_DIR_ENT then
    some (d1, -EDIRNOTEMPTY)
  else
  match readDataBitmap d1 super with
  | none => none
  | some dataBitmap =>
  match unlinkFree super inodeToDelete (super.data_bitmap_len.toNat * UFS_BLOCK_SIZE)
      0 DIRECT_PTRS d1 dataBitmap with
  | none => none
  | some (d2, dataBitmap1) =>
  match writeDataBitmap d2 super dataBitmap1 with
  | none => none
  | some d3 =>
  match readInodeBitmap d3 super with
  | none => none
  | some inodeBitmap =>
  if super.inode_bitmap_len.toNat * UFS_BLOCK_SIZE ≤ inodeToRemove.toNat / 8 then none
  else
  let inodeBitmap1 := clearBit inodeBitmap inodeToRemove.toNat
  let inodes1 : Nat → inode_t := fun k => if k = inodeToRemove.toNat then zeroInode else inodes k
  match writeInodeBitmap d3 super inodeBitmap1 with
  | none => none
  | some d4 =>
  let parentInode1 : inode_t :=
    { parentInode with size := parentInode.size - SIZEOF_DIR_ENT }
  let inodes2 : Nat → inode_t :=
    fun k => if k = parentInodeNumber.toNat then parentInode1 else inodes1 k
  match writeInodeRegion d4 super inodes2 with
  | none => none
  | some d5 => some (d5, 0)

/-- The loop of `write` that counts free data blocks until enough are found, at
bit index `j` with `k` indices left. -/
def countFree (dataBitmap : Block) (cap : Nat) (newFileBlocks : Int) :
    Nat → Nat → Int → Option Int
  | _, 0, freeBlocks => some freeBlocks
  | j, k + 1, freeBlocks =>
    if freeBlocks < newFileBlocks then
      if cap ≤ j / 8 then none
      else
        countFree dataBitmap cap newFileBlocks (j + 1) k
          (if bitClear dataBitmap j then freeBlocks + 1 else freeBlocks)
    else some freeBlocks

/-- The loop of `write` that clears the bits of the blocks in use and zeroes
the pointers, at pointer index `i` with `k` pointers left. -/
def writeClear (super : super_t) (cap : Nat) :
    Nat → Nat → Block → (Nat → Nat) → Option (Block × (Nat → Nat))
  | _, 0, dataBitmap, direct => some (dataBitmap, direct)
  | i, k + 1, dataBitmap, direct =>
    if DIRECT_PTRS ≤ i then none
    else
      let blockNumber : Int := toI32 (toU32 ((direct i : Int) - super.data_region_addr))
      if blockNumber < 0 ∨ (cap : Int) ≤ cdiv blockNumber 8 then none
      else
        writeClear super cap (i + 1) k (clearBit dataBitmap blockNumber.toNat)
          (fun t => if t = i then 0 else direct t)

/-- The state of the allocation loop of `write`. -/
structure WriteState where
  disk : Disk
  dataBitmap : Block
  direct : Nat → Nat
  bytesToWrite : Int
  bytesWritten : Int

/-- The loop of `write` that allocates the new blocks and stores the data, at
pointer index `i` with `k` blocks left. -/
def writeAlloc (super : super_t) (cap : Nat) (data : Block) :
    Nat → Nat → WriteState → Option WriteState
  | _, 0, st => some st
  | i, k + 1, st =>
    if st.bytesToWrite > 0 then
      match scanFree st.dataBitmap cap 0 super.num_data.toNat with
      | none => none
      | some found =>
        let blockNumber : Int :=
          match found with
          | some j => (j : Int) + super.data_region_addr
          | none => -1
        let dataBitmap1 : Block :=
          match found with
          | some j => setBit st.dataBitmap j
          | none => st.dataBitmap
        if DIRECT_PTRS ≤ i ∨ st.bytesWritten < 0 then none
        else
          let bytesToCopy : Int := min (UFS_BLOCK_SIZE : Int) st.bytesToWrite
          match st.disk.writeBlock blockNumber (shiftBuf data st.bytesWritten.toNat) with
          | none => none
          | some d1 =>
            writeAlloc super cap data (i + 1) k
              { disk := d1
                dataBitmap := dataBitmap1
                direct := fun t => if t = i then toU32 blockNumber else st.direct t
                bytesToWrite := st.bytesToWrite - bytesToCopy
                bytesWritten := st.bytesWritten + bytesToCopy }
    else some st

/-- `LocalFileSystem::write`; the result is the device after the call and the
returned value. -/
def write (d : Disk) (inodeNumber : Int) (buffer : Block) (size : Int) : Option (Disk × Int) :=
  match readSuperBlock d with
  | none => none
  | some super =>
  if inodeNumber < 0 ∨ inodeNumber ≥ super.num_inodes then some (d, -EINVALIDINODE)
  else
  match readInodeRegion d super with
  | none => none
  | some inodes =>
  let inode := inodes inodeNumber.toNat
  if inode.type ≠ UFS_REGULAR_FILE then some (d, -EINVALIDTYPE)
  else if size < 0 ∨ size > MAX_FILE_SIZE then some (d, -EINVALIDSIZE)
  else
  let newFileBlocks := blocksOf size
  match readDataBitmap d super with
  | none => none
  | some dataBitmap =>
  let cap := super.data_bitmap_len.toNat * UFS_BLOCK_SIZE
  match countFree dataBitmap cap newFileBlocks 0 super.num_data.toNat 0 with
  | none => none
  | some freeBlocks =>
  if freeBlocks < newFileBlocks then some (d, -ENOTENOUGHSPACE)
  else
  let currentFileBlocks := blocksOf inode.size
  match writeClear super cap 0 currentFileBlocks.toNat dataBitmap inode.direct with
  | none => none
  | some (dataBitmap1, direct1) =>
  match writeAlloc super cap buffer 0 newFileBlocks.toNat
      ⟨d, dataBitmap1, direct1, size, 0⟩ with
  | none => none
  | some st =>
  let inodes1 : Nat → inode_t :=
    fun k => if k = inodeNumber.toNat then ⟨inode.type, size, st.direct⟩ else inodes k
  match writeInodeRegion st.disk super inodes1 with
  | none => none
  | some d1 =>
  match writeDataBitmap d1 super st.dataBitmap with
  | none => none
  | some d2 => some (d2, st.bytesWritten)

/-! ## A freshly formatted image -/

/-- Modelled from the spec: the superblock that the formatter (not part of the
repository) writes for `num_inodes` inodes and `num_data` data blocks, with one
block per bitmap and the regions in the order superblock, inode bitmap, data
bitmap, inode table, data. -/
def mkSuper (num_inodes num_data : Nat) : super_t :=
  { inode_bitmap_addr := 1
    inode_bitmap_len := 1
    data_bitmap_addr := 2
    data_bitmap_len := 1
    inode_region_addr := 3
    inode_region_len := ((num_inodes + 31) / 32 : Nat)
    data_region_addr := 3 + ((num_inodes + 31) / 32 : Nat)
    num_inodes := num_inodes
    num_data := num_data }

/-- The bytes of a superblock record. -/
def superImage (s : super_t) : Block :=
  fun off =>
    if off < 4 then byteOf (toU32 s.inode_bitmap_addr) off
    else if off < 8 then byteOf (toU32 s.inode_bitmap_len) (off - 4)
    else if off < 12 then byteOf (toU32 s.data_bitmap_addr) (off - 8)
    else if off < 16 then byteOf (toU32 s.data_bitmap_len) (off - 12)
    else if off < 20 then byteOf (toU32 s.inode_region_addr) (off - 16)
    else if off < 24 then byteOf (toU32 s.inode_region_len) (off - 20)
    else if off < 28 then byteOf (toU32 s.data_region_addr) (off - 24)
    else if off < 32 then byteOf (toU32 s.num_inodes) (off - 28)
    else if off < 36 then byteOf (toU32 s.num_data) (off - 32)
    else 0

/-- Modelled from the spec: a freshly formatted image, in which only the root
directory (inode 0, holding `.` and `..`, in the first data block) is
allocated and everything else is zero. -/
def mkfs (num_inodes num_data : Nat) : Disk :=
  let s := mkSuper num_inodes num_data
  { numberOfBlocks := 3 + (num_inodes + 31) / 32 + num_data
    blocks := fun n =>
      if n = 0 then superImage s
      else if n = 1 then (fun off => if off = 0 then 1 else 0)
      else if n = 2 then (fun off => if off = 0 then 1 else 0)
      else if n = 3 then
        inodeBlockImage s
          (fun k => if k = 0 then
              ⟨UFS_DIRECTORY, 2 * SIZEOF_DIR_ENT,
                fun t => if t = 0 then 3 + (num_inodes + 31) / 32 else 0⟩
            else zeroInode) 0
      else if n = 3 + (num_inodes + 31) / 32 then
        setEntry (setEntry zeroBlock 0 0 [46]) 1 0 [46, 46]
      else zeroBlock }

/-! ## Views of the device used in the statements -/

/-- The value returned by an engine call (`none` when it does not return). -/
def retOf (r : Option (Disk × Int)) : Option Int := r.map Prod.snd

/-- The device after an engine call; `d` when the call does not return. -/
def diskOf (r : Option (Disk × Int)) (d : Disk) : Disk :=
  match r with
  | some (d1, _) => d1
  | none => d

/-- The superblock stored on the device. -/
def superOf (d : Disk) : super_t := decodeSuper (d.blocks 0)

/-- Byte `idx` of the region of the device that starts at block `start`. -/
def regionByte (d : Disk) (start : Int) (idx : Nat) : Nat :=
  d.blocks (start.toNat + idx / UFS_BLOCK_SIZE) (idx % UFS_BLOCK_SIZE)

/-- The inode record number `k` stored in the inode table of the device. -/
def inodeOf (d : Disk) (k : Nat) : inode_t :=
  decodeInode (d.blocks ((superOf d).inode_region_addr.toNat + k / (UFS_BLOCK_SIZE / SIZEOF_INODE)))
    (k % (UFS_BLOCK_SIZE / SIZEOF_INODE) * SIZEOF_INODE)

/-- Bit `k` of the inode bitmap on the device is set. -/
def inodeBit (d : Disk) (k : Nat) : Bool :=
  !bitClear (regionByte d (superOf d).inode_bitmap_addr) k

/-- Bit `k` of the data bitmap on the device is set. -/
def dataBit (d : Disk) (k : Nat) : Bool :=
  !bitClear (regionByte d (superOf d).data_bitmap_addr) k

/-- The number of clear bits of the data bitmap among the indices `[0, num_data)`. -/
def numFreeData (d : Disk) : Nat :=
  Nat.count (fun k => dataBit d k = false) (superOf d).num_data.toNat

/-- The number of set bits of the data bitmap among the indices `[0, num_data)`. -/
def numUsedData (d : Disk) : Nat :=
  Nat.count (fun k => dataBit d k = true) (superOf d).num_data.toNat

/-- The number `ceil(s / B)` of blocks that `s` bytes occupy. -/
def ceilBlocks (s : Int) : Int := (s + (UFS_BLOCK_SIZE : Int) - 1) / (UFS_BLOCK_SIZE : Int)

/-- Two block ranges `[a, a + la)` and `[b, b + lb)` do not overlap. -/
def disjointRanges (a la b lb : Int) : Prop := a + la ≤ b ∨ b + lb ≤ a

/-- The superblock describes a layout that fits the device: the four regions
lie behind the superblock and inside the device, do not overlap, and the
bitmaps and the inode table are large enough for `num_inodes` inodes and
`num_data` data blocks. -/
def WF (d : Disk) : Prop :=
  (d.numberOfBlocks : Int) < 2147483648
  ∧ (1 ≤ (superOf d).inode_bitmap_addr ∧ 0 ≤ (superOf d).inode_bitmap_len
      ∧ (superOf d).inode_bitmap_addr + (superOf d).inode_bitmap_len ≤ d.numberOfBlocks)
  ∧ (1 ≤ (superOf d).data_bitmap_addr ∧ 0 ≤ (superOf d).data_bitmap_len
      ∧ (superOf d).data_bitmap_addr + (superOf d).data_bitmap_len ≤ d.numberOfBlocks)
  ∧ (1 ≤ (superOf d).inode_region_addr ∧ 0 ≤ (superOf d).inode_region_len
      ∧ (superOf d).inode_region_addr + (superOf d).inode_region_len ≤ d.numberOfBlocks)
  ∧ (1 ≤ (superOf d).data_region_addr ∧ 0 ≤ (superOf d).num_data
      ∧ (superOf d).data_region_addr + (superOf d).num_data ≤ d.numberOfBlocks)
  ∧ (0 ≤ (superOf d).num_inodes
      ∧ (superOf d).num_inodes ≤ 32 * (superOf d).inode_region_len
      ∧ (superOf d).num_inodes ≤ 32768 * (superOf d).inode_bitmap_len
      ∧ (superOf d).num_data ≤ 32768 * (superOf d).data_bitmap_len)
  ∧ disjointRanges (superOf d).inode_bitmap_addr (superOf d).inode_bitmap_len
      (superOf d).data_bitmap_addr (superOf d).data_bitmap_len
  ∧ disjointRanges (superOf d).inode_bitmap_addr (superOf d).inode_bitmap_len
      (superOf d).inode_region_addr (superOf d).inode_region_len
  ∧ disjointRanges (superOf d).inode_bitmap_addr (superOf d).inode_bitmap_len
      (superOf d).data_region_addr (superOf d).num_data
  ∧ disjointRanges (superOf d).data_bitmap_addr (superOf d).data_bitmap_len
      (superOf d).inode_region_addr (superOf d).inode_region_len
  ∧ disjointRanges (superOf d).data_bitmap_addr (superOf d).data_bitmap_len
      (superOf d).data_region_addr (superOf d).num_data
  ∧ disjointRanges (superOf d).inode_region_addr (superOf d).inode_region_len
      (superOf d).data_region_addr (superOf d).num_data

instance (a la b lb : Int) : Decidable (disjointRanges a la b lb) := by
  unfold disjointRanges; infer_instance

instance (d : Disk) : Decidable (WF d) := by
  unfold WF; infer_instance

/-- The device with block `n` replaced by the first `UFS_BLOCK_SIZE` bytes of
`buf`. -/
def putBlock (d : Disk) (n : Nat) (buf : Block) : Disk :=
  { d with blocks := fun m =>
      if m = n then (fun off => if off < UFS_BLOCK_SIZE then buf off else 0) else d.blocks m }

/-- The device with the `k` blocks from `start` replaced by the bytes of `buf`. -/
def putRegion (d : Disk) (start : Nat) (buf : Block) (k : Nat) : Disk :=
  { d with blocks := fun m =>
      if start ≤ m ∧ m < start + k then
        (fun off => if off < UFS_BLOCK_SIZE then buf ((m - start) * UFS_BLOCK_SIZE + off) else 0)
      else d.blocks m }

/-- The buffer holding the `k` blocks of the device from `start`. -/
def regionBuf (d : Disk) (start : Nat) (k : Nat) : Block :=
  fun idx =>
    if idx / UFS_BLOCK_SIZE < k then d.blocks (start + idx / UFS_BLOCK_SIZE) (idx % UFS_BLOCK_SIZE)
    else 0

/-- The array of inode records held by the first `k` blocks of the inode table. -/
def inodeTable (d : Disk) (super : super_t) (k : Nat) : Nat → inode_t :=
  fun idx =>
    if idx / (UFS_BLOCK_SIZE / SIZEOF_INODE) < k ∧ (idx : Int) < super.num_inodes then
      decodeInode (d.blocks (super.inode_region_addr.toNat + idx / (UFS_BLOCK_SIZE / SIZEOF_INODE)))
        (idx % (UFS_BLOCK_SIZE / SIZEOF_INODE) * SIZEOF_INODE)
    else zeroInode

/-- The device with the first `k` blocks of the inode table replaced by the
images of the records `inodes`. -/
def putInodes (d : Disk) (super : super_t) (inodes : Nat → inode_t) (k : Nat) : Disk :=
  { d with blocks := fun m =>
      if super.inode_region_addr.toNat ≤ m ∧ m < super.inode_region_addr.toNat + k then
        (fun off =>
          if off < UFS_BLOCK_SIZE then
            inodeBlockImage super inodes (m - super.inode_region_addr.toNat) off
          else 0)
      else d.blocks m }

/-! ## Concrete images used as witnesses -/

/-- A small image with one regular file: the root of a fresh image with 32
inodes and 2 data blocks, in which the file `f` (inode 1) has been created. -/
def imgOneFile : Disk := diskOf (create (mkfs 32 2) 0 UFS_REGULAR_FILE [102]) (mkfs 32 2)

/-- The number of set bits of a bitmap among the indices `[0, n)`. -/
def countUsed (bm : Block) (n : Nat) : Nat := Nat.count (fun k => bitClear bm k = false) n

/-- Side conditions of the allocation loops: the data region lies inside a
device of `N` blocks and its bitmap fits an array of `cap` bytes. -/
def AllocOK (super : super_t) (N cap : Nat) : Prop :=
  1 ≤ super.data_region_addr ∧ 0 ≤ super.num_data
  ∧ super.data_region_addr + super.num_data ≤ (N : Int) ∧ (N : Int) < 2147483648
  ∧ super.num_data ≤ 8 * (cap : Int)

/-- The record that is read back after an inode has been stored in the inode
table: the two `int`s and the `DIRECT_PTRS` words, reduced to 32 bits. -/
def normInode (ino : inode_t) : inode_t :=
  { type := toI32 (toU32 ino.type)
    size := toI32 (toU32 ino.size)
    direct := fun t => if t < DIRECT_PTRS then ino.direct t % 4294967296 else 0 }

/-- The device that results from the two region writes at the end of `write`. -/
def commitWrite (d0 : Disk) (super : super_t) (inodes : Nat → inode_t) (dataBitmap : Block) :
    Disk :=
  putRegion (putInodes d0 super inodes super.inode_region_len.toNat)
    super.data_bitmap_addr.toNat dataBitmap super.data_bitmap_len.toNat

/-- The five bytes of `hello`, followed by zeroes. -/
def helloBuf : Block := fun k => [104, 101, 108, 108, 111].getD k 0

/-- The pointer `p` lies in the data region and its data-bitmap bit is set. -/
def allocated (d : Disk) (p : Nat) : Prop :=
  (superOf d).data_region_addr ≤ (p : Int)
  ∧ (p : Int) < (superOf d).data_region_addr + (superOf d).num_data
  ∧ dataBit d ((p : Int) - (superOf d).data_region_addr).toNat = true

instance (d : Disk) (p : Nat) : Decidable (allocated d p) := by
  unfold allocated; infer_instance

/-- The file inode `i` is packed: its size is in `[0, D * B]`, its first
`ceil(size / B)` direct pointers are allocated and pairwise distinct, and its
other direct pointers are zero. -/
def packedFile (d : Disk) (i : Nat) : Prop :=
  0 ≤ (inodeOf d i).size ∧ (inodeOf d i).size ≤ (MAX_FILE_SIZE : Int)
  ∧ (∀ t, t < DIRECT_PTRS →
      ((t : Int) < ceilBlocks (inodeOf d i).size → allocated d ((inodeOf d i).direct t))
      ∧ (ceilBlocks (inodeOf d i).size ≤ (t : Int) → (inodeOf d i).direct t = 0))
  ∧ (∀ t1, t1 < DIRECT_PTRS → ∀ t2, t2 < DIRECT_PTRS → t1 < t2 →
      (t2 : Int) < ceilBlocks (inodeOf d i).size →
      (inodeOf d i).direct t1 ≠ (inodeOf d i).direct t2)

instance (d : Disk) (i : Nat) : Decidable (packedFile d i) := by
  unfold packedFile; infer_instance

/-- The number of valid entries of a directory inode, `size / sizeof(entry)`. -/
def dirCount (ino : inode_t) : Nat := (ino.size / (SIZEOF_DIR_ENT : Int)).toNat

/-- The name of valid entry `idx` of a directory: the entries are packed block
by block in `direct[]` order, `B / sizeof(entry)` to a block. -/
def dirEntName (d : Disk) (ino : inode_t) (idx : Nat) : List Nat :=
  entName (d.blocks (ino.direct (idx / (UFS_BLOCK_SIZE / SIZEOF_DIR_ENT))))
    (idx % (UFS_BLOCK_SIZE / SIZEOF_DIR_ENT))

/-- The inode number of valid entry `idx` of a directory. -/
def dirEntInum (d : Disk) (ino : inode_t) (idx : Nat) : Int :=
  entInum (d.blocks (ino.direct (idx / (UFS_BLOCK_SIZE / SIZEOF_DIR_ENT))))
    (idx % (UFS_BLOCK_SIZE / SIZEOF_DIR_ENT))

/-- Invariant (I1), with the range of (P1): a live inode is a regular file or a
directory and each of its nonzero pointers is allocated. -/
def I1 (d : Disk) : Prop :=
  ∀ k, k < (superOf d).num_inodes.toNat → inodeBit d k = true →
    ((inodeOf d k).type = UFS_REGULAR_FILE ∨ (inodeOf d k).type = UFS_DIRECTORY)
    ∧ ∀ t, t < DIRECT_PTRS → (inodeOf d k).direct t ≠ 0 → allocated d ((inodeOf d k).direct t)

/-- Invariant (I2): no data block is referenced twice, neither by two live
inodes nor by two pointers of one. -/
def I2 (d : Disk) : Prop :=
  ∀ k1, k1 < (superOf d).num_inodes.toNat → inodeBit d k1 = true →
  ∀ t1, t1 < DIRECT_PTRS → (inodeOf d k1).direct t1 ≠ 0 →
  ∀ k2, k2 < (superOf d).num_inodes.toNat → inodeBit d k2 = true →
  ∀ t2, t2 < DIRECT_PTRS →
    (inodeOf d k1).direct t1 = (inodeOf d k2).direct t2 → k1 = k2 ∧ t1 = t2

/-- Invariant (I3): the size of a live directory is a multiple of the entry
size within `[0, D * B]`. -/
def I3 (d : Disk) : Prop :=
  ∀ k, k < (superOf d).num_inodes.toNat → inodeBit d k = true →
    (inodeOf d k).type = UFS_DIRECTORY →
    0 ≤ (inodeOf d k).size ∧ (inodeOf d k).size % (SIZEOF_DIR_ENT : Int) = 0
      ∧ (inodeOf d k).size ≤ (MAX_FILE_SIZE : Int)

/-- Invariant (I4): a live directory holds `.` for itself and `..`, and only
the root is its own parent. -/
def I4 (d : Disk) : Prop :=
  ∀ k, k < (superOf d).num_inodes.toNat → inodeBit d k = true →
    (inodeOf d k).type = UFS_DIRECTORY →
    (∃ idx, idx < dirCount (inodeOf d k) ∧ dirEntName d (inodeOf d k) idx = [46]
        ∧ dirEntInum d (inodeOf d k) idx = k)
    ∧ (∃ idx, idx < dirCount (inodeOf d k) ∧ dirEntName d (inodeOf d k) idx = [46, 46]
        ∧ (dirEntInum d (inodeOf d k) idx = k → k = 0))

/-- Invariant (I5): the valid entries of a live directory have distinct names. -/
def I5 (d : Disk) : Prop :=
  ∀ k, k < (superOf d).num_inodes.toNat → inodeBit d k = true →
    (inodeOf d k).type = UFS_DIRECTORY →
    ∀ i1, i1 < dirCount (inodeOf d k) → ∀ i2, i2 < dirCount (inodeOf d k) →
      dirEntName d (inodeOf d k) i1 = dirEntName d (inodeOf d k) i2 → i1 = i2

/-- Invariant (I6): the names of the valid entries are shorter than `NAME_MAX`. -/
def I6 (d : Disk) : Prop :=
  ∀ k, k < (superOf d).num_inodes.toNat → inodeBit d k = true →
    (inodeOf d k).type = UFS_DIRECTORY →
    ∀ idx, idx < dirCount (inodeOf d k) →
      (dirEntName d (inodeOf d k) idx).length < DIR_ENT_NAME_SIZE

/-- The global invariants (I1)-(I6) of the data model, on a well-formed layout. -/
def GlobalInv (d : Disk) : Prop := WF d ∧ I1 d ∧ I2 d ∧ I3 d ∧ I4 d ∧ I5 d ∧ I6 d

instance (d : Disk) : Decidable (I1 d) := by unfold I1; infer_instance

set_option synthInstance.maxSize 4000 in
instance (d : Disk) : Decidable (I2 d) := by unfold I2; infer_instance

instance (d : Disk) : Decidable (I3 d) := by unfold I3; infer_instance

set_option synthInstance.maxSize 4000 in
instance (d : Disk) : Decidable (I4 d) := by unfold I4; infer_instance

set_option synthInstance.maxSize 4000 in
instance (d : Disk) : Decidable (I5 d) := by unfold I5; infer_instance

instance (d : Disk) : Decidable (I6 d) := by unfold I6; infer_instance

instance (d : Disk) : Decidable (GlobalInv d) := by unfold GlobalInv; infer_instance

/-- An image that satisfies (I1)-(I6) in which the empty regular file `f`
(inode 1, size 0) still points to an allocated data block: 4 inodes, 4 data
blocks, the root directory in data block 0 and the block of `f` in data block 1. -/
def imgStale : Disk :=
  { numberOfBlocks := 8
    blocks := fun n =>
      if n = 0 then superImage (mkSuper 4 4)
      else if n = 1 then (fun off => if off = 0 then 3 else 0)
      else if n = 2 then (fun off => if off = 0 then 3 else 0)
      else if n = 3 then
        inodeBlockImage (mkSuper 4 4)
          (fun k =>
            if k = 0 then ⟨UFS_DIRECTORY, 3 * SIZEOF_DIR_ENT, fun t => if t = 0 then 4 else 0⟩
            else if k = 1 then ⟨UFS_REGULAR_FILE, 0, fun t => if t = 0 then 5 else 0⟩
            else zeroInode) 0
      else if n = 4 then
        setEntry (setEntry (setEntry zeroBlock 0 0 [46]) 1 0 [46, 46]) 2 1 [102]
      else zeroBlock }

/-- The image reached from a fresh one (32 inodes, 8 data blocks) by
`create(0, DIRECTORY, "a")`, which returns 1, and `create(1, REGULAR_FILE, "b")`,
which returns 2: the directory `a` is not empty. -/
def imgNested : Disk :=
  diskOf (create (diskOf (create (mkfs 32 8) 0 UFS_DIRECTORY [97]) (mkfs 32 8)) 1
    UFS_REGULAR_FILE [98]) (mkfs 32 8)

/-- A fresh image with a single data block, which the root directory occupies. -/
def imgNoSpace : Disk := mkfs 32 1

/-- A name of 27 characters `a`. -/
def name27 : List Nat := List.replicate 27 97

/-- The name of entry `idx` of the crowded root directory: `.`, `..`, and two
letters that encode `idx`. -/
def crowdedName (idx : Nat) : List Nat :=
  if idx = 0 then [46] else if idx = 1 then [46, 46] else [97 + idx / 16, 97 + idx % 16]

/-- The inode number of entry `idx` of the crowded root directory. -/
def crowdedInum (idx : Nat) : Int := if idx ≤ 1 then 0 else (idx : Int) - 1

/-- A directory block completely filled with the entries `crowdedName`. -/
def crowdedBlock : Block :=
  fun off =>
    setEntry zeroBlock 0 (crowdedInum (off / SIZEOF_DIR_ENT)) (crowdedName (off / SIZEOF_DIR_ENT))
      (off % SIZEOF_DIR_ENT)

/-- The inode table of the crowded image: the root with `n` entries, and the
regular files `1 .. n - 2` that the entries refer to. -/
def crowdedInodes (n : Nat) : Nat → inode_t :=
  fun k =>
    if k = 0 then ⟨UFS_DIRECTORY, (n : Int) * SIZEOF_DIR_ENT, fun t => if t = 0 then 7 else 0⟩
    else if k < n - 1 then ⟨UFS_REGULAR_FILE, 0, fun _ => 0⟩
    else zeroInode

/-- An image with 128 inodes and 8 data blocks whose root directory holds `n`
entries (`2 ≤ n ≤ 128`) in its single data block: `.`, `..` and the empty
regular files of the inodes `1 .. n - 2`. -/
def crowdedImg (n : Nat) : Disk :=
  { numberOfBlocks := 15
    blocks := fun b =>
      if b = 0 then superImage (mkSuper 128 8)
      else if b = 1 then (fun off => 2 ^ (min 8 (n - 1 - 8 * off)) - 1)
      else if b = 2 then (fun off => if off = 0 then 1 else 0)
      else if 3 ≤ b ∧ b < 7 then inodeBlockImage (mkSuper 128 8) (crowdedInodes n) (b - 3)
      else if b = 7 then (fun off => if off < SIZEOF_DIR_ENT * n then crowdedBlock off else 0)
      else zeroBlock }

/-- Byte `off` of the inode record number `k` in the inode table of the device. -/
def inodeRecByte (d : Disk) (k off : Nat) : Nat :=
  d.blocks ((superOf d).inode_region_addr.toNat + k / (UFS_BLOCK_SIZE / SIZEOF_INODE))
    (k % (UFS_BLOCK_SIZE / SIZEOF_INODE) * SIZEOF_INODE + off)

/-- The inode slots whose bitmap bit is clear hold zero bytes only. -/
def FreeSlotsZero (d : Disk) : Prop :=
  ∀ k, k < (superOf d).num_inodes.toNat → inodeBit d k = false →
    ∀ off, off < SIZEOF_INODE → inodeRecByte d k off = 0

instance (d : Disk) : Decidable (FreeSlotsZero d) := by unfold FreeSlotsZero; infer_instance

/-- The device `d1` is `d0` with the inode bitmap, the data bitmap and the inode
table of the layout `super` replaced by the images of `ibm`, `dbm` and `inodes`. -/
def Committed (d1 d0 : Disk) (super : super_t) (inodes : Nat → inode_t) (ibm dbm : Block) :
    Prop :=
  d1.numberOfBlocks = d0.numberOfBlocks
  ∧ (∀ m o, super.inode_bitmap_addr.toNat ≤ m →
      m < super.inode_bitmap_addr.toNat + super.inode_bitmap_len.toNat → o < UFS_BLOCK_SIZE →
      d1.blocks m o = ibm ((m - super.inode_bitmap_addr.toNat) * UFS_BLOCK_SIZE + o))
  ∧ (∀ m o, super.data_bitmap_addr.toNat ≤ m →
      m < super.data_bitmap_addr.toNat + super.data_bitmap_len.toNat → o < UFS_BLOCK_SIZE →
      d1.blocks m o = dbm ((m - super.data_bitmap_addr.toNat) * UFS_BLOCK_SIZE + o))
  ∧ (∀ m, super.inode_region_addr.toNat ≤ m →
      m < super.inode_region_addr.toNat + super.inode_region_len.toNat →
      d1.blocks m = fun off =>
        if off < UFS_BLOCK_SIZE then
          inodeBlockImage super inodes (m - super.inode_region_addr.toNat) off
        else 0)
  ∧ (∀ m, (m < super.inode_bitmap_addr.toNat
        ∨ super.inode_bitmap_addr.toNat + super.inode_bitmap_len.toNat ≤ m) →
      (m < super.data_bitmap_addr.toNat
        ∨ super.data_bitmap_addr.toNat + super.data_bitmap_len.toNat ≤ m) →
      (m < super.inode_region_addr.toNat
        ∨ super.inode_region_addr.toNat + super.inode_region_len.toNat ≤ m) →
      d1.blocks m = d0.blocks m)

/-- The device that results from the three region writes at the end of `create`. -/
def commitCreate (d0 : Disk) (super : super_t) (inodes : Nat → inode_t) (ibm dbm : Block) :
    Disk :=
  putRegion (putRegion (putInodes d0 super inodes super.inode_region_len.toNat)
    super.inode_bitmap_addr.toNat ibm super.inode_bitmap_len.toNat)
    super.data_bitmap_addr.toNat dbm super.data_bitmap_len.toNat

/-- The device that results from the three region writes at the end of `unlink`. -/
def commitUnlink (d0 : Disk) (super : super_t) (inodes : Nat → inode_t) (ibm dbm : Block) :
    Disk :=
  putInodes (putRegion (putRegion d0
    super.data_bitmap_addr.toNat dbm super.data_bitmap_len.toNat)
    super.inode_bitmap_addr.toNat ibm super.inode_bitmap_len.toNat)
    super inodes super.inode_region_len.toNat

/-- The device after `create` has stored the new entry behind the valid entries
of the first block of the directory `p`. -/
def appended (d : Disk) (p k0 : Nat) (name : List Nat) : Disk :=
  putBlock d ((inodeOf d p).direct 0)
    (setEntry (d.blocks ((inodeOf d p).direct 0)) (dirCount (inodeOf d p)) k0 name)

/-- The inode array that `create` writes back: the parent `p` has grown by one
entry and the slot `k0` holds the new inode. -/
def createdInodes (d : Disk) (p k0 : Nat) (newInode : inode_t) : Nat → inode_t :=
  fun k =>
    if k = p then { inodeOf d p with size := (inodeOf d p).size + SIZEOF_DIR_ENT }
    else if k = k0 then newInode
    else inodeTable d (superOf d) (superOf d).inode_region_len.toNat k

/-- The block of the parent after `unlink` has removed its last valid entry. -/
def lastRemoved (d : Disk) (p : Nat) : Disk :=
  putBlock d ((inodeOf d p).direct 0)
    (zeroEntry (copyEntry (d.blocks ((inodeOf d p).direct 0)) (dirCount (inodeOf d p) - 1)
      (dirCount (inodeOf d p) - 1)) (dirCount (inodeOf d p) - 1))

/-- The inode array that `unlink` writes back: the parent `p` has lost one
entry and the slot `k0` is cleared. -/
def unlinkedInodes (d : Disk) (p k0 : Nat) : Nat → inode_t :=
  fun k =>
    if k = p then { inodeOf d p with size := (inodeOf d p).size - SIZEOF_DIR_ENT }
    else if k = k0 then zeroInode
    else inodeTable d (superOf d) (superOf d).inode_region_len.toNat k

/-- The reference scan of `lookup` in the words of the specification: the inum
of the first of the `size / sizeof(entry)` valid entries that carries the name,
NOT_FOUND when there is none. -/
def lookupSpec (d : Disk) (ino : inode_t) (name : List Nat) : Int :=
  match findFirst (fun idx => decide (dirEntName d ino idx = name)) (dirCount ino) with
  | some idx => dirEntInum d ino idx
  | none => -ENOTFOUND

/-- Modelled from the spec: the block device with its transaction buffer.
`durable` is the committed contents; `pending` is the contents with the writes
buffered since `beginTransaction`, when a transaction is open. -/
structure Device where
  durable : Disk
  pending : Option Disk

/-- Modelled from the spec: the contents that `readBlock` observes, the
caller's own buffered writes included. -/
def Device.view (dev : Device) : Disk :=
  match dev.pending with
  | some v => v
  | none => dev.durable

/-- Modelled from the spec: the device after the writes of an engine call that
leaves the contents `d`: buffered inside a transaction, durable outside. -/
def Device.store (dev : Device) (d : Disk) : Device :=
  match dev.pending with
  | some _ => { dev with pending := some d }
  | none => { dev with durable := d }

/-- Modelled from the spec: `Disk::beginTransaction`; transactions do not nest. -/
def Device.beginTransaction (dev : Device) : Device :=
  match dev.pending with
  | some _ => dev
  | none => { dev with pending := some dev.durable }

/-- Modelled from the spec: `Disk::commit` flushes the buffered writes. -/
def Device.commit (dev : Device) : Device :=
  match dev.pending with
  | some v => { durable := v, pending := none }
  | none => dev

/-- Modelled from the spec: `Disk::rollback` discards the buffered writes. -/
def Device.rollback (dev : Device) : Device := { dev with pending := none }

/-- Modelled from the spec: status of `ClientError::badRequest`. -/
def STATUS_BAD_REQUEST : Nat := 400

/-- Modelled from the spec: status of `ClientError::notFound`. -/
def STATUS_NOT_FOUND : Nat := 404

/-- Modelled from the spec: status of `ClientError::conflict`. -/
def STATUS_CONFLICT : Nat := 409

/-- Modelled from the spec: status of `ClientError::insufficientStorage`. -/
def STATUS_INSUFFICIENT_STORAGE : Nat := 507

/-- The status set by `response->setStatus(200)`. -/
def STATUS_OK : Nat := 200

/-- The `getline(stringFile, item, '/')` loop: the pieces of the path between
slashes; `cur` is the item being read, in reverse. -/
def splitSlash : List Nat → List Nat → List (List Nat)
  | [], cur => [cur.reverse]
  | c :: cs, cur => if c = 47 then cur.reverse :: splitSlash cs [] else splitSlash cs (c :: cur)

/-- The function `handleGetPath`: the nonempty components of the path, without
the first; `none` when there is no first component to erase. -/
def handleGetPath (path : List Nat) : Option (List (List Nat)) :=
  match (splitSlash path []).filter (fun item => !item.isEmpty) with
  | [] => none
  | _ :: components => some components

/-- The traversal loop of `get`: `some (some n)` is the inode reached,
`some none` the exit by `ClientError::notFound`. -/
def getWalk (d : Disk) : List (List Nat) → Int → Option (Option Int)
  | [], currentInodeNum => some (some currentInodeNum)
  | c :: cs, currentInodeNum =>
    match lookup d currentInodeNum c with
    | none => none
    | some nextInodeNum =>
      if nextInodeNum < 0 then some none else getWalk d cs nextInodeNum

/-- The comparison of `std::string`s used by `sort`: lexicographic on bytes. -/
def strLe : List Nat → List Nat → Bool
  | [], _ => true
  | _ :: _, [] => false
  | a :: as, b :: bs => decide (a < b) || (a == b && strLe as bs)

/-- Insertion of a string into a sorted list. -/
def insertSorted (x : List Nat) : List (List Nat) → List (List Nat)
  | [] => [x]
  | y :: ys => if strLe x y then x :: y :: ys else y :: insertSorted x ys

/-- The call `sort(entries.begin(), entries.end())`. -/
def sortStrings (entries : List (List Nat)) : List (List Nat) :=
  entries.foldr insertSorted []

/-- The loop of `get` over the entries `j .. j + k - 1` of a directory block,
appending to `entries`. -/
def getEntries (d : Disk) (blockBuffer : Block) :
    Nat → Nat → List (List Nat) → Option (List (List Nat))
  | _, 0, entries => some entries
  | j, k + 1, entries =>
    if entName blockBuffer j ≠ [46] ∧ entName blockBuffer j ≠ [46, 46] then
      match stat d (entInum blockBuffer j) zeroInode with
      | none => none
      | some (ret, entryInode) =>
        if ret = 0 then
          getEntries d blockBuffer (j + 1) k
            (entries ++ [if entryInode.type = UFS_DIRECTORY then entName blockBuffer j ++ [47]
              else entName blockBuffer j])
        else getEntries d blockBuffer (j + 1) k entries
    else getEntries d blockBuffer (j + 1) k entries

/-- The loop of `get` over the blocks of a directory, at block index `i` with
`k` blocks left. -/
def getBlocks (d : Disk) (targetInode : inode_t) (numBlocks : Int) :
    Nat → Nat → List (List Nat) → Option (List (List Nat))
  | _, 0, entries => some entries
  | i, k + 1, entries =>
    if DIRECT_PTRS ≤ i then none
    else if targetInode.direct i ≠ 0 then
      match d.readBlock (toI32 (targetInode.direct i)) with
      | none => none
      | some blockBuffer =>
        let numEntries : Int :=
          if (i : Int) = numBlocks - 1 then
            toI32 (toU64 (cmod targetInode.size UFS_BLOCK_SIZE) / SIZEOF_DIR_ENT)
          else ((UFS_BLOCK_SIZE / SIZEOF_DIR_ENT : Nat) : Int)
        match getEntries d blockBuffer 0 numEntries.toNat entries with
        | none => none
        | some entries1 => getBlocks d targetInode numBlocks (i + 1) k entries1
    else getBlocks d targetInode numBlocks (i + 1) k entries

/-- `DistributedFileSystemService::get`: the status and the body of the
response. -/
def get (dev : Device) (path : List Nat) : Option (Nat × List Nat) :=
  match handleGetPath path with
  | none => none
  | some components =>
  match getWalk dev.view components 0 with
  | none => none
  | some none => some (STATUS_NOT_FOUND, [])
  | some (some currentInodeNum) =>
  match stat dev.view currentInodeNum zeroInode with
  | none => none
  | some (ret, targetInode) =>
  if ret ≠ 0 then some (STATUS_NOT_FOUND, [])
  else if targetInode.type = UFS_REGULAR_FILE then
    if targetInode.size < 0 then none
    else
      match read dev.view currentInodeNum zeroBlock targetInode.size with
      | none => none
      | some (bytesRead, buffer) =>
        if bytesRead < 0 then some (STATUS_NOT_FOUND, [])
        else some (STATUS_OK, (List.range bytesRead.toNat).map buffer)
  else if targetInode.type = UFS_DIRECTORY then
    match getBlocks dev.view targetInode (blocksOf targetInode.size) 0
        (blocksOf targetInode.size).toNat [] with
    | none => none
    | some entries =>
      some (STATUS_OK, ((sortStrings entries).map (fun entry => entry ++ [10])).join)
  else some (STATUS_NOT_FOUND, [])

/-- The traversal loop of `put` over the intermediate components: the device
and either the directory reached or the status of the error thrown. -/
def putWalk : Device → List (List Nat) → Int → Option (Device × (Nat ⊕ Int))
  | dev, [], currentInodeNum => some (dev, Sum.inr currentInodeNum)
  | dev, c :: cs, currentInodeNum =>
    match lookup dev.view currentInodeNum c with
    | none => none
    | some nextInodeNum =>
      if nextInodeNum < 0 then
        if nextInodeNum = -ENOTFOUND then
          match create dev.view currentInodeNum UFS_DIRECTORY c with
          | none => none
          | some (d1, newDirInodeNum) =>
            if newDirInodeNum < 0 then
              some ((dev.store d1).rollback, Sum.inl STATUS_INSUFFICIENT_STORAGE)
            else putWalk (dev.store d1) cs newDirInodeNum
        else some (dev, Sum.inl STATUS_BAD_REQUEST)
      else
        match stat dev.view nextInodeNum zeroInode with
        | none => none
        | some (ret, inode) =>
          if ret < 0 ∨ inode.type ≠ UFS_DIRECTORY then some (dev, Sum.inl STATUS_CONFLICT)
          else putWalk dev cs nextInodeNum

/-- The end of `put`: the file of the last component is written or created and
written. -/
def putFile (dev : Device) (currentInodeNum : Int) (fileName data : List Nat) :
    Option (Device × Nat) :=
  match lookup dev.view currentInodeNum fileName with
  | none => none
  | some fileInode =>
    if fileInode > 0 then
      match write dev.view fileInode (fun k => data.getD k 0) (toI32 data.length) with
      | none => none
      | some (d1, ret) =>
        if ret < 0 then some ((dev.store d1).rollback, STATUS_INSUFFICIENT_STORAGE)
        else some ((dev.store d1).commit, STATUS_OK)
    else
      match create dev.view currentInodeNum UFS_REGULAR_FILE fileName with
      | none => none
      | some (d1, newFileInodeNum) =>
        if newFileInodeNum < 0 then
          some ((dev.store d1).rollback, STATUS_INSUFFICIENT_STORAGE)
        else
          match write (dev.store d1).view newFileInodeNum (fun k => data.getD k 0)
              (toI32 data.length) with
          | none => none
          | some (d2, ret) =>
            if ret < 0 then
              some (((dev.store d1).store d2).rollback, STATUS_INSUFFICIENT_STORAGE)
            else some (((dev.store d1).store d2).commit, STATUS_OK)

/-- `DistributedFileSystemService::put`: the device after the request and the
status of the response. -/
def put (dev : Device) (path data : List Nat) : Option (Device × Nat) :=
  match handleGetPath path with
  | none => none
  | some [] => none
  | some (c :: cs) =>
    match putWalk dev.beginTransaction (c :: cs).dropLast 0 with
    | none => none
    | some (dev1, Sum.inl status) => some (dev1, status)
    | some (dev1, Sum.inr currentInodeNum) =>
      putFile dev1 currentInodeNum ((c :: cs).getLast (List.cons_ne_nil c cs)) data

/-- The traversal loop of `del`: `parentInodeNum` and `currentInodeNum` after
the loop, or `some none` for the exit by `ClientError::notFound`. -/
def delWalk (d : Disk) : List (List Nat) → Int → Int → Option (Option (Int × Int))
  | [], parentInodeNum, currentInodeNum => some (some (parentInodeNum, currentInodeNum))
  | c :: cs, _, currentInodeNum =>
    match lookup d currentInodeNum c with
    | none => none
    | some nextInodeNum =>
      if nextInodeNum < 0 then some none else delWalk d cs currentInodeNum nextInodeNum

/-- `DistributedFileSystemService::del`: the device after the request and the
status of the response. -/
def del (dev : Device) (path : List Nat) : Option (Device × Nat) :=
  match handleGetPath path with
  | none => none
  | some [] => some (dev, STATUS_BAD_REQUEST)
  | some (c :: cs) =>
    match delWalk dev.view (c :: cs) 0 0 with
    | none => none
    | some none => some (dev.rollback, STATUS_NOT_FOUND)
    | some (some (parentInodeNum, _)) =>
      match unlink dev.beginTransaction.view parentInodeNum
          ((c :: cs).getLast (List.cons_ne_nil c cs)) with
      | none => none
      | some (d1, ret) =>
        if ret ≠ 0 then some ((dev.beginTransaction.store d1).rollback, STATUS_BAD_REQUEST)
        else some ((dev.beginTransaction.store d1).commit, STATUS_OK)

/-- The status of a request (`none` when it does not return). -/
def statusOf (r : Option (Device × Nat)) : Option Nat := r.map Prod.snd

/-- The device after a request; `dev` when it does not return. -/
def deviceOf (r : Option (Device × Nat)) (dev : Device) : Device :=
  match r with
  | some (dev1, _) => dev1
  | none => dev

/-- The path `/ds3/new`. -/
def pathNew : List Nat := [47, 100, 115, 51, 47, 110, 101, 119]

/-- The path `/ds3/a`. -/
def pathA : List Nat := [47, 100, 115, 51, 47, 97]

/-- The body `hello`. -/
def helloBody : List Nat := [104, 101, 108, 108, 111]

/-- The inode slots whose bitmap bit is clear hold the zero record, as far as
the engine reads it: type 0 and no pointer. -/
def FreeZero (d : Disk) : Prop :=
  ∀ k, k < (superOf d).num_inodes.toNat → inodeBit d k = false →
    (inodeOf d k).type = 0 ∧ ∀ t, t < DIRECT_PTRS → (inodeOf d k).direct t = 0

/-- The root directory is allocated. -/
def RootLive (d : Disk) : Prop :=
  0 < (superOf d).num_inodes ∧ inodeBit d 0 = true ∧ (inodeOf d 0).type = UFS_DIRECTORY

/-- The names that no `unlink` call removes: the empty name, `.` and `..`. -/
def specialName (name : List Nat) : Prop := name = [] ∨ name = [46] ∨ name = [46, 46]

/-- In every slot of every block of a live directory `k`, an entry whose name
is not special refers neither to `k` itself nor to the root. -/
def EntriesApart (d : Disk) : Prop :=
  ∀ k, k < (superOf d).num_inodes.toNat → inodeBit d k = true →
    (inodeOf d k).type = UFS_DIRECTORY →
    ∀ t, t < DIRECT_PTRS → (inodeOf d k).direct t ≠ 0 →
    ∀ j, j < UFS_BLOCK_SIZE / SIZEOF_DIR_ENT →
      specialName (entName (d.blocks ((inodeOf d k).direct t)) j)
      ∨ (entInum (d.blocks ((inodeOf d k).direct t)) j ≠ (k : Int)
        ∧ entInum (d.blocks ((inodeOf d k).direct t)) j ≠ 0)

/-- The number of nonzero direct pointers of an inode. -/
def usedPtrs (ino : inode_t) : Nat := Nat.count (fun t => ino.direct t ≠ 0) DIRECT_PTRS

/-- The first two entries of the first block of every live directory `k` are
`.` for `k` itself and `..` for `par k`; its size is at least two entries and
at most one block and one entry for each of its blocks. -/
def DotEntries (d : Disk) (par : Nat → Int) : Prop :=
  ∀ k, k < (superOf d).num_inodes.toNat → inodeBit d k = true →
    (inodeOf d k).type = UFS_DIRECTORY →
    (inodeOf d k).direct 0 ≠ 0
    ∧ 2 * (SIZEOF_DIR_ENT : Int) ≤ (inodeOf d k).size
    ∧ (inodeOf d k).size ≤ UFS_BLOCK_SIZE + SIZEOF_DIR_ENT * usedPtrs (inodeOf d k)
    ∧ entName (d.blocks ((inodeOf d k).direct 0)) 0 = [46]
    ∧ entInum (d.blocks ((inodeOf d k).direct 0)) 0 = (k : Int)
    ∧ entName (d.blocks ((inodeOf d k).direct 0)) 1 = [46, 46]
    ∧ entInum (d.blocks ((inodeOf d k).direct 0)) 1 = par k

/-- The inductive invariant of the engine: the layout is well formed, (I1) and
(I2) hold, free slots are zero, the root is allocated, entries are apart and
the dot entries are in place. -/
def Inv (d : Disk) (par : Nat → Int) : Prop :=
  WF d ∧ I1 d ∧ I2 d ∧ FreeZero d ∧ RootLive d ∧ EntriesApart d ∧ DotEntries d par

/-- The map of parents after a call `create(p, t, name)` that returned `r`: a
new directory `r` has the parent `p`. -/
def parAfter (par : Nat → Int) (p t r : Int) : Nat → Int :=
  fun k => if 0 ≤ r ∧ t = UFS_DIRECTORY ∧ (k : Int) = r then p else par k

/-- The states that the engine reaches from a freshly formatted image by calls
of `create`, `write` and `unlink` that return, whatever they return, together
with the parent of each directory created. -/
inductive ReachableAny : Disk → (Nat → Int) → Prop
  | fresh (num_inodes num_data : Nat) (h1 : 1 ≤ num_inodes) (h2 : num_inodes ≤ 32768)
      (h3 : 1 ≤ num_data) (h4 : num_data ≤ 32768) :
      ReachableAny (mkfs num_inodes num_data) (fun _ => 0)
  | create (d d1 : Disk) (par : Nat → Int) (p t : Int) (name : List Nat) (r : Int) :
      ReachableAny d par → create d p t name = some (d1, r) →
      ReachableAny d1 (parAfter par p t r)
  | write (d d1 : Disk) (par : Nat → Int) (i : Int) (buf : Block) (s r : Int) :
      ReachableAny d par → write d i buf s = some (d1, r) → ReachableAny d1 par
  | unlink (d d1 : Disk) (par : Nat → Int) (p : Int) (name : List Nat) (r : Int) :
      ReachableAny d par → unlink d p name = some (d1, r) → ReachableAny d1 par

/-- The states that the engine reaches from a freshly formatted image by
successful calls of `create`, `write` and `unlink`. -/
inductive Reachable : Disk → (Nat → Int) → Prop
  | fresh (num_inodes num_data : Nat) (h1 : 1 ≤ num_inodes) (h2 : num_inodes ≤ 32768)
      (h3 : 1 ≤ num_data) (h4 : num_data ≤ 32768) :
      Reachable (mkfs num_inodes num_data) (fun _ => 0)
  | create (d d1 : Disk) (par : Nat → Int) (p t : Int) (name : List Nat) (r : Int) :
      Reachable d par → create d p t name = some (d1, r) → 0 ≤ r →
      Reachable d1 (parAfter par p t r)
  | write (d d1 : Disk) (par : Nat → Int) (i : Int) (buf : Block) (s r : Int) :
      Reachable d par → write d i buf s = some (d1, r) → 0 ≤ r → Reachable d1 par
  | unlink (d d1 : Disk) (par : Nat → Int) (p : Int) (name : List Nat) :
      Reachable d par → unlink d p name = some (d1, 0) → Reachable d1 par

instance (d : Disk) : Decidable (FreeZero d) := by unfold FreeZero; infer_instance

instance (d : Disk) : Decidable (RootLive d) := by unfold RootLive; infer_instance

instance (name : List Nat) : Decidable (specialName name) := by
  unfold specialName; infer_instance

set_option synthInstance.maxSize 4000 in
instance (d : Disk) : Decidable (EntriesApart d) := by unfold EntriesApart; infer_instance

/-- The entries of the blocks of one directory are apart. -/
def ApartAt (d : Disk) (k : Nat) : Prop :=
  ∀ t, t < DIRECT_PTRS → (inodeOf d k).direct t ≠ 0 →
    ∀ j, j < UFS_BLOCK_SIZE / SIZEOF_DIR_ENT →
      specialName (entName (d.blocks ((inodeOf d k).direct t)) j)
      ∨ (entInum (d.blocks ((inodeOf d k).direct t)) j ≠ (k : Int)
        ∧ entInum (d.blocks ((inodeOf d k).direct t)) j ≠ 0)

/-- The dot entries of one directory. -/
def DotsAt (d : Disk) (k : Nat) (parent : Int) : Prop :=
  (inodeOf d k).direct 0 ≠ 0
  ∧ 2 * (SIZEOF_DIR_ENT : Int) ≤ (inodeOf d k).size
  ∧ (inodeOf d k).size ≤ UFS_BLOCK_SIZE + SIZEOF_DIR_ENT * usedPtrs (inodeOf d k)
  ∧ entName (d.blocks ((inodeOf d k).direct 0)) 0 = [46]
  ∧ entInum (d.blocks ((inodeOf d k).direct 0)) 0 = (k : Int)
  ∧ entName (d.blocks ((inodeOf d k).direct 0)) 1 = [46, 46]
  ∧ entInum (d.blocks ((inodeOf d k).direct 0)) 1 = parent

/-- The inode array that `create` writes back: the slot of the parent `p` holds
`pino` and the slot `k0` the new inode. -/
def createInodes (d : Disk) (p k0 : Nat) (pino newInode : inode_t) : Nat → inode_t :=
  fun k =>
    if k = p then pino
    else if k = k0 then newInode
    else inodeTable d (superOf d) (superOf d).inode_region_len.toNat k

/-- The two ways in which `create` stores the entry of the new inode `k0` in
the directory `p`: behind the entries of the first block while the directory
holds fewer than `B / sizeof(entry)` entries, and otherwise in the first slot
of the first free data block, which becomes the first zero pointer of `p`.  The
block `q` receives `blk`, the record of `p` becomes `pino` and the data bitmap
`dbm`. -/
def EntryAdded (d : Disk) (p k0 : Nat) (name : List Nat) (q : Nat) (blk : Block)
    (pino : inode_t) (dbm : Block) : Prop :=
  (dirCount (inodeOf d p) < UFS_BLOCK_SIZE / SIZEOF_DIR_ENT
    ∧ q = (inodeOf d p).direct 0
    ∧ blk = setEntry (d.blocks ((inodeOf d p).direct 0)) (dirCount (inodeOf d p)) k0 name
    ∧ pino = { inodeOf d p with size := (inodeOf d p).size + SIZEOF_DIR_ENT }
    ∧ dbm = regionBuf d (superOf d).data_bitmap_addr.toNat (superOf d).data_bitmap_len.toNat)
  ∨ (UFS_BLOCK_SIZE / SIZEOF_DIR_ENT ≤ dirCount (inodeOf d p)
    ∧ ∃ j1 s0 : Nat, (j1 : Int) < (superOf d).num_data
      ∧ bitClear (regionBuf d (superOf d).data_bitmap_addr.toNat
          (superOf d).data_bitmap_len.toNat) j1 = true
      ∧ s0 < DIRECT_PTRS ∧ (inodeOf d p).direct s0 = 0
      ∧ (∀ s, s < s0 → (inodeOf d p).direct s ≠ 0)
      ∧ q = ((j1 : Int) + (superOf d).data_region_addr).toNat
      ∧ blk = setEntry zeroBlock 0 k0 name
      ∧ pino = { inodeOf d p with
                  direct := fun t =>
                    if t = s0 then toU32 ((j1 : Int) + (superOf d).data_region_addr)
                    else (inodeOf d p).direct t
                  size := (inodeOf d p).size + SIZEOF_DIR_ENT }
      ∧ dbm = setBit (regionBuf d (superOf d).data_bitmap_addr.toNat
          (superOf d).data_bitmap_len.toNat) j1)

/-- The entries of a block of the directory `k` are apart: an entry whose name
is not special refers neither to `k` nor to the root. -/
def BlockApart (b : Block) (k : Nat) : Prop :=
  ∀ j, j < UFS_BLOCK_SIZE / SIZEOF_DIR_ENT →
    specialName (entName b j) ∨ (entInum b j ≠ (k : Int) ∧ entInum b j ≠ 0)

/-- The first two entries of a block are `.` for `k` and `..` for `parent`. -/
def BlockDots (b : Block) (k : Nat) (parent : Int) : Prop :=
  entName b 0 = [46] ∧ entInum b 0 = (k : Int) ∧ entName b 1 = [46, 46] ∧ entInum b 1 = parent

/-- The block that `writeBlock` stores for a buffer. -/
def stored (b : Block) : Block := fun off => if off < UFS_BLOCK_SIZE then b off else 0

/-- The components of a request path in the words of the specification: the
path is split on `/`, empty components are discarded and the first remaining
component is dropped. -/
def specComponents (path : List Nat) : List (List Nat) :=
  ((path.splitOn 47).filter (fun c => decide (c ≠ []))).tail

/-- The path `/ds3/a//b/`. -/
def pathSlashes : List Nat := [47, 100, 115, 51, 47, 97, 47, 47, 98, 47]

/-- The iterations of the `while` loop of `read` for an inode record and a
requested size, from the value `bytesRead`: for each iteration the value of
`bytesRead` at its start and the number `bytesReadCurrent` of bytes it copies.
The first argument bounds the number of tests of the loop condition (`none`
when it is exceeded); the contents of the device do not influence the control
flow of the loop. -/
def readIters (inode : inode_t) (size : Int) : Nat → Int → Option (List (Int × Int))
  | 0, _ => none
  | fuel + 1, bytesRead =>
    if bytesRead < size ∧ bytesRead < inode.size then
      let blockOffset := cmod bytesRead UFS_BLOCK_SIZE
      let remaining_bytes_required := size - bytesRead
      let remaining_bytes_cur_block := (UFS_BLOCK_SIZE : Int) - blockOffset
      let remaining_bytes_in_file := inode.size - bytesRead
      let bytesReadCurrent :=
        min_of_three remaining_bytes_required remaining_bytes_cur_block remaining_bytes_in_file
      (readIters inode size fuel (bytesRead + bytesReadCurrent)).map
        (fun l => (bytesRead, bytesReadCurrent) :: l)
    else some []

/-- One iteration of the loop of `read` that starts at `bytesRead = x.1` and
copies `x.2` bytes is safe for a request of `size` bytes. -/
def IterSafe (size : Int) (x : Int × Int) : Prop :=
  0 ≤ x.1 ∧ 1 ≤ x.2 ∧ x.2 ≤ (UFS_BLOCK_SIZE : Int)
  ∧ 0 ≤ cmod x.1 UFS_BLOCK_SIZE ∧ cmod x.1 UFS_BLOCK_SIZE + x.2 ≤ (UFS_BLOCK_SIZE : Int)
  ∧ 0 ≤ cdiv x.1 UFS_BLOCK_SIZE ∧ cdiv x.1 UFS_BLOCK_SIZE < (DIRECT_PTRS : Int)
  ∧ x.1 + x.2 ≤ size

/-- An inode record of no valid type, with a size beyond the request used below
and pointers that name no block of a small device. -/
def wildInode : inode_t := ⟨7, 5000, fun t => 1000000 + t⟩

/-- The path `/ds3/`, which names the root directory. -/
def pathRoot : List Nat := [47, 100, 115, 51, 47]

/-- Data bit `m` is clear once `write` has released the blocks of the file `i`:
it is clear on the device, or it is the bit of one of the first
`ceil(size / B)` blocks of the file. -/
def freeAfterClear (d : Disk) (i m : Nat) : Prop :=
  dataBit d m = false
  ∨ ∃ t : Nat, (t : Int) < ceilBlocks (inodeOf d i).size
      ∧ ((inodeOf d i).direct t : Int) = (m : Int) + (superOf d).data_region_addr

/-- The nonzero direct pointers of an inode record form a prefix of `direct[]`. -/
def PrefixPtrs (ino : inode_t) : Prop :=
  ∀ t, t < DIRECT_PTRS → ino.direct t ≠ 0 → ∀ t', t' < t → ino.direct t' ≠ 0

/-- The size of an inode record lies in `[0, D * B]` and its nonzero direct
pointers are exactly the first `ceil(size / B)`. -/
def FilePtrs (ino : inode_t) : Prop :=
  0 ≤ ino.size ∧ ino.size ≤ (MAX_FILE_SIZE : Int)
  ∧ ∀ t, t < DIRECT_PTRS → (ino.direct t ≠ 0 ↔ (t : Int) < ceilBlocks ino.size)

/-- Every live inode has its nonzero pointers in a prefix of `direct[]`, and
every live regular file has exactly `ceil(size / B)` of them. -/
def Packed (d : Disk) : Prop :=
  ∀ k, k < (superOf d).num_inodes.toNat → inodeBit d k = true →
    PrefixPtrs (inodeOf d k)
    ∧ ((inodeOf d k).type = UFS_REGULAR_FILE → FilePtrs (inodeOf d k))

/-- An image that satisfies (I1)-(I6) in which the regular file `f` (inode 1,
size 0) has a hole in its pointers: `direct[0] = 0` and `direct[1]` names the
allocated data block 5. 4 inodes, 4 data blocks, the root directory in data
block 0. -/
def imgHole : Disk :=
  { numberOfBlocks := 8
    blocks := fun n =>
      if n = 0 then superImage (mkSuper 4 4)
      else if n = 1 then (fun off => if off = 0 then 3 else 0)
      else if n = 2 then (fun off => if off = 0 then 3 else 0)
      else if n = 3 then
        inodeBlockImage (mkSuper 4 4)
          (fun k =>
            if k = 0 then ⟨UFS_DIRECTORY, 3 * SIZEOF_DIR_ENT, fun t => if t = 0 then 4 else 0⟩
            else if k = 1 then ⟨UFS_REGULAR_FILE, 0, fun t => if t = 1 then 5 else 0⟩
            else zeroInode) 0
      else if n = 4 then
        setEntry (setEntry (setEntry zeroBlock 0 0 [46]) 1 0 [46, 46]) 2 1 [102]
      else zeroBlock }

/-- A directory block whose entry `j` carries the name `crowdedName (base + j)`
and the inode number `crowdedInum (base + j)`. -/
def spillBlock (base : Nat) : Block :=
  fun off =>
    setEntry zeroBlock 0 (crowdedInum (base + off / SIZEOF_DIR_ENT))
      (crowdedName (base + off / SIZEOF_DIR_ENT)) (off % SIZEOF_DIR_ENT)

/-- The inode table of the wide image: the root with `128 + m + n` entries in
`n + 2` blocks, and the empty regular files `1 .. 126 + m + n` that the
entries refer to. -/
def wideInodes (m n : Nat) : Nat → inode_t :=
  fun k =>
    if k = 0 then
      ⟨UFS_DIRECTORY, ((128 + m + n : Nat) : Int) * SIZEOF_DIR_ENT,
        fun t => if t ≤ n + 1 then 8 + t else 0⟩
    else if k < 127 + m + n then ⟨UFS_REGULAR_FILE, 0, fun _ => 0⟩
    else zeroInode

/-- An image with 160 inodes and 8 data blocks whose root directory holds
`128 + m + n` entries: `.`, `..` and 126 files fill its first block (data
block 0), the next `m` entries are packed at the start of its second block
(data block 1), and each of the last `n` entries lies alone at the start of a
block of its own (data blocks `2 .. n + 1`), as `create` leaves a directory of
more than 128 entries. The entries are `crowdedName` and `crowdedInum`. -/
def wideImg (m n : Nat) : Disk :=
  { numberOfBlocks := 16
    blocks := fun b =>
      if b = 0 then superImage (mkSuper 160 8)
      else if b = 1 then (fun off => 2 ^ (min 8 (127 + m + n - 8 * off)) - 1)
      else if b = 2 then (fun off => if off = 0 then 2 ^ (n + 2) - 1 else 0)
      else if 3 ≤ b ∧ b < 8 then inodeBlockImage (mkSuper 160 8) (wideInodes m n) (b - 3)
      else if b = 8 then (fun off => if off < UFS_BLOCK_SIZE then crowdedBlock off else 0)
      else if b = 9 then (fun off => if off < SIZEOF_DIR_ENT * m then spillBlock 128 off else 0)
      else if 10 ≤ b ∧ b < 10 + n then
        (fun off => if off < SIZEOF_DIR_ENT then spillBlock (128 + m + (b - 10)) off else 0)
      else zeroBlock }

/-- The calls `create(0, UFS_REGULAR_FILE, name)` for the names of a list, in
order, from the state `d`; `none` when a call fails or returns an error. -/
def createFiles : Disk → List (List Nat) → Option Disk
  | d, [] => some d
  | d, name :: rest =>
    match create d 0 UFS_REGULAR_FILE name with
    | some (d1, r) => if 0 ≤ r then createFiles d1 rest else none
    | none => none

/-- The names `crowdedName k`, ..., `crowdedName (k + n - 1)`. -/
def crowdedNamesFrom : Nat → Nat → List (List Nat)
  | _, 0 => []
  | k, n + 1 => crowdedName k :: crowdedNamesFrom (k + 1) n

/-- A state of an image of 160 inodes and 8 data blocks in which the root
directory holds the entries `crowdedName 0 .. crowdedName (k - 1)` in its only
block, the inodes `0 .. k - 2` are in use and the data block 0 only. -/
def RootFill (d : Disk) (k : Nat) : Prop :=
  superOf d = mkSuper 160 8
  ∧ (∀ j, j < 160 → inodeBit d j = decide (j + 1 < k))
  ∧ (∀ j, j < 8 → dataBit d j = decide (j = 0))
  ∧ (inodeOf d 0).type = UFS_DIRECTORY
  ∧ (inodeOf d 0).size = 32 * (k : Int)
  ∧ (inodeOf d 0).direct 0 = 8
  ∧ (∀ t, t ≠ 0 → (inodeOf d 0).direct t = 0)
  ∧ (∀ j, j < 128 → entName (d.blocks 8) j = if j < k then crowdedName j else [])

/-- A state of an image of 160 inodes and 8 data blocks in which the first
block of the root directory is filled with the entries `crowdedName 0 ..
crowdedName 127` and each of the pointers `1 .. c` of the root leads to a block
with the single entry `names t` for the inode `126 + t`; the size of the root
is that of `128 + c` entries and the inodes `0 .. 126 + c` are in use. -/
def RootWide (d : Disk) (c : Nat) (names : Nat → List Nat) : Prop :=
  superOf d = mkSuper 160 8
  ∧ (∀ j, j < 160 → inodeBit d j = decide (j < 127 + c))
  ∧ (∀ j, j < 8 → dataBit d j = true → ∃ t, t ≤ c ∧ (inodeOf d 0).direct t = j + 8)
  ∧ (inodeOf d 0).type = UFS_DIRECTORY
  ∧ (inodeOf d 0).size = 32 * ((128 + c : Nat) : Int)
  ∧ (inodeOf d 0).direct 0 = 8
  ∧ (∀ t, t ≤ c → (inodeOf d 0).direct t ≠ 0)
  ∧ (∀ t, c < t → (inodeOf d 0).direct t = 0)
  ∧ (∀ j, j < 128 → entName (d.blocks 8) j = crowdedName j)
  ∧ (∀ t, 1 ≤ t → t ≤ c →
      entName (d.blocks ((inodeOf d 0).direct t)) 0 = names t
      ∧ entInum (d.blocks ((inodeOf d 0).direct t)) 0 = ((126 + t : Nat) : Int)
      ∧ ∀ j, 1 ≤ j → j < 128 → entName (d.blocks ((inodeOf d 0).direct t)) j = [])

/-- An image that satisfies (I1)-(I6) in which the record of the free inode 2
is not zero: 4 inodes, 4 data blocks, the root directory in data block 0, the
regular file `f` (inode 1, size 5) with the body `hello` in data block 1 (block
5), and in the slot of inode 2, whose inode-bitmap bit is clear, the record of a
regular file of size 1 whose pointer `direct[0]` names block 5 as well. -/
def imgGhost : Disk :=
  { numberOfBlocks := 8
    blocks := fun n =>
      if n = 0 then superImage (mkSuper 4 4)
      else if n = 1 then (fun off => if off = 0 then 3 else 0)
      else if n = 2 then (fun off => if off = 0 then 3 else 0)
      else if n = 3 then
        inodeBlockImage (mkSuper 4 4)
          (fun k =>
            if k = 0 then ⟨UFS_DIRECTORY, 3 * SIZEOF_DIR_ENT, fun t => if t = 0 then 4 else 0⟩
            else if k = 1 then ⟨UFS_REGULAR_FILE, 5, fun t => if t = 0 then 5 else 0⟩
            else if k = 2 then ⟨UFS_REGULAR_FILE, 1, fun t => if t = 0 then 5 else 0⟩
            else zeroInode) 0
      else if n = 4 then
        setEntry (setEntry (setEntry zeroBlock 0 0 [46]) 1 0 [46, 46]) 2 1 [102]
      else if n = 5 then helloBuf
      else zeroBlock }

/-! ## Lemmas on words and bytes -/

theorem cdiv_of_nonneg {a b : Int} (ha : 0 ≤ a) (hb : 0 ≤ b) : cdiv a b = a / b :=
  Int.tdiv_eq_ediv ha hb

theorem cmod_of_nonneg {a b : Int} (ha : 0 ≤ a) (hb : 0 ≤ b) : cmod a b = a % b := by
  unfold cmod
  rw [Int.tmod_eq_emod ha hb]

theorem byteOf_lt (w k : Nat) : byteOf w k < 256 := by
  unfold byteOf; omega

theorem getU32_lt (b : Block) (off : Nat) : getU32 b off < 4294967296 := by
  unfold getU32; omega

theorem toU32_lt (x : Int) : toU32 x < 4294967296 := by
  unfold toU32; omega

theorem toU32_of_nonneg {x : Int} (h0 : 0 ≤ x) (h1 : x < 4294967296) : (toU32 x : Int) = x := by
  unfold toU32; omega

theorem toI32_of_lt {x : Nat} (h : x < 2147483648) : toI32 x = x := by
  unfold toI32
  have : x % 4294967296 = x := Nat.mod_eq_of_lt (by omega)
  rw [this]; simp [h]

theorem toI32_toU32 {x : Int} (h0 : -2147483648 ≤ x) (h1 : x < 2147483648) :
    toI32 (toU32 x) = x := by
  unfold toI32 toU32
  split <;> omega

theorem toI32_bounds (x : Nat) : -2147483648 ≤ toI32 x ∧ toI32 x < 2147483648 := by
  unfold toI32
  split <;> omega

theorem getU32_bytes (b : Block) (off w : Nat) (h : ∀ k, k < 4 → b (off + k) = byteOf w k) :
    getU32 b off = w % 4294967296 := by
  have h0 := h 0 (by omega)
  have h1 := h 1 (by omega)
  have h2 := h 2 (by omega)
  have h3 := h 3 (by omega)
  simp only [Nat.add_zero] at h0
  unfold getU32
  rw [h0, h1, h2, h3]
  unfold byteOf
  norm_num
  omega

/-! ## Lemmas on the device and the layout codec -/

theorem disk_ext {d1 d2 : Disk} (h1 : d1.numberOfBlocks = d2.numberOfBlocks)
    (h2 : ∀ m, d1.blocks m = d2.blocks m) : d1 = d2 := by
  cases d1
  cases d2
  simp only at h1 h2
  subst h1
  have : ∀ f g : Nat → Block, (∀ m, f m = g m) → f = g := fun f g h => funext h
  rw [this _ _ h2]

theorem readBlock_eq {d : Disk} {n : Int} (h0 : 0 ≤ n) (h1 : n < d.numberOfBlocks) :
    d.readBlock n = some (d.blocks n.toNat) := by
  unfold Disk.readBlock
  rw [if_pos ⟨h0, h1⟩]

theorem writeBlock_eq {d : Disk} {n : Int} (buf : Block) (h0 : 0 ≤ n)
    (h1 : n < d.numberOfBlocks) : d.writeBlock n buf = some (putBlock d n.toNat buf) := by
  unfold Disk.writeBlock putBlock
  rw [if_pos ⟨h0, h1⟩]

theorem readBlock_isSome {d : Disk} {n : Int} {b : Block} (h : d.readBlock n = some b) :
    0 ≤ n ∧ n < d.numberOfBlocks ∧ b = d.blocks n.toNat := by
  unfold Disk.readBlock at h
  split at h
  · rename_i hc
    injection h with h
    exact ⟨hc.1, hc.2, h.symm⟩
  · cases h

theorem writeBlock_isSome {d d1 : Disk} {n : Int} {buf : Block}
    (h : d.writeBlock n buf = some d1) :
    0 ≤ n ∧ n < d.numberOfBlocks ∧ d1 = putBlock d n.toNat buf := by
  unfold Disk.writeBlock at h
  split at h
  · rename_i hc
    injection h with h
    exact ⟨hc.1, hc.2, h.symm⟩
  · cases h

theorem readSuperBlock_eq {d : Disk} (h : 0 < d.numberOfBlocks) :
    readSuperBlock d = some (superOf d) := by
  unfold readSuperBlock superOf
  rw [readBlock_eq (le_refl _) (by exact_mod_cast h)]
  rfl

theorem readRegion_eq (d : Disk) (start : Int) (h0 : 0 ≤ start) :
    ∀ k : Nat, start + k ≤ d.numberOfBlocks →
      readRegion d start k = some (regionBuf d start.toNat k) := by
  intro k
  induction k with
  | zero =>
    intro _
    unfold readRegion regionBuf
    congr 1
  | succ k ih =>
    intro hk
    unfold readRegion
    rw [ih (by push_cast at hk; omega)]
    rw [readBlock_eq (by omega) (by push_cast at hk; omega)]
    simp only
    congr 1
    funext idx
    unfold regionBuf
    have e : (start + (k : Int)).toNat = start.toNat + k := by omega
    by_cases h1 : idx / UFS_BLOCK_SIZE = k
    · rw [if_pos h1, if_pos (by omega), e, h1]
    · rw [if_neg h1]
      by_cases h2 : idx / UFS_BLOCK_SIZE < k
      · rw [if_pos h2, if_pos (by omega)]
      · rw [if_neg h2, if_neg (by omega)]

theorem writeRegion_eq (d : Disk) (start : Int) (buf : Block) (h0 : 0 ≤ start) :
    ∀ k : Nat, start + k ≤ d.numberOfBlocks →
      writeRegion d start buf k = some (putRegion d start.toNat buf k) := by
  intro k
  induction k with
  | zero =>
    intro _
    unfold writeRegion
    refine congrArg some (disk_ext ?_ ?_)
    · rfl
    · intro m
      simp only [putRegion]
      rw [if_neg (by omega)]
  | succ k ih =>
    intro hk
    unfold writeRegion
    rw [ih (by push_cast at hk; omega)]
    simp only
    rw [writeBlock_eq _ (by omega) (by simp only [putRegion]; push_cast at hk; omega)]
    congr 1
    unfold putBlock putRegion
    simp only [Disk.mk.injEq, true_and]
    funext m
    have e : (start + (k : Int)).toNat = start.toNat + k := by omega
    rw [e]
    by_cases h1 : m = start.toNat + k
    · rw [if_pos h1, if_pos (by omega)]
      funext off
      unfold shiftBuf
      have : m - start.toNat = k := by omega
      rw [this]
    · rw [if_neg h1]
      by_cases h2 : start.toNat ≤ m ∧ m < start.toNat + k
      · rw [if_pos h2, if_pos (by omega)]
      · rw [if_neg h2, if_neg (by omega)]

theorem readInodeLoop_eq (d : Disk) (super : super_t) (h0 : 0 ≤ super.inode_region_addr) :
    ∀ k : Nat, super.inode_region_addr + k ≤ d.numberOfBlocks →
      readInodeLoop d super k = some (inodeTable d super k) := by
  intro k
  induction k with
  | zero =>
    intro _
    unfold readInodeLoop
    refine congrArg some (funext fun idx => ?_)
    simp only [inodeTable]
    rw [if_neg (fun h => absurd h.1 (Nat.not_lt_zero _))]
  | succ k ih =>
    intro hk
    unfold readInodeLoop
    rw [ih (by push_cast at hk; omega)]
    rw [readBlock_eq (by omega) (by push_cast at hk; omega)]
    simp only
    congr 1
    funext idx
    unfold inodeTable
    have e : (super.inode_region_addr + (k : Int)).toNat = super.inode_region_addr.toNat + k := by
      omega
    by_cases h1 : idx / (UFS_BLOCK_SIZE / SIZEOF_INODE) = k ∧ (idx : Int) < super.num_inodes
    · rw [if_pos h1, if_pos ⟨by omega, h1.2⟩, e, h1.1]
    · rw [if_neg h1]
      by_cases h2 : idx / (UFS_BLOCK_SIZE / SIZEOF_INODE) < k ∧ (idx : Int) < super.num_inodes
      · rw [if_pos h2, if_pos ⟨by omega, h2.2⟩]
      · rw [if_neg h2, if_neg (by omega)]

theorem writeInodeLoop_eq (d : Disk) (super : super_t) (inodes : Nat → inode_t)
    (h0 : 0 ≤ super.inode_region_addr) :
    ∀ k : Nat, super.inode_region_addr + k ≤ d.numberOfBlocks →
      writeInodeLoop d super inodes k = some (putInodes d super inodes k) := by
  intro k
  induction k with
  | zero =>
    intro _
    unfold writeInodeLoop
    refine congrArg some (disk_ext ?_ ?_)
    · rfl
    · intro m
      simp only [putInodes]
      rw [if_neg (by omega)]
  | succ k ih =>
    intro hk
    unfold writeInodeLoop
    rw [ih (by push_cast at hk; omega)]
    simp only
    rw [writeBlock_eq _ (by omega) (by simp only [putInodes]; push_cast at hk; omega)]
    congr 1
    unfold putBlock putInodes
    simp only [Disk.mk.injEq, true_and]
    funext m
    have e : (super.inode_region_addr + (k : Int)).toNat = super.inode_region_addr.toNat + k := by
      omega
    rw [e]
    by_cases h1 : m = super.inode_region_addr.toNat + k
    · rw [if_pos h1, if_pos (by omega)]
      have : m - super.inode_region_addr.toNat = k := by omega
      rw [this]
    · rw [if_neg h1]
      by_cases h2 : super.inode_region_addr.toNat ≤ m ∧ m < super.inode_region_addr.toNat + k
      · rw [if_pos h2, if_pos (by omega)]
      · rw [if_neg h2, if_neg (by omega)]

/-! ## Lemmas on well-formed layouts -/
theorem wf_pos {d : Disk} (h : WF d) : 0 < d.numberOfBlocks := by
  unfold WF at h
  omega

theorem wf_readSuper {d : Disk} (h : WF d) : readSuperBlock d = some (superOf d) :=
  readSuperBlock_eq (wf_pos h)

theorem inodeTable_eq {d : Disk} (h : WF d) {k : Nat} (hk : (k : Int) < (superOf d).num_inodes) :
    inodeTable d (superOf d) (superOf d).inode_region_len.toNat k = inodeOf d k := by
  unfold inodeTable inodeOf
  unfold WF at h
  rw [if_pos]
  refine ⟨?_, hk⟩
  simp only [UFS_BLOCK_SIZE, SIZEOF_INODE]
  norm_num
  omega

theorem wf_readInodeRegion {d : Disk} (h : WF d) :
    readInodeRegion d (superOf d)
      = some (inodeTable d (superOf d) (superOf d).inode_region_len.toNat) := by
  unfold readInodeRegion
  have h' := h
  unfold WF at h'
  exact readInodeLoop_eq d _ (by omega) _ (by omega)

theorem wf_readDataBitmap {d : Disk} (h : WF d) :
    readDataBitmap d (superOf d)
      = some (regionBuf d (superOf d).data_bitmap_addr.toNat (superOf d).data_bitmap_len.toNat) := by
  unfold readDataBitmap
  have h' := h
  unfold WF at h'
  exact readRegion_eq d _ (by omega) _ (by omega)

theorem wf_readInodeBitmap {d : Disk} (h : WF d) :
    readInodeBitmap d (superOf d)
      = some (regionBuf d (superOf d).inode_bitmap_addr.toNat
          (superOf d).inode_bitmap_len.toNat) := by
  unfold readInodeBitmap
  have h' := h
  unfold WF at h'
  exact readRegion_eq d _ (by omega) _ (by omega)

theorem wf_stat {d : Disk} (h : WF d) {n : Int} (h0 : 0 ≤ n) (h1 : n < (superOf d).num_inodes)
    (x : inode_t) : stat d n x = some (0, inodeOf d n.toNat) := by
  unfold stat
  rw [wf_readSuper h]
  simp only
  rw [if_neg (by omega)]
  have h' := h
  unfold WF at h'
  have e1 : cdiv n ((UFS_BLOCK_SIZE / SIZEOF_INODE : Nat) : Int) = n / 32 := by
    rw [cdiv_of_nonneg h0 (by simp [UFS_BLOCK_SIZE, SIZEOF_INODE])]
    simp [UFS_BLOCK_SIZE, SIZEOF_INODE]
  have e2 : cmod n ((UFS_BLOCK_SIZE / SIZEOF_INODE : Nat) : Int) = n % 32 := by
    rw [cmod_of_nonneg h0 (by simp [UFS_BLOCK_SIZE, SIZEOF_INODE])]
    simp [UFS_BLOCK_SIZE, SIZEOF_INODE]
  simp only [e1, e2]
  rw [readBlock_eq (by omega) (by omega)]
  simp only
  unfold inodeOf
  have e3 : ((superOf d).inode_region_addr + n / 32).toNat
      = (superOf d).inode_region_addr.toNat + n.toNat / (UFS_BLOCK_SIZE / SIZEOF_INODE) := by
    simp only [UFS_BLOCK_SIZE, SIZEOF_INODE]; norm_num; omega
  have e4 : (n % 32 * (SIZEOF_INODE : Int)).toNat
      = n.toNat % (UFS_BLOCK_SIZE / SIZEOF_INODE) * SIZEOF_INODE := by
    simp only [UFS_BLOCK_SIZE, SIZEOF_INODE]; norm_num; omega
  rw [e3, e4]

theorem count_congr (p q : Nat → Prop) [DecidablePred p] [DecidablePred q] :
    ∀ n : Nat, (∀ i, i < n → (p i ↔ q i)) → Nat.count p n = Nat.count q n := by
  intro n
  induction n with
  | zero => intro _; simp
  | succ n ih =>
    intro h
    rw [Nat.count_succ, Nat.count_succ, ih (fun i hi => h i (by omega))]
    have := h n (by omega)
    by_cases hp : p n
    · rw [if_pos hp, if_pos (this.1 hp)]
    · rw [if_neg hp, if_neg (fun hq => hp (this.2 hq))]

theorem countFree_spec (bm : Block) (cap : Nat) (nfb : Int) :
    ∀ k j : Nat, ∀ f : Int, j + k ≤ 8 * cap →
      ∃ r, countFree bm cap nfb j k f = some r ∧ f ≤ r
        ∧ (r < nfb ↔ f + (Nat.count (fun i => bitClear bm (i + j) = true) k : Int) < nfb) := by
  intro k
  induction k with
  | zero =>
    intro j f _
    refine ⟨f, by unfold countFree; rfl, le_refl _, ?_⟩
    simp
  | succ k ih =>
    intro j f hjk
    unfold countFree
    by_cases hf : f < nfb
    · rw [if_pos hf, if_neg (by omega)]
      obtain ⟨r, hr, hle, hiff⟩ := ih (j + 1) (if bitClear bm j then f + 1 else f) (by omega)
      refine ⟨r, hr, ?_, ?_⟩
      · split at hle <;> omega
      · rw [hiff, Nat.count_succ']
        have e := count_congr (fun i => bitClear bm (i + 1 + j) = true)
          (fun i => bitClear bm (i + (j + 1)) = true) k
          (fun i _ => by
            have : i + 1 + j = i + (j + 1) := by omega
            simp only [this])
        rw [e]
        simp only [Nat.zero_add]
        by_cases hb : bitClear bm j = true
        · simp only [hb, if_true]
          push_cast
          omega
        · simp only [hb]
          simp
    · rw [if_neg hf]
      refine ⟨f, rfl, le_refl _, ?_⟩
      constructor
      · intro h; exact absurd h hf
      · intro h
        have : (0 : Int) ≤ (Nat.count (fun i => bitClear bm (i + j) = true) (k + 1) : Int) :=
          Int.natCast_nonneg _
        omega


theorem blocksOf_eq {s : Int} (h : 0 ≤ s) : blocksOf s = ceilBlocks s := by
  unfold blocksOf ceilBlocks
  rw [cdiv_of_nonneg h (by simp [UFS_BLOCK_SIZE]), cmod_of_nonneg h (by simp [UFS_BLOCK_SIZE])]
  simp only [UFS_BLOCK_SIZE]
  norm_num
  split <;> omega

theorem writeAlloc_mono (super : super_t) (cap : Nat) (data : Block) :
    ∀ k i : Nat, ∀ st st' : WriteState, writeAlloc super cap data i k st = some st' →
      st.bytesWritten ≤ st'.bytesWritten := by
  intro k
  induction k with
  | zero =>
    intro i st st' h
    unfold writeAlloc at h
    injection h with h
    rw [h]
  | succ k ih =>
    intro i st st' h
    unfold writeAlloc at h
    split at h
    · rename_i hpos
      split at h
      · cases h
      · simp only at h
        split at h
        · cases h
        · split at h
          · cases h
          · have := ih _ _ _ h
            simp only at this
            have hm : (0 : Int) ≤ min (UFS_BLOCK_SIZE : Int) st.bytesToWrite := by
              simp only [UFS_BLOCK_SIZE]
              omega
            omega
    · injection h with h
      rw [h]

theorem dataBit_regionBuf {d : Disk} (h : WF d) {k : Nat} (hk : (k : Int) < (superOf d).num_data) :
    bitClear (regionBuf d (superOf d).data_bitmap_addr.toNat (superOf d).data_bitmap_len.toNat) k
      = !dataBit d k := by
  unfold dataBit bitClear regionBuf regionByte
  unfold WF at h
  rw [if_pos (by simp only [UFS_BLOCK_SIZE]; omega)]
  simp

/-- C5: for an in-range inode of type REGULAR_FILE and `0 ≤ s ≤ D * B`, `write`
returns NOT_ENOUGH_SPACE exactly when the data bitmap has fewer than
`ceil(s / B)` clear bits among the indices `[0, num_data)` (the blocks of the
file itself counting as used), and then the device is unchanged. -/
theorem write_not_enough_space_iff (d : Disk) (i : Int) (buf : Block) (s : Int) (hwf : WF d)
    (hi : 0 ≤ i ∧ i < (superOf d).num_inodes)
    (hty : (inodeOf d i.toNat).type = UFS_REGULAR_FILE)
    (hs : 0 ≤ s ∧ s ≤ (MAX_FILE_SIZE : Int)) :
    (retOf (write d i buf s) = some (-ENOTENOUGHSPACE) ↔ (numFreeData d : Int) < ceilBlocks s)
    ∧ ((numFreeData d : Int) < ceilBlocks s → write d i buf s = some (d, -ENOTENOUGHSPACE)) := by
  have hwf' := hwf
  unfold WF at hwf'
  obtain ⟨r, hr, hr0, hiff⟩ := countFree_spec
    (regionBuf d (superOf d).data_bitmap_addr.toNat (superOf d).data_bitmap_len.toNat)
    ((superOf d).data_bitmap_len.toNat * UFS_BLOCK_SIZE) (blocksOf s)
    (superOf d).num_data.toNat 0 0 (by simp only [UFS_BLOCK_SIZE]; omega)
  have hcount : Nat.count (fun i => bitClear (regionBuf d (superOf d).data_bitmap_addr.toNat
      (superOf d).data_bitmap_len.toNat) (i + 0) = true) (superOf d).num_data.toNat
      = numFreeData d := by
    unfold numFreeData
    apply count_congr
    intro k hk
    rw [Nat.add_zero, dataBit_regionBuf hwf (by omega)]
    simp
  rw [hcount, blocksOf_eq hs.1] at hiff
  simp only [zero_add] at hiff
  have hw : write d i buf s =
      if r < ceilBlocks s then some (d, -ENOTENOUGHSPACE)
      else
        match writeClear (superOf d) ((superOf d).data_bitmap_len.toNat * UFS_BLOCK_SIZE) 0
            (blocksOf (inodeOf d i.toNat).size).toNat
            (regionBuf d (superOf d).data_bitmap_addr.toNat (superOf d).data_bitmap_len.toNat)
            (inodeOf d i.toNat).direct with
        | none => none
        | some (dataBitmap1, direct1) =>
          match writeAlloc (superOf d) ((superOf d).data_bitmap_len.toNat * UFS_BLOCK_SIZE) buf 0
              (ceilBlocks s).toNat ⟨d, dataBitmap1, direct1, s, 0⟩ with
          | none => none
          | some st =>
            match writeInodeRegion st.disk (superOf d)
                (fun k => if k = i.toNat then ⟨(inodeOf d i.toNat).type, s, st.direct⟩
                  else inodeTable d (superOf d) (superOf d).inode_region_len.toNat k) with
            | none => none
            | some d1 =>
              match writeDataBitmap d1 (superOf d) st.dataBitmap with
              | none => none
              | some d2 => some (d2, st.bytesWritten) := by
    unfold write
    rw [wf_readSuper hwf]
    simp only
    rw [if_neg (by omega), wf_readInodeRegion hwf]
    simp only
    rw [inodeTable_eq hwf (by omega), if_neg (by rw [hty]; simp), if_neg (by omega),
      wf_readDataBitmap hwf]
    simp only
    rw [hr]
    simp only [blocksOf_eq hs.1]
  have hneg : ¬ ((numFreeData d : Int) < ceilBlocks s) →
      retOf (write d i buf s) ≠ some (-ENOTENOUGHSPACE) := by
    intro hn
    rw [hw, if_neg (fun h => hn (hiff.1 h))]
    split
    · simp [retOf]
    · split
      · simp [retOf]
      · rename_i st hst
        have hm := writeAlloc_mono _ _ _ _ _ _ _ hst
        simp only at hm
        split
        · simp [retOf]
        · split
          · simp [retOf]
          · simp only [retOf, Option.map_some', ne_eq, Option.some.injEq, ENOTENOUGHSPACE]
            omega
  have hpos : (numFreeData d : Int) < ceilBlocks s → write d i buf s = some (d, -ENOTENOUGHSPACE) := by
    intro hp
    rw [hw, if_pos (hiff.2 hp)]
  refine ⟨⟨?_, ?_⟩, hpos⟩
  · intro h
    by_contra hn
    exact hneg hn h
  · intro h
    rw [hpos h]
    rfl


/-- Witness for C5 on `imgOneFile`: a write of 5000 bytes to inode 1 needs two
blocks while one is free. -/
theorem write_not_enough_space_iff_witness :
    WF imgOneFile
    ∧ (0 ≤ (1 : Int) ∧ (1 : Int) < (superOf imgOneFile).num_inodes)
    ∧ (inodeOf imgOneFile (1 : Int).toNat).type = UFS_REGULAR_FILE
    ∧ ((retOf (write imgOneFile 1 zeroBlock 5000) = some (-ENOTENOUGHSPACE)
          ↔ (numFreeData imgOneFile : Int) < ceilBlocks 5000)
        ∧ ((numFreeData imgOneFile : Int) < ceilBlocks 5000 →
            write imgOneFile 1 zeroBlock 5000 = some (imgOneFile, -ENOTENOUGHSPACE))) :=
  ⟨by decide, by decide, by decide,
    write_not_enough_space_iff imgOneFile 1 zeroBlock 5000 (by decide) (by decide) (by decide)
      (by decide)⟩

/-! ## Lemmas on bitmaps and the loops of write -/

theorem bitClear_eq (bm : Block) (i : Nat) : bitClear bm i = !(bm (i / 8)).testBit (i % 8) := by
  unfold bitClear
  rw [Nat.one_shiftLeft, Nat.and_two_pow]
  cases (bm (i / 8)).testBit (i % 8) <;> simp

theorem bitClear_setBit (bm : Block) (j i : Nat) :
    bitClear (setBit bm j) i = (if i = j then false else bitClear bm i) := by
  rw [bitClear_eq, bitClear_eq]
  unfold setBit
  by_cases h : i / 8 = j / 8
  · rw [if_pos h, Nat.one_shiftLeft, Nat.testBit_or, Nat.testBit_two_pow, h]
    by_cases h2 : i = j
    · rw [if_pos h2, h2]; simp
    · rw [if_neg h2]
      have : ¬ (j % 8 = i % 8) := by omega
      simp [this]
  · rw [if_neg h, if_neg (by intro h2; rw [h2] at h; exact h rfl)]

theorem testBit_mask {b i : Nat} (hb : b < 8) (hi : i < 8) :
    (255 - (1 <<< b)).testBit i = decide (i ≠ b) := by
  have : ∀ b < 8, ∀ i < 8, (255 - (1 <<< b)).testBit i = decide (i ≠ b) := by decide!
  exact this b hb i hi

theorem bitClear_clearBit (bm : Block) (j i : Nat) :
    bitClear (clearBit bm j) i = (if i = j then true else bitClear bm i) := by
  rw [bitClear_eq, bitClear_eq]
  unfold clearBit
  by_cases h : i / 8 = j / 8
  · rw [if_pos h, Nat.testBit_and, testBit_mask (Nat.mod_lt _ (by norm_num))
      (Nat.mod_lt _ (by norm_num)), h]
    by_cases h2 : i = j
    · rw [if_pos h2, h2]; simp
    · rw [if_neg h2]
      have : i % 8 ≠ j % 8 := by omega
      simp [this]
  · rw [if_neg h, if_neg (by intro h2; rw [h2] at h; exact h rfl)]

theorem count_flip (p q : Nat → Prop) [DecidablePred p] [DecidablePred q] (j : Nat)
    (hj : ¬ p j ∧ q j) (h : ∀ i, i ≠ j → (p i ↔ q i)) :
    ∀ n, Nat.count q n = Nat.count p n + (if j < n then 1 else 0) := by
  intro n
  induction n with
  | zero => simp
  | succ n ih =>
    rw [Nat.count_succ, Nat.count_succ, ih]
    by_cases h1 : n = j
    · subst h1
      rw [if_pos hj.2, if_neg hj.1, if_neg (by omega), if_pos (by omega)]
    · have := h n h1
      by_cases hp : p n
      · rw [if_pos hp, if_pos (this.1 hp)]
        by_cases h2 : j < n
        · rw [if_pos h2, if_pos (by omega)]
        · rw [if_neg h2, if_neg (by omega)]
      · rw [if_neg hp, if_neg (fun hq => hp (this.2 hq))]
        by_cases h2 : j < n
        · rw [if_pos h2, if_pos (by omega)]
        · rw [if_neg h2, if_neg (by omega)]

theorem countUsed_setBit (bm : Block) (j n : Nat) (hj : j < n) (hc : bitClear bm j = true) :
    countUsed (setBit bm j) n = countUsed bm n + 1 := by
  unfold countUsed
  rw [count_flip (fun k => bitClear bm k = false) (fun k => bitClear (setBit bm j) k = false) j
    ⟨by simp [hc], by simp [bitClear_setBit]⟩
    (fun i hi => by simp only [bitClear_setBit, if_neg hi]) n, if_pos hj]

theorem countUsed_clearBit (bm : Block) (j n : Nat) (hj : j < n) (hc : bitClear bm j = false) :
    countUsed (clearBit bm j) n + 1 = countUsed bm n := by
  unfold countUsed
  rw [count_flip (fun k => bitClear (clearBit bm j) k = false) (fun k => bitClear bm k = false) j
    ⟨by simp [bitClear_clearBit], hc⟩
    (fun i hi => by simp only [bitClear_clearBit, if_neg hi]) n, if_pos hj]

theorem findFirstFrom_spec (p : Nat → Bool) :
    ∀ k start : Nat,
      match findFirstFrom p start k with
      | some j => start ≤ j ∧ j < start + k ∧ p j = true ∧ ∀ i, start ≤ i → i < j → p i = false
      | none => ∀ i, start ≤ i → i < start + k → p i = false := by
  intro k
  induction k with
  | zero =>
    intro start
    unfold findFirstFrom
    intro i h1 h2
    omega
  | succ k ih =>
    intro start
    unfold findFirstFrom
    by_cases hp : p start = true
    · rw [if_pos hp]
      exact ⟨le_refl _, by omega, hp, fun i h1 h2 => by omega⟩
    · rw [if_neg hp]
      have := ih (start + 1)
      cases hres : findFirstFrom p (start + 1) k with
      | none =>
        rw [hres] at this
        intro i h1 h2
        by_cases hi : i = start
        · rw [hi]; simpa using hp
        · exact this i (by omega) (by omega)
      | some j =>
        rw [hres] at this
        obtain ⟨h1, h2, h3, h4⟩ := this
        refine ⟨by omega, by omega, h3, ?_⟩
        intro i hi1 hi2
        by_cases hi : i = start
        · rw [hi]; simpa using hp
        · exact h4 i (by omega) hi2

theorem findFirst_some {p : Nat → Bool} {n j : Nat} (h : findFirst p n = some j) :
    j < n ∧ p j = true ∧ ∀ i, i < j → p i = false := by
  have := findFirstFrom_spec p n 0
  unfold findFirst at h
  rw [h] at this
  exact ⟨by omega, this.2.2.1, fun i hi => this.2.2.2 i (Nat.zero_le _) hi⟩

theorem findFirst_none {p : Nat → Bool} {n : Nat} (h : findFirst p n = none) :
    ∀ i, i < n → p i = false := by
  have := findFirstFrom_spec p n 0
  unfold findFirst at h
  rw [h] at this
  exact fun i hi => this i (Nat.zero_le _) (by omega)

theorem scanFree_eq (bm : Block) (cap : Nat) :
    ∀ k i : Nat, i + k ≤ 8 * cap → scanFree bm cap i k = some (findFirstFrom (bitClear bm) i k) := by
  intro k
  induction k with
  | zero =>
    intro i _
    unfold scanFree findFirstFrom
    rfl
  | succ k ih =>
    intro i h
    unfold scanFree findFirstFrom
    rw [if_neg (by omega)]
    by_cases hb : bitClear bm i = true
    · rw [if_pos hb, if_pos hb]
    · rw [if_neg hb, if_neg hb]
      exact ih (i + 1) (by omega)

theorem writeAlloc_spec (super : super_t) (N cap : Nat) (data : Block)
    (hok : AllocOK super N cap) :
    ∀ k i : Nat, ∀ st st' : WriteState,
      st.disk.numberOfBlocks = N → 0 ≤ st.bytesWritten →
      (k = 0 ∨ ((k : Int) - 1) * UFS_BLOCK_SIZE < st.bytesToWrite) →
      writeAlloc super cap data i k st = some st' →
      st'.disk.numberOfBlocks = N
      ∧ (∀ t, t < i ∨ i + k ≤ t → st'.direct t = st.direct t)
      ∧ (∀ j, bitClear st'.dataBitmap j = true → bitClear st.dataBitmap j = true)
      ∧ (∀ m, (∀ j : Nat, (j : Int) < super.num_data → bitClear st.dataBitmap j = true →
              m ≠ ((j : Int) + super.data_region_addr).toNat) →
            st'.disk.blocks m = st.disk.blocks m)
      ∧ (∀ t, i ≤ t → t < i + k →
          ∃ j : Nat, (j : Int) < super.num_data ∧ bitClear st.dataBitmap j = true
            ∧ bitClear st'.dataBitmap j = false
            ∧ st'.direct t = ((j : Int) + super.data_region_addr).toNat
            ∧ ∀ o, o < UFS_BLOCK_SIZE →
                st'.disk.blocks ((j : Int) + super.data_region_addr).toNat o
                  = data (st.bytesWritten.toNat + (t - i) * UFS_BLOCK_SIZE + o))
      ∧ (∀ t1 t2, i ≤ t1 → t1 < t2 → t2 < i + k → st'.direct t1 ≠ st'.direct t2)
      ∧ st'.bytesWritten = st.bytesWritten + min (max st.bytesToWrite 0) ((k : Int) * UFS_BLOCK_SIZE)
      ∧ countUsed st'.dataBitmap super.num_data.toNat
          = countUsed st.dataBitmap super.num_data.toNat + k
      ∧ (∀ j, bitClear st.dataBitmap j = true → bitClear st'.dataBitmap j = false →
          ∃ t, i ≤ t ∧ t < i + k ∧ st'.direct t = ((j : Int) + super.data_region_addr).toNat) := by
  obtain ⟨hdra, hnd, hfit, hN, hcap⟩ := hok
  intro k
  induction k with
  | zero =>
    intro i st st' hN' hbw _ h
    unfold writeAlloc at h
    injection h with h
    subst h
    refine ⟨hN', fun _ _ => rfl, fun _ h => h, fun _ _ => rfl, ?_, ?_, ?_, rfl, ?_⟩
    · intro t h1 h2; omega
    · intro t1 t2 h1 h2 h3; omega
    · simp
    · intro j h1 h2; rw [h1] at h2; cases h2
  | succ k ih =>
    intro i st st' hN' hbw hk h
    have hw : (k : Int) * UFS_BLOCK_SIZE < st.bytesToWrite := by
      rcases hk with hk | hk
      · omega
      · push_cast at hk; simpa using hk
    have hw0 : 0 < st.bytesToWrite := by
      have : (0 : Int) ≤ (k : Int) * UFS_BLOCK_SIZE := by positivity
      omega
    unfold writeAlloc at h
    rw [if_pos hw0, scanFree_eq _ _ _ _ (by omega)] at h
    simp only at h
    cases hfound : findFirstFrom (bitClear st.dataBitmap) 0 super.num_data.toNat with
    | none =>
      rw [hfound] at h
      simp only at h
      split at h
      · cases h
      · unfold Disk.writeBlock at h
        rw [if_neg (by omega)] at h
        cases h
    | some j0 =>
      rw [hfound] at h
      simp only at h
      obtain ⟨hj0n, hj0c, hj0min⟩ := findFirst_some (p := bitClear st.dataBitmap) hfound
      split at h
      · cases h
      · rename_i hguard
        have hi30 : i < DIRECT_PTRS := by omega
        rw [writeBlock_eq _ (by omega) (by rw [hN']; omega)] at h
        simp only at h
        have hmin : min (UFS_BLOCK_SIZE : Int) st.bytesToWrite
            = if (k : Int) = 0 ∧ st.bytesToWrite < UFS_BLOCK_SIZE then st.bytesToWrite
              else UFS_BLOCK_SIZE := by
          simp only [UFS_BLOCK_SIZE, Nat.cast_ofNat] at hw ⊢
          split <;> omega
        have hu : toU32 ((j0 : Int) + super.data_region_addr)
            = ((j0 : Int) + super.data_region_addr).toNat := by
          have := toU32_of_nonneg (x := (j0 : Int) + super.data_region_addr) (by omega) (by omega)
          omega
        obtain ⟨r1, r2, r3, r4, r5, r6, r7, r8, r9⟩ := ih (i + 1) _ st' (by simpa [putBlock] using hN')
          (by simp only; simp only [UFS_BLOCK_SIZE, Nat.cast_ofNat] at hmin ⊢; omega)
          (by
            simp only
            by_cases hk0 : k = 0
            · left; exact hk0
            · right
              simp only [UFS_BLOCK_SIZE, Nat.cast_ofNat] at hw hmin ⊢
              have : (1 : Int) ≤ k := by omega
              rw [hmin, if_neg (by omega)]
              nlinarith) h
        simp only at r1 r2 r3 r4 r5 r6 r7 r8 r9
        refine ⟨r1, ?_, ?_, ?_, ?_, ?_, ?_, ?_, ?_⟩
        · intro t ht
          rw [r2 t (by omega), if_neg (by omega)]
        · intro j hj
          have := r3 j hj
          rw [bitClear_setBit] at this
          split at this
          · cases this
          · exact this
        · intro m hm
          rw [r4 m]
          · simp only [putBlock]
            rw [if_neg (hm j0 (by omega) hj0c)]
          · intro j hj1 hj2
            rw [bitClear_setBit] at hj2
            split at hj2
            · cases hj2
            · exact hm j hj1 hj2
        · intro t ht1 ht2
          by_cases hti : t = i
          · subst hti
            refine ⟨j0, by omega, hj0c, ?_, ?_, ?_⟩
            · by_contra hcon
              have hcl : bitClear st'.dataBitmap j0 = true := by
                cases hb : bitClear st'.dataBitmap j0
                · exact absurd hb hcon
                · rfl
              have := r3 j0 hcl
              rw [bitClear_setBit, if_pos rfl] at this
              cases this
            · rw [r2 t (by omega), if_pos rfl, hu]
            · intro o ho
              rw [r4]
              · simp only [putBlock, if_pos, if_pos ho, shiftBuf]
                simp
              · intro j hj1 hj2 heq
                rw [bitClear_setBit] at hj2
                split at hj2
                · cases hj2
                · rename_i hne
                  apply hne
                  omega
          · obtain ⟨j, hj1, hj2, hj3, hj4, hj5⟩ := r5 t (by omega) (by omega)
            rw [bitClear_setBit] at hj2
            split at hj2
            · cases hj2
            · refine ⟨j, hj1, hj2, hj3, hj4, ?_⟩
              intro o ho
              rw [hj5 o ho]
              congr 1
              have hk0 : k ≠ 0 := by omega
              have hB : min (UFS_BLOCK_SIZE : Int) st.bytesToWrite = UFS_BLOCK_SIZE := by
                rw [hmin, if_neg (by omega)]
              rw [hB]
              have e1 : (st.bytesWritten + (UFS_BLOCK_SIZE : Int)).toNat
                  = st.bytesWritten.toNat + UFS_BLOCK_SIZE := by omega
              rw [e1]
              have e2 : t - i = (t - (i + 1)) + 1 := by omega
              rw [e2, Nat.add_mul]
              omega
        · intro t1 t2 h1 h2 h3
          by_cases ht1 : t1 = i
          · subst ht1
            obtain ⟨j, hj1, hj2, hj3, hj4, hj5⟩ := r5 t2 (by omega) (by omega)
            rw [r2 t1 (by omega), if_pos rfl, hu, hj4]
            rw [bitClear_setBit] at hj2
            split at hj2
            · cases hj2
            · rename_i hne
              intro heq
              apply hne
              omega
          · exact r6 t1 t2 (by omega) h2 (by omega)
        · rw [r7]
          simp only [UFS_BLOCK_SIZE, Nat.cast_ofNat] at hw hmin ⊢
          rw [hmin]
          push_cast
          split <;> omega
        · rw [r8, countUsed_setBit _ _ _ hj0n hj0c]
          omega
        · intro j hj1 hj2
          by_cases hjj : j = j0
          · subst hjj
            exact ⟨i, le_refl _, by omega, by rw [r2 i (by omega), if_pos rfl, hu]⟩
          · obtain ⟨t, ht1, ht2, ht3⟩ := r9 j (by rw [bitClear_setBit, if_neg hjj]; exact hj1) hj2
            exact ⟨t, by omega, by omega, ht3⟩

/-! ## Lemmas on the inode table -/

theorem putRegion_out (d : Disk) (start k : Nat) (buf : Block) (m : Nat)
    (h : m < start ∨ start + k ≤ m) : (putRegion d start buf k).blocks m = d.blocks m := by
  simp only [putRegion]
  rw [if_neg (by omega)]

theorem putRegion_in (d : Disk) (start k : Nat) (buf : Block) (m o : Nat)
    (h1 : start ≤ m) (h2 : m < start + k) (ho : o < UFS_BLOCK_SIZE) :
    (putRegion d start buf k).blocks m o = buf ((m - start) * UFS_BLOCK_SIZE + o) := by
  simp only [putRegion]
  rw [if_pos ⟨h1, h2⟩, if_pos ho]

theorem putInodes_out (d : Disk) (super : super_t) (inodes : Nat → inode_t) (k m : Nat)
    (h : m < super.inode_region_addr.toNat ∨ super.inode_region_addr.toNat + k ≤ m) :
    (putInodes d super inodes k).blocks m = d.blocks m := by
  simp only [putInodes]
  rw [if_neg (by omega)]

theorem putInodes_in (d : Disk) (super : super_t) (inodes : Nat → inode_t) (k m : Nat)
    (h1 : super.inode_region_addr.toNat ≤ m) (h2 : m < super.inode_region_addr.toNat + k) :
    (putInodes d super inodes k).blocks m
      = fun off => if off < UFS_BLOCK_SIZE then
          inodeBlockImage super inodes (m - super.inode_region_addr.toNat) off else 0 := by
  simp only [putInodes]
  rw [if_pos ⟨h1, h2⟩]

theorem inodeByte_word (ino : inode_t) (w k : Nat) (hk : k < 4) :
    inodeByte ino (4 * w + k)
      = byteOf (if w = 0 then toU32 ino.type else if w = 1 then toU32 ino.size
          else ino.direct (w - 2)) k := by
  unfold inodeByte
  by_cases h0 : w = 0
  · subst h0
    rw [if_pos (by omega), if_pos rfl]
    simp
  · by_cases h1 : w = 1
    · subst h1
      rw [if_neg (by omega), if_pos (by omega), if_neg (by omega), if_pos rfl]
      congr 1
      omega
    · rw [if_neg (by omega), if_neg (by omega), if_neg h0, if_neg h1]
      have e1 : (4 * w + k - 8) / 4 = w - 2 := by omega
      have e2 : (4 * w + k - 8) % 4 = k := by omega
      rw [e1, e2]

theorem getU32_image (super : super_t) (inodes : Nat → inode_t) (idx w : Nat)
    (hidx : (idx : Int) < super.num_inodes) (hw : w < 32) :
    getU32 (fun off => if off < UFS_BLOCK_SIZE then
        inodeBlockImage super inodes (idx / (UFS_BLOCK_SIZE / SIZEOF_INODE)) off else 0)
      (idx % (UFS_BLOCK_SIZE / SIZEOF_INODE) * SIZEOF_INODE + 4 * w)
      = (if w = 0 then toU32 (inodes idx).type else if w = 1 then toU32 (inodes idx).size
          else (inodes idx).direct (w - 2)) % 4294967296 := by
  apply getU32_bytes
  intro k hk
  have e0 : UFS_BLOCK_SIZE / SIZEOF_INODE = 32 := by simp [UFS_BLOCK_SIZE, SIZEOF_INODE]
  rw [e0]
  simp only [UFS_BLOCK_SIZE, SIZEOF_INODE]
  rw [if_pos (by omega)]
  unfold inodeBlockImage
  rw [e0]
  simp only [UFS_BLOCK_SIZE, SIZEOF_INODE]
  have e1 : idx / 32 * 32 + (idx % 32 * 128 + 4 * w + k) / 128 = idx := by omega
  have e2 : (idx % 32 * 128 + 4 * w + k) % 128 = 4 * w + k := by omega
  rw [e1, e2, if_pos ⟨hidx, by omega⟩]
  exact inodeByte_word _ w k hk

theorem decode_image (super : super_t) (inodes : Nat → inode_t) (idx : Nat)
    (hidx : (idx : Int) < super.num_inodes) :
    decodeInode (fun off => if off < UFS_BLOCK_SIZE then
        inodeBlockImage super inodes (idx / (UFS_BLOCK_SIZE / SIZEOF_INODE)) off else 0)
      (idx % (UFS_BLOCK_SIZE / SIZEOF_INODE) * SIZEOF_INODE) = normInode (inodes idx) := by
  unfold decodeInode normInode getI32
  have h0 := getU32_image super inodes idx 0 hidx (by omega)
  have h1 := getU32_image super inodes idx 1 hidx (by omega)
  simp only [Nat.mul_zero, Nat.add_zero, if_true] at h0
  simp only [Nat.mul_one, if_true] at h1
  rw [h0, h1]
  have m0 := Nat.mod_eq_of_lt (toU32_lt (inodes idx).type)
  have m1 := Nat.mod_eq_of_lt (toU32_lt (inodes idx).size)
  rw [m0]
  simp only [Nat.one_ne_zero, if_false, if_true] at *
  rw [m1]
  congr 1
  funext t
  by_cases ht : t < DIRECT_PTRS
  · rw [if_pos ht, if_pos ht]
    have h2 := getU32_image super inodes idx (t + 2) hidx (by simp only [DIRECT_PTRS] at ht; omega)
    rw [if_neg (by omega), if_neg (by omega)] at h2
    have e : idx % (UFS_BLOCK_SIZE / SIZEOF_INODE) * SIZEOF_INODE + 8 + 4 * t
        = idx % (UFS_BLOCK_SIZE / SIZEOF_INODE) * SIZEOF_INODE + 4 * (t + 2) := by omega
    rw [e, h2]
    simp
  · rw [if_neg ht, if_neg ht]

theorem normInode_decode (b : Block) (off : Nat) : normInode (decodeInode b off) = decodeInode b off := by
  unfold normInode decodeInode getI32
  simp only
  have b1 := toI32_bounds (getU32 b off)
  have b2 := toI32_bounds (getU32 b (off + 4))
  rw [toI32_toU32 b1.1 b1.2, toI32_toU32 b2.1 b2.2]
  congr 1
  funext t
  by_cases ht : t < DIRECT_PTRS
  · rw [if_pos ht, if_pos ht, Nat.mod_eq_of_lt (getU32_lt _ _)]
  · rw [if_neg ht, if_neg ht]

/-! ## Lemmas on write -/

theorem wf_of_same {d d' : Disk} (h : WF d) (hn : d'.numberOfBlocks = d.numberOfBlocks)
    (hs : superOf d' = superOf d) : WF d' := by
  unfold WF at h ⊢
  rw [hn, hs]
  exact h

theorem superOf_of_block0 {d d' : Disk} (h : d'.blocks 0 = d.blocks 0) : superOf d' = superOf d := by
  unfold superOf
  rw [h]

theorem write_unfold (d : Disk) (i : Int) (buf : Block) (s : Int) (hwf : WF d)
    (hi : 0 ≤ i ∧ i < (superOf d).num_inodes)
    (hty : (inodeOf d i.toNat).type = UFS_REGULAR_FILE)
    (hs : 0 ≤ s ∧ s ≤ (MAX_FILE_SIZE : Int)) :
    write d i buf s =
      if (numFreeData d : Int) < ceilBlocks s then some (d, -ENOTENOUGHSPACE)
      else
        match writeClear (superOf d) ((superOf d).data_bitmap_len.toNat * UFS_BLOCK_SIZE) 0
            (blocksOf (inodeOf d i.toNat).size).toNat
            (regionBuf d (superOf d).data_bitmap_addr.toNat (superOf d).data_bitmap_len.toNat)
            (inodeOf d i.toNat).direct with
        | none => none
        | some (dataBitmap1, direct1) =>
          match writeAlloc (superOf d) ((superOf d).data_bitmap_len.toNat * UFS_BLOCK_SIZE) buf 0
              (ceilBlocks s).toNat ⟨d, dataBitmap1, direct1, s, 0⟩ with
          | none => none
          | some st =>
            match writeInodeRegion st.disk (superOf d)
                (fun k => if k = i.toNat then ⟨(inodeOf d i.toNat).type, s, st.direct⟩
                  else inodeTable d (superOf d) (superOf d).inode_region_len.toNat k) with
            | none => none
            | some d1 =>
              match writeDataBitmap d1 (superOf d) st.dataBitmap with
              | none => none
              | some d2 => some (d2, st.bytesWritten) := by
  have hwf' := hwf
  unfold WF at hwf'
  obtain ⟨r, hr, hr0, hiff⟩ := countFree_spec
    (regionBuf d (superOf d).data_bitmap_addr.toNat (superOf d).data_bitmap_len.toNat)
    ((superOf d).data_bitmap_len.toNat * UFS_BLOCK_SIZE) (blocksOf s)
    (superOf d).num_data.toNat 0 0 (by simp only [UFS_BLOCK_SIZE]; omega)
  have hcount : Nat.count (fun i => bitClear (regionBuf d (superOf d).data_bitmap_addr.toNat
      (superOf d).data_bitmap_len.toNat) (i + 0) = true) (superOf d).num_data.toNat
      = numFreeData d := by
    unfold numFreeData
    apply count_congr
    intro k hk
    rw [Nat.add_zero, dataBit_regionBuf hwf (by omega)]
    simp
  rw [hcount, blocksOf_eq hs.1] at hiff
  simp only [zero_add] at hiff
  unfold write
  rw [wf_readSuper hwf]
  simp only
  rw [if_neg (by omega), wf_readInodeRegion hwf]
  simp only
  rw [inodeTable_eq hwf (by omega), if_neg (by rw [hty]; simp), if_neg (by omega),
    wf_readDataBitmap hwf]
  simp only
  rw [hr]
  simp only [blocksOf_eq hs.1]
  by_cases hc : r < ceilBlocks s
  · rw [if_pos hc, if_pos (hiff.1 hc)]
  · rw [if_neg hc, if_neg (fun h => hc (hiff.2 h))]
    all_goals rfl

theorem wf_allocOK {d : Disk} (h : WF d) :
    AllocOK (superOf d) d.numberOfBlocks ((superOf d).data_bitmap_len.toNat * UFS_BLOCK_SIZE) := by
  unfold WF at h
  unfold AllocOK
  simp only [UFS_BLOCK_SIZE]
  push_cast
  omega

theorem write_success {d d' : Disk} {i : Int} {buf : Block} {s r : Int} (hwf : WF d)
    (hi : 0 ≤ i ∧ i < (superOf d).num_inodes)
    (hty : (inodeOf d i.toNat).type = UFS_REGULAR_FILE)
    (hs : 0 ≤ s ∧ s ≤ (MAX_FILE_SIZE : Int))
    (h : write d i buf s = some (d', r)) (hr : r ≠ -ENOTENOUGHSPACE) :
    ∃ bm1 direct1 st,
      writeClear (superOf d) ((superOf d).data_bitmap_len.toNat * UFS_BLOCK_SIZE) 0
          (blocksOf (inodeOf d i.toNat).size).toNat
          (regionBuf d (superOf d).data_bitmap_addr.toNat (superOf d).data_bitmap_len.toNat)
          (inodeOf d i.toNat).direct = some (bm1, direct1)
      ∧ writeAlloc (superOf d) ((superOf d).data_bitmap_len.toNat * UFS_BLOCK_SIZE) buf 0
          (ceilBlocks s).toNat ⟨d, bm1, direct1, s, 0⟩ = some st
      ∧ r = st.bytesWritten
      ∧ d' = commitWrite st.disk (superOf d)
          (fun k => if k = i.toNat then ⟨(inodeOf d i.toNat).type, s, st.direct⟩
            else inodeTable d (superOf d) (superOf d).inode_region_len.toNat k) st.dataBitmap
      ∧ ¬ ((numFreeData d : Int) < ceilBlocks s) := by
  rw [write_unfold d i buf s hwf hi hty hs] at h
  have hwf' := hwf
  unfold WF at hwf'
  split at h
  · injection h with h
    injection h with h1 h2
    exact absurd h2.symm hr
  · rename_i hfree
    split at h
    · cases h
    · rename_i bm1 direct1 hclear
      split at h
      · cases h
      · rename_i st hst
        have hspec := writeAlloc_spec (superOf d) d.numberOfBlocks _ buf (wf_allocOK hwf)
          (ceilBlocks s).toNat 0 ⟨d, bm1, direct1, s, 0⟩ st rfl (le_refl _)
          (by
            simp only [ceilBlocks, UFS_BLOCK_SIZE, MAX_FILE_SIZE, DIRECT_PTRS] at hs ⊢
            push_cast at hs ⊢
            omega) hst
        have hN := hspec.1
        unfold writeInodeRegion at h
        rw [writeInodeLoop_eq _ _ _ (by omega) _ (by rw [hN]; omega)] at h
        simp only at h
        unfold writeDataBitmap at h
        rw [writeRegion_eq _ _ _ (by omega) _ (by simp only [putInodes]; rw [hN]; omega)] at h
        simp only at h
        injection h with h
        injection h with h1 h2
        exact ⟨bm1, direct1, st, hclear, hst, h2.symm, h1.symm, hfree⟩

/-! ## Lemmas on the device after write, and on the loop of read -/

theorem commitWrite_nblocks (d0 : Disk) (super : super_t) (inodes : Nat → inode_t) (bm : Block) :
    (commitWrite d0 super inodes bm).numberOfBlocks = d0.numberOfBlocks := rfl

theorem commitWrite_super {d d0 : Disk} (hwf : WF d) (inodes : Nat → inode_t) (bm : Block)
    (h0 : d0.blocks 0 = d.blocks 0) :
    superOf (commitWrite d0 (superOf d) inodes bm) = superOf d := by
  apply superOf_of_block0
  unfold WF at hwf
  unfold commitWrite
  rw [putRegion_out _ _ _ _ _ (by omega), putInodes_out _ _ _ _ _ (by omega), h0]

theorem commitWrite_wf {d d0 : Disk} (hwf : WF d) (inodes : Nat → inode_t) (bm : Block)
    (hn : d0.numberOfBlocks = d.numberOfBlocks) (h0 : d0.blocks 0 = d.blocks 0) :
    WF (commitWrite d0 (superOf d) inodes bm) :=
  wf_of_same hwf (by rw [commitWrite_nblocks, hn]) (commitWrite_super hwf inodes bm h0)

theorem commitWrite_inode {d d0 : Disk} (hwf : WF d) (inodes : Nat → inode_t) (bm : Block)
    (h0 : d0.blocks 0 = d.blocks 0) {k : Nat} (hk : (k : Int) < (superOf d).num_inodes) :
    inodeOf (commitWrite d0 (superOf d) inodes bm) k = normInode (inodes k) := by
  unfold inodeOf
  rw [commitWrite_super hwf inodes bm h0]
  have hwf' := hwf
  unfold WF at hwf'
  unfold disjointRanges at hwf'
  have hd := decode_image (superOf d) inodes k hk
  have e0 : UFS_BLOCK_SIZE / SIZEOF_INODE = 32 := by simp [UFS_BLOCK_SIZE, SIZEOF_INODE]
  rw [e0] at hd ⊢
  have hin : (commitWrite d0 (superOf d) inodes bm).blocks
      ((superOf d).inode_region_addr.toNat + k / 32)
      = fun off => if off < UFS_BLOCK_SIZE then
          inodeBlockImage (superOf d) inodes (k / 32) off else 0 := by
    unfold commitWrite
    rw [putRegion_out _ _ _ _ _ (by omega), putInodes_in _ _ _ _ _ (by omega) (by omega)]
    have e1 : (superOf d).inode_region_addr.toNat + k / 32
        - (superOf d).inode_region_addr.toNat = k / 32 := by omega
    rw [e1]
  rw [hin]
  exact hd

theorem commitWrite_dataBit {d d0 : Disk} (hwf : WF d) (inodes : Nat → inode_t) (bm : Block)
    (h0 : d0.blocks 0 = d.blocks 0) {j : Nat}
    (hj : (j : Int) < 32768 * (superOf d).data_bitmap_len) :
    dataBit (commitWrite d0 (superOf d) inodes bm) j = !bitClear bm j := by
  unfold dataBit
  rw [commitWrite_super hwf inodes bm h0]
  have hwf' := hwf
  unfold WF at hwf'
  have hb : regionByte (commitWrite d0 (superOf d) inodes bm) (superOf d).data_bitmap_addr (j / 8)
      = bm (j / 8) := by
    unfold regionByte commitWrite
    have hB : UFS_BLOCK_SIZE = 4096 := rfl
    rw [hB]
    have h1 : (superOf d).data_bitmap_addr.toNat ≤ (superOf d).data_bitmap_addr.toNat + j / 8 / 4096 := by
      omega
    have h2 : (superOf d).data_bitmap_addr.toNat + j / 8 / 4096
        < (superOf d).data_bitmap_addr.toNat + (superOf d).data_bitmap_len.toNat := by omega
    have h3 : j / 8 % 4096 < UFS_BLOCK_SIZE := by rw [hB]; omega
    rw [putRegion_in _ _ _ _ _ _ h1 h2 h3, hB]
    congr 1
    omega
  unfold bitClear
  rw [hb]

theorem commitWrite_inodeBit {d d0 : Disk} (hwf : WF d) (inodes : Nat → inode_t) (bm : Block)
    (h0 : d0.blocks 0 = d.blocks 0)
    (hframe : ∀ m : Nat, ((m : Int) < (superOf d).data_region_addr
        ∨ (superOf d).data_region_addr + (superOf d).num_data ≤ (m : Int)) →
        d0.blocks m = d.blocks m) {k : Nat}
    (hk : (k : Int) < 32768 * (superOf d).inode_bitmap_len) :
    inodeBit (commitWrite d0 (superOf d) inodes bm) k = inodeBit d k := by
  unfold inodeBit
  rw [commitWrite_super hwf inodes bm h0]
  have hwf' := hwf
  unfold WF at hwf'
  unfold disjointRanges at hwf'
  have hb : regionByte (commitWrite d0 (superOf d) inodes bm) (superOf d).inode_bitmap_addr (k / 8)
      = regionByte d (superOf d).inode_bitmap_addr (k / 8) := by
    unfold regionByte commitWrite
    have hB : UFS_BLOCK_SIZE = 4096 := rfl
    rw [hB]
    have h1 : (superOf d).inode_bitmap_addr.toNat + k / 8 / 4096 < (superOf d).data_bitmap_addr.toNat
        ∨ (superOf d).data_bitmap_addr.toNat + (superOf d).data_bitmap_len.toNat
          ≤ (superOf d).inode_bitmap_addr.toNat + k / 8 / 4096 := by omega
    have h2 : (superOf d).inode_bitmap_addr.toNat + k / 8 / 4096 < (superOf d).inode_region_addr.toNat
        ∨ (superOf d).inode_region_addr.toNat + (superOf d).inode_region_len.toNat
          ≤ (superOf d).inode_bitmap_addr.toNat + k / 8 / 4096 := by omega
    rw [putRegion_out _ _ _ _ _ h1, putInodes_out _ _ _ _ _ h2, hframe _ (by omega)]
  unfold bitClear
  rw [hb]

theorem commitWrite_data {d d0 : Disk} (hwf : WF d) (inodes : Nat → inode_t) (bm : Block)
    {m : Nat} (h1 : (superOf d).data_region_addr ≤ (m : Int))
    (h2 : (m : Int) < (superOf d).data_region_addr + (superOf d).num_data) :
    (commitWrite d0 (superOf d) inodes bm).blocks m = d0.blocks m := by
  have hwf' := hwf
  unfold WF at hwf'
  unfold disjointRanges at hwf'
  unfold commitWrite
  rw [putRegion_out _ _ _ _ _ (by omega), putInodes_out _ _ _ _ _ (by omega)]

theorem min_of_three_eq (a b c : Int) : min_of_three a b c = min (min a b) c := by
  unfold min_of_three
  simp only
  split <;> split <;> omega

theorem readLoop_spec (d : Disk) (inode : inode_t) (s : Int) (data : Block) (hs : 0 ≤ s)
    (hsz : inode.size = s)
    (hblk : ∀ t : Nat, (t : Int) * 4096 < s →
      t < 30 ∧ ∃ blk, d.readBlock (toI32 (inode.direct t)) = some blk
        ∧ ∀ o, o < 4096 → blk o = data (t * 4096 + o)) :
    ∀ n t fuel : Nat, ∀ out : Block, (s ≤ ((t + n : Nat) : Int) * 4096) → n < fuel →
      readLoop d inode s fuel (min ((t : Int) * 4096) s) out
        = some (s, fun x => if t * 4096 ≤ x ∧ (x : Int) < s then data x else out x) := by
  intro n
  induction n with
  | zero =>
    intro t fuel out hle hf
    obtain ⟨f, rfl⟩ : ∃ f, fuel = f + 1 := ⟨fuel - 1, by omega⟩
    unfold readLoop
    have e : min ((t : Int) * 4096) s = s := by omega
    rw [e, if_neg (by omega)]
    congr 2
    funext x
    rw [if_neg (by omega)]
  | succ n ih =>
    intro t fuel out hle hf
    obtain ⟨f, rfl⟩ : ∃ f, fuel = f + 1 := ⟨fuel - 1, by omega⟩
    by_cases hdone : s ≤ (t : Int) * 4096
    · unfold readLoop
      have e : min ((t : Int) * 4096) s = s := by omega
      rw [e, if_neg (by omega)]
      congr 2
      funext x
      rw [if_neg (by omega)]
    · have hlt : (t : Int) * 4096 < s := by omega
      obtain ⟨ht30, blk, hblk1, hblk2⟩ := hblk t hlt
      have e : min ((t : Int) * 4096) s = (t : Int) * 4096 := by omega
      have ih' := ih (t + 1) f
        (fun k => if t * 4096 ≤ k ∧ (k : Int) < min (((t + 1 : Nat) : Int) * 4096) s
          then data k else out k) (by
            have : t + 1 + n = t + (n + 1) := by omega
            rw [this]; exact hle) (by omega)
      unfold readLoop
      rw [e, if_pos ⟨hlt, by rw [hsz]; exact hlt⟩]
      simp only [UFS_BLOCK_SIZE, DIRECT_PTRS, Nat.cast_ofNat, min_of_three_eq]
      have hdiv : cdiv ((t : Int) * 4096) 4096 = t := by
        rw [cdiv_of_nonneg (a := (t : Int) * 4096) (b := 4096) (by omega) (by omega)]
        omega
      have hmod : cmod ((t : Int) * 4096) 4096 = 0 := by
        rw [cmod_of_nonneg (a := (t : Int) * 4096) (b := 4096) (by omega) (by omega)]
        omega
      rw [hdiv, hmod, hsz]
      have hcur : min (min (s - (t : Int) * 4096) (4096 - 0)) (s - (t : Int) * 4096)
          = min (((t + 1 : Nat) : Int) * 4096) s - (t : Int) * 4096 := by
        omega
      rw [hcur]
      have hcond : ¬ ((t : Int) < 0 ∨ 30 ≤ (t : Int) ∨ (t : Int) * 4096 < 0 ∨ (0 : Int) < 0
          ∨ min (((t + 1 : Nat) : Int) * 4096) s - (t : Int) * 4096 < 0) := by
        omega
      rw [if_neg hcond]
      simp only [Int.toNat_ofNat]
      rw [hblk1]
      simp only
      have e2 : (t : Int) * 4096 + (min (((t + 1 : Nat) : Int) * 4096) s - (t : Int) * 4096)
          = min (((t + 1 : Nat) : Int) * 4096) s := by omega
      rw [e2]
      have e3 : (fun k => if ((t : Int) * 4096).toNat ≤ k
            ∧ k < ((t : Int) * 4096).toNat
              + (min (((t + 1 : Nat) : Int) * 4096) s - (t : Int) * 4096).toNat
          then blk ((0 : Int).toNat + (k - ((t : Int) * 4096).toNat)) else out k)
          = (fun k => if t * 4096 ≤ k ∧ (k : Int) < min (((t + 1 : Nat) : Int) * 4096) s
            then data k else out k) := by
        funext k
        have ek : ((t : Int) * 4096).toNat = t * 4096 := by omega
        rw [ek]
        have hiff : (t * 4096 ≤ k ∧ k < t * 4096
              + (min (((t + 1 : Nat) : Int) * 4096) s - (t : Int) * 4096).toNat)
            ↔ (t * 4096 ≤ k ∧ (k : Int) < min (((t + 1 : Nat) : Int) * 4096) s) := by
          omega
        by_cases hk : t * 4096 ≤ k ∧ (k : Int) < min (((t + 1 : Nat) : Int) * 4096) s
        · rw [if_pos (hiff.2 hk), if_pos hk]
          simp only [Int.toNat_zero, Nat.zero_add]
          rw [hblk2 _ (by omega)]
          have hidx : t * 4096 + (k - t * 4096) = k := by omega
          rw [hidx]
        · rw [if_neg (fun h => hk (hiff.1 h)), if_neg hk]
      rw [e3]
      rw [ih']
      refine congrArg (fun g => some (s, g)) (funext fun x => ?_)
      beta_reduce
      by_cases hx2 : t * 4096 ≤ x ∧ (x : Int) < s
      · rw [if_pos hx2]
        by_cases hx1 : (t + 1) * 4096 ≤ x ∧ (x : Int) < s
        · rw [if_pos hx1]
        · rw [if_neg hx1]
          have hx3 : t * 4096 ≤ x ∧ (x : Int) < min (((t + 1 : Nat) : Int) * 4096) s := by
            omega
          rw [if_pos hx3]
      · rw [if_neg hx2]
        have hx1 : ¬ ((t + 1) * 4096 ≤ x ∧ (x : Int) < s) := by omega
        have hx3 : ¬ (t * 4096 ≤ x ∧ (x : Int) < min (((t + 1 : Nat) : Int) * 4096) s) := by
          omega
        rw [if_neg hx1, if_neg hx3]

/-! ## Write followed by read -/

theorem ceilBlocks_bounds {s : Int} (hs : 0 ≤ s ∧ s ≤ (MAX_FILE_SIZE : Int)) :
    0 ≤ ceilBlocks s ∧ ceilBlocks s ≤ 30 ∧ s ≤ ceilBlocks s * 4096
      ∧ (ceilBlocks s - 1) * 4096 < s ∨ (ceilBlocks s = 0 ∧ s = 0) := by
  simp only [ceilBlocks, MAX_FILE_SIZE, DIRECT_PTRS, UFS_BLOCK_SIZE, Nat.cast_ofNat] at hs ⊢
  omega

/-- C1: in a well-formed image, for an in-range inode of type REGULAR_FILE and
`0 ≤ s ≤ D * B`, a `write(i, buf, s)` that succeeds returns exactly `s`, and the
`read(i, out, s)` that follows it returns `s` and leaves `buf[0..s)` in
`out[0..s)`. -/
theorem write_read_round_trip (d d' : Disk) (i : Int) (buf out0 : Block) (s r : Int)
    (hwf : WF d) (hi : 0 ≤ i ∧ i < (superOf d).num_inodes)
    (hty : (inodeOf d i.toNat).type = UFS_REGULAR_FILE)
    (hs : 0 ≤ s ∧ s ≤ (MAX_FILE_SIZE : Int))
    (h : write d i buf s = some (d', r)) (hr : 0 ≤ r) :
    r = s ∧ ∃ out, read d' i out0 s = some (s, out) ∧ ∀ k : Nat, (k : Int) < s → out k = buf k := by
  obtain ⟨bm1, direct1, st, _, hst, hreq, hd', _⟩ :=
    write_success hwf hi hty hs h (by simp only [ENOTENOUGHSPACE]; omega)
  have hcb := ceilBlocks_bounds hs
  have hwf0 := hwf
  unfold WF at hwf0
  obtain ⟨hN, hdir, _, hframe, halloc, _, hbw, _, _⟩ :=
    writeAlloc_spec (superOf d) d.numberOfBlocks _ buf (wf_allocOK hwf)
      (ceilBlocks s).toNat 0 ⟨d, bm1, direct1, s, 0⟩ st rfl (le_refl _)
      (by simp only [UFS_BLOCK_SIZE, Nat.cast_ofNat]; omega) hst
  simp only at hN hdir hframe halloc hbw
  have hrs : r = s := by
    rw [hreq, hbw]
    simp only [UFS_BLOCK_SIZE, Nat.cast_ofNat]
    omega
  refine ⟨hrs, ?_⟩
  have hb0 : st.disk.blocks 0 = d.blocks 0 := hframe 0 (by intro j _ _; omega)
  have hwf' : WF d' := by
    rw [hd']
    exact commitWrite_wf hwf _ _ hN hb0
  have hsup : superOf d' = superOf d := by
    rw [hd']
    exact commitWrite_super hwf _ _ hb0
  have hnb : d'.numberOfBlocks = d.numberOfBlocks := by
    rw [hd', commitWrite_nblocks, hN]
  have hino : inodeOf d' i.toNat
      = normInode ⟨(inodeOf d i.toNat).type, s, st.direct⟩ := by
    rw [hd', commitWrite_inode hwf _ _ hb0 (by omega), if_pos rfl]
  have hsz : (inodeOf d' i.toNat).size = s := by
    rw [hino]
    simp only [normInode]
    simp only [MAX_FILE_SIZE, DIRECT_PTRS, UFS_BLOCK_SIZE, Nat.cast_ofNat] at hs
    exact toI32_toU32 (by omega) (by omega)
  have hblk : ∀ t : Nat, (t : Int) * 4096 < s →
      t < 30 ∧ ∃ blk, d'.readBlock (toI32 ((inodeOf d' i.toNat).direct t)) = some blk
        ∧ ∀ o, o < 4096 → blk o = buf (t * 4096 + o) := by
    intro t ht
    have ht30 : t < 30 := by omega
    refine ⟨ht30, ?_⟩
    obtain ⟨j, hj1, _, _, hj4, hj5⟩ := halloc t (Nat.zero_le _) (by omega)
    have hdt : (inodeOf d' i.toNat).direct t = ((j : Int) + (superOf d).data_region_addr).toNat := by
      rw [hino]
      simp only [normInode, DIRECT_PTRS]
      rw [if_pos ht30, hj4]
      apply Nat.mod_eq_of_lt
      omega
    rw [hdt, toI32_of_lt (by omega)]
    refine ⟨d'.blocks ((j : Int) + (superOf d).data_region_addr).toNat, ?_, ?_⟩
    · rw [readBlock_eq (by omega) (by rw [hnb]; omega)]
      simp only [Int.toNat_ofNat]
    · intro o ho
      rw [hd', commitWrite_data hwf _ _ (by omega) (by omega), hj5 o ho]
      simp [UFS_BLOCK_SIZE]
  have hloop := readLoop_spec d' (inodeOf d' i.toNat) s buf hs.1 hsz hblk
    (ceilBlocks s).toNat 0 (s.toNat + 1) out0 (by omega) (by omega)
  have hmin : min (((0 : Nat) : Int) * 4096) s = 0 := by omega
  rw [hmin] at hloop
  refine ⟨fun x => if 0 * 4096 ≤ x ∧ (x : Int) < s then buf x else out0 x, ?_, ?_⟩
  · unfold read
    rw [if_neg (by omega), wf_readSuper hwf']
    simp only
    rw [hsup, if_neg (by omega), wf_stat hwf' hi.1 (by rw [hsup]; exact hi.2)]
    simp only
    rw [if_neg (by simp)]
    exact hloop
  · intro k hk
    beta_reduce
    rw [if_pos ⟨by omega, hk⟩]

theorem eq_some_of_retOf {x : Option (Disk × Int)} {r : Int} (d : Disk)
    (h : retOf x = some r) : x = some (diskOf x d, r) := by
  cases x with
  | none => simp [retOf] at h
  | some p =>
    obtain ⟨d1, r1⟩ := p
    simp only [retOf, Option.map_some', Option.some.injEq] at h
    simp only [diskOf, h]

/-- Witness for C1 on `imgOneFile`: five bytes are written to inode 1 and read
back. -/
theorem write_read_round_trip_witness :
    WF imgOneFile
    ∧ retOf (write imgOneFile 1 helloBuf 5) = some 5
    ∧ ((5 : Int) = 5 ∧ ∃ out,
        read (diskOf (write imgOneFile 1 helloBuf 5) imgOneFile) 1 zeroBlock 5 = some (5, out)
        ∧ ∀ k : Nat, (k : Int) < 5 → out k = helloBuf k) :=
  ⟨by decide, by decide,
    write_read_round_trip imgOneFile (diskOf (write imgOneFile 1 helloBuf 5) imgOneFile) 1
      helloBuf zeroBlock 5 5 (by decide) (by decide) (by decide) (by decide)
      (eq_some_of_retOf imgOneFile (by decide)) (by decide)⟩

/-! ## Lemmas on the accounting of write -/

theorem countUsed_le (bm : Block) (n : Nat) : countUsed bm n ≤ n := by
  unfold countUsed
  exact Nat.count_le (p := fun k => bitClear bm k = false)

theorem countUsed_mono (bm bm' : Block)
    (h : ∀ j, bitClear bm j = true → bitClear bm' j = true) :
    ∀ n, countUsed bm' n ≤ countUsed bm n := by
  intro n
  unfold countUsed
  induction n with
  | zero => simp
  | succ n ih =>
    rw [Nat.count_succ, Nat.count_succ]
    by_cases hb : bitClear bm' n = false
    · have : bitClear bm n = false := by
        cases hc : bitClear bm n
        · rfl
        · rw [h n hc] at hb; cases hb
      rw [if_pos hb, if_pos this]
      omega
    · rw [if_neg hb]
      split <;> omega

theorem countUsed_full (bm : Block) (n : Nat) (h : ∀ i, i < n → bitClear bm i = false) :
    countUsed bm n = n := by
  unfold countUsed
  induction n with
  | zero => simp
  | succ n ih =>
    rw [Nat.count_succ, ih (fun i hi => h i (by omega)), if_pos (h n (by omega))]

theorem countUsed_congr (bm bm' : Block) (n : Nat)
    (h : ∀ i, i < n → bitClear bm i = bitClear bm' i) : countUsed bm n = countUsed bm' n := by
  unfold countUsed
  apply count_congr
  intro i hi
  rw [h i hi]

theorem count_add_count_not (p : Nat → Bool) (n : Nat) :
    Nat.count (fun k => p k = false) n + Nat.count (fun k => p k = true) n = n := by
  induction n with
  | zero => simp
  | succ n ih =>
    rw [Nat.count_succ, Nat.count_succ]
    cases hp : p n <;> simp <;> omega

theorem writeClear_spec (super : super_t) (N cap : Nat) (hok : AllocOK super N cap) :
    ∀ k i : Nat, ∀ bm : Block, ∀ direct : Nat → Nat, i + k ≤ 30 →
      (∀ t, i ≤ t → t < i + k → super.data_region_addr ≤ (direct t : Int)
        ∧ (direct t : Int) < super.data_region_addr + super.num_data) →
      ∃ bm', writeClear super cap i k bm direct
          = some (bm', fun t => if i ≤ t ∧ t < i + k then 0 else direct t)
        ∧ (∀ j, bitClear bm' j = true ↔
            (bitClear bm j = true
              ∨ ∃ t, i ≤ t ∧ t < i + k ∧ (direct t : Int) = (j : Int) + super.data_region_addr))
        ∧ ((∀ t, i ≤ t → t < i + k →
              bitClear bm ((direct t : Int) - super.data_region_addr).toNat = false) →
            (∀ t1 t2, i ≤ t1 → t1 < t2 → t2 < i + k → direct t1 ≠ direct t2) →
            countUsed bm' super.num_data.toNat + k = countUsed bm super.num_data.toNat) := by
  obtain ⟨hdra, hnd, hfit, hN, hcap⟩ := hok
  intro k
  induction k with
  | zero =>
    intro i bm direct _ _
    refine ⟨bm, ?_, ?_, ?_⟩
    · unfold writeClear
      refine congrArg (fun g => some (bm, g)) (funext fun t => ?_)
      rw [if_neg (by omega)]
    · intro j
      constructor
      · intro h; exact Or.inl h
      · intro h
        rcases h with h | ⟨t, h1, h2, _⟩
        · exact h
        · omega
    · intro _ _; rfl
  | succ k ih =>
    intro i bm direct hik hrange
    obtain ⟨hr1, hr2⟩ := hrange i (le_refl _) (by omega)
    have hbn : toI32 (toU32 ((direct i : Int) - super.data_region_addr))
        = (direct i : Int) - super.data_region_addr := toI32_toU32 (by omega) (by omega)
    obtain ⟨bm', h1, h2, h3⟩ := ih (i + 1)
      (clearBit bm ((direct i : Int) - super.data_region_addr).toNat)
      (fun t => if t = i then 0 else direct t) (by omega)
      (fun t ht1 ht2 => by
        simp only
        rw [if_neg (by omega)]
        exact hrange t (by omega) (by omega))
    refine ⟨bm', ?_, ?_, ?_⟩
    · unfold writeClear
      simp only [DIRECT_PTRS]
      rw [if_neg (by omega), hbn, cdiv_of_nonneg (by omega) (by omega), if_neg (by omega), h1]
      refine congrArg (fun g => some (bm', g)) (funext fun t => ?_)
      beta_reduce
      by_cases ht : i + 1 ≤ t ∧ t < i + 1 + k
      · rw [if_pos ht, if_pos (by omega)]
      · rw [if_neg ht]
        by_cases hti : t = i
        · rw [if_pos hti, if_pos (by omega)]
        · rw [if_neg hti, if_neg (by omega)]
    · intro j
      rw [h2 j, bitClear_clearBit]
      constructor
      · intro h
        rcases h with h | ⟨t, ht1, ht2, ht3⟩
        · split at h
          · rename_i hj
            exact Or.inr ⟨i, le_refl _, by omega, by omega⟩
          · exact Or.inl h
        · rw [if_neg (by omega)] at ht3
          exact Or.inr ⟨t, by omega, by omega, ht3⟩
      · intro h
        rcases h with h | ⟨t, ht1, ht2, ht3⟩
        · left
          split
          · rfl
          · exact h
        · by_cases hti : t = i
          · left
            rw [if_pos (by subst hti; omega)]
          · right
            refine ⟨t, by omega, by omega, ?_⟩
            rw [if_neg hti]
            exact ht3
    · intro hset hdist
      have hc := countUsed_clearBit bm ((direct i : Int) - super.data_region_addr).toNat
        super.num_data.toNat (by omega) (hset i (le_refl _) (by omega))
      have := h3
        (fun t ht1 ht2 => by
          rw [if_neg (by omega), bitClear_clearBit, if_neg]
          · exact hset t (by omega) (by omega)
          · have hd := hdist i t (le_refl _) (by omega) (by omega)
            have := hrange t (by omega) (by omega)
            omega)
        (fun t1 t2 ht1 ht2 ht3 => by
          rw [if_neg (by omega), if_neg (by omega)]
          exact hdist t1 t2 (by omega) ht2 (by omega))
      omega

theorem writeAlloc_total (super : super_t) (N cap : Nat) (data : Block)
    (hok : AllocOK super N cap) :
    ∀ k i : Nat, ∀ st : WriteState, i + k ≤ 30 → st.disk.numberOfBlocks = N →
      0 ≤ st.bytesWritten →
      countUsed st.dataBitmap super.num_data.toNat + k ≤ super.num_data.toNat →
      ∃ st', writeAlloc super cap data i k st = some st' := by
  obtain ⟨hdra, hnd, hfit, hN, hcap⟩ := hok
  intro k
  induction k with
  | zero =>
    intro i st _ _ _ _
    exact ⟨st, by unfold writeAlloc; rfl⟩
  | succ k ih =>
    intro i st hik hN' hbw hcount
    unfold writeAlloc
    by_cases hpos : st.bytesToWrite > 0
    · rw [if_pos hpos, scanFree_eq _ _ _ _ (by omega)]
      simp only
      cases hfound : findFirstFrom (bitClear st.dataBitmap) 0 super.num_data.toNat with
      | none =>
        have := countUsed_full st.dataBitmap super.num_data.toNat
          (findFirst_none (p := bitClear st.dataBitmap) hfound)
        omega
      | some j0 =>
        obtain ⟨hj0n, hj0c, _⟩ := findFirst_some (p := bitClear st.dataBitmap) hfound
        simp only [DIRECT_PTRS]
        rw [if_neg (by omega), writeBlock_eq _ (by omega) (by rw [hN']; omega)]
        simp only
        apply ih (i + 1) _ (by omega) (by simpa [putBlock] using hN')
        · simp only
          have : (0 : Int) ≤ min (UFS_BLOCK_SIZE : Int) st.bytesToWrite := by
            simp only [UFS_BLOCK_SIZE, Nat.cast_ofNat]
            omega
          omega
        · simp only
          rw [countUsed_setBit _ _ _ hj0n hj0c]
          omega
    · rw [if_neg hpos]
      exact ⟨st, rfl⟩

/-! ## The accounting of write -/

theorem numUsedData_eq {d : Disk} (hwf : WF d) :
    numUsedData d = countUsed (regionBuf d (superOf d).data_bitmap_addr.toNat
      (superOf d).data_bitmap_len.toNat) (superOf d).num_data.toNat := by
  unfold numUsedData countUsed
  have hwf' := hwf
  unfold WF at hwf'
  apply count_congr
  intro k hk
  rw [dataBit_regionBuf hwf (by omega)]
  simp

theorem numFree_add_numUsed (d : Disk) :
    numFreeData d + numUsedData d = (superOf d).num_data.toNat := by
  unfold numFreeData numUsedData
  exact count_add_count_not (fun k => dataBit d k) _

theorem packed_clear {d : Disk} {i : Nat} (hwf : WF d) (hp : packedFile d i) :
    ∃ bm1, writeClear (superOf d) ((superOf d).data_bitmap_len.toNat * UFS_BLOCK_SIZE) 0
          (blocksOf (inodeOf d i).size).toNat
          (regionBuf d (superOf d).data_bitmap_addr.toNat (superOf d).data_bitmap_len.toNat)
          (inodeOf d i).direct
        = some (bm1, fun t => if 0 ≤ t ∧ t < 0 + (ceilBlocks (inodeOf d i).size).toNat then 0
            else (inodeOf d i).direct t)
      ∧ (∀ j, bitClear (regionBuf d (superOf d).data_bitmap_addr.toNat
            (superOf d).data_bitmap_len.toNat) j = true → bitClear bm1 j = true)
      ∧ countUsed bm1 (superOf d).num_data.toNat + (ceilBlocks (inodeOf d i).size).toNat
          = numUsedData d := by
  obtain ⟨h0, h1, h2, h3⟩ := hp
  have hcb := ceilBlocks_bounds ⟨h0, h1⟩
  rw [blocksOf_eq h0, numUsedData_eq hwf]
  have hrange : ∀ t, 0 ≤ t → t < 0 + (ceilBlocks (inodeOf d i).size).toNat →
      (superOf d).data_region_addr ≤ ((inodeOf d i).direct t : Int)
      ∧ ((inodeOf d i).direct t : Int) < (superOf d).data_region_addr + (superOf d).num_data := by
    intro t _ ht
    have := (h2 t (by simp only [DIRECT_PTRS]; omega)).1 (by omega)
    exact ⟨this.1, this.2.1⟩
  obtain ⟨bm1, e1, e2, e3⟩ := writeClear_spec (superOf d) d.numberOfBlocks _ (wf_allocOK hwf)
    (ceilBlocks (inodeOf d i).size).toNat 0
    (regionBuf d (superOf d).data_bitmap_addr.toNat (superOf d).data_bitmap_len.toNat)
    (inodeOf d i).direct (by omega) hrange
  refine ⟨bm1, e1, fun j hj => (e2 j).2 (Or.inl hj), ?_⟩
  apply e3
  · intro t _ ht
    have := (h2 t (by simp only [DIRECT_PTRS]; omega)).1 (by omega)
    obtain ⟨a1, a2, a3⟩ := this
    rw [dataBit_regionBuf hwf (by omega), a3]
    rfl
  · intro t1 t2 _ ht12 ht2
    exact h3 t1 (by simp only [DIRECT_PTRS]; omega) t2 (by simp only [DIRECT_PTRS]; omega) ht12
      (by omega)

theorem write_accounting (d d' : Disk) (i : Int) (buf : Block) (s r : Int)
    (hwf : WF d) (hi : 0 ≤ i ∧ i < (superOf d).num_inodes)
    (hty : (inodeOf d i.toNat).type = UFS_REGULAR_FILE)
    (hs : 0 ≤ s ∧ s ≤ (MAX_FILE_SIZE : Int)) (hp : packedFile d i.toNat)
    (h : write d i buf s = some (d', r)) (hr : 0 ≤ r) :
    WF d' ∧ superOf d' = superOf d
    ∧ (inodeOf d' i.toNat).type = UFS_REGULAR_FILE
    ∧ (inodeOf d' i.toNat).size = s
    ∧ packedFile d' i.toNat
    ∧ (numUsedData d' : Int)
        = numUsedData d + ceilBlocks s - ceilBlocks (inodeOf d i.toNat).size := by
  obtain ⟨bm1, direct1, st, hclear, hst, _, hd', _⟩ :=
    write_success hwf hi hty hs h (by simp only [ENOTENOUGHSPACE]; omega)
  obtain ⟨bmc, hc1, _, hc3⟩ := packed_clear hwf hp
  rw [hclear] at hc1
  injection hc1 with hc1
  injection hc1 with hbm hdirect
  subst hbm
  have hcb := ceilBlocks_bounds hs
  have hcbo := ceilBlocks_bounds ⟨hp.1, hp.2.1⟩
  have hwf0 := hwf
  unfold WF at hwf0
  obtain ⟨hN, hdir, _, hframe, halloc, hdist, _, hcnt, _⟩ :=
    writeAlloc_spec (superOf d) d.numberOfBlocks _ buf (wf_allocOK hwf)
      (ceilBlocks s).toNat 0 ⟨d, bm1, direct1, s, 0⟩ st rfl (le_refl _)
      (by simp only [UFS_BLOCK_SIZE, Nat.cast_ofNat]; omega) hst
  simp only at hN hdir hframe halloc hdist hcnt
  have hb0 : st.disk.blocks 0 = d.blocks 0 := hframe 0 (by intro j _ _; omega)
  have hwf' : WF d' := by
    rw [hd']
    exact commitWrite_wf hwf _ _ hN hb0
  have hsup : superOf d' = superOf d := by
    rw [hd']
    exact commitWrite_super hwf _ _ hb0
  have hino : inodeOf d' i.toNat
      = normInode ⟨(inodeOf d i.toNat).type, s, st.direct⟩ := by
    rw [hd', commitWrite_inode hwf _ _ hb0 (by omega), if_pos rfl]
  have hsz : (inodeOf d' i.toNat).size = s := by
    rw [hino]
    simp only [normInode]
    simp only [MAX_FILE_SIZE, DIRECT_PTRS, UFS_BLOCK_SIZE, Nat.cast_ofNat] at hs
    exact toI32_toU32 (by omega) (by omega)
  have htype : (inodeOf d' i.toNat).type = UFS_REGULAR_FILE := by
    rw [hino]
    simp only [normInode, hty, UFS_REGULAR_FILE]
    exact toI32_toU32 (by omega) (by omega)
  have hdbit : ∀ j : Nat, (j : Int) < (superOf d).num_data →
      dataBit d' j = !bitClear st.dataBitmap j := by
    intro j hj
    rw [hd']
    exact commitWrite_dataBit hwf _ _ hb0 (by omega)
  have hused : numUsedData d' = countUsed st.dataBitmap (superOf d).num_data.toNat := by
    unfold numUsedData countUsed
    rw [hsup]
    apply count_congr
    intro k hk
    rw [hdbit k (by omega)]
    simp
  have hdlow : ∀ t : Nat, (t : Int) < ceilBlocks s →
      ∃ j : Nat, (j : Int) < (superOf d).num_data ∧ bitClear st.dataBitmap j = false
        ∧ (inodeOf d' i.toNat).direct t = ((j : Int) + (superOf d).data_region_addr).toNat := by
    intro t ht
    obtain ⟨j, hj1, _, hj3, hj4, _⟩ := halloc t (Nat.zero_le _) (by omega)
    refine ⟨j, hj1, hj3, ?_⟩
    rw [hino]
    simp only [normInode, DIRECT_PTRS]
    rw [if_pos (by omega), hj4]
    apply Nat.mod_eq_of_lt
    omega
  refine ⟨hwf', hsup, htype, hsz, ?_, ?_⟩
  · unfold packedFile
    rw [hsz]
    refine ⟨hs.1, hs.2, ?_, ?_⟩
    · intro t ht
      simp only [DIRECT_PTRS] at ht
      constructor
      · intro htl
        obtain ⟨j, hj1, hj2, hj3⟩ := hdlow t htl
        unfold allocated
        rw [hsup, hj3]
        refine ⟨by omega, by omega, ?_⟩
        have e : ((((j : Int) + (superOf d).data_region_addr).toNat : Int)
            - (superOf d).data_region_addr).toNat = j := by omega
        rw [e, hdbit j hj1, hj2]
        rfl
      · intro htl
        rw [hino]
        simp only [normInode, DIRECT_PTRS]
        rw [if_pos ht, hdir t (Or.inr (by omega)), hdirect]
        beta_reduce
        by_cases hto : 0 ≤ t ∧ t < 0 + (ceilBlocks (inodeOf d i.toNat).size).toNat
        · rw [if_pos hto]
        · rw [if_neg hto, (hp.2.2.1 t (by simp only [DIRECT_PTRS]; omega)).2 (by omega)]
    · intro t1 ht1 t2 ht2 h12 ht2s
      simp only [DIRECT_PTRS] at ht1 ht2
      obtain ⟨j1, _, _, e1⟩ := hdlow t1 (by omega)
      obtain ⟨j2, _, _, e2⟩ := hdlow t2 ht2s
      have hd12 := hdist t1 t2 (Nat.zero_le _) h12 (by omega)
      obtain ⟨j1', _, _, _, e1', _⟩ := halloc t1 (Nat.zero_le _) (by omega)
      obtain ⟨j2', _, _, _, e2', _⟩ := halloc t2 (Nat.zero_le _) (by omega)
      rw [hino]
      simp only [normInode, DIRECT_PTRS]
      rw [if_pos ht1, if_pos ht2, e1', e2', Nat.mod_eq_of_lt (by omega), Nat.mod_eq_of_lt (by omega)]
      rw [e1', e2'] at hd12
      exact hd12
  · rw [hused, hcnt]
    omega

/-! ## No block leak across overwrite -/

theorem write_total (d : Disk) (i : Int) (buf : Block) (s : Int)
    (hwf : WF d) (hi : 0 ≤ i ∧ i < (superOf d).num_inodes)
    (hty : (inodeOf d i.toNat).type = UFS_REGULAR_FILE)
    (hs : 0 ≤ s ∧ s ≤ (MAX_FILE_SIZE : Int)) (hp : packedFile d i.toNat) :
    ∃ d' r, write d i buf s = some (d', r) ∧ ((r = -ENOTENOUGHSPACE ∧ d' = d) ∨ 0 ≤ r) := by
  rw [write_unfold d i buf s hwf hi hty hs]
  by_cases hfree : (numFreeData d : Int) < ceilBlocks s
  · rw [if_pos hfree]
    exact ⟨d, _, rfl, Or.inl ⟨rfl, rfl⟩⟩
  · rw [if_neg hfree]
    obtain ⟨bm1, hc1, hc2, hc3⟩ := packed_clear hwf hp
    rw [hc1]
    simp only
    have hcb := ceilBlocks_bounds hs
    have hwf0 := hwf
    unfold WF at hwf0
    have hsum := numFree_add_numUsed d
    obtain ⟨st, hst⟩ := writeAlloc_total (superOf d) d.numberOfBlocks _ buf (wf_allocOK hwf)
      (ceilBlocks s).toNat 0
      ⟨d, bm1, fun t => if 0 ≤ t ∧ t < 0 + (ceilBlocks (inodeOf d i.toNat).size).toNat then 0
            else (inodeOf d i.toNat).direct t, s, 0⟩ (by omega) rfl (le_refl _) (by
        simp only
        omega)
    rw [hst]
    simp only
    obtain ⟨hN, _, _, _, _, _, hbw, _, _⟩ :=
      writeAlloc_spec (superOf d) d.numberOfBlocks _ buf (wf_allocOK hwf)
        (ceilBlocks s).toNat 0 _ st rfl (le_refl _)
        (by simp only [UFS_BLOCK_SIZE, Nat.cast_ofNat]; omega) hst
    simp only at hN hbw
    unfold writeInodeRegion
    rw [writeInodeLoop_eq _ _ _ (by omega) _ (by rw [hN]; omega)]
    simp only
    unfold writeDataBitmap
    rw [writeRegion_eq _ _ _ (by omega) _ (by simp only [putInodes]; rw [hN]; omega)]
    simp only
    refine ⟨_, _, rfl, Or.inr ?_⟩
    rw [hbw]
    simp only [UFS_BLOCK_SIZE, Nat.cast_ofNat]
    omega

/-- C9 (amended): for a regular file whose first `ceil(old / B)` direct
pointers are allocated and pairwise distinct and whose other pointers are zero
(`packedFile`), a successful `write(i, buf, s)` changes the number of set bits
of the data bitmap by exactly `ceil(s / B) - ceil(old / B)` and leaves the
inode packed with size `s`, i.e. with exactly `ceil(s / B)` nonzero, pairwise
distinct pointers whose bits are set; a second `write(i, buf, s)` then returns
and leaves the number of set bits unchanged. -/
theorem write_no_block_leak (d d' : Disk) (i : Int) (buf : Block) (s r : Int)
    (hwf : WF d) (hi : 0 ≤ i ∧ i < (superOf d).num_inodes)
    (hty : (inodeOf d i.toNat).type = UFS_REGULAR_FILE)
    (hs : 0 ≤ s ∧ s ≤ (MAX_FILE_SIZE : Int)) (hp : packedFile d i.toNat)
    (h : write d i buf s = some (d', r)) (hr : 0 ≤ r) :
    (numUsedData d' : Int)
        = numUsedData d + ceilBlocks s - ceilBlocks (inodeOf d i.toNat).size
    ∧ (inodeOf d' i.toNat).size = s
    ∧ packedFile d' i.toNat
    ∧ ∃ d'' r', write d' i buf s = some (d'', r') ∧ numUsedData d'' = numUsedData d' := by
  obtain ⟨hwf', hsup, hty', hsz, hp', hcount⟩ := write_accounting d d' i buf s r hwf hi hty hs hp h hr
  refine ⟨hcount, hsz, hp', ?_⟩
  obtain ⟨d'', r', h2, hcase⟩ := write_total d' i buf s hwf' ⟨hi.1, by rw [hsup]; exact hi.2⟩
    hty' hs hp'
  refine ⟨d'', r', h2, ?_⟩
  rcases hcase with ⟨_, heq⟩ | hr'
  · rw [heq]
  · obtain ⟨_, _, _, _, _, hc2⟩ := write_accounting d' d'' i buf s r' hwf'
      ⟨hi.1, by rw [hsup]; exact hi.2⟩ hty' hs hp' h2 hr'
    rw [hsz] at hc2
    omega

/-! ## Global invariants on concrete images -/

set_option maxRecDepth 100000 in
/-- Counterexample to C9 as stated: `imgStale` satisfies (I1)-(I6), inode 1 is
a live regular file of size 0, `write(1, buf, 0)` succeeds, and afterwards the
inode still has the nonzero pointer `direct[0] = 5` although `ceil(0 / B) = 0`. -/
theorem write_keeps_stale_pointer :
    GlobalInv imgStale
    ∧ inodeBit imgStale 1 = true
    ∧ (inodeOf imgStale 1).type = UFS_REGULAR_FILE
    ∧ (inodeOf imgStale 1).size = 0
    ∧ retOf (write imgStale 1 zeroBlock 0) = some 0
    ∧ ceilBlocks 0 = 0
    ∧ (inodeOf (diskOf (write imgStale 1 zeroBlock 0) imgStale) 1).direct 0 = 5 := by
  decide!

/-- Witness for C9 (amended) on `imgOneFile`: five bytes are written to the
empty file of inode 1. -/
theorem write_no_block_leak_witness :
    WF imgOneFile
    ∧ packedFile imgOneFile (1 : Int).toNat
    ∧ retOf (write imgOneFile 1 helloBuf 5) = some 5
    ∧ ((numUsedData (diskOf (write imgOneFile 1 helloBuf 5) imgOneFile) : Int)
          = numUsedData imgOneFile + ceilBlocks 5
            - ceilBlocks (inodeOf imgOneFile (1 : Int).toNat).size
        ∧ (inodeOf (diskOf (write imgOneFile 1 helloBuf 5) imgOneFile) (1 : Int).toNat).size = 5
        ∧ packedFile (diskOf (write imgOneFile 1 helloBuf 5) imgOneFile) (1 : Int).toNat
        ∧ ∃ d'' r', write (diskOf (write imgOneFile 1 helloBuf 5) imgOneFile) 1 helloBuf 5
              = some (d'', r')
            ∧ numUsedData d'' = numUsedData (diskOf (write imgOneFile 1 helloBuf 5) imgOneFile)) :=
  ⟨by decide, by decide, by decide,
    write_no_block_leak imgOneFile (diskOf (write imgOneFile 1 helloBuf 5) imgOneFile) 1
      helloBuf 5 5 (by decide) (by decide) (by decide) (by decide) (by decide)
      (eq_some_of_retOf imgOneFile (by decide)) (by decide)⟩

/-! ## Failure paths that change the device -/

set_option maxRecDepth 100000 in
/-- C3 (code defect): on `imgNested`, which satisfies (I1)-(I6), the entry `a`
of the root refers to the directory inode 1 of size `3 * sizeof(entry)`;
`unlink(0, "a")` returns DIR_NOT_EMPTY, but the root's data block (block 4) has
changed: the name byte of the entry, 97 before the call, is 0 after it, and
`lookup(0, "a")` no longer finds the directory. -/
theorem unlink_nonempty_dir_changes_device :
    GlobalInv imgNested
    ∧ lookup imgNested 0 [97] = some 1
    ∧ (inodeOf imgNested 1).type = UFS_DIRECTORY
    ∧ (inodeOf imgNested 1).size = 3 * SIZEOF_DIR_ENT
    ∧ retOf (unlink imgNested 0 [97]) = some (-EDIRNOTEMPTY)
    ∧ imgNested.blocks 4 68 = 97
    ∧ (diskOf (unlink imgNested 0 [97]) imgNested).blocks 4 68 = 0
    ∧ lookup (diskOf (unlink imgNested 0 [97]) imgNested) 0 [97] = some (-ENOTFOUND) := by
  decide!

set_option maxRecDepth 100000 in
/-- C4 (code defect): on `imgNoSpace`, a fresh image without a free data block,
`create(0, DIRECTORY, "a")` returns NOT_ENOUGH_SPACE, but the root's data block
(block 4) has changed: the entry `a` has been written into it (name byte 97 at
offset 68, which was 0). -/
theorem create_failure_changes_device :
    GlobalInv imgNoSpace
    ∧ retOf (create imgNoSpace 0 UFS_DIRECTORY [97]) = some (-ENOTENOUGHSPACE)
    ∧ imgNoSpace.blocks 4 68 = 0
    ∧ (diskOf (create imgNoSpace 0 UFS_DIRECTORY [97]) imgNoSpace).blocks 4 68 = 97 := by
  decide!

/-! ## Unlink of a missing name -/

theorem findFirst_eq_none {p : Nat → Bool} {n : Nat} (h : ∀ j, j < n → p j = false) :
    findFirst p n = none := by
  cases hf : findFirst p n with
  | none => rfl
  | some j =>
    obtain ⟨h1, h2, _⟩ := findFirst_some hf
    rw [h j h1] at h2
    cases h2

theorem lookupLoop_notFound (d : Disk) (ino : inode_t) (name : List Nat) (n : Nat) :
    ∀ k i : Nat, i + k ≤ 30 →
      (∀ t, i ≤ t → t < i + k → ∃ blk, d.readBlock (toI32 (ino.direct t)) = some blk
        ∧ ∀ j, j < n → entName blk j ≠ name) →
      lookupLoop d ino name n i k = some (-ENOTFOUND) := by
  intro k
  induction k with
  | zero =>
    intro i _ _
    unfold lookupLoop
    rfl
  | succ k ih =>
    intro i hik h
    obtain ⟨blk, hb1, hb2⟩ := h i (le_refl _) (by omega)
    unfold lookupLoop
    simp only [DIRECT_PTRS]
    rw [if_neg (by omega), hb1]
    simp only
    rw [findFirst_eq_none (by
      intro j hj
      simp only [decide_eq_false_iff_not]
      exact fun hc => hb2 j hj hc.symm)]
    simp only
    exact ih (i + 1) (by omega) (fun t ht1 ht2 => h t (by omega) (by omega))

theorem tailEntries_eq {size : Int} (h : 0 ≤ size) :
    tailEntries size = (size % 4096 / 32).toNat := by
  unfold tailEntries toU64
  rw [cmod_of_nonneg h (by simp [UFS_BLOCK_SIZE])]
  simp only [UFS_BLOCK_SIZE, SIZEOF_DIR_ENT, Nat.cast_ofNat]
  omega

/-- Unlink of a missing name that the guard of `unlink` admits (see C10): for
an in-range parent whose inode is a DIRECTORY with a size in `[0, D * B]` and
with the first `ceil(size / B)` pointers inside the device, and for every
nonempty name of fewer than `NAME_MAX - 1` characters, other than `.` and `..`,
that no valid entry of the parent carries, `unlink(parent, name)` returns 0 and
leaves the device unchanged. -/
theorem unlink_missing_name (d : Disk) (p : Int) (name : List Nat) (hwf : WF d)
    (hp : 0 ≤ p ∧ p < (superOf d).num_inodes)
    (hty : (inodeOf d p.toNat).type = UFS_DIRECTORY)
    (hsz : 0 ≤ (inodeOf d p.toNat).size ∧ (inodeOf d p.toNat).size ≤ (MAX_FILE_SIZE : Int))
    (hptr : ∀ t : Nat, (t : Int) < ceilBlocks (inodeOf d p.toNat).size →
      (inodeOf d p.toNat).direct t < d.numberOfBlocks)
    (hname : name ≠ [] ∧ name.length < DIR_ENT_NAME_SIZE - 1)
    (hdot : name ≠ [46] ∧ name ≠ [46, 46])
    (hmiss : ∀ idx, idx < dirCount (inodeOf d p.toNat) →
      dirEntName d (inodeOf d p.toNat) idx ≠ name) :
    unlink d p name = some (d, 0) := by
  have hwf0 := hwf
  unfold WF at hwf0
  have hcb := ceilBlocks_bounds hsz
  have hlook : lookup d p name = some (-ENOTFOUND) := by
    unfold lookup
    rw [wf_readSuper hwf]
    simp only
    rw [if_neg (by omega), wf_stat hwf hp.1 hp.2]
    simp only
    rw [if_neg (by simp), if_neg (by rw [hty]; simp), blocksOf_eq hsz.1]
    apply lookupLoop_notFound _ _ _ _ _ _ (by omega)
    intro t _ ht
    have hpt := hptr t (by omega)
    refine ⟨d.blocks ((inodeOf d p.toNat).direct t), ?_, ?_⟩
    · rw [toI32_of_lt (by omega), readBlock_eq (by omega) (by omega)]
      simp only [Int.toNat_ofNat]
    · intro j hj
      rw [tailEntries_eq hsz.1] at hj
      have hidx : t * 128 + j < dirCount (inodeOf d p.toNat) := by
        unfold dirCount
        simp only [ceilBlocks, MAX_FILE_SIZE, DIRECT_PTRS, UFS_BLOCK_SIZE, SIZEOF_DIR_ENT,
          Nat.cast_ofNat] at ht hsz ⊢
        omega
      have := hmiss _ hidx
      unfold dirEntName at this
      have e0 : UFS_BLOCK_SIZE / SIZEOF_DIR_ENT = 128 := by simp [UFS_BLOCK_SIZE, SIZEOF_DIR_ENT]
      rw [e0] at this
      have e1 : (t * 128 + j) / 128 = t := by omega
      have e2 : (t * 128 + j) % 128 = j := by omega
      rw [e1, e2] at this
      exact this
  unfold unlink
  rw [if_neg (by
    intro h
    rcases h with h | h
    · exact hdot.1 h
    · exact hdot.2 h), wf_readSuper hwf]
  simp only
  rw [if_neg (by omega), if_neg (by
    intro h
    rcases h with h | h
    · exact hname.1 h
    · have := hname.2
      simp only [DIR_ENT_NAME_SIZE, Nat.cast_ofNat] at h this
      omega), wf_stat hwf hp.1 hp.2]
  simp only
  rw [if_neg (by
    intro h
    rcases h with h | h
    · omega
    · exact h hty), hlook]
  simp only
  rw [if_pos (by simp [ENOTFOUND])]

set_option maxRecDepth 100000 in
/-- C10 (code defect): on a fresh image with 32 inodes and 8 data blocks, which
satisfies (I1)-(I6), the root is a directory and the name of 27 characters `a`
is nonempty, shorter than `NAME_MAX = 28`, neither `.` nor `..` and carried by
no entry of the root, yet `unlink(0, name)` returns INVALID_NAME, not 0: the
guard of `unlink` turns away every name of `DIR_ENT_NAME_SIZE - 1` characters
or more. -/
theorem unlink_missing_long_name :
    GlobalInv (mkfs 32 8)
    ∧ (inodeOf (mkfs 32 8) 0).type = UFS_DIRECTORY
    ∧ name27 ≠ [] ∧ name27.length < DIR_ENT_NAME_SIZE
    ∧ name27 ≠ [46] ∧ name27 ≠ [46, 46]
    ∧ (∀ idx, idx < dirCount (inodeOf (mkfs 32 8) 0) →
        dirEntName (mkfs 32 8) (inodeOf (mkfs 32 8) 0) idx ≠ name27)
    ∧ retOf (unlink (mkfs 32 8) 0 name27) = some (-EINVALIDNAME) := by
  decide!

set_option maxRecDepth 100000 in
/-- An instance of `unlink_missing_name`: the name `x` is not in the root of
a fresh image. -/
theorem unlink_missing_name_witness :
    WF (mkfs 32 8)
    ∧ (inodeOf (mkfs 32 8) (0 : Int).toNat).type = UFS_DIRECTORY
    ∧ (∀ idx, idx < dirCount (inodeOf (mkfs 32 8) (0 : Int).toNat) →
        dirEntName (mkfs 32 8) (inodeOf (mkfs 32 8) (0 : Int).toNat) idx ≠ [120])
    ∧ unlink (mkfs 32 8) 0 [120] = some (mkfs 32 8, 0) :=
  ⟨by decide!, by decide!, by decide!,
    unlink_missing_name (mkfs 32 8) 0 [120] (by decide!) (by decide!) (by decide!) (by decide!)
      (by
        intro t ht
        have h3 : (inodeOf (mkfs 32 8) (0 : Int).toNat).size = 64 := by decide!
        have h4 : ∀ t, t < 1 → (inodeOf (mkfs 32 8) (0 : Int).toNat).direct t
            < (mkfs 32 8).numberOfBlocks := by decide!
        rw [h3] at ht
        simp only [ceilBlocks, UFS_BLOCK_SIZE, Nat.cast_ofNat] at ht
        exact h4 t (by omega))
      (by decide!) (by decide!) (by decide!)⟩

/-! ## The crowded root directory -/

theorem cstr_congr (b b' : Block) :
    ∀ n off : Nat, (∀ o, off ≤ o → o < off + n → b o = b' o) → cstr b off n = cstr b' off n := by
  intro n
  induction n with
  | zero => intro off _; rfl
  | succ n ih =>
    intro off h
    unfold cstr
    rw [h off (le_refl _) (by omega), ih (off + 1) (fun o h1 h2 => h o (by omega) (by omega))]

theorem entName_congr (b b' : Block) (j : Nat)
    (h : ∀ o, 32 * j ≤ o → o < 32 * j + 32 → b o = b' o) : entName b j = entName b' j := by
  unfold entName
  apply cstr_congr
  intro o h1 h2
  simp only [SIZEOF_DIR_ENT, ENT_NAME_OFF, DIR_ENT_NAME_SIZE] at h1 h2
  exact h o (by omega) (by omega)

theorem getU32_congr (b b' : Block) (off : Nat)
    (h : ∀ o, off ≤ o → o < off + 4 → b o = b' o) : getU32 b off = getU32 b' off := by
  unfold getU32
  rw [h off (by omega) (by omega), h (off + 1) (by omega) (by omega),
    h (off + 2) (by omega) (by omega), h (off + 3) (by omega) (by omega)]

theorem entInum_congr (b b' : Block) (j : Nat)
    (h : ∀ o, 32 * j ≤ o → o < 32 * j + 32 → b o = b' o) : entInum b j = entInum b' j := by
  unfold entInum getI32
  rw [getU32_congr b b' _ (fun o h1 h2 => h o (by
    simp only [SIZEOF_DIR_ENT, ENT_INUM_OFF] at h1; omega) (by
    simp only [SIZEOF_DIR_ENT, ENT_INUM_OFF] at h2; omega))]

theorem inodeBlockImage_wrap (super : super_t) (inodes : Nat → inode_t) (i : Nat) :
    (fun off => if off < UFS_BLOCK_SIZE then inodeBlockImage super inodes i off else 0)
      = inodeBlockImage super inodes i := by
  funext off
  by_cases h : off < UFS_BLOCK_SIZE
  · rw [if_pos h]
  · rw [if_neg h]
    unfold inodeBlockImage
    rw [if_neg (fun hc => h hc.2)]

set_option maxRecDepth 100000 in
theorem crowded_super (n : Nat) : superOf (crowdedImg n) = mkSuper 128 8 := by
  show decodeSuper (superImage (mkSuper 128 8)) = mkSuper 128 8
  have h1 : (decodeSuper (superImage (mkSuper 128 8))).inode_bitmap_addr = 1 := by decide!
  have h2 : (decodeSuper (superImage (mkSuper 128 8))).inode_bitmap_len = 1 := by decide!
  have h3 : (decodeSuper (superImage (mkSuper 128 8))).data_bitmap_addr = 2 := by decide!
  have h4 : (decodeSuper (superImage (mkSuper 128 8))).data_bitmap_len = 1 := by decide!
  have h5 : (decodeSuper (superImage (mkSuper 128 8))).inode_region_addr = 3 := by decide!
  have h6 : (decodeSuper (superImage (mkSuper 128 8))).inode_region_len = 4 := by decide!
  have h7 : (decodeSuper (superImage (mkSuper 128 8))).data_region_addr = 7 := by decide!
  have h8 : (decodeSuper (superImage (mkSuper 128 8))).num_inodes = 128 := by decide!
  have h9 : (decodeSuper (superImage (mkSuper 128 8))).num_data = 8 := by decide!
  cases hd : decodeSuper (superImage (mkSuper 128 8))
  rw [hd] at h1 h2 h3 h4 h5 h6 h7 h8 h9
  simp only at h1 h2 h3 h4 h5 h6 h7 h8 h9
  subst h1 h2 h3 h4 h5 h6 h7 h8 h9
  rfl

theorem crowded_wf (n : Nat) : WF (crowdedImg n) := by
  unfold WF
  rw [crowded_super]
  simp only [mkSuper, crowdedImg, disjointRanges]
  norm_num

theorem crowded_inode (n k : Nat) (hk : k < 128) :
    inodeOf (crowdedImg n) k = normInode (crowdedInodes n k) := by
  unfold inodeOf
  rw [crowded_super]
  have e0 : UFS_BLOCK_SIZE / SIZEOF_INODE = 32 := by simp [UFS_BLOCK_SIZE, SIZEOF_INODE]
  have hd := decode_image (mkSuper 128 8) (crowdedInodes n) k (by simp [mkSuper]; omega)
  rw [inodeBlockImage_wrap, e0] at hd
  rw [e0]
  have hb : (crowdedImg n).blocks ((mkSuper 128 8).inode_region_addr.toNat + k / 32)
      = inodeBlockImage (mkSuper 128 8) (crowdedInodes n) (k / 32) := by
    have e1 : (mkSuper 128 8).inode_region_addr.toNat = 3 := by simp [mkSuper]
    rw [e1]
    simp only [crowdedImg]
    rw [if_neg (by omega), if_neg (by omega), if_neg (by omega), if_pos (by omega)]
    have e2 : 3 + k / 32 - 3 = k / 32 := by omega
    rw [e2]
  rw [hb]
  exact hd

theorem crowded_inodeBit (n k : Nat) (hk : k < 128) :
    inodeBit (crowdedImg n) k = decide (k < n - 1) := by
  unfold inodeBit
  rw [bitClear_eq, crowded_super]
  unfold regionByte
  have e1 : (mkSuper 128 8).inode_bitmap_addr.toNat = 1 := by simp [mkSuper]
  have e2 : k / 8 / UFS_BLOCK_SIZE = 0 := by simp only [UFS_BLOCK_SIZE]; omega
  have e3 : k / 8 % UFS_BLOCK_SIZE = k / 8 := by simp only [UFS_BLOCK_SIZE]; omega
  rw [e1, e2, e3]
  show (!!Nat.testBit (2 ^ (min 8 (n - 1 - 8 * (k / 8))) - 1) (k % 8)) = _
  simp only [Bool.not_not]
  rw [Nat.testBit_two_pow_sub_one, decide_eq_decide, lt_min_iff]
  constructor
  · intro h
    omega
  · intro h
    constructor <;> omega

theorem crowded_dataBit0 (n : Nat) : dataBit (crowdedImg n) 0 = true := by
  unfold dataBit
  rw [bitClear_eq, crowded_super]
  unfold regionByte
  have e1 : (mkSuper 128 8).data_bitmap_addr.toNat = 2 := by simp [mkSuper]
  rw [e1]
  show (!!Nat.testBit 1 0) = true
  decide

set_option maxRecDepth 100000 in
theorem crowdedBlock_names :
    ∀ idx, idx < 128 →
      entName crowdedBlock idx = crowdedName idx ∧ entInum crowdedBlock idx = crowdedInum idx := by
  decide!

theorem crowded_entry (n idx : Nat) (hn : n ≤ 128) (hidx : idx < n) :
    dirEntName (crowdedImg n) (inodeOf (crowdedImg n) 0) idx = crowdedName idx
    ∧ dirEntInum (crowdedImg n) (inodeOf (crowdedImg n) 0) idx = crowdedInum idx := by
  unfold dirEntName dirEntInum
  rw [crowded_inode n 0 (by omega)]
  have e0 : UFS_BLOCK_SIZE / SIZEOF_DIR_ENT = 128 := by simp [UFS_BLOCK_SIZE, SIZEOF_DIR_ENT]
  have e1 : idx / 128 = 0 := by omega
  have e2 : idx % 128 = idx := by omega
  rw [e0, e1, e2]
  have hd : (normInode (crowdedInodes n 0)).direct 0 = 7 := by
    simp [normInode, crowdedInodes, DIRECT_PTRS]
  rw [hd]
  have hb : ∀ o, 32 * idx ≤ o → o < 32 * idx + 32 →
      (crowdedImg n).blocks 7 o = crowdedBlock o := by
    intro o _ h2
    show (if o < SIZEOF_DIR_ENT * n then crowdedBlock o else 0) = _
    rw [if_pos (by simp only [SIZEOF_DIR_ENT]; omega)]
  rw [entName_congr _ _ _ hb, entInum_congr _ _ _ hb]
  exact crowdedBlock_names idx (by omega)

theorem crowdedName_inj (i1 i2 : Nat) (h1 : i1 < 128) (h2 : i2 < 128)
    (h : crowdedName i1 = crowdedName i2) : i1 = i2 := by
  unfold crowdedName at h
  split at h <;> split at h <;> try split at h <;> try split at h
  all_goals first
    | omega
    | (simp only [List.cons.injEq, and_true, List.cons_ne_nil, and_false, List.ne_cons_self,
        reduceCtorEq] at h; omega)
    | (simp at h; omega)
    | (simp at h)

/-! ## The invariants of the crowded root directory -/

theorem crowded_live (n k : Nat) (hk : k < 128)
    (h : inodeBit (crowdedImg n) k = true) : k < n - 1 := by
  rw [crowded_inodeBit n k hk] at h
  exact of_decide_eq_true h

theorem crowded_num (n : Nat) : (superOf (crowdedImg n)).num_inodes.toNat = 128 := by
  rw [crowded_super]; rfl

theorem crowded_direct (n k t : Nat) (hk : k < 128)
    (h : (inodeOf (crowdedImg n) k).direct t ≠ 0) :
    k = 0 ∧ t = 0 ∧ (inodeOf (crowdedImg n) k).direct t = 7 := by
  rw [crowded_inode n k hk] at h ⊢
  unfold normInode crowdedInodes zeroInode at h ⊢
  by_cases hk0 : k = 0
  · subst hk0
    simp only [if_true] at h ⊢
    by_cases ht : t = 0
    · subst ht
      refine ⟨by trivial, by trivial, by simp [DIRECT_PTRS]⟩
    · exfalso; apply h; simp [ht]
  · exfalso; apply h
    rw [if_neg hk0]
    split <;> simp

theorem crowded_dir (n k : Nat) (hn : 2 ≤ n) (hn2 : n ≤ 128) (hk : k < 128)
    (hb : inodeBit (crowdedImg n) k = true)
    (h : (inodeOf (crowdedImg n) k).type = UFS_DIRECTORY) :
    k = 0 ∧ (inodeOf (crowdedImg n) 0).size = 32 * (n : Int) := by
  have hl := crowded_live n k hk hb
  constructor
  · rw [crowded_inode n k hk] at h
    unfold normInode crowdedInodes at h
    by_contra hk0
    rw [if_neg hk0, if_pos hl] at h
    simp only [UFS_REGULAR_FILE, UFS_DIRECTORY] at h
    revert h
    decide
  · rw [crowded_inode n 0 (by omega)]
    unfold normInode crowdedInodes
    simp only [if_true, SIZEOF_DIR_ENT, Nat.cast_ofNat]
    rw [toI32_toU32 (by omega) (by omega)]
    ring

theorem crowded_dirCount (n : Nat) (h : (inodeOf (crowdedImg n) 0).size = 32 * (n : Int)) :
    dirCount (inodeOf (crowdedImg n) 0) = n := by
  unfold dirCount
  rw [h]
  simp only [SIZEOF_DIR_ENT, Nat.cast_ofNat]
  omega

theorem crowded_globalInv (n : Nat) (hn : 2 ≤ n) (hn2 : n ≤ 128) : GlobalInv (crowdedImg n) := by
  refine ⟨crowded_wf n, ?_, ?_, ?_, ?_, ?_, ?_⟩
  · intro k hk hb
    rw [crowded_num] at hk
    have hl := crowded_live n k hk hb
    constructor
    · rw [crowded_inode n k hk]
      unfold normInode crowdedInodes
      by_cases hk0 : k = 0
      · right; rw [if_pos hk0]; rfl
      · left; rw [if_neg hk0, if_pos hl]; rfl
    · intro t _ hne
      obtain ⟨_, _, e⟩ := crowded_direct n k t hk hne
      rw [e]
      unfold allocated
      rw [crowded_super]
      refine ⟨by decide, by decide, ?_⟩
      exact crowded_dataBit0 n
  · intro k1 hk1 _ t1 _ hne1 k2 hk2 _ t2 _ he
    rw [crowded_num] at hk1 hk2
    obtain ⟨a1, a2, _⟩ := crowded_direct n k1 t1 hk1 hne1
    obtain ⟨b1, b2, _⟩ := crowded_direct n k2 t2 hk2 (he ▸ hne1)
    omega
  · intro k hk hb ht
    rw [crowded_num] at hk
    obtain ⟨hk0, hs⟩ := crowded_dir n k hn hn2 hk hb ht
    subst hk0
    rw [hs]
    simp only [SIZEOF_DIR_ENT, MAX_FILE_SIZE, DIRECT_PTRS, UFS_BLOCK_SIZE, Nat.cast_ofNat]
    omega
  · intro k hk hb ht
    rw [crowded_num] at hk
    obtain ⟨hk0, hs⟩ := crowded_dir n k hn hn2 hk hb ht
    subst hk0
    rw [crowded_dirCount n hs]
    constructor
    · refine ⟨0, by omega, ?_, ?_⟩
      · rw [(crowded_entry n 0 hn2 (by omega)).1]; rfl
      · rw [(crowded_entry n 0 hn2 (by omega)).2]; rfl
    · refine ⟨1, by omega, ?_, fun _ => rfl⟩
      rw [(crowded_entry n 1 hn2 (by omega)).1]; rfl
  · intro k hk hb ht
    rw [crowded_num] at hk
    obtain ⟨hk0, hs⟩ := crowded_dir n k hn hn2 hk hb ht
    subst hk0
    rw [crowded_dirCount n hs]
    intro i1 h1 i2 h2 he
    rw [(crowded_entry n i1 hn2 h1).1, (crowded_entry n i2 hn2 h2).1] at he
    exact crowdedName_inj i1 i2 (by omega) (by omega) he
  · intro k hk hb ht
    rw [crowded_num] at hk
    obtain ⟨hk0, hs⟩ := crowded_dir n k hn hn2 hk hb ht
    subst hk0
    rw [crowded_dirCount n hs]
    intro idx h1
    rw [(crowded_entry n idx hn2 h1).1]
    unfold crowdedName
    simp only [DIR_ENT_NAME_SIZE]
    split
    · simp
    · split <;> simp

/-! ## Create then lookup -/

set_option maxRecDepth 100000 in
/-- C2 (code defect): `crowdedImg 127` satisfies the global invariants and its
root is a live directory of 127 entries in one block. `create(0, REGULAR_FILE,
"new")` succeeds and returns 126; the entry fills the last slot of the block, so
the root's size becomes `B`. `lookup(0, "new")` in the resulting state then
returns NOT_FOUND instead of 126. -/
theorem create_then_lookup_not_found :
    GlobalInv (crowdedImg 127)
    ∧ inodeBit (crowdedImg 127) 0 = true
    ∧ (inodeOf (crowdedImg 127) 0).type = UFS_DIRECTORY
    ∧ retOf (create (crowdedImg 127) 0 UFS_REGULAR_FILE [110, 101, 119]) = some 126
    ∧ (inodeOf (diskOf (create (crowdedImg 127) 0 UFS_REGULAR_FILE [110, 101, 119])
        (crowdedImg 127)) 0).size = UFS_BLOCK_SIZE
    ∧ lookup (diskOf (create (crowdedImg 127) 0 UFS_REGULAR_FILE [110, 101, 119])
        (crowdedImg 127)) 0 [110, 101, 119] = some (-ENOTFOUND) :=
  ⟨crowded_globalInv 127 (by decide) (by decide), by decide!⟩

/-! ## Create followed by unlink: region writes -/

theorem putRegion_nblocks (d : Disk) (start k : Nat) (buf : Block) :
    (putRegion d start buf k).numberOfBlocks = d.numberOfBlocks := rfl

theorem putInodes_nblocks (d : Disk) (super : super_t) (inodes : Nat → inode_t) (k : Nat) :
    (putInodes d super inodes k).numberOfBlocks = d.numberOfBlocks := rfl

theorem putBlock_nblocks (d : Disk) (n : Nat) (buf : Block) :
    (putBlock d n buf).numberOfBlocks = d.numberOfBlocks := rfl

theorem putBlock_other (d : Disk) (n m : Nat) (buf : Block) (h : m ≠ n) :
    (putBlock d n buf).blocks m = d.blocks m := by
  unfold putBlock
  simp only
  rw [if_neg h]

theorem putBlock_same (d : Disk) (n : Nat) (buf : Block) (o : Nat) (ho : o < UFS_BLOCK_SIZE) :
    (putBlock d n buf).blocks n o = buf o := by
  unfold putBlock
  simp only [if_true]
  rw [if_pos ho]

/-- The three region writes in the order of `create`. -/
theorem committed_create {d : Disk} (hwf : WF d) (d0 : Disk) (inodes : Nat → inode_t)
    (ibm dbm : Block) :
    Committed
      (putRegion (putRegion (putInodes d0 (superOf d) inodes (superOf d).inode_region_len.toNat)
        (superOf d).inode_bitmap_addr.toNat ibm (superOf d).inode_bitmap_len.toNat)
        (superOf d).data_bitmap_addr.toNat dbm (superOf d).data_bitmap_len.toNat)
      d0 (superOf d) inodes ibm dbm := by
  unfold WF at hwf
  unfold disjointRanges at hwf
  refine ⟨rfl, ?_, ?_, ?_, ?_⟩
  · intro m o h1 h2 ho
    rw [putRegion_out _ _ _ _ _ (by omega), putRegion_in _ _ _ _ _ _ h1 h2 ho]
  · intro m o h1 h2 ho
    rw [putRegion_in _ _ _ _ _ _ h1 h2 ho]
  · intro m h1 h2
    rw [putRegion_out _ _ _ _ _ (by omega), putRegion_out _ _ _ _ _ (by omega),
      putInodes_in _ _ _ _ _ h1 h2]
  · intro m h1 h2 h3
    rw [putRegion_out _ _ _ _ _ h2, putRegion_out _ _ _ _ _ h1, putInodes_out _ _ _ _ _ h3]

/-- The three region writes in the order of `unlink`. -/
theorem committed_unlink {d : Disk} (hwf : WF d) (d0 : Disk) (inodes : Nat → inode_t)
    (ibm dbm : Block) :
    Committed
      (putInodes (putRegion (putRegion d0
        (superOf d).data_bitmap_addr.toNat dbm (superOf d).data_bitmap_len.toNat)
        (superOf d).inode_bitmap_addr.toNat ibm (superOf d).inode_bitmap_len.toNat)
        (superOf d) inodes (superOf d).inode_region_len.toNat)
      d0 (superOf d) inodes ibm dbm := by
  unfold WF at hwf
  unfold disjointRanges at hwf
  refine ⟨rfl, ?_, ?_, ?_, ?_⟩
  · intro m o h1 h2 ho
    rw [putInodes_out _ _ _ _ _ (by omega), putRegion_in _ _ _ _ _ _ h1 h2 ho]
  · intro m o h1 h2 ho
    rw [putInodes_out _ _ _ _ _ (by omega), putRegion_out _ _ _ _ _ (by omega),
      putRegion_in _ _ _ _ _ _ h1 h2 ho]
  · intro m h1 h2
    rw [putInodes_in _ _ _ _ _ h1 h2]
  · intro m h1 h2 h3
    rw [putInodes_out _ _ _ _ _ h3, putRegion_out _ _ _ _ _ h1, putRegion_out _ _ _ _ _ h2]

theorem committed_block0 {d d1 d0 : Disk} (hwf : WF d) {inodes : Nat → inode_t}
    {ibm dbm : Block} (hc : Committed d1 d0 (superOf d) inodes ibm dbm) :
    d1.blocks 0 = d0.blocks 0 := by
  unfold WF at hwf
  exact hc.2.2.2.2 0 (by omega) (by omega) (by omega)

theorem committed_super {d d1 d0 : Disk} (hwf : WF d) {inodes : Nat → inode_t}
    {ibm dbm : Block} (hc : Committed d1 d0 (superOf d) inodes ibm dbm)
    (h0 : d0.blocks 0 = d.blocks 0) : superOf d1 = superOf d :=
  superOf_of_block0 ((committed_block0 hwf hc).trans h0)

theorem committed_wf {d d1 d0 : Disk} (hwf : WF d) {inodes : Nat → inode_t}
    {ibm dbm : Block} (hc : Committed d1 d0 (superOf d) inodes ibm dbm)
    (hn : d0.numberOfBlocks = d.numberOfBlocks) (h0 : d0.blocks 0 = d.blocks 0) : WF d1 :=
  wf_of_same hwf (hc.1.trans hn) (committed_super hwf hc h0)

theorem committed_data {d d1 d0 : Disk} (hwf : WF d) {inodes : Nat → inode_t}
    {ibm dbm : Block} (hc : Committed d1 d0 (superOf d) inodes ibm dbm) {m : Nat}
    (h1 : (superOf d).data_region_addr ≤ (m : Int))
    (h2 : (m : Int) < (superOf d).data_region_addr + (superOf d).num_data) :
    d1.blocks m = d0.blocks m := by
  unfold WF at hwf
  unfold disjointRanges at hwf
  exact hc.2.2.2.2 m (by omega) (by omega) (by omega)

theorem committed_inode {d d1 d0 : Disk} (hwf : WF d) {inodes : Nat → inode_t}
    {ibm dbm : Block} (hc : Committed d1 d0 (superOf d) inodes ibm dbm)
    (h0 : d0.blocks 0 = d.blocks 0) {k : Nat} (hk : (k : Int) < (superOf d).num_inodes) :
    inodeOf d1 k = normInode (inodes k) := by
  unfold inodeOf
  rw [committed_super hwf hc h0]
  have hwf' := hwf
  unfold WF at hwf'
  have e0 : UFS_BLOCK_SIZE / SIZEOF_INODE = 32 := by simp [UFS_BLOCK_SIZE, SIZEOF_INODE]
  rw [e0, hc.2.2.2.1 _ (by omega) (by omega)]
  have e1 : (superOf d).inode_region_addr.toNat + k / 32
      - (superOf d).inode_region_addr.toNat = k / 32 := by omega
  rw [e1]
  have hd := decode_image (superOf d) inodes k hk
  rw [e0] at hd
  exact hd

theorem committed_recByte {d d1 d0 : Disk} (hwf : WF d) {inodes : Nat → inode_t}
    {ibm dbm : Block} (hc : Committed d1 d0 (superOf d) inodes ibm dbm)
    (h0 : d0.blocks 0 = d.blocks 0) {k off : Nat} (hk : (k : Int) < (superOf d).num_inodes)
    (hoff : off < SIZEOF_INODE) :
    inodeRecByte d1 k off = inodeByte (inodes k) off := by
  unfold inodeRecByte
  rw [committed_super hwf hc h0]
  have hwf' := hwf
  unfold WF at hwf'
  have e0 : UFS_BLOCK_SIZE / SIZEOF_INODE = 32 := by simp [UFS_BLOCK_SIZE, SIZEOF_INODE]
  rw [e0, hc.2.2.2.1 _ (by omega) (by omega)]
  have e1 : (superOf d).inode_region_addr.toNat + k / 32
      - (superOf d).inode_region_addr.toNat = k / 32 := by omega
  rw [e1]
  simp only [SIZEOF_INODE] at hoff
  have hlt : k % 32 * SIZEOF_INODE + off < UFS_BLOCK_SIZE := by
    simp only [SIZEOF_INODE, UFS_BLOCK_SIZE]; omega
  simp only
  rw [if_pos hlt]
  unfold inodeBlockImage
  have e2 : (k % 32 * SIZEOF_INODE + off) / SIZEOF_INODE = k % 32 := by
    simp only [SIZEOF_INODE]; omega
  have e3 : (k % 32 * SIZEOF_INODE + off) % SIZEOF_INODE = off := by
    simp only [SIZEOF_INODE]; omega
  have e4 : k / 32 * 32 + k % 32 = k := by omega
  rw [e0, e2, e3, e4, if_pos ⟨hk, hlt⟩]

theorem committed_inodeBit {d d1 d0 : Disk} (hwf : WF d) {inodes : Nat → inode_t}
    {ibm dbm : Block} (hc : Committed d1 d0 (superOf d) inodes ibm dbm)
    (h0 : d0.blocks 0 = d.blocks 0) {j : Nat}
    (hj : (j : Int) < 32768 * (superOf d).inode_bitmap_len) :
    inodeBit d1 j = !bitClear ibm j := by
  unfold inodeBit
  rw [committed_super hwf hc h0]
  have hwf' := hwf
  unfold WF at hwf'
  have hb : regionByte d1 (superOf d).inode_bitmap_addr (j / 8) = ibm (j / 8) := by
    unfold regionByte
    have hB : UFS_BLOCK_SIZE = 4096 := rfl
    rw [hB, hc.2.1 _ _ (by omega) (by omega) (by rw [hB]; omega), hB]
    have e1 : ((superOf d).inode_bitmap_addr.toNat + j / 8 / 4096
        - (superOf d).inode_bitmap_addr.toNat) * 4096 + j / 8 % 4096 = j / 8 := by omega
    rw [e1]
  unfold bitClear
  rw [hb]

theorem committed_dataBit {d d1 d0 : Disk} (hwf : WF d) {inodes : Nat → inode_t}
    {ibm dbm : Block} (hc : Committed d1 d0 (superOf d) inodes ibm dbm)
    (h0 : d0.blocks 0 = d.blocks 0) {j : Nat}
    (hj : (j : Int) < 32768 * (superOf d).data_bitmap_len) :
    dataBit d1 j = !bitClear dbm j := by
  unfold dataBit
  rw [committed_super hwf hc h0]
  have hwf' := hwf
  unfold WF at hwf'
  have hb : regionByte d1 (superOf d).data_bitmap_addr (j / 8) = dbm (j / 8) := by
    unfold regionByte
    have hB : UFS_BLOCK_SIZE = 4096 := rfl
    rw [hB, hc.2.2.1 _ _ (by omega) (by omega) (by rw [hB]; omega), hB]
    have e1 : ((superOf d).data_bitmap_addr.toNat + j / 8 / 4096
        - (superOf d).data_bitmap_addr.toNat) * 4096 + j / 8 % 4096 = j / 8 := by omega
    rw [e1]
  unfold bitClear
  rw [hb]

/-- A bit of a bitmap region read into memory is the bit on the device. -/
theorem bitClear_regionBuf (d : Disk) (start : Int) (len j : Nat)
    (hj : j < 32768 * len) :
    bitClear (regionBuf d start.toNat len) j = bitClear (regionByte d start) j := by
  unfold bitClear regionBuf regionByte
  have hB : UFS_BLOCK_SIZE = 4096 := rfl
  rw [if_pos (by rw [hB]; omega)]

/-! ## Create followed by unlink: entries -/

theorem writeInodeRegion_same {d d0 : Disk} (hwf : WF d)
    (hn : d0.numberOfBlocks = d.numberOfBlocks) (inodes : Nat → inode_t) :
    writeInodeRegion d0 (superOf d) inodes
      = some (putInodes d0 (superOf d) inodes (superOf d).inode_region_len.toNat) := by
  unfold WF at hwf
  unfold writeInodeRegion
  exact writeInodeLoop_eq d0 (superOf d) inodes (by omega) _ (by rw [hn]; omega)

theorem writeInodeBitmap_same {d d0 : Disk} (hwf : WF d)
    (hn : d0.numberOfBlocks = d.numberOfBlocks) (bm : Block) :
    writeInodeBitmap d0 (superOf d) bm
      = some (putRegion d0 (superOf d).inode_bitmap_addr.toNat bm
          (superOf d).inode_bitmap_len.toNat) := by
  unfold WF at hwf
  unfold writeInodeBitmap
  exact writeRegion_eq d0 _ bm (by omega) _ (by rw [hn]; omega)

theorem writeDataBitmap_same {d d0 : Disk} (hwf : WF d)
    (hn : d0.numberOfBlocks = d.numberOfBlocks) (bm : Block) :
    writeDataBitmap d0 (superOf d) bm
      = some (putRegion d0 (superOf d).data_bitmap_addr.toNat bm
          (superOf d).data_bitmap_len.toNat) := by
  unfold WF at hwf
  unfold writeDataBitmap
  exact writeRegion_eq d0 _ bm (by omega) _ (by rw [hn]; omega)

theorem readInodeBitmap_same {d d0 : Disk} (hwf : WF d)
    (hn : d0.numberOfBlocks = d.numberOfBlocks) :
    readInodeBitmap d0 (superOf d)
      = some (regionBuf d0 (superOf d).inode_bitmap_addr.toNat
          (superOf d).inode_bitmap_len.toNat) := by
  unfold WF at hwf
  unfold readInodeBitmap
  exact readRegion_eq d0 _ (by omega) _ (by rw [hn]; omega)

theorem readDataBitmap_same {d d0 : Disk} (hwf : WF d)
    (hn : d0.numberOfBlocks = d.numberOfBlocks) :
    readDataBitmap d0 (superOf d)
      = some (regionBuf d0 (superOf d).data_bitmap_addr.toNat
          (superOf d).data_bitmap_len.toNat) := by
  unfold WF at hwf
  unfold readDataBitmap
  exact readRegion_eq d0 _ (by omega) _ (by rw [hn]; omega)

theorem findFirst_eq_some {p : Nat → Bool} {n j : Nat} (hj : j < n) (hp : p j = true)
    (hlt : ∀ i, i < j → p i = false) : findFirst p n = some j := by
  cases hf : findFirst p n with
  | none =>
    have := findFirst_none hf j hj
    rw [hp] at this
    exact absurd this (by decide)
  | some i =>
    obtain ⟨_, h2, h3⟩ := findFirst_some hf
    have h4 : ¬ i < j := fun h => by
      have := hlt i h
      rw [h2] at this
      exact absurd this (by decide)
    have h5 : ¬ j < i := fun h => by
      have := h3 j h
      rw [hp] at this
      exact absurd this (by decide)
    congr 1
    omega

/-- A C string read back from the bytes of a list without NUL, followed by a NUL. -/
theorem cstr_of_list (b : Block) : ∀ (l : List Nat) (off m : Nat), l.length < m →
    (∀ c, c ∈ l → c ≠ 0) → (∀ i, i < m → b (off + i) = l.getD i 0) → cstr b off m = l := by
  intro l
  induction l with
  | nil =>
    intro off m hm _ hb
    cases m with
    | zero => rfl
    | succ m =>
      unfold cstr
      have := hb 0 (by omega)
      simp only [Nat.add_zero, List.getD_nil] at this
      rw [if_pos this]
  | cons c l ih =>
    intro off m hm hc hb
    cases m with
    | zero => simp at hm
    | succ m =>
      unfold cstr
      have h0 := hb 0 (by omega)
      simp only [Nat.add_zero, List.getD_cons_zero] at h0
      rw [h0, if_neg (hc c (List.mem_cons_self _ _))]
      congr 1
      apply ih (off + 1) m (by simp only [List.length_cons] at hm; omega)
        (fun x hx => hc x (List.mem_cons_of_mem _ hx))
      intro i hi
      have := hb (i + 1) (by omega)
      simp only [List.getD_cons_succ] at this
      rw [← this]
      congr 1
      omega

theorem c_str_of_nonzero (name : List Nat) (h : ∀ c, c ∈ name → c ≠ 0) : c_str name = name := by
  unfold c_str
  rw [List.takeWhile_eq_self_iff]
  intro c hc
  simpa using h c hc

theorem entName_setEntry_same (b : Block) (j : Nat) (inum : Int) (name : List Nat)
    (hlen : name.length < DIR_ENT_NAME_SIZE - 1) (h : ∀ c, c ∈ name → c ≠ 0) :
    entName (setEntry b j inum name) j = name := by
  unfold entName
  apply cstr_of_list
  · simp only [DIR_ENT_NAME_SIZE] at hlen ⊢
    omega
  · exact h
  · intro i hi
    unfold setEntry
    simp only [DIR_ENT_NAME_SIZE, SIZEOF_DIR_ENT, ENT_NAME_OFF] at hi hlen ⊢
    rw [if_pos (by omega), if_pos (by omega), c_str_of_nonzero name h]
    have e : 32 * j + 4 + i - 32 * j - 4 = i := by omega
    rw [e]
    by_cases h27 : i < 28 - 1
    · rw [if_pos h27]
    · rw [if_neg h27, List.getD_eq_default _ _ (by omega)]

theorem entInum_setEntry_same (b : Block) (j : Nat) (inum : Int)
    (name : List Nat) (h0 : -2147483648 ≤ inum) (h1 : inum < 2147483648) :
    entInum (setEntry b j inum name) j = inum := by
  unfold entInum getI32
  rw [getU32_bytes _ _ (toU32 inum)]
  · rw [Nat.mod_eq_of_lt (toU32_lt inum), toI32_toU32 h0 h1]
  · intro k hk
    unfold setEntry
    simp only [SIZEOF_DIR_ENT, ENT_NAME_OFF, ENT_INUM_OFF]
    rw [if_pos (by omega), if_neg (by omega)]
    congr 1
    omega

theorem setEntry_other (b : Block) (j : Nat) (inum : Int) (name : List Nat) (o : Nat)
    (h : o < 32 * j ∨ 32 * j + 32 ≤ o) : setEntry b j inum name o = b o := by
  unfold setEntry
  simp only [SIZEOF_DIR_ENT]
  rw [if_neg (by omega)]

theorem zeroEntry_other (b : Block) (j o : Nat) (h : o < 32 * j ∨ 32 * j + 32 ≤ o) :
    zeroEntry b j o = b o := by
  unfold zeroEntry
  simp only [SIZEOF_DIR_ENT]
  rw [if_neg (by omega)]

theorem copyEntry_other (b : Block) (j k o : Nat) (h : o < 32 * j ∨ 32 * j + 32 ≤ o) :
    copyEntry b j k o = b o := by
  unfold copyEntry
  simp only [SIZEOF_DIR_ENT]
  rw [if_neg (by omega)]

/-! ## Create followed by unlink: the create -/

theorem createNameLoop_one (d : Disk) (ino : inode_t) (name : List Nat) (blk : Block)
    (hr : d.readBlock (toI32 (ino.direct 0)) = some blk)
    (hn : ∀ j, j < 128 → name ≠ entName blk j) :
    createNameLoop d ino name 0 1 = some false := by
  rw [createNameLoop, if_neg (by decide), hr]
  simp only
  rw [findFirst_eq_none (fun j hj => by
    simp only [UFS_BLOCK_SIZE, SIZEOF_DIR_ENT] at hj
    simp [hn j (by omega)])]
  simp only
  rw [createNameLoop]

theorem createAppend_first (d d1 : Disk) (ino : inode_t) (k0 : Int) (name : List Nat)
    (blk : Block) (n : Nat) (hne : ino.direct 0 ≠ 0)
    (hr : d.readBlock (toI32 (ino.direct 0)) = some blk)
    (hn : toU64 ino.size / SIZEOF_DIR_ENT % 4294967296 = n)
    (hlt : n < UFS_BLOCK_SIZE / SIZEOF_DIR_ENT)
    (hw : d.writeBlock (toI32 (ino.direct 0)) (setEntry blk n k0 name) = some d1) :
    createAppend d ino k0 name 0 DIRECT_PTRS
      = some (d1, { ino with size := ino.size + SIZEOF_DIR_ENT }, true) := by
  have e : DIRECT_PTRS = 29 + 1 := rfl
  rw [e, createAppend, if_pos hne, hr]
  simp only
  rw [hn, if_pos hlt, hw]

theorem dirCount_eq {ino : inode_t} (h0 : 0 ≤ ino.size) (h1 : ino.size < 4294967296) :
    toU64 ino.size / SIZEOF_DIR_ENT % 4294967296 = dirCount ino := by
  unfold toU64 dirCount
  simp only [SIZEOF_DIR_ENT, Nat.cast_ofNat]
  omega

theorem create_append_eq (d : Disk) (p k0 : Nat) (t : Int) (name : List Nat)
    (hwf : WF d) (hp : (p : Int) < (superOf d).num_inodes)
    (hdir : (inodeOf d p).type = UFS_DIRECTORY)
    (hsz : 0 < (inodeOf d p).size ∧ (inodeOf d p).size + 32 < 4096)
    (hb0 : allocated d ((inodeOf d p).direct 0))
    (hlen : name.length < DIR_ENT_NAME_SIZE - 1)
    (ht : t = UFS_REGULAR_FILE ∨ t = UFS_DIRECTORY)
    (hnew : ∀ j, j < 128 → name ≠ entName (d.blocks ((inodeOf d p).direct 0)) j)
    (hk0 : findFirstFrom (bitClear (regionBuf d (superOf d).inode_bitmap_addr.toNat
        (superOf d).inode_bitmap_len.toNat)) 0 (superOf d).num_inodes.toNat = some k0) :
    create d p t name =
      if t = UFS_DIRECTORY then
        match findFirstFrom (bitClear (regionBuf (appended d p k0 name)
            (superOf d).data_bitmap_addr.toNat (superOf d).data_bitmap_len.toNat)) 0
            (superOf d).num_data.toNat with
        | none => some (appended d p k0 name, -ENOTENOUGHSPACE)
        | some j2 =>
          some (commitCreate
            (putBlock (appended d p k0 name) ((j2 : Int) + (superOf d).data_region_addr).toNat
              (setEntry (setEntry zeroBlock 0 k0 [46]) 1 p [46, 46]))
            (superOf d)
            (createdInodes d p k0
              ⟨t, 2 * (SIZEOF_DIR_ENT : Int),
                fun i => if i = 0 then toU32 ((j2 : Int) + (superOf d).data_region_addr) else 0⟩)
            (setBit (regionBuf d (superOf d).inode_bitmap_addr.toNat
              (superOf d).inode_bitmap_len.toNat) k0)
            (setBit (regionBuf (appended d p k0 name) (superOf d).data_bitmap_addr.toNat
              (superOf d).data_bitmap_len.toNat) j2), (k0 : Int))
      else
        some (commitCreate (appended d p k0 name) (superOf d)
          (createdInodes d p k0 ⟨t, 0, fun _ => 0⟩)
          (setBit (regionBuf d (superOf d).inode_bitmap_addr.toNat
            (superOf d).inode_bitmap_len.toNat) k0)
          (regionBuf (appended d p k0 name) (superOf d).data_bitmap_addr.toNat
            (superOf d).data_bitmap_len.toNat), (k0 : Int)) := by
  have hwf' := hwf
  unfold WF at hwf'
  obtain ⟨ha1, ha2, _⟩ := hb0
  have hS0 : 0 ≤ (inodeOf d p).size := by omega
  have hne : (inodeOf d p).direct 0 ≠ 0 := by
    intro h
    rw [h] at ha1
    simp only [Nat.cast_zero] at ha1
    omega
  have hti : toI32 ((inodeOf d p).direct 0) = ((inodeOf d p).direct 0 : Nat) :=
    toI32_of_lt (by omega)
  have hr : d.readBlock (toI32 ((inodeOf d p).direct 0))
      = some (d.blocks ((inodeOf d p).direct 0)) := by
    rw [hti, readBlock_eq (by omega) (by omega), Int.toNat_ofNat]
  have hw : d.writeBlock (toI32 ((inodeOf d p).direct 0))
      (setEntry (d.blocks ((inodeOf d p).direct 0)) (dirCount (inodeOf d p)) k0 name)
      = some (appended d p k0 name) := by
    rw [hti, writeBlock_eq _ (by omega) (by omega), Int.toNat_ofNat]
    rfl
  have hcnt : dirCount (inodeOf d p) < UFS_BLOCK_SIZE / SIZEOF_DIR_ENT := by
    unfold dirCount
    simp only [UFS_BLOCK_SIZE, SIZEOF_DIR_ENT, Nat.cast_ofNat]
    omega
  have hbl : (blocksOf (inodeOf d p).size).toNat = 1 := by
    rw [blocksOf_eq hS0]
    unfold ceilBlocks
    simp only [UFS_BLOCK_SIZE, Nat.cast_ofNat]
    omega
  unfold create
  rw [wf_readSuper hwf]
  simp only
  rw [if_neg (by omega),
    if_neg (by simp only [DIR_ENT_NAME_SIZE] at hlen ⊢; omega),
    if_neg (by rcases ht with h | h <;> simp [h]),
    wf_stat hwf (by omega) hp zeroInode]
  simp only [Int.toNat_ofNat]
  rw [if_neg (by rw [hdir]; simp), wf_readInodeRegion hwf]
  simp only
  rw [hbl, createNameLoop_one d _ name _ hr hnew]
  simp only
  rw [wf_readInodeBitmap hwf]
  simp only
  rw [scanFree_eq _ _ _ 0 (by simp only [UFS_BLOCK_SIZE]; omega), hk0]
  simp only
  rw [createAppend_first d _ _ k0 name _ _ hne hr (dirCount_eq hS0 (by omega)) hcnt hw]
  simp only
  rw [@readDataBitmap_same d (appended d p k0 name) hwf rfl]
  simp only
  unfold createParentBlock
  simp only [if_true, Bool.not_true, Bool.false_eq_true, if_false]
  by_cases htd : t = UFS_DIRECTORY
  · rw [if_pos htd, if_pos htd]
    rw [scanFree_eq _ _ _ 0 (by simp only [UFS_BLOCK_SIZE]; omega)]
    cases hj : findFirstFrom (bitClear (regionBuf (appended d p k0 name)
        (superOf d).data_bitmap_addr.toNat (superOf d).data_bitmap_len.toNat)) 0
        (superOf d).num_data.toNat with
    | none => rfl
    | some j2 =>
      simp only
      have hj2 := findFirstFrom_spec (bitClear (regionBuf (appended d p k0 name)
        (superOf d).data_bitmap_addr.toNat (superOf d).data_bitmap_len.toNat))
        (superOf d).num_data.toNat 0
      rw [hj] at hj2
      simp only at hj2
      rw [writeBlock_eq _ (by omega) (by
        have : (appended d p k0 name).numberOfBlocks = d.numberOfBlocks := rfl
        rw [this]; omega)]
      simp only
      rw [writeInodeRegion_same hwf (by rfl)]
      simp only
      rw [writeInodeBitmap_same hwf (by rfl)]
      simp only
      rw [writeDataBitmap_same hwf (by rfl)]
      rfl
  · rw [if_neg htd, if_neg htd]
    rw [writeInodeRegion_same hwf (by rfl)]
    simp only
    rw [writeInodeBitmap_same hwf (by rfl)]
    simp only
    rw [writeDataBitmap_same hwf (by rfl)]
    rfl

/-! ## Create followed by unlink: the unlink -/

theorem lookup_last_eq (d : Disk) (p : Nat) (name : List Nat)
    (hwf : WF d) (hp : (p : Int) < (superOf d).num_inodes)
    (hdir : (inodeOf d p).type = UFS_DIRECTORY)
    (hsz : 32 ≤ (inodeOf d p).size ∧ (inodeOf d p).size < 4096)
    (hb0 : (superOf d).data_region_addr ≤ ((inodeOf d p).direct 0 : Int)
      ∧ ((inodeOf d p).direct 0 : Int) < (superOf d).data_region_addr + (superOf d).num_data)
    (hlast : entName (d.blocks ((inodeOf d p).direct 0)) (dirCount (inodeOf d p) - 1) = name)
    (hbefore : ∀ j, j < dirCount (inodeOf d p) - 1 →
      entName (d.blocks ((inodeOf d p).direct 0)) j ≠ name) :
    lookup d p name
      = some (entInum (d.blocks ((inodeOf d p).direct 0)) (dirCount (inodeOf d p) - 1)) := by
  have hwf' := hwf
  unfold WF at hwf'
  have hS0 : 0 ≤ (inodeOf d p).size := by omega
  have hti : toI32 ((inodeOf d p).direct 0) = ((inodeOf d p).direct 0 : Nat) :=
    toI32_of_lt (by omega)
  have hr : d.readBlock (toI32 ((inodeOf d p).direct 0))
      = some (d.blocks ((inodeOf d p).direct 0)) := by
    rw [hti, readBlock_eq (by omega) (by omega), Int.toNat_ofNat]
  have hbl : (blocksOf (inodeOf d p).size).toNat = 1 := by
    rw [blocksOf_eq hS0]
    unfold ceilBlocks
    simp only [UFS_BLOCK_SIZE, Nat.cast_ofNat]
    omega
  have hte : tailEntries (inodeOf d p).size = dirCount (inodeOf d p) := by
    rw [tailEntries_eq hS0]
    unfold dirCount
    simp only [SIZEOF_DIR_ENT, Nat.cast_ofNat]
    omega
  have hn1 : 1 ≤ dirCount (inodeOf d p) := by
    unfold dirCount
    simp only [SIZEOF_DIR_ENT, Nat.cast_ofNat]
    omega
  unfold lookup
  rw [wf_readSuper hwf]
  simp only
  rw [if_neg (by omega), wf_stat hwf (by omega) hp zeroInode]
  simp only [Int.toNat_ofNat]
  rw [if_neg (by simp), if_neg (by rw [hdir]; simp), hbl, hte, lookupLoop, if_neg (by decide), hr]
  simp only
  rw [findFirst_eq_some (j := dirCount (inodeOf d p) - 1) (by omega)
    (by simp [hlast]) (fun i hi => by simpa using fun h => hbefore i hi h.symm)]

theorem unlinkScan_last_eq (d : Disk) (p : Nat) (name : List Nat)
    (hwf : WF d)
    (hsz : 32 ≤ (inodeOf d p).size ∧ (inodeOf d p).size < 4096)
    (hb0 : (superOf d).data_region_addr ≤ ((inodeOf d p).direct 0 : Int)
      ∧ ((inodeOf d p).direct 0 : Int) < (superOf d).data_region_addr + (superOf d).num_data)
    (hnz : ∀ c, c ∈ name → c ≠ 0)
    (hlast : entName (d.blocks ((inodeOf d p).direct 0)) (dirCount (inodeOf d p) - 1) = name)
    (hbefore : ∀ j, j < dirCount (inodeOf d p) - 1 →
      entName (d.blocks ((inodeOf d p).direct 0)) j ≠ name) :
    unlinkScan d (inodeOf d p) name
        (cdiv ((inodeOf d p).size + UFS_BLOCK_SIZE - 1) UFS_BLOCK_SIZE) 0 DIRECT_PTRS
      = some (some (lastRemoved d p,
          entInum (d.blocks ((inodeOf d p).direct 0)) (dirCount (inodeOf d p) - 1))) := by
  have hwf' := hwf
  unfold WF at hwf'
  have hS0 : 0 ≤ (inodeOf d p).size := by omega
  have hne : (inodeOf d p).direct 0 ≠ 0 := by
    intro h
    rw [h] at hb0
    simp only [Nat.cast_zero] at hb0
    omega
  have hti : toI32 ((inodeOf d p).direct 0) = ((inodeOf d p).direct 0 : Nat) :=
    toI32_of_lt (by omega)
  have hr : d.readBlock (toI32 ((inodeOf d p).direct 0))
      = some (d.blocks ((inodeOf d p).direct 0)) := by
    rw [hti, readBlock_eq (by omega) (by omega), Int.toNat_ofNat]
  have hpfb : cdiv ((inodeOf d p).size + UFS_BLOCK_SIZE - 1) UFS_BLOCK_SIZE = 1 := by
    rw [cdiv_of_nonneg (by simp only [UFS_BLOCK_SIZE, Nat.cast_ofNat]; omega)
      (by simp [UFS_BLOCK_SIZE])]
    simp only [UFS_BLOCK_SIZE, Nat.cast_ofNat]
    omega
  have hne1 : toI32 (toU64 (cmod (inodeOf d p).size UFS_BLOCK_SIZE) / SIZEOF_DIR_ENT)
      = (dirCount (inodeOf d p) : Int) := by
    rw [cmod_of_nonneg hS0 (by simp [UFS_BLOCK_SIZE])]
    unfold toU64 dirCount
    simp only [UFS_BLOCK_SIZE, SIZEOF_DIR_ENT, Nat.cast_ofNat]
    rw [toI32_of_lt (by omega)]
    omega
  have hn1 : 1 ≤ dirCount (inodeOf d p) := by
    unfold dirCount
    simp only [SIZEOF_DIR_ENT, Nat.cast_ofNat]
    omega
  have e : DIRECT_PTRS = 29 + 1 := rfl
  rw [e, unlinkScan, if_neg hne, hr, hpfb]
  simp only
  rw [if_pos (by simp), hne1, Int.toNat_ofNat, c_str_of_nonzero name hnz,
    findFirst_eq_some (j := dirCount (inodeOf d p) - 1) (by omega)
      (by simp [hlast]) (fun i hi => by simpa using hbefore i hi)]
  simp only
  rw [hti, writeBlock_eq _ (by omega) (by omega), Int.toNat_ofNat]
  rfl

theorem unlink_last_eq (d dE : Disk) (p k0 : Nat) (name : List Nat) (dbmU : Block)
    (hwf : WF d) (hp : (p : Int) < (superOf d).num_inodes)
    (hdir : (inodeOf d p).type = UFS_DIRECTORY)
    (hsz : 32 ≤ (inodeOf d p).size ∧ (inodeOf d p).size < 4096)
    (hb0 : (superOf d).data_region_addr ≤ ((inodeOf d p).direct 0 : Int)
      ∧ ((inodeOf d p).direct 0 : Int) < (superOf d).data_region_addr + (superOf d).num_data)
    (hname : name ≠ [] ∧ name.length < DIR_ENT_NAME_SIZE - 1)
    (hdot : name ≠ [46] ∧ name ≠ [46, 46])
    (hnz : ∀ c, c ∈ name → c ≠ 0)
    (hlast : entName (d.blocks ((inodeOf d p).direct 0)) (dirCount (inodeOf d p) - 1) = name)
    (hinum : entInum (d.blocks ((inodeOf d p).direct 0)) (dirCount (inodeOf d p) - 1) = k0)
    (hbefore : ∀ j, j < dirCount (inodeOf d p) - 1 →
      entName (d.blocks ((inodeOf d p).direct 0)) j ≠ name)
    (hk0 : (k0 : Int) < (superOf d).num_inodes)
    (hempty : ¬ ((inodeOf d k0).type = UFS_DIRECTORY
      ∧ toU32 (inodeOf d k0).size > 2 * SIZEOF_DIR_ENT))
    (hfree : unlinkFree (superOf d) (inodeOf d k0)
      ((superOf d).data_bitmap_len.toNat * UFS_BLOCK_SIZE) 0 DIRECT_PTRS (lastRemoved d p)
      (regionBuf (lastRemoved d p) (superOf d).data_bitmap_addr.toNat
        (superOf d).data_bitmap_len.toNat) = some (dE, dbmU))
    (hEn : dE.numberOfBlocks = d.numberOfBlocks) :
    unlink d p name
      = some (commitUnlink dE (superOf d) (unlinkedInodes d p k0)
          (clearBit (regionBuf (putRegion dE (superOf d).data_bitmap_addr.toNat dbmU
            (superOf d).data_bitmap_len.toNat) (superOf d).inode_bitmap_addr.toNat
            (superOf d).inode_bitmap_len.toNat) k0) dbmU, 0) := by
  have hwf' := hwf
  unfold WF at hwf'
  unfold unlink
  rw [if_neg (by simp [hdot.1, hdot.2]), wf_readSuper hwf]
  simp only
  rw [if_neg (by omega),
    if_neg (by
      have := hname.2
      simp only [DIR_ENT_NAME_SIZE] at this ⊢
      simp only [hname.1, false_or]
      omega),
    wf_stat hwf (by omega) hp zeroInode]
  simp only [Int.toNat_ofNat]
  rw [if_neg (by rw [hdir]; simp), lookup_last_eq d p name hwf hp hdir hsz hb0 hlast hbefore,
    hinum]
  simp only
  rw [if_neg (by omega), wf_readInodeRegion hwf]
  simp only
  rw [unlinkScan_last_eq d p name hwf hsz hb0 hnz hlast hbefore, hinum]
  simp only [Int.toNat_ofNat]
  rw [if_neg (by omega), inodeTable_eq hwf hk0, if_neg hempty,
    @readDataBitmap_same d (lastRemoved d p) hwf rfl]
  simp only
  rw [hfree]
  simp only
  rw [writeDataBitmap_same hwf hEn]
  simp only
  rw [@readInodeBitmap_same d (putRegion dE (superOf d).data_bitmap_addr.toNat dbmU
    (superOf d).data_bitmap_len.toNat) hwf hEn]
  simp only
  rw [if_neg (by simp only [UFS_BLOCK_SIZE]; omega),
    @writeInodeBitmap_same d (putRegion dE (superOf d).data_bitmap_addr.toNat dbmU
    (superOf d).data_bitmap_len.toNat) hwf hEn]
  simp only
  rw [writeInodeRegion_same hwf (by exact hEn)]
  rfl

/-! ## Create followed by unlink: frames -/

theorem inodeByte_zero (off : Nat) : inodeByte zeroInode off = 0 := by
  unfold inodeByte zeroInode byteOf toU32
  simp

theorem unlinkFree_none (super : super_t) (ino : inode_t) (cap : Nat) (d : Disk) (bm : Block)
    (h : ino.direct 0 = 0) :
    unlinkFree super ino cap 0 DIRECT_PTRS d bm = some (d, bm) := by
  have e : DIRECT_PTRS = 29 + 1 := rfl
  rw [e, unlinkFree, if_pos h]

theorem unlinkFree_one (super : super_t) (ino : inode_t) (cap : Nat) (d : Disk) (bm : Block)
    (j2 : Nat) (h0 : (ino.direct 0 : Int) = (j2 : Int) + super.data_region_addr)
    (hpos : 1 ≤ super.data_region_addr)
    (hin : (j2 : Int) + super.data_region_addr < d.numberOfBlocks)
    (hlt : (d.numberOfBlocks : Int) < 2147483648)
    (hcap : j2 < 8 * cap)
    (h1 : ino.direct 1 = 0) :
    unlinkFree super ino cap 0 DIRECT_PTRS d bm
      = some (putBlock d (ino.direct 0) zeroBlock, clearBit bm j2) := by
  have e : DIRECT_PTRS = 28 + 1 + 1 := rfl
  have hne : ino.direct 0 ≠ 0 := by
    intro h
    rw [h] at h0
    simp only [Nat.cast_zero] at h0
    omega
  have hbi : toI32 (toU32 ((ino.direct 0 : Int) - super.data_region_addr)) = (j2 : Int) := by
    rw [h0, toI32_toU32 (by omega) (by omega)]
    omega
  have hti : toI32 (ino.direct 0) = (ino.direct 0 : Nat) := toI32_of_lt (by omega)
  rw [e, unlinkFree, if_neg hne]
  simp only
  rw [hbi, if_neg (by
    rw [cdiv_of_nonneg (by omega) (by omega)]
    omega), hti, writeBlock_eq _ (by omega) (by omega)]
  simp only [Int.toNat_ofNat]
  rw [unlinkFree, if_pos h1]

theorem lastRemoved_other (d : Disk) (p m : Nat) (h : m ≠ (inodeOf d p).direct 0) :
    (lastRemoved d p).blocks m = d.blocks m :=
  putBlock_other _ _ _ _ h

theorem lastRemoved_same (d : Disk) (p o : Nat) (ho : o < UFS_BLOCK_SIZE)
    (h : o < 32 * (dirCount (inodeOf d p) - 1) ∨ 32 * (dirCount (inodeOf d p) - 1) + 32 ≤ o) :
    (lastRemoved d p).blocks ((inodeOf d p).direct 0) o
      = d.blocks ((inodeOf d p).direct 0) o := by
  unfold lastRemoved
  rw [putBlock_same _ _ _ _ ho, zeroEntry_other _ _ _ h, copyEntry_other _ _ _ _ h]

theorem appended_other (d : Disk) (p k0 m : Nat) (name : List Nat)
    (h : m ≠ (inodeOf d p).direct 0) :
    (appended d p k0 name).blocks m = d.blocks m :=
  putBlock_other _ _ _ _ h

theorem appended_same (d : Disk) (p k0 o : Nat) (name : List Nat) (ho : o < UFS_BLOCK_SIZE) :
    (appended d p k0 name).blocks ((inodeOf d p).direct 0) o
      = setEntry (d.blocks ((inodeOf d p).direct 0)) (dirCount (inodeOf d p)) k0 name o := by
  unfold appended
  rw [putBlock_same _ _ _ _ ho]

/-- A bitmap bit read from a device that agrees with `d` outside the data
region. -/
theorem regionByte_frame {d d1 : Disk} (hwf : WF d)
    (hout : ∀ m : Nat, ((m : Int) < (superOf d).data_region_addr
        ∨ (superOf d).data_region_addr + (superOf d).num_data ≤ (m : Int)) →
        d1.blocks m = d.blocks m) :
    (∀ j : Nat, (j : Int) < 32768 * (superOf d).inode_bitmap_len →
      bitClear (regionByte d1 (superOf d).inode_bitmap_addr) j
        = bitClear (regionByte d (superOf d).inode_bitmap_addr) j)
    ∧ (∀ j : Nat, (j : Int) < 32768 * (superOf d).data_bitmap_len →
      bitClear (regionByte d1 (superOf d).data_bitmap_addr) j
        = bitClear (regionByte d (superOf d).data_bitmap_addr) j) := by
  unfold WF at hwf
  unfold disjointRanges at hwf
  have hB : UFS_BLOCK_SIZE = 4096 := rfl
  constructor
  · intro j hj
    unfold bitClear regionByte
    rw [hB, hout _ (by omega)]
  · intro j hj
    unfold bitClear regionByte
    rw [hB, hout _ (by omega)]

/-! ## Create followed by unlink: the state after unlink -/

/-- The state after `unlink` has removed the last valid entry `name` of the
one-block directory `p`, which refers to the inode `k0`. -/
theorem unlinked_views (d dE : Disk) (p k0 : Nat) (name : List Nat) (dbmU : Block)
    (hwf : WF d) (hp : (p : Int) < (superOf d).num_inodes)
    (hdir : (inodeOf d p).type = UFS_DIRECTORY)
    (hsz : 32 ≤ (inodeOf d p).size ∧ (inodeOf d p).size < 4096)
    (hb0 : (superOf d).data_region_addr ≤ ((inodeOf d p).direct 0 : Int)
      ∧ ((inodeOf d p).direct 0 : Int) < (superOf d).data_region_addr + (superOf d).num_data)
    (hname : name ≠ [] ∧ name.length < DIR_ENT_NAME_SIZE - 1)
    (hdot : name ≠ [46] ∧ name ≠ [46, 46])
    (hnz : ∀ c, c ∈ name → c ≠ 0)
    (hlast : entName (d.blocks ((inodeOf d p).direct 0)) (dirCount (inodeOf d p) - 1) = name)
    (hinum : entInum (d.blocks ((inodeOf d p).direct 0)) (dirCount (inodeOf d p) - 1) = k0)
    (hbefore : ∀ j, j < dirCount (inodeOf d p) - 1 →
      entName (d.blocks ((inodeOf d p).direct 0)) j ≠ name)
    (hk0 : (k0 : Int) < (superOf d).num_inodes) (hkp : k0 ≠ p)
    (hempty : ¬ ((inodeOf d k0).type = UFS_DIRECTORY
      ∧ toU32 (inodeOf d k0).size > 2 * SIZEOF_DIR_ENT))
    (hfree : unlinkFree (superOf d) (inodeOf d k0)
      ((superOf d).data_bitmap_len.toNat * UFS_BLOCK_SIZE) 0 DIRECT_PTRS (lastRemoved d p)
      (regionBuf (lastRemoved d p) (superOf d).data_bitmap_addr.toNat
        (superOf d).data_bitmap_len.toNat) = some (dE, dbmU))
    (hEn : dE.numberOfBlocks = d.numberOfBlocks)
    (hEout : ∀ m : Nat, ((m : Int) < (superOf d).data_region_addr
        ∨ (superOf d).data_region_addr + (superOf d).num_data ≤ (m : Int)) →
        dE.blocks m = d.blocks m)
    (hEb0 : dE.blocks ((inodeOf d p).direct 0)
      = (lastRemoved d p).blocks ((inodeOf d p).direct 0)) :
    ∃ dU, unlink d p name = some (dU, 0)
      ∧ superOf dU = superOf d
      ∧ (∀ j : Nat, (j : Int) < 32768 * (superOf d).inode_bitmap_len →
          inodeBit dU j = if j = k0 then false else inodeBit d j)
      ∧ (∀ j : Nat, (j : Int) < 32768 * (superOf d).data_bitmap_len →
          dataBit dU j = !bitClear dbmU j)
      ∧ (∀ off, off < SIZEOF_INODE → inodeRecByte dU k0 off = 0)
      ∧ (inodeOf dU p).size = (inodeOf d p).size - SIZEOF_DIR_ENT
      ∧ (inodeOf dU p).direct 0 = (inodeOf d p).direct 0
      ∧ (∀ o, o < 32 * (dirCount (inodeOf d p) - 1) →
          dU.blocks ((inodeOf d p).direct 0) o = d.blocks ((inodeOf d p).direct 0) o) := by
  have hwf' := hwf
  unfold WF at hwf'
  unfold disjointRanges at hwf'
  have hE0 : dE.blocks 0 = d.blocks 0 := hEout 0 (by omega)
  have hU := @committed_unlink d hwf dE (unlinkedInodes d p k0)
    (clearBit (regionBuf (putRegion dE (superOf d).data_bitmap_addr.toNat dbmU
      (superOf d).data_bitmap_len.toNat) (superOf d).inode_bitmap_addr.toNat
      (superOf d).inode_bitmap_len.toNat) k0) dbmU
  refine ⟨_, unlink_last_eq d dE p k0 name dbmU hwf hp hdir hsz hb0 hname hdot hnz hlast hinum
    hbefore hk0 hempty hfree hEn, committed_super hwf hU hE0, ?_, ?_, ?_, ?_, ?_, ?_⟩
  · intro j hj
    have h1 := committed_inodeBit hwf hU hE0 hj
    unfold commitUnlink
    rw [h1, bitClear_clearBit]
    by_cases hjk : j = k0
    · rw [if_pos hjk, if_pos hjk]; rfl
    · rw [if_neg hjk, if_neg hjk, bitClear_regionBuf _ _ _ _ (by omega)]
      unfold inodeBit bitClear regionByte
      have hB : UFS_BLOCK_SIZE = 4096 := rfl
      rw [hB, putRegion_out _ _ _ _ _ (by omega), hEout _ (by omega)]
  · intro j hj
    exact committed_dataBit hwf hU hE0 hj
  · intro off hoff
    have h1 := committed_recByte hwf hU hE0 hk0 hoff
    unfold commitUnlink
    rw [h1]
    unfold unlinkedInodes
    simp only [if_neg hkp, if_true]
    exact inodeByte_zero off
  · have h1 := committed_inode hwf hU hE0 hp
    unfold commitUnlink
    rw [h1]
    unfold unlinkedInodes normInode
    simp only [if_true]
    rw [toI32_toU32 (by simp only [SIZEOF_DIR_ENT, Nat.cast_ofNat]; omega)
      (by simp only [SIZEOF_DIR_ENT, Nat.cast_ofNat]; omega)]
  · have h1 := committed_inode hwf hU hE0 hp
    unfold commitUnlink
    rw [h1]
    unfold unlinkedInodes normInode
    simp only [if_true]
    rw [if_pos (by decide), Nat.mod_eq_of_lt (by omega)]
  · intro o ho
    have h1 := @committed_data d _ dE hwf _ _ _ hU ((inodeOf d p).direct 0) hb0.1 hb0.2
    unfold commitUnlink
    rw [h1, hEb0]
    have hcnt : dirCount (inodeOf d p) ≤ 127 := by
      unfold dirCount
      simp only [SIZEOF_DIR_ENT, Nat.cast_ofNat]
      omega
    exact lastRemoved_same d p o (by simp only [UFS_BLOCK_SIZE]; omega) (Or.inl ho)

/-! ## Create followed by unlink: the state after create -/

/-- The state after `create` has appended the entry `name` for the new inode
`k0` to the one-block directory `p`. -/
theorem created_views (d dC dD : Disk) (p k0 : Nat) (name : List Nat) (newInode : inode_t)
    (dbmX : Block)
    (hwf : WF d) (hp : (p : Int) < (superOf d).num_inodes)
    (hdir : (inodeOf d p).type = UFS_DIRECTORY)
    (hsz : 0 ≤ (inodeOf d p).size ∧ (inodeOf d p).size + 32 < 4096)
    (hb0 : (superOf d).data_region_addr ≤ ((inodeOf d p).direct 0 : Int)
      ∧ ((inodeOf d p).direct 0 : Int) < (superOf d).data_region_addr + (superOf d).num_data)
    (hk0 : (k0 : Int) < (superOf d).num_inodes) (hkp : k0 ≠ p)
    (hC : Committed dC dD (superOf d) (createdInodes d p k0 newInode)
      (setBit (regionBuf d (superOf d).inode_bitmap_addr.toNat
        (superOf d).inode_bitmap_len.toNat) k0) dbmX)
    (hDn : dD.numberOfBlocks = d.numberOfBlocks)
    (hDout : ∀ m : Nat, ((m : Int) < (superOf d).data_region_addr
        ∨ (superOf d).data_region_addr + (superOf d).num_data ≤ (m : Int)) →
        dD.blocks m = d.blocks m)
    (hDb0 : dD.blocks ((inodeOf d p).direct 0)
      = (appended d p k0 name).blocks ((inodeOf d p).direct 0)) :
    WF dC ∧ superOf dC = superOf d ∧ dC.numberOfBlocks = d.numberOfBlocks
      ∧ (inodeOf dC p).type = UFS_DIRECTORY
      ∧ (inodeOf dC p).size = (inodeOf d p).size + SIZEOF_DIR_ENT
      ∧ (inodeOf dC p).direct 0 = (inodeOf d p).direct 0
      ∧ inodeOf dC k0 = normInode newInode
      ∧ (∀ o, o < UFS_BLOCK_SIZE → dC.blocks ((inodeOf d p).direct 0) o
          = setEntry (d.blocks ((inodeOf d p).direct 0)) (dirCount (inodeOf d p)) k0 name o)
      ∧ (∀ j : Nat, (j : Int) < 32768 * (superOf d).inode_bitmap_len →
          inodeBit dC j = if j = k0 then true else inodeBit d j)
      ∧ (∀ j : Nat, (j : Int) < 32768 * (superOf d).data_bitmap_len →
          dataBit dC j = !bitClear dbmX j) := by
  have hwf' := hwf
  unfold WF at hwf'
  unfold disjointRanges at hwf'
  have hD0 : dD.blocks 0 = d.blocks 0 := hDout 0 (by omega)
  have hpC := committed_inode hwf hC hD0 hp
  have hkC := committed_inode hwf hC hD0 hk0
  unfold createdInodes at hpC hkC
  simp only [if_true, if_neg hkp] at hpC hkC
  refine ⟨committed_wf hwf hC hDn hD0, committed_super hwf hC hD0, hC.1.trans hDn,
    ?_, ?_, ?_, hkC, ?_, ?_, ?_⟩
  · rw [hpC]
    unfold normInode
    simp only
    rw [hdir]
    decide
  · rw [hpC]
    unfold normInode
    simp only
    rw [toI32_toU32 (by simp only [SIZEOF_DIR_ENT, Nat.cast_ofNat]; omega)
      (by simp only [SIZEOF_DIR_ENT, Nat.cast_ofNat]; omega)]
  · rw [hpC]
    unfold normInode
    simp only
    rw [if_pos (by decide), Nat.mod_eq_of_lt (by omega)]
  · intro o ho
    rw [committed_data hwf hC hb0.1 hb0.2, hDb0]
    exact appended_same d p k0 o name ho
  · intro j hj
    rw [committed_inodeBit hwf hC hD0 hj, bitClear_setBit]
    by_cases hjk : j = k0
    · rw [if_pos hjk, if_pos hjk]; rfl
    · rw [if_neg hjk, if_neg hjk, bitClear_regionBuf _ _ _ _ (by omega)]
      rfl
  · intro j hj
    exact committed_dataBit hwf hC hD0 hj

/-! ## Create followed by unlink: composition -/

theorem dirCount_succ {a b : inode_t} (h0 : 0 ≤ a.size)
    (h : b.size = a.size + SIZEOF_DIR_ENT) : dirCount b = dirCount a + 1 := by
  unfold dirCount
  rw [h]
  simp only [SIZEOF_DIR_ENT, Nat.cast_ofNat]
  omega

theorem num_inodes_lt (d : Disk) : (superOf d).num_inodes < 2147483648 := by
  unfold superOf decodeSuper getI32
  exact (toI32_bounds _).2

theorem create_unlink_core (d dC dD dE : Disk) (p k0 : Nat) (name : List Nat)
    (newInode : inode_t) (dbmX dbmU : Block)
    (hwf : WF d) (hz : FreeSlotsZero d) (hp : (p : Int) < (superOf d).num_inodes)
    (hdir : (inodeOf d p).type = UFS_DIRECTORY)
    (hsz : 0 ≤ (inodeOf d p).size ∧ (inodeOf d p).size + 32 < 4096)
    (hb0 : (superOf d).data_region_addr ≤ ((inodeOf d p).direct 0 : Int)
      ∧ ((inodeOf d p).direct 0 : Int) < (superOf d).data_region_addr + (superOf d).num_data)
    (hname : name ≠ [] ∧ name.length < DIR_ENT_NAME_SIZE - 1)
    (hdot : name ≠ [46] ∧ name ≠ [46, 46])
    (hnz : ∀ c, c ∈ name → c ≠ 0)
    (hnew : ∀ j, j < 128 → name ≠ entName (d.blocks ((inodeOf d p).direct 0)) j)
    (hk0 : (k0 : Int) < (superOf d).num_inodes) (hkp : k0 ≠ p)
    (hfreeK : inodeBit d k0 = false)
    (hC : Committed dC dD (superOf d) (createdInodes d p k0 newInode)
      (setBit (regionBuf d (superOf d).inode_bitmap_addr.toNat
        (superOf d).inode_bitmap_len.toNat) k0) dbmX)
    (hDn : dD.numberOfBlocks = d.numberOfBlocks)
    (hDout : ∀ m : Nat, ((m : Int) < (superOf d).data_region_addr
        ∨ (superOf d).data_region_addr + (superOf d).num_data ≤ (m : Int)) →
        dD.blocks m = d.blocks m)
    (hDb0 : dD.blocks ((inodeOf d p).direct 0)
      = (appended d p k0 name).blocks ((inodeOf d p).direct 0))
    (hempty : ¬ ((normInode newInode).type = UFS_DIRECTORY
      ∧ toU32 (normInode newInode).size > 2 * SIZEOF_DIR_ENT))
    (hfree : unlinkFree (superOf d) (normInode newInode)
      ((superOf d).data_bitmap_len.toNat * UFS_BLOCK_SIZE) 0 DIRECT_PTRS (lastRemoved dC p)
      (regionBuf (lastRemoved dC p) (superOf d).data_bitmap_addr.toNat
        (superOf d).data_bitmap_len.toNat) = some (dE, dbmU))
    (hEn : dE.numberOfBlocks = dC.numberOfBlocks)
    (hEout : ∀ m : Nat, ((m : Int) < (superOf d).data_region_addr
        ∨ (superOf d).data_region_addr + (superOf d).num_data ≤ (m : Int)) →
        dE.blocks m = dC.blocks m)
    (hEb0 : dE.blocks ((inodeOf d p).direct 0)
      = (lastRemoved dC p).blocks ((inodeOf d p).direct 0))
    (hbits : ∀ j : Nat, (j : Int) < 32768 * (superOf d).data_bitmap_len →
      bitClear dbmU j = !dataBit d j) :
    ∃ dU, unlink dC p name = some (dU, 0)
      ∧ (∀ j : Nat, (j : Int) < 32768 * (superOf d).inode_bitmap_len →
          inodeBit dU j = inodeBit d j)
      ∧ (∀ j : Nat, (j : Int) < 32768 * (superOf d).data_bitmap_len →
          dataBit dU j = dataBit d j)
      ∧ (∀ off, off < SIZEOF_INODE → inodeRecByte dU k0 off = inodeRecByte d k0 off)
      ∧ (inodeOf dU p).size = (inodeOf d p).size
      ∧ (∀ idx, idx < dirCount (inodeOf d p) →
          dirEntName dU (inodeOf dU p) idx = dirEntName d (inodeOf d p) idx
          ∧ dirEntInum dU (inodeOf dU p) idx = dirEntInum d (inodeOf d p) idx) := by
  have hwf' := hwf
  unfold WF at hwf'
  obtain ⟨hwfC, hsC, hnC, htyC, hszC, hdC, hkC, hblkC, hibC, _⟩ :=
    created_views d dC dD p k0 name newInode dbmX hwf hp hdir hsz hb0 hk0 hkp hC hDn hDout hDb0
  have hcntC : dirCount (inodeOf dC p) = dirCount (inodeOf d p) + 1 := dirCount_succ hsz.1 hszC
  have hcnt : dirCount (inodeOf d p) < 127 := by
    unfold dirCount
    simp only [SIZEOF_DIR_ENT, Nat.cast_ofNat]
    omega
  have hB : UFS_BLOCK_SIZE = 4096 := rfl
  have hlast : entName (dC.blocks ((inodeOf dC p).direct 0)) (dirCount (inodeOf dC p) - 1)
      = name := by
    rw [hdC, hcntC, Nat.add_sub_cancel,
      entName_congr _ _ _ (fun o _ h2 => hblkC o (by rw [hB]; omega))]
    exact entName_setEntry_same _ _ _ _ hname.2 hnz
  have hinum : entInum (dC.blocks ((inodeOf dC p).direct 0)) (dirCount (inodeOf dC p) - 1)
      = (k0 : Int) := by
    rw [hdC, hcntC, Nat.add_sub_cancel,
      entInum_congr _ _ _ (fun o _ h2 => hblkC o (by rw [hB]; omega))]
    have := num_inodes_lt d
    exact entInum_setEntry_same _ _ _ _ (by omega) (by omega)
  have hsame : ∀ j, j < dirCount (inodeOf d p) → ∀ o, 32 * j ≤ o → o < 32 * j + 32 →
      dC.blocks ((inodeOf d p).direct 0) o = d.blocks ((inodeOf d p).direct 0) o := by
    intro j hj o _ h2
    rw [hblkC o (by rw [hB]; omega)]
    exact setEntry_other _ _ _ _ _ (by omega)
  have hbefore : ∀ j, j < dirCount (inodeOf dC p) - 1 →
      entName (dC.blocks ((inodeOf dC p).direct 0)) j ≠ name := by
    intro j hj
    rw [hcntC, Nat.add_sub_cancel] at hj
    rw [hdC, entName_congr _ _ _ (hsame j hj)]
    exact fun h => hnew j (by omega) h.symm
  obtain ⟨dU, hU, hsU, hibU, hdbU, hrecU, hszU, hdU, hblkU⟩ :=
    unlinked_views dC dE p k0 name dbmU hwfC (by rw [hsC]; exact hp) htyC
      (by rw [hszC]; simp only [SIZEOF_DIR_ENT, Nat.cast_ofNat]; omega)
      (by rw [hsC, hdC]; exact hb0) hname hdot hnz hlast hinum hbefore
      (by rw [hsC]; exact hk0) hkp (by rw [hkC]; exact hempty)
      (by rw [hsC, hkC]; exact hfree) hEn (by rw [hsC]; exact hEout)
      (by rw [hdC]; exact hEb0)
  rw [hsC] at hibU hdbU
  refine ⟨dU, hU, ?_, ?_, ?_, ?_, ?_⟩
  · intro j hj
    rw [hibU j hj, hibC j hj]
    by_cases hjk : j = k0
    · rw [if_pos hjk, hjk, hfreeK]
    · rw [if_neg hjk, if_neg hjk]
  · intro j hj
    rw [hdbU j hj, hbits j hj]
    simp
  · intro off hoff
    rw [hrecU off hoff]
    exact (hz k0 (by omega) hfreeK off hoff).symm
  · rw [hszU, hszC]
    omega
  · intro idx hidx
    unfold dirEntName dirEntInum
    have e0 : UFS_BLOCK_SIZE / SIZEOF_DIR_ENT = 128 := by simp [UFS_BLOCK_SIZE, SIZEOF_DIR_ENT]
    have e1 : idx / 128 = 0 := by omega
    have e2 : idx % 128 = idx := by omega
    rw [e0, e1, e2, hdU, hdC]
    have hb : ∀ o, 32 * idx ≤ o → o < 32 * idx + 32 →
        dU.blocks ((inodeOf d p).direct 0) o = d.blocks ((inodeOf d p).direct 0) o := by
      intro o h1 h2
      have h3 := hblkU o (by rw [hcntC, Nat.add_sub_cancel]; omega)
      rw [hdC] at h3
      rw [h3]
      exact hsame idx hidx o h1 h2
    exact ⟨entName_congr _ _ _ hb, entInum_congr _ _ _ hb⟩

/-! ## Create followed by unlink: successful create -/

theorem createNameLoop_found (d : Disk) (ino : inode_t) (name : List Nat) (blk : Block)
    (j : Nat) (hr : d.readBlock (toI32 (ino.direct 0)) = some blk)
    (hf : findFirst (fun j => decide (name = entName blk j)) (UFS_BLOCK_SIZE / SIZEOF_DIR_ENT)
      = some j) :
    createNameLoop d ino name 0 1 = some true := by
  rw [createNameLoop, if_neg (by decide), hr]
  simp only
  rw [hf]

/-- A bit of the data bitmap read from a device that agrees with `d` outside
the data region. -/
theorem bitClear_dataBuf_frame {d d1 : Disk} (hwf : WF d)
    (hout : ∀ m : Nat, ((m : Int) < (superOf d).data_region_addr
        ∨ (superOf d).data_region_addr + (superOf d).num_data ≤ (m : Int)) →
        d1.blocks m = d.blocks m)
    {j : Nat} (hj : (j : Int) < 32768 * (superOf d).data_bitmap_len) :
    bitClear (regionBuf d1 (superOf d).data_bitmap_addr.toNat
      (superOf d).data_bitmap_len.toNat) j = !dataBit d j := by
  have hwf' := hwf
  unfold WF at hwf'
  rw [bitClear_regionBuf _ _ _ _ (by omega), (regionByte_frame hwf hout).2 j hj]
  unfold dataBit
  simp

theorem create_success_inv (d dC : Disk) (p : Nat) (t k : Int) (name : List Nat)
    (hwf : WF d) (hp : (p : Int) < (superOf d).num_inodes)
    (hdir : (inodeOf d p).type = UFS_DIRECTORY)
    (hsz : 0 < (inodeOf d p).size ∧ (inodeOf d p).size + 32 < 4096)
    (hb0 : (superOf d).data_region_addr ≤ ((inodeOf d p).direct 0 : Int)
      ∧ ((inodeOf d p).direct 0 : Int) < (superOf d).data_region_addr + (superOf d).num_data)
    (hc : create d p t name = some (dC, k)) (hk : 0 ≤ k) :
    name.length < DIR_ENT_NAME_SIZE - 1
    ∧ (t = UFS_REGULAR_FILE ∨ t = UFS_DIRECTORY)
    ∧ (∀ j, j < 128 → name ≠ entName (d.blocks ((inodeOf d p).direct 0)) j)
    ∧ ∃ k0, findFirstFrom (bitClear (regionBuf d (superOf d).inode_bitmap_addr.toNat
        (superOf d).inode_bitmap_len.toNat)) 0 (superOf d).num_inodes.toNat = some k0 := by
  have hwf' := hwf
  unfold WF at hwf'
  have hS0 : 0 ≤ (inodeOf d p).size := by omega
  have hti : toI32 ((inodeOf d p).direct 0) = ((inodeOf d p).direct 0 : Nat) :=
    toI32_of_lt (by omega)
  have hr : d.readBlock (toI32 ((inodeOf d p).direct 0))
      = some (d.blocks ((inodeOf d p).direct 0)) := by
    rw [hti, readBlock_eq (by omega) (by omega), Int.toNat_ofNat]
  have hbl : (blocksOf (inodeOf d p).size).toNat = 1 := by
    rw [blocksOf_eq hS0]
    unfold ceilBlocks
    simp only [UFS_BLOCK_SIZE, Nat.cast_ofNat]
    omega
  unfold create at hc
  rw [wf_readSuper hwf] at hc
  simp only at hc
  rw [if_neg (by omega)] at hc
  by_cases hlen : name.length < DIR_ENT_NAME_SIZE - 1
  swap
  · exfalso
    rw [if_pos (by simp only [DIR_ENT_NAME_SIZE] at hlen ⊢; omega)] at hc
    simp only [Option.some.injEq, Prod.mk.injEq] at hc
    rw [← hc.2] at hk
    simp [EINVALIDNAME] at hk
  rw [if_neg (by simp only [DIR_ENT_NAME_SIZE] at hlen ⊢; omega)] at hc
  by_cases ht : t = UFS_REGULAR_FILE ∨ t = UFS_DIRECTORY
  swap
  · exfalso
    rw [if_pos (by
      constructor
      · exact fun h => ht (Or.inl h)
      · exact fun h => ht (Or.inr h))] at hc
    simp only [Option.some.injEq, Prod.mk.injEq] at hc
    rw [← hc.2] at hk
    simp [EINVALIDTYPE] at hk
  rw [if_neg (by rcases ht with h | h <;> simp [h]), wf_stat hwf (by omega) hp zeroInode] at hc
  simp only [Int.toNat_ofNat] at hc
  rw [if_neg (by rw [hdir]; simp), wf_readInodeRegion hwf] at hc
  simp only at hc
  rw [hbl] at hc
  cases hf : findFirst (fun j => decide (name = entName (d.blocks ((inodeOf d p).direct 0)) j))
      (UFS_BLOCK_SIZE / SIZEOF_DIR_ENT) with
  | some j0 =>
    exfalso
    rw [createNameLoop_found d _ name _ j0 hr hf] at hc
    simp only [Option.some.injEq, Prod.mk.injEq] at hc
    rw [← hc.2] at hk
    simp [EINVALIDNAME] at hk
  | none =>
    have hnew : ∀ j, j < 128 → name ≠ entName (d.blocks ((inodeOf d p).direct 0)) j := by
      intro j hj
      have := findFirst_none hf j (by simp only [UFS_BLOCK_SIZE, SIZEOF_DIR_ENT]; omega)
      simpa using this
    rw [createNameLoop_one d _ name _ hr hnew] at hc
    simp only at hc
    rw [wf_readInodeBitmap hwf] at hc
    simp only at hc
    rw [scanFree_eq _ _ _ 0 (by simp only [UFS_BLOCK_SIZE]; omega)] at hc
    cases hk0 : findFirstFrom (bitClear (regionBuf d (superOf d).inode_bitmap_addr.toNat
        (superOf d).inode_bitmap_len.toNat)) 0 (superOf d).num_inodes.toNat with
    | none =>
      exfalso
      rw [hk0] at hc
      simp only [Option.some.injEq, Prod.mk.injEq] at hc
      rw [← hc.2] at hk
      simp [ENOTENOUGHSPACE] at hk
    | some k0 => exact ⟨hlen, ht, hnew, k0, rfl⟩

/-! ## Create followed by unlink -/

/-- C8 (amended): in a state satisfying the global invariants in which free
inode slots are all-zero, let `p` be a live directory whose first pointer is
nonzero and whose size leaves room for two more entries in its first block
(`size + sizeof(entry) < B`), and `name` a nonempty name without NUL. If
`create(p, t, name)` succeeds returning `k`, then `unlink(p, name)` returns 0,
and afterwards every bit of the inode bitmap and of the data bitmap and every
byte of the inode record of `k` are as before the create, `p.size` is back to
its old value and the valid entries of `p` are the same. -/
theorem create_unlink_restores (d dC : Disk) (p : Nat) (t k : Int) (name : List Nat)
    (hinv : GlobalInv d) (hz : FreeSlotsZero d)
    (hp : (p : Int) < (superOf d).num_inodes) (hlive : inodeBit d p = true)
    (hdir : (inodeOf d p).type = UFS_DIRECTORY)
    (hroom : (inodeOf d p).size + SIZEOF_DIR_ENT < UFS_BLOCK_SIZE)
    (hptr : (inodeOf d p).direct 0 ≠ 0)
    (hname : name ≠ []) (hnz : ∀ c, c ∈ name → c ≠ 0)
    (hc : create d p t name = some (dC, k)) (hk : 0 ≤ k) :
    ∃ dU, unlink dC p name = some (dU, 0)
      ∧ (∀ j : Nat, (j : Int) < 8 * UFS_BLOCK_SIZE * (superOf d).inode_bitmap_len →
          inodeBit dU j = inodeBit d j)
      ∧ (∀ j : Nat, (j : Int) < 8 * UFS_BLOCK_SIZE * (superOf d).data_bitmap_len →
          dataBit dU j = dataBit d j)
      ∧ (∀ off, off < SIZEOF_INODE → inodeRecByte dU k.toNat off = inodeRecByte d k.toNat off)
      ∧ (inodeOf dU p).size = (inodeOf d p).size
      ∧ (∀ idx, idx < dirCount (inodeOf d p) →
          dirEntName dU (inodeOf dU p) idx = dirEntName d (inodeOf d p) idx
          ∧ dirEntInum dU (inodeOf dU p) idx = dirEntInum d (inodeOf d p) idx) := by
  obtain ⟨hwf, hI1, _, hI3, hI4, _, _⟩ := hinv
  have hwf' := hwf
  unfold WF at hwf'
  unfold disjointRanges at hwf'
  have hpn : p < (superOf d).num_inodes.toNat := by omega
  have hroom' : (inodeOf d p).size + 32 < 4096 := by
    simpa [SIZEOF_DIR_ENT, UFS_BLOCK_SIZE] using hroom
  obtain ⟨hal1, hal2, hal3⟩ := (hI1 p hpn hlive).2 0 (by decide) hptr
  have hal : (superOf d).data_region_addr ≤ ((inodeOf d p).direct 0 : Int)
      ∧ ((inodeOf d p).direct 0 : Int) < (superOf d).data_region_addr + (superOf d).num_data :=
    ⟨hal1, hal2⟩
  have hS0 := (hI3 p hpn hlive hdir).1
  have hcnt : dirCount (inodeOf d p) < 127 := by
    unfold dirCount
    simp only [SIZEOF_DIR_ENT, Nat.cast_ofNat]
    omega
  have hent : ∀ idx, idx < dirCount (inodeOf d p) →
      dirEntName d (inodeOf d p) idx = entName (d.blocks ((inodeOf d p).direct 0)) idx := by
    intro idx hidx
    unfold dirEntName
    have e0 : UFS_BLOCK_SIZE / SIZEOF_DIR_ENT = 128 := by simp [UFS_BLOCK_SIZE, SIZEOF_DIR_ENT]
    have e1 : idx / 128 = 0 := by omega
    have e2 : idx % 128 = idx := by omega
    rw [e0, e1, e2]
  obtain ⟨⟨i1, hi1, hn1, _⟩, ⟨i2, hi2, hn2, _⟩⟩ := hI4 p hpn hlive hdir
  have hpos : 0 < (inodeOf d p).size := by
    unfold dirCount at hi1
    simp only [SIZEOF_DIR_ENT, Nat.cast_ofNat] at hi1
    omega
  obtain ⟨hlen, ht, hnew, k0, hk0⟩ :=
    create_success_inv d dC p t k name hwf hp hdir ⟨hpos, hroom'⟩ hal hc hk
  have hdot : name ≠ [46] ∧ name ≠ [46, 46] := by
    constructor
    · intro h
      apply hnew i1 (by omega)
      rw [← hent i1 hi1, hn1, h]
    · intro h
      apply hnew i2 (by omega)
      rw [← hent i2 hi2, hn2, h]
  have hk0s := findFirstFrom_spec (bitClear (regionBuf d (superOf d).inode_bitmap_addr.toNat
    (superOf d).inode_bitmap_len.toNat)) (superOf d).num_inodes.toNat 0
  rw [hk0] at hk0s
  simp only [zero_add] at hk0s
  obtain ⟨_, hk0lt, hk0c, _⟩ := hk0s
  have hk0i : (k0 : Int) < (superOf d).num_inodes := by omega
  have hfreeK : inodeBit d k0 = false := by
    unfold inodeBit
    rw [← bitClear_regionBuf d _ (superOf d).inode_bitmap_len.toNat k0 (by omega), hk0c]
    rfl
  have hkp : k0 ≠ p := by
    intro h
    rw [h, hlive] at hfreeK
    exact absurd hfreeK (by decide)
  have hAout : ∀ m : Nat, ((m : Int) < (superOf d).data_region_addr
      ∨ (superOf d).data_region_addr + (superOf d).num_data ≤ (m : Int)) →
      (appended d p k0 name).blocks m = d.blocks m := by
    intro m hm
    exact appended_other d p k0 m name (by intro h; rw [h] at hm; omega)
  have h8i : ∀ j : Nat, (j : Int) < 8 * UFS_BLOCK_SIZE * (superOf d).inode_bitmap_len →
      (j : Int) < 32768 * (superOf d).inode_bitmap_len := by
    intro j hj
    simpa [UFS_BLOCK_SIZE] using hj
  have h8d : ∀ j : Nat, (j : Int) < 8 * UFS_BLOCK_SIZE * (superOf d).data_bitmap_len →
      (j : Int) < 32768 * (superOf d).data_bitmap_len := by
    intro j hj
    simpa [UFS_BLOCK_SIZE] using hj
  rw [create_append_eq d p k0 t name hwf hp hdir ⟨hpos, hroom'⟩ ⟨hal1, hal2, hal3⟩ hlen ht hnew
    hk0] at hc
  by_cases htd : t = UFS_DIRECTORY
  · rw [if_pos htd] at hc
    cases hj : findFirstFrom (bitClear (regionBuf (appended d p k0 name)
        (superOf d).data_bitmap_addr.toNat (superOf d).data_bitmap_len.toNat)) 0
        (superOf d).num_data.toNat with
    | none =>
      exfalso
      rw [hj] at hc
      simp only [Option.some.injEq, Prod.mk.injEq] at hc
      rw [← hc.2] at hk
      simp [ENOTENOUGHSPACE] at hk
    | some j2 =>
      rw [hj] at hc
      simp only [Option.some.injEq, Prod.mk.injEq] at hc
      obtain ⟨hdC, hkk⟩ := hc
      have hj2s := findFirstFrom_spec (bitClear (regionBuf (appended d p k0 name)
        (superOf d).data_bitmap_addr.toNat (superOf d).data_bitmap_len.toNat))
        (superOf d).num_data.toNat 0
      rw [hj] at hj2s
      simp only [zero_add] at hj2s
      obtain ⟨_, hj2lt, hj2c, _⟩ := hj2s
      have hj2d : dataBit d j2 = false := by
        rw [bitClear_dataBuf_frame hwf hAout (by omega)] at hj2c
        simpa using hj2c
      have hbN : (((j2 : Int) + (superOf d).data_region_addr).toNat : Int)
          = (j2 : Int) + (superOf d).data_region_addr := by omega
      have hne : (inodeOf d p).direct 0 ≠ ((j2 : Int) + (superOf d).data_region_addr).toNat := by
        intro h
        have e : (((inodeOf d p).direct 0 : Int) - (superOf d).data_region_addr).toNat = j2 := by
          omega
        rw [e, hj2d] at hal3
        exact absurd hal3 (by decide)
      have hC := committed_create hwf
        (putBlock (appended d p k0 name) ((j2 : Int) + (superOf d).data_region_addr).toNat
          (setEntry (setEntry zeroBlock 0 k0 [46]) 1 p [46, 46]))
        (createdInodes d p k0
          ⟨t, 2 * (SIZEOF_DIR_ENT : Int),
            fun i => if i = 0 then toU32 ((j2 : Int) + (superOf d).data_region_addr) else 0⟩)
        (setBit (regionBuf d (superOf d).inode_bitmap_addr.toNat
          (superOf d).inode_bitmap_len.toNat) k0)
        (setBit (regionBuf (appended d p k0 name) (superOf d).data_bitmap_addr.toNat
          (superOf d).data_bitmap_len.toNat) j2)
      have hCc : commitCreate
          (putBlock (appended d p k0 name) ((j2 : Int) + (superOf d).data_region_addr).toNat
            (setEntry (setEntry zeroBlock 0 k0 [46]) 1 p [46, 46]))
          (superOf d)
          (createdInodes d p k0
            ⟨t, 2 * (SIZEOF_DIR_ENT : Int),
              fun i => if i = 0 then toU32 ((j2 : Int) + (superOf d).data_region_addr) else 0⟩)
          (setBit (regionBuf d (superOf d).inode_bitmap_addr.toNat
            (superOf d).inode_bitmap_len.toNat) k0)
          (setBit (regionBuf (appended d p k0 name) (superOf d).data_bitmap_addr.toNat
            (superOf d).data_bitmap_len.toNat) j2) = dC := hdC
      unfold commitCreate at hCc
      rw [hCc] at hC
      have hDout : ∀ m : Nat, ((m : Int) < (superOf d).data_region_addr
          ∨ (superOf d).data_region_addr + (superOf d).num_data ≤ (m : Int)) →
          (putBlock (appended d p k0 name) ((j2 : Int) + (superOf d).data_region_addr).toNat
            (setEntry (setEntry zeroBlock 0 k0 [46]) 1 p [46, 46])).blocks m = d.blocks m := by
        intro m hm
        rw [putBlock_other _ _ _ _ (by omega)]
        exact hAout m hm
      have hDb0 := putBlock_other (appended d p k0 name)
        ((j2 : Int) + (superOf d).data_region_addr).toNat ((inodeOf d p).direct 0)
        (setEntry (setEntry zeroBlock 0 k0 [46]) 1 p [46, 46]) hne
      obtain ⟨hwfC, hsC, hnC, _, _, hdCp, _, _, _, hdbC⟩ :=
        created_views d dC _ p k0 name _ _ hwf hp hdir ⟨hS0, hroom'⟩ hal hk0i hkp hC rfl hDout
          hDb0
      have hd0 : (normInode ⟨t, 2 * (SIZEOF_DIR_ENT : Int),
          fun i => if i = 0 then toU32 ((j2 : Int) + (superOf d).data_region_addr) else 0⟩).direct 0
          = ((j2 : Int) + (superOf d).data_region_addr).toNat := by
        unfold normInode toU32
        simp only [if_true]
        rw [if_pos (by decide)]
        omega
      have hfree := unlinkFree_one (superOf d)
        (normInode ⟨t, 2 * (SIZEOF_DIR_ENT : Int),
          fun i => if i = 0 then toU32 ((j2 : Int) + (superOf d).data_region_addr) else 0⟩)
        ((superOf d).data_bitmap_len.toNat * UFS_BLOCK_SIZE) (lastRemoved dC p)
        (regionBuf (lastRemoved dC p) (superOf d).data_bitmap_addr.toNat
          (superOf d).data_bitmap_len.toNat) j2 (by rw [hd0]; exact hbN) (by omega)
        (by
          have : (lastRemoved dC p).numberOfBlocks = dC.numberOfBlocks := rfl
          rw [this, hnC]; omega)
        (by
          have : (lastRemoved dC p).numberOfBlocks = dC.numberOfBlocks := rfl
          rw [this, hnC]; omega)
        (by simp only [UFS_BLOCK_SIZE]; omega)
        (by unfold normInode; simp)
      rw [hd0] at hfree
      have hLout : ∀ m : Nat, ((m : Int) < (superOf d).data_region_addr
          ∨ (superOf d).data_region_addr + (superOf d).num_data ≤ (m : Int)) →
          (lastRemoved dC p).blocks m = dC.blocks m := by
        intro m hm
        exact lastRemoved_other dC p m (by rw [hdCp]; intro h; rw [h] at hm; omega)
      rw [← hkk]
      simp only [Int.toNat_ofNat]
      obtain ⟨dU, h1, h2, h3, h4, h5, h6⟩ :=
        create_unlink_core d dC _ _ p k0 name _ _ _ hwf hz hp hdir ⟨hS0, hroom'⟩ hal
        ⟨hname, hlen⟩ hdot hnz hnew hk0i hkp hfreeK hC rfl hDout hDb0
        (by
          unfold normInode
          simp only [SIZEOF_DIR_ENT]
          rw [htd]
          decide)
        hfree rfl
        (by
          intro m hm
          rw [putBlock_other _ _ _ _ (by omega)]
          exact hLout m hm)
        (putBlock_other _ _ _ _ hne)
        (by
          intro j hj
          rw [bitClear_clearBit]
          by_cases hjj : j = j2
          · rw [if_pos hjj, hjj, hj2d]; rfl
          · rw [if_neg hjj]
            have hf := @bitClear_dataBuf_frame dC (lastRemoved dC p) hwfC
              (by rw [hsC]; exact hLout) j (by rw [hsC]; exact hj)
            rw [hsC] at hf
            rw [hf, hdbC j hj, bitClear_setBit, if_neg hjj,
              bitClear_dataBuf_frame hwf hAout hj]
            simp)
      exact ⟨dU, h1, fun j hj => h2 j (h8i j hj), fun j hj => h3 j (h8d j hj), h4, h5, h6⟩
  · rw [if_neg htd] at hc
    simp only [Option.some.injEq, Prod.mk.injEq] at hc
    obtain ⟨hdC, hkk⟩ := hc
    have htr : t = UFS_REGULAR_FILE := by
      rcases ht with h | h
      · exact h
      · exact absurd h htd
    have hC := committed_create hwf (appended d p k0 name)
      (createdInodes d p k0 ⟨t, 0, fun _ => 0⟩)
      (setBit (regionBuf d (superOf d).inode_bitmap_addr.toNat
        (superOf d).inode_bitmap_len.toNat) k0)
      (regionBuf (appended d p k0 name) (superOf d).data_bitmap_addr.toNat
        (superOf d).data_bitmap_len.toNat)
    have hCc : commitCreate (appended d p k0 name) (superOf d)
        (createdInodes d p k0 ⟨t, 0, fun _ => 0⟩)
        (setBit (regionBuf d (superOf d).inode_bitmap_addr.toNat
          (superOf d).inode_bitmap_len.toNat) k0)
        (regionBuf (appended d p k0 name) (superOf d).data_bitmap_addr.toNat
          (superOf d).data_bitmap_len.toNat) = dC := hdC
    unfold commitCreate at hCc
    rw [hCc] at hC
    obtain ⟨hwfC, hsC, hnC, _, _, hdCp, _, _, _, hdbC⟩ :=
      created_views d dC _ p k0 name _ _ hwf hp hdir ⟨hS0, hroom'⟩ hal hk0i hkp hC rfl hAout rfl
    have hLout : ∀ m : Nat, ((m : Int) < (superOf d).data_region_addr
        ∨ (superOf d).data_region_addr + (superOf d).num_data ≤ (m : Int)) →
        (lastRemoved dC p).blocks m = dC.blocks m := by
      intro m hm
      exact lastRemoved_other dC p m (by rw [hdCp]; intro h; rw [h] at hm; omega)
    rw [← hkk]
    simp only [Int.toNat_ofNat]
    obtain ⟨dU, h1, h2, h3, h4, h5, h6⟩ :=
      create_unlink_core d dC _ _ p k0 name _ _ _ hwf hz hp hdir ⟨hS0, hroom'⟩ hal
      ⟨hname, hlen⟩ hdot hnz hnew hk0i hkp hfreeK hC rfl hAout rfl
      (by
        unfold normInode
        simp only
        rw [htr]
        decide)
      (unlinkFree_none _ _ _ _ _ (by unfold normInode; simp)) rfl hLout rfl
      (by
        intro j hj
        have hf := @bitClear_dataBuf_frame dC (lastRemoved dC p) hwfC
          (by rw [hsC]; exact hLout) j (by rw [hsC]; exact hj)
        rw [hsC] at hf
        rw [hf, hdbC j hj, bitClear_dataBuf_frame hwf hAout hj]
        simp)
    exact ⟨dU, h1, fun j hj => h2 j (h8i j hj), fun j hj => h3 j (h8d j hj), h4, h5, h6⟩

/-! ## Create followed by unlink: witnesses -/

set_option maxRecDepth 100000 in
/-- C8 (counterexample): `crowdedImg 128` satisfies the global invariants, its
free inode slot is all-zero and its root is a live directory whose 128 entries
fill one block. `create(0, REGULAR_FILE, "new")` succeeds and returns 127 after
allocating a second block for the root (data bit 1), and `unlink(0, "new")`
returns 0 and restores the size of the root, but data bit 1, clear before the
create, stays set. -/
theorem create_unlink_keeps_parent_block :
    GlobalInv (crowdedImg 128) ∧ FreeSlotsZero (crowdedImg 128)
    ∧ inodeBit (crowdedImg 128) 0 = true
    ∧ (inodeOf (crowdedImg 128) 0).type = UFS_DIRECTORY
    ∧ retOf (create (crowdedImg 128) 0 UFS_REGULAR_FILE [110, 101, 119]) = some 127
    ∧ retOf (unlink (diskOf (create (crowdedImg 128) 0 UFS_REGULAR_FILE [110, 101, 119])
        (crowdedImg 128)) 0 [110, 101, 119]) = some 0
    ∧ (inodeOf (diskOf (unlink (diskOf (create (crowdedImg 128) 0 UFS_REGULAR_FILE
        [110, 101, 119]) (crowdedImg 128)) 0 [110, 101, 119]) (crowdedImg 128)) 0).size
        = (inodeOf (crowdedImg 128) 0).size
    ∧ dataBit (crowdedImg 128) 1 = false
    ∧ dataBit (diskOf (unlink (diskOf (create (crowdedImg 128) 0 UFS_REGULAR_FILE
        [110, 101, 119]) (crowdedImg 128)) 0 [110, 101, 119]) (crowdedImg 128)) 1 = true :=
  ⟨crowded_globalInv 128 (by decide) (by decide), by decide!⟩

set_option maxRecDepth 100000 in
/-- Witness for C8 (amended) on a fresh image with 32 inodes and 2 data blocks:
the file `a` is created in the root and unlinked again. -/
theorem create_unlink_restores_witness :
    GlobalInv (mkfs 32 2) ∧ FreeSlotsZero (mkfs 32 2)
    ∧ retOf (create (mkfs 32 2) (0 : Nat) UFS_REGULAR_FILE [97]) = some 1
    ∧ ∃ dU, unlink (diskOf (create (mkfs 32 2) (0 : Nat) UFS_REGULAR_FILE [97]) (mkfs 32 2))
        (0 : Nat) [97] = some (dU, 0)
      ∧ (∀ j : Nat, (j : Int) < 8 * UFS_BLOCK_SIZE * (superOf (mkfs 32 2)).inode_bitmap_len →
          inodeBit dU j = inodeBit (mkfs 32 2) j)
      ∧ (∀ j : Nat, (j : Int) < 8 * UFS_BLOCK_SIZE * (superOf (mkfs 32 2)).data_bitmap_len →
          dataBit dU j = dataBit (mkfs 32 2) j)
      ∧ (∀ off, off < SIZEOF_INODE →
          inodeRecByte dU (1 : Int).toNat off = inodeRecByte (mkfs 32 2) (1 : Int).toNat off)
      ∧ (inodeOf dU 0).size = (inodeOf (mkfs 32 2) 0).size
      ∧ (∀ idx, idx < dirCount (inodeOf (mkfs 32 2) 0) →
          dirEntName dU (inodeOf dU 0) idx = dirEntName (mkfs 32 2) (inodeOf (mkfs 32 2) 0) idx
          ∧ dirEntInum dU (inodeOf dU 0) idx
            = dirEntInum (mkfs 32 2) (inodeOf (mkfs 32 2) 0) idx) :=
  ⟨by decide!, by decide!, by decide!,
    create_unlink_restores (mkfs 32 2)
      (diskOf (create (mkfs 32 2) (0 : Nat) UFS_REGULAR_FILE [97]) (mkfs 32 2)) 0
      UFS_REGULAR_FILE 1 [97] (by decide!) (by decide!) (by decide!) (by decide!) (by decide!)
      (by decide!) (by decide!) (by decide) (by decide)
      (eq_some_of_retOf (mkfs 32 2) (by decide!)) (by decide)⟩

/-! ## Stat, read, and the bounds of lookup and create -/

/-- C18: on a well-formed layout, `stat(n, out)` returns 0 with the record at
offset `(n mod ipb) * sizeof(inode)` of block `inode_region_addr + n / ipb`
when `0 <= n < num_inodes`, whatever the inode bitmap holds, and that record is
element `n` of the array read by `readInodeRegion`; otherwise it returns
INVALID_INODE and leaves `out` as it was. -/
theorem stat_is_table_lookup (d : Disk) (n : Int) (out : inode_t) (hwf : WF d) :
    (0 ≤ n ∧ n < (superOf d).num_inodes →
      stat d n out = some (0, decodeInode
        (d.blocks ((superOf d).inode_region_addr.toNat
          + n.toNat / (UFS_BLOCK_SIZE / SIZEOF_INODE)))
        (n.toNat % (UFS_BLOCK_SIZE / SIZEOF_INODE) * SIZEOF_INODE))
      ∧ ∃ inodes, readInodeRegion d (superOf d) = some inodes
        ∧ inodes n.toNat = decodeInode
          (d.blocks ((superOf d).inode_region_addr.toNat
            + n.toNat / (UFS_BLOCK_SIZE / SIZEOF_INODE)))
          (n.toNat % (UFS_BLOCK_SIZE / SIZEOF_INODE) * SIZEOF_INODE))
    ∧ (¬ (0 ≤ n ∧ n < (superOf d).num_inodes) →
      stat d n out = some (-EINVALIDINODE, out)) := by
  constructor
  · intro hn
    refine ⟨wf_stat hwf hn.1 hn.2 out, _, wf_readInodeRegion hwf, ?_⟩
    exact inodeTable_eq hwf (by omega)
  · intro hn
    unfold stat
    rw [wf_readSuper hwf]
    simp only
    rw [if_pos (by omega)]

set_option maxRecDepth 100000 in
/-- Witness for C18 on a fresh image with 32 inodes: `stat` of the free slot 5
returns 0, and `stat` of 32 returns INVALID_INODE. -/
theorem stat_is_table_lookup_witness :
    inodeBit (mkfs 32 2) 5 = false
    ∧ retOf ((stat (mkfs 32 2) 5 zeroInode).map (fun r => (mkfs 32 2, r.1))) = some 0
    ∧ ((0 ≤ (5 : Int) ∧ (5 : Int) < (superOf (mkfs 32 2)).num_inodes →
      stat (mkfs 32 2) 5 zeroInode = some (0, decodeInode
        ((mkfs 32 2).blocks ((superOf (mkfs 32 2)).inode_region_addr.toNat
          + (5 : Int).toNat / (UFS_BLOCK_SIZE / SIZEOF_INODE)))
        ((5 : Int).toNat % (UFS_BLOCK_SIZE / SIZEOF_INODE) * SIZEOF_INODE))
      ∧ ∃ inodes, readInodeRegion (mkfs 32 2) (superOf (mkfs 32 2)) = some inodes
        ∧ inodes (5 : Int).toNat = decodeInode
          ((mkfs 32 2).blocks ((superOf (mkfs 32 2)).inode_region_addr.toNat
            + (5 : Int).toNat / (UFS_BLOCK_SIZE / SIZEOF_INODE)))
          ((5 : Int).toNat % (UFS_BLOCK_SIZE / SIZEOF_INODE) * SIZEOF_INODE))
    ∧ (¬ (0 ≤ (5 : Int) ∧ (5 : Int) < (superOf (mkfs 32 2)).num_inodes) →
      stat (mkfs 32 2) 5 zeroInode = some (-EINVALIDINODE, zeroInode))) :=
  ⟨by decide!, by decide!, stat_is_table_lookup (mkfs 32 2) 5 zeroInode (by decide!)⟩

theorem readLoop_min (d : Disk) (inode : inode_t) (size : Int) :
    ∀ (fuel : Nat) (bytesRead : Int) (buffer : Block),
      readLoop d inode size fuel bytesRead buffer
        = readLoop d { inode with size := min size inode.size } (min size inode.size) fuel
            bytesRead buffer := by
  intro fuel
  induction fuel with
  | zero => intro _ _; rfl
  | succ fuel ih =>
    intro bytesRead buffer
    rw [readLoop, readLoop]
    by_cases hc : bytesRead < size ∧ bytesRead < inode.size
    · have hc1 : bytesRead < min size inode.size ∧ bytesRead < min size inode.size := by
        constructor <;> omega
      rw [if_pos hc, if_pos hc1]
      simp only [min_of_three_eq]
      have e : min (min (size - bytesRead) ((UFS_BLOCK_SIZE : Int) - cmod bytesRead UFS_BLOCK_SIZE))
            (inode.size - bytesRead)
          = min (min (min size inode.size - bytesRead)
              ((UFS_BLOCK_SIZE : Int) - cmod bytesRead UFS_BLOCK_SIZE))
            (min size inode.size - bytesRead) := by omega
      rw [e]
      split
      · rfl
      · cases d.readBlock (toI32 (inode.direct (cdiv bytesRead UFS_BLOCK_SIZE).toNat)) with
        | none => rfl
        | some blk =>
          simp only
          rw [ih]
    · have hc1 : ¬ (bytesRead < min size inode.size ∧ bytesRead < min size inode.size) := by
        omega
      rw [if_neg hc, if_neg hc1]

/-- C12: on a well-formed layout, `read(n, buf, size)` returns INVALID_SIZE for
a size outside `[0, D * B]` and INVALID_INODE for `n` outside `[0,
num_inodes)`; otherwise, for an inode with a nonnegative size whose pointers
for the blocks read lie inside the device, it returns `min(size, inode.size)`
and stores in the buffer exactly that many bytes, the prefix of the
concatenation of the blocks `direct[0], direct[1], ...`. -/
theorem read_returns_leading_bytes (d : Disk) (n : Int) (buf : Block) (size : Int) (hwf : WF d) :
    ((size < 0 ∨ size > MAX_FILE_SIZE) → read d n buf size = some (-EINVALIDSIZE, buf))
    ∧ (0 ≤ size ∧ size ≤ MAX_FILE_SIZE → ¬ (0 ≤ n ∧ n < (superOf d).num_inodes) →
        read d n buf size = some (-EINVALIDINODE, buf))
    ∧ (0 ≤ size ∧ size ≤ MAX_FILE_SIZE → 0 ≤ n ∧ n < (superOf d).num_inodes →
        0 ≤ (inodeOf d n.toNat).size →
        (∀ t : Nat, (t : Int) * UFS_BLOCK_SIZE < min size (inodeOf d n.toNat).size →
          (inodeOf d n.toNat).direct t < d.numberOfBlocks) →
        read d n buf size = some (min size (inodeOf d n.toNat).size,
          fun (x : Nat) => if (x : Int) < min size (inodeOf d n.toNat).size then
              d.blocks ((inodeOf d n.toNat).direct (x / UFS_BLOCK_SIZE)) (x % UFS_BLOCK_SIZE)
            else buf x)) := by
  have hwf' := hwf
  unfold WF at hwf'
  refine ⟨?_, ?_, ?_⟩
  · intro h
    unfold read
    rw [if_pos h]
  · intro hs hn
    unfold read
    rw [if_neg (by omega), wf_readSuper hwf]
    simp only
    rw [if_pos (by omega)]
  · intro hs hn hsz hptr
    unfold read
    rw [if_neg (by omega), wf_readSuper hwf]
    simp only
    rw [if_neg (by omega), wf_stat hwf hn.1 hn.2 zeroInode]
    simp only
    rw [if_neg (by simp), readLoop_min]
    have hm0 : 0 ≤ min size (inodeOf d n.toNat).size := by omega
    have hB : UFS_BLOCK_SIZE = 4096 := rfl
    have hmax : min size (inodeOf d n.toNat).size ≤ 122880 := by
      have : size ≤ 122880 := by
        have := hs.2
        simpa [MAX_FILE_SIZE, DIRECT_PTRS, UFS_BLOCK_SIZE] using this
      omega
    have hloop := readLoop_spec d
      { inodeOf d n.toNat with size := min size (inodeOf d n.toNat).size }
      (min size (inodeOf d n.toNat).size)
      (fun x => d.blocks ((inodeOf d n.toNat).direct (x / 4096)) (x % 4096)) hm0 rfl
      (by
        intro t ht
        have hp := hptr t (by rw [hB]; exact ht)
        refine ⟨by omega, d.blocks ((inodeOf d n.toNat).direct t), ?_, ?_⟩
        · simp only
          rw [toI32_of_lt (by omega), readBlock_eq (by omega) (by omega), Int.toNat_ofNat]
        · intro o ho
          have e1 : (t * 4096 + o) / 4096 = t := by omega
          have e2 : (t * 4096 + o) % 4096 = o := by omega
          simp only [e1, e2])
      (min size (inodeOf d n.toNat).size).toNat 0 (size.toNat + 1) buf (by omega) (by omega)
    simp only [Nat.cast_zero, zero_mul] at hloop
    rw [min_eq_left hm0] at hloop
    rw [hloop]
    refine congrArg (fun g => some (min size (inodeOf d n.toNat).size, g)) (funext fun x => ?_)
    beta_reduce
    rw [hB]
    by_cases hx : (x : Int) < min size (inodeOf d n.toNat).size
    · rw [if_pos ⟨by omega, hx⟩, if_pos hx]
    · rw [if_neg (fun h => hx h.2), if_neg hx]

set_option maxRecDepth 100000 in
/-- Witness for C12 on a fresh image: the 64 bytes of the root directory are
read from its first block. -/
theorem read_returns_leading_bytes_witness :
    WF (mkfs 32 2)
    ∧ read (mkfs 32 2) 0 zeroBlock 64
      = some (min 64 (inodeOf (mkfs 32 2) (0 : Int).toNat).size,
          fun (x : Nat) => if (x : Int) < min 64 (inodeOf (mkfs 32 2) (0 : Int).toNat).size then
              (mkfs 32 2).blocks ((inodeOf (mkfs 32 2) (0 : Int).toNat).direct
                (x / UFS_BLOCK_SIZE)) (x % UFS_BLOCK_SIZE)
            else zeroBlock x) :=
  ⟨by decide!,
    (read_returns_leading_bytes (mkfs 32 2) 0 zeroBlock 64 (by decide!)).2.2 (by decide) (by decide!)
      (by decide!)
      (by
        intro t ht
        have hs : (inodeOf (mkfs 32 2) (0 : Int).toNat).size = 64 := by decide!
        rw [hs] at ht
        have h0 : t = 0 := by
          simp only [UFS_BLOCK_SIZE, Nat.cast_ofNat] at ht
          omega
        subst h0
        decide!)⟩

set_option maxRecDepth 100000 in
/-- C11 (code defect): the root of `crowdedImg 128` is a live directory of size
`B` whose 128 valid entries fill one block; the first of them is `.` with inum
0, so the reference scan of `lookup(0, ".")` yields 0. `lookup` computes
`(size % B) / sizeof(entry) = 0` entries for the block and returns NOT_FOUND. -/
theorem lookup_full_block_not_found :
    (inodeOf (crowdedImg 128) 0).type = UFS_DIRECTORY
    ∧ (inodeOf (crowdedImg 128) 0).size = UFS_BLOCK_SIZE
    ∧ dirCount (inodeOf (crowdedImg 128) 0) = 128
    ∧ dirEntName (crowdedImg 128) (inodeOf (crowdedImg 128) 0) 0 = [46]
    ∧ lookupSpec (crowdedImg 128) (inodeOf (crowdedImg 128) 0) [46] = 0
    ∧ lookup (crowdedImg 128) 0 [46] = some (-ENOTFOUND) := by
  decide!

set_option maxRecDepth 100000 in
/-- C14 (code defect): on a fresh image with 32 inodes and 2 data blocks the
root is a valid directory, inode 1 and data block 1 are free and no entry of
the root is named `name27`, a name of 27 characters, fewer than `NAME_MAX`;
`create(0, REGULAR_FILE, name27)` and `create(0, DIRECTORY, name27)` fail with
INVALID_NAME, while a name of 26 characters is accepted. -/
theorem create_rejects_27_chars :
    name27.length = 27 ∧ name27.length < DIR_ENT_NAME_SIZE
    ∧ inodeBit (mkfs 32 2) 1 = false ∧ dataBit (mkfs 32 2) 1 = false
    ∧ (∀ idx, idx < dirCount (inodeOf (mkfs 32 2) 0) →
        dirEntName (mkfs 32 2) (inodeOf (mkfs 32 2) 0) idx ≠ name27)
    ∧ retOf (create (mkfs 32 2) 0 UFS_REGULAR_FILE name27) = some (-EINVALIDNAME)
    ∧ retOf (create (mkfs 32 2) 0 UFS_DIRECTORY name27) = some (-EINVALIDNAME)
    ∧ retOf (create (mkfs 32 2) 0 UFS_REGULAR_FILE (List.replicate 26 97)) = some 1 := by
  decide!

/-! ## The request adapter -/

theorem eq_some_of_statusOf {x : Option (Device × Nat)} {r : Nat} (dev : Device)
    (h : statusOf x = some r) : x = some (deviceOf x dev, r) := by
  cases x with
  | none => simp [statusOf] at h
  | some p =>
    obtain ⟨d1, r1⟩ := p
    simp only [statusOf, Option.map_some', Option.some.injEq] at h
    simp only [deviceOf, h]

theorem store_durable (dev : Device) (d : Disk) (h : dev.pending.isSome = true) :
    (dev.store d).durable = dev.durable ∧ (dev.store d).pending.isSome = true := by
  unfold Device.store
  cases hp : dev.pending with
  | none => rw [hp] at h; simp at h
  | some v => simp

theorem begin_durable (dev : Device) :
    dev.beginTransaction.durable = dev.durable
    ∧ dev.beginTransaction.pending.isSome = true := by
  unfold Device.beginTransaction
  cases hp : dev.pending with
  | none => simp
  | some v => simp [hp]

theorem putWalk_durable : ∀ (comps : List (List Nat)) (dev dev1 : Device) (cur : Int)
    (r : Nat ⊕ Int), dev.pending.isSome = true → putWalk dev comps cur = some (dev1, r) →
    dev1.durable = dev.durable ∧ (∀ c, r = Sum.inr c → dev1.pending.isSome = true) := by
  intro comps
  induction comps with
  | nil =>
    intro dev dev1 cur r hp h
    simp only [putWalk, Option.some.injEq, Prod.mk.injEq] at h
    obtain ⟨h1, _⟩ := h
    subst h1
    exact ⟨rfl, fun _ _ => hp⟩
  | cons c cs ih =>
    intro dev dev1 cur r hp h
    rw [putWalk] at h
    cases hl : lookup dev.view cur c with
    | none => rw [hl] at h; simp at h
    | some next =>
      rw [hl] at h
      simp only at h
      by_cases hn : next < 0
      · rw [if_pos hn] at h
        by_cases he : next = -ENOTFOUND
        · rw [if_pos he] at h
          cases hc : create dev.view cur UFS_DIRECTORY c with
          | none => rw [hc] at h; simp at h
          | some p =>
            obtain ⟨d1, k⟩ := p
            rw [hc] at h
            simp only at h
            by_cases hk : k < 0
            · rw [if_pos hk] at h
              simp only [Option.some.injEq, Prod.mk.injEq] at h
              obtain ⟨h1, h2⟩ := h
              subst h1 h2
              exact ⟨(store_durable dev d1 hp).1, fun _ hc => by simp at hc⟩
            · rw [if_neg hk] at h
              obtain ⟨h1, h2⟩ := ih (dev.store d1) dev1 k r (store_durable dev d1 hp).2 h
              exact ⟨h1.trans (store_durable dev d1 hp).1, h2⟩
        · rw [if_neg he] at h
          simp only [Option.some.injEq, Prod.mk.injEq] at h
          obtain ⟨h1, h2⟩ := h
          subst h1 h2
          exact ⟨rfl, fun _ hc => by simp at hc⟩
      · rw [if_neg hn] at h
        cases hs : stat dev.view next zeroInode with
        | none => rw [hs] at h; simp at h
        | some p =>
          obtain ⟨ret, inode⟩ := p
          rw [hs] at h
          simp only at h
          by_cases hb : ret < 0 ∨ inode.type ≠ UFS_DIRECTORY
          · rw [if_pos hb] at h
            simp only [Option.some.injEq, Prod.mk.injEq] at h
            obtain ⟨h1, h2⟩ := h
            subst h1 h2
            exact ⟨rfl, fun _ hc => by simp at hc⟩
          · rw [if_neg hb] at h
            exact ih dev dev1 next r hp h

theorem putFile_durable (dev dev1 : Device) (cur : Int) (fileName data : List Nat)
    (status : Nat) (hp : dev.pending.isSome = true) (hst : status ≠ STATUS_OK)
    (h : putFile dev cur fileName data = some (dev1, status)) :
    dev1.durable = dev.durable := by
  unfold putFile at h
  cases hl : lookup dev.view cur fileName with
  | none => rw [hl] at h; simp at h
  | some fileInode =>
    rw [hl] at h
    simp only at h
    by_cases hf : fileInode > 0
    · rw [if_pos hf] at h
      cases hw : write dev.view fileInode (fun k => data.getD k 0) (toI32 data.length) with
      | none => rw [hw] at h; simp at h
      | some p =>
        obtain ⟨d1, ret⟩ := p
        rw [hw] at h
        simp only at h
        by_cases hr : ret < 0
        · rw [if_pos hr] at h
          simp only [Option.some.injEq, Prod.mk.injEq] at h
          rw [← h.1]
          exact (store_durable dev d1 hp).1
        · rw [if_neg hr] at h
          simp only [Option.some.injEq, Prod.mk.injEq] at h
          exact absurd h.2.symm hst
    · rw [if_neg hf] at h
      cases hc : create dev.view cur UFS_REGULAR_FILE fileName with
      | none => rw [hc] at h; simp at h
      | some p =>
        obtain ⟨d1, k⟩ := p
        rw [hc] at h
        simp only at h
        by_cases hk : k < 0
        · rw [if_pos hk] at h
          simp only [Option.some.injEq, Prod.mk.injEq] at h
          rw [← h.1]
          exact (store_durable dev d1 hp).1
        · rw [if_neg hk] at h
          cases hw : write (dev.store d1).view k (fun k => data.getD k 0)
              (toI32 data.length) with
          | none => rw [hw] at h; simp at h
          | some p =>
            obtain ⟨d2, ret⟩ := p
            rw [hw] at h
            simp only at h
            by_cases hr : ret < 0
            · rw [if_pos hr] at h
              simp only [Option.some.injEq, Prod.mk.injEq] at h
              rw [← h.1]
              exact ((store_durable _ d2 (store_durable dev d1 hp).2).1).trans
                (store_durable dev d1 hp).1
            · rw [if_neg hr] at h
              simp only [Option.some.injEq, Prod.mk.injEq] at h
              exact absurd h.2.symm hst

/-- C20: with the transaction buffer of the device modelled as in the
specification, a PUT or a DELETE request that returns a status other than 200
leaves the committed contents of the device as they were before the request. -/
theorem failed_request_rolls_back (dev dev1 : Device) (path data : List Nat) (status : Nat)
    (hst : status ≠ STATUS_OK) :
    (put dev path data = some (dev1, status) → dev1.durable = dev.durable)
    ∧ (del dev path = some (dev1, status) → dev1.durable = dev.durable) := by
  constructor
  · intro h
    unfold put at h
    cases hc : handleGetPath path with
    | none => rw [hc] at h; simp at h
    | some comps =>
      rw [hc] at h
      cases comps with
      | nil => simp at h
      | cons c cs =>
        simp only at h
        cases hw : putWalk dev.beginTransaction (c :: cs).dropLast 0 with
        | none => rw [hw] at h; simp at h
        | some p =>
          obtain ⟨dev2, r⟩ := p
          rw [hw] at h
          obtain ⟨h1, h2⟩ := putWalk_durable _ _ _ _ _ (begin_durable dev).2 hw
          cases r with
          | inl st =>
            simp only [Option.some.injEq, Prod.mk.injEq] at h
            rw [← h.1, h1]
            exact (begin_durable dev).1
          | inr cur =>
            simp only at h
            rw [putFile_durable dev2 dev1 cur _ data status (h2 cur rfl) hst h, h1]
            exact (begin_durable dev).1
  · intro h
    unfold del at h
    cases hc : handleGetPath path with
    | none => rw [hc] at h; simp at h
    | some comps =>
      rw [hc] at h
      cases comps with
      | nil =>
        simp only [Option.some.injEq, Prod.mk.injEq] at h
        rw [← h.1]
      | cons c cs =>
        simp only at h
        cases hw : delWalk dev.view (c :: cs) 0 0 with
        | none => rw [hw] at h; simp at h
        | some r =>
          rw [hw] at h
          cases r with
          | none =>
            simp only [Option.some.injEq, Prod.mk.injEq] at h
            rw [← h.1]
            rfl
          | some pc =>
            obtain ⟨par, cur⟩ := pc
            simp only at h
            cases hu : unlink dev.beginTransaction.view par
                ((c :: cs).getLast (List.cons_ne_nil c cs)) with
            | none => rw [hu] at h; simp at h
            | some p =>
              obtain ⟨d1, ret⟩ := p
              rw [hu] at h
              simp only at h
              by_cases hr : ret ≠ 0
              · rw [if_pos hr] at h
                simp only [Option.some.injEq, Prod.mk.injEq] at h
                rw [← h.1]
                exact ((store_durable _ d1 (begin_durable dev).2).1).trans (begin_durable dev).1
              · rw [if_neg hr] at h
                simp only [Option.some.injEq, Prod.mk.injEq] at h
                exact absurd h.2.symm hst

set_option maxRecDepth 100000 in
/-- Witness for C20: DELETE of the non-empty directory `/ds3/a` of `imgNested`
answers 400, and PUT of `/ds3/a` with a body of five bytes on `imgNoSpace`,
where no data block is free, answers 507; the committed contents are those
before the request. -/
theorem failed_request_rolls_back_witness :
    statusOf (del ⟨imgNested, none⟩ pathA) = some 400
    ∧ (deviceOf (del ⟨imgNested, none⟩ pathA) ⟨imgNested, none⟩).durable = imgNested
    ∧ statusOf (put ⟨imgNoSpace, none⟩ pathA helloBody) = some 507
    ∧ (deviceOf (put ⟨imgNoSpace, none⟩ pathA helloBody) ⟨imgNoSpace, none⟩).durable
        = imgNoSpace :=
  ⟨by decide!,
    (failed_request_rolls_back ⟨imgNested, none⟩ _ pathA [] 400 (by decide)).2
      (eq_some_of_statusOf ⟨imgNested, none⟩ (by decide!)),
    by decide!,
    (failed_request_rolls_back ⟨imgNoSpace, none⟩ _ pathA helloBody 507 (by decide)).1
      (eq_some_of_statusOf ⟨imgNoSpace, none⟩ (by decide!))⟩

set_option maxRecDepth 100000 in
/-- C19 (code defect): on `crowdedImg 127`, which satisfies the global
invariants, PUT of `/ds3/new` with the body `hello` responds 200: the file is
created as entry 128 of the root and written. Resolving the path with `lookup`
from inode 0 then fails with NOT_FOUND, and GET of the same path responds 404. -/
theorem put_then_get_not_found :
    GlobalInv (crowdedImg 127)
    ∧ statusOf (put ⟨crowdedImg 127, none⟩ pathNew helloBody) = some 200
    ∧ lookup (deviceOf (put ⟨crowdedImg 127, none⟩ pathNew helloBody)
        ⟨crowdedImg 127, none⟩).view 0 [110, 101, 119] = some (-ENOTFOUND)
    ∧ get (deviceOf (put ⟨crowdedImg 127, none⟩ pathNew helloBody) ⟨crowdedImg 127, none⟩)
        pathNew = some (404, []) :=
  ⟨crowded_globalInv 127 (by decide) (by decide), by decide!⟩

/-! ## Reachable states -/

theorem reachable_any {d : Disk} {par : Nat → Int} (h : Reachable d par) :
    ReachableAny d par := by
  induction h with
  | fresh ni nd h1 h2 h3 h4 => exact ReachableAny.fresh ni nd h1 h2 h3 h4
  | create d d1 par p t name r _ hc _ ih => exact ReachableAny.create d d1 par p t name r ih hc
  | write d d1 par i buf s r _ hw _ ih => exact ReachableAny.write d d1 par i buf s r ih hw
  | unlink d d1 par p name _ hu ih => exact ReachableAny.unlink d d1 par p name 0 ih hu

/-! ## A freshly formatted image -/

theorem getI32_of_bytes (b : Block) (off : Nat) (x : Int) (h0 : 0 ≤ x) (h1 : x < 2147483648)
    (h : ∀ k, k < 4 → b (off + k) = byteOf (toU32 x) k) : getI32 b off = x := by
  unfold getI32
  rw [getU32_bytes b off (toU32 x) h, Nat.mod_eq_of_lt (toU32_lt x),
    toI32_toU32 (by omega) h1]

theorem decode_superImage (s : super_t)
    (h1 : 0 ≤ s.inode_bitmap_addr ∧ s.inode_bitmap_addr < 2147483648)
    (h2 : 0 ≤ s.inode_bitmap_len ∧ s.inode_bitmap_len < 2147483648)
    (h3 : 0 ≤ s.data_bitmap_addr ∧ s.data_bitmap_addr < 2147483648)
    (h4 : 0 ≤ s.data_bitmap_len ∧ s.data_bitmap_len < 2147483648)
    (h5 : 0 ≤ s.inode_region_addr ∧ s.inode_region_addr < 2147483648)
    (h6 : 0 ≤ s.inode_region_len ∧ s.inode_region_len < 2147483648)
    (h7 : 0 ≤ s.data_region_addr ∧ s.data_region_addr < 2147483648)
    (h8 : 0 ≤ s.num_inodes ∧ s.num_inodes < 2147483648)
    (h9 : 0 ≤ s.num_data ∧ s.num_data < 2147483648) :
    decodeSuper (superImage s) = s := by
  have e1 := getI32_of_bytes (superImage s) 0 _ h1.1 h1.2 (by
    intro k hk; unfold superImage; rw [if_pos (by omega), Nat.zero_add])
  have e2 := getI32_of_bytes (superImage s) 4 _ h2.1 h2.2 (by
    intro k hk; unfold superImage
    rw [if_neg (by omega), if_pos (by omega), Nat.add_sub_cancel_left])
  have e3 := getI32_of_bytes (superImage s) 8 _ h3.1 h3.2 (by
    intro k hk; unfold superImage
    rw [if_neg (by omega), if_neg (by omega), if_pos (by omega), Nat.add_sub_cancel_left])
  have e4 := getI32_of_bytes (superImage s) 12 _ h4.1 h4.2 (by
    intro k hk; unfold superImage
    rw [if_neg (by omega), if_neg (by omega), if_neg (by omega), if_pos (by omega),
      Nat.add_sub_cancel_left])
  have e5 := getI32_of_bytes (superImage s) 16 _ h5.1 h5.2 (by
    intro k hk; unfold superImage
    rw [if_neg (by omega), if_neg (by omega), if_neg (by omega), if_neg (by omega),
      if_pos (by omega), Nat.add_sub_cancel_left])
  have e6 := getI32_of_bytes (superImage s) 20 _ h6.1 h6.2 (by
    intro k hk; unfold superImage
    rw [if_neg (by omega), if_neg (by omega), if_neg (by omega)]
    rw [if_neg (by omega), if_neg (by omega), if_pos (by omega), Nat.add_sub_cancel_left])
  have e7 := getI32_of_bytes (superImage s) 24 _ h7.1 h7.2 (by
    intro k hk; unfold superImage
    rw [if_neg (by omega), if_neg (by omega), if_neg (by omega)]
    rw [if_neg (by omega), if_neg (by omega), if_neg (by omega)]
    rw [if_pos (by omega), Nat.add_sub_cancel_left])
  have e8 := getI32_of_bytes (superImage s) 28 _ h8.1 h8.2 (by
    intro k hk; unfold superImage
    rw [if_neg (by omega), if_neg (by omega), if_neg (by omega)]
    rw [if_neg (by omega), if_neg (by omega), if_neg (by omega)]
    rw [if_neg (by omega), if_pos (by omega), Nat.add_sub_cancel_left])
  have e9 := getI32_of_bytes (superImage s) 32 _ h9.1 h9.2 (by
    intro k hk; unfold superImage
    rw [if_neg (by omega), if_neg (by omega), if_neg (by omega)]
    rw [if_neg (by omega), if_neg (by omega), if_neg (by omega)]
    rw [if_neg (by omega), if_neg (by omega), if_pos (by omega), Nat.add_sub_cancel_left])
  unfold decodeSuper
  rw [e1, e2, e3, e4, e5, e6, e7, e8, e9]

theorem mkfs_super (ni nd : Nat) (h2 : ni ≤ 32768) (h4 : nd ≤ 32768) :
    superOf (mkfs ni nd) = mkSuper ni nd := by
  show decodeSuper (superImage (mkSuper ni nd)) = mkSuper ni nd
  apply decode_superImage <;> simp only [mkSuper] <;> constructor <;> omega

theorem mkfs_wf (ni nd : Nat) (h2 : ni ≤ 32768) (h4 : nd ≤ 32768) : WF (mkfs ni nd) := by
  unfold WF
  rw [mkfs_super ni nd h2 h4]
  simp only [mkSuper, mkfs, disjointRanges]
  push_cast
  simp only [true_and, true_or, or_false]
  omega

theorem mkfs_dra (ni nd : Nat) (h2 : ni ≤ 32768) (h4 : nd ≤ 32768) :
    (superOf (mkfs ni nd)).data_region_addr = ((3 + (ni + 31) / 32 : Nat) : Int)
    ∧ (superOf (mkfs ni nd)).num_inodes = (ni : Int)
    ∧ (superOf (mkfs ni nd)).num_data = (nd : Int)
    ∧ (superOf (mkfs ni nd)).inode_region_addr = 3
    ∧ (superOf (mkfs ni nd)).inode_bitmap_addr = 1
    ∧ (superOf (mkfs ni nd)).data_bitmap_addr = 2 := by
  rw [mkfs_super ni nd h2 h4]
  refine ⟨?_, rfl, rfl, rfl, rfl, rfl⟩
  simp only [mkSuper]
  push_cast
  rfl

/-- The inode array of a fresh image. -/
theorem mkfs_inode (ni nd k : Nat) (h1 : 1 ≤ ni) (h2 : ni ≤ 32768) (h4 : nd ≤ 32768)
    (hk : k < ni) :
    inodeOf (mkfs ni nd) k
      = normInode (if k = 0 then
          ⟨UFS_DIRECTORY, 2 * SIZEOF_DIR_ENT, fun t => if t = 0 then 3 + (ni + 31) / 32 else 0⟩
        else zeroInode) := by
  unfold inodeOf
  rw [(mkfs_dra ni nd h2 h4).2.2.2.1]
  have e0 : UFS_BLOCK_SIZE / SIZEOF_INODE = 32 := by simp [UFS_BLOCK_SIZE, SIZEOF_INODE]
  rw [e0]
  by_cases hb : k / 32 = 0
  · have hd := decode_image (mkSuper ni nd)
      (fun k => if k = 0 then
          (⟨UFS_DIRECTORY, 2 * SIZEOF_DIR_ENT,
            fun t => if t = 0 then 3 + (ni + 31) / 32 else 0⟩ : inode_t)
        else zeroInode) k (by simp only [mkSuper]; omega)
    rw [inodeBlockImage_wrap, e0, hb] at hd
    rw [hb]
    exact hd
  · have hz : (mkfs ni nd).blocks ((3 : Int).toNat + k / 32) = zeroBlock := by
      have e3 : (3 : Int).toNat = 3 := rfl
      rw [e3]
      simp only [mkfs]
      rw [if_neg (by omega), if_neg (by omega), if_neg (by omega), if_neg (by omega),
        if_neg (by omega)]
    rw [hz, if_neg (by omega)]
    unfold decodeInode normInode zeroInode getI32 getU32 zeroBlock toI32 toU32
    simp

theorem mkfs_inodeBit (ni nd k : Nat) (h2 : ni ≤ 32768) (h4 : nd ≤ 32768) (hk : k < 32768) :
    inodeBit (mkfs ni nd) k = decide (k = 0) := by
  unfold inodeBit
  rw [bitClear_eq, (mkfs_dra ni nd h2 h4).2.2.2.2.1]
  unfold regionByte
  have e2 : k / 8 / UFS_BLOCK_SIZE = 0 := by simp only [UFS_BLOCK_SIZE]; omega
  have e3 : k / 8 % UFS_BLOCK_SIZE = k / 8 := by simp only [UFS_BLOCK_SIZE]; omega
  rw [e2, e3]
  show (!!Nat.testBit (if k / 8 = 0 then 1 else 0) (k % 8)) = _
  simp only [Bool.not_not]
  by_cases h0 : k = 0
  · subst h0; rfl
  · by_cases h8 : k / 8 = 0
    · rw [if_pos h8]
      obtain ⟨r, hr⟩ : ∃ r, k % 8 = r + 1 := ⟨k % 8 - 1, by omega⟩
      rw [hr]
      simp [h0, Nat.testBit_succ]
    · rw [if_neg h8]
      simp [h0]

theorem mkfs_dataBit (ni nd k : Nat) (h2 : ni ≤ 32768) (h4 : nd ≤ 32768) (hk : k < 32768) :
    dataBit (mkfs ni nd) k = decide (k = 0) := by
  unfold dataBit
  rw [bitClear_eq, (mkfs_dra ni nd h2 h4).2.2.2.2.2]
  unfold regionByte
  have e2 : k / 8 / UFS_BLOCK_SIZE = 0 := by simp only [UFS_BLOCK_SIZE]; omega
  have e3 : k / 8 % UFS_BLOCK_SIZE = k / 8 := by simp only [UFS_BLOCK_SIZE]; omega
  rw [e2, e3]
  show (!!Nat.testBit (if k / 8 = 0 then 1 else 0) (k % 8)) = _
  simp only [Bool.not_not]
  by_cases h0 : k = 0
  · subst h0; rfl
  · by_cases h8 : k / 8 = 0
    · rw [if_pos h8]
      obtain ⟨r, hr⟩ : ∃ r, k % 8 = r + 1 := ⟨k % 8 - 1, by omega⟩
      rw [hr]
      simp [h0, Nat.testBit_succ]
    · rw [if_neg h8]
      simp [h0]

theorem mkfs_rootBlock (ni nd : Nat) (h1 : 1 ≤ ni) :
    (mkfs ni nd).blocks (3 + (ni + 31) / 32)
      = setEntry (setEntry zeroBlock 0 0 [46]) 1 0 [46, 46] := by
  simp only [mkfs]
  rw [if_neg (by omega), if_neg (by omega), if_neg (by omega), if_neg (by omega)]
  exact if_pos trivial

theorem cstr_zero (b : Block) (off n : Nat) (h : b off = 0) : cstr b off (n + 1) = [] := by
  unfold cstr
  rw [if_pos h]

set_option maxRecDepth 100000 in
theorem rootBlock_entries :
    entName (setEntry (setEntry zeroBlock 0 0 [46]) 1 0 [46, 46]) 0 = [46]
    ∧ entInum (setEntry (setEntry zeroBlock 0 0 [46]) 1 0 [46, 46]) 0 = 0
    ∧ entName (setEntry (setEntry zeroBlock 0 0 [46]) 1 0 [46, 46]) 1 = [46, 46]
    ∧ entInum (setEntry (setEntry zeroBlock 0 0 [46]) 1 0 [46, 46]) 1 = 0 := by
  decide!

theorem rootBlock_rest (j : Nat) (hj : 2 ≤ j) :
    entName (setEntry (setEntry zeroBlock 0 0 [46]) 1 0 [46, 46]) j = [] := by
  unfold entName
  apply cstr_zero
  rw [setEntry_other _ _ _ _ _ (by simp only [SIZEOF_DIR_ENT, ENT_NAME_OFF]; omega),
    setEntry_other _ _ _ _ _ (by simp only [SIZEOF_DIR_ENT, ENT_NAME_OFF]; omega)]
  rfl

/-! ## The invariant of a freshly formatted image -/

theorem mkfs_root (ni nd : Nat) (h1 : 1 ≤ ni) (h2 : ni ≤ 32768) (h4 : nd ≤ 32768) :
    (inodeOf (mkfs ni nd) 0).type = UFS_DIRECTORY
    ∧ (inodeOf (mkfs ni nd) 0).size = 64
    ∧ (inodeOf (mkfs ni nd) 0).direct 0 = 3 + (ni + 31) / 32
    ∧ ∀ t, t ≠ 0 → (inodeOf (mkfs ni nd) 0).direct t = 0 := by
  rw [mkfs_inode ni nd 0 h1 h2 h4 (by omega)]
  simp only [if_true]
  unfold normInode
  refine ⟨?_, ?_, ?_, ?_⟩
  · show toI32 (toU32 UFS_DIRECTORY) = UFS_DIRECTORY
    decide
  · show toI32 (toU32 (2 * (SIZEOF_DIR_ENT : Int))) = 64
    decide
  · simp only [if_true]
    rw [if_pos (by decide), Nat.mod_eq_of_lt (by omega)]
  · intro t ht
    simp only [if_neg ht]
    split <;> rfl

theorem mkfs_free (ni nd k : Nat) (h1 : 1 ≤ ni) (h2 : ni ≤ 32768) (h4 : nd ≤ 32768)
    (hk : k < ni) (h0 : k ≠ 0) :
    (inodeOf (mkfs ni nd) k).type = 0 ∧ ∀ t, (inodeOf (mkfs ni nd) k).direct t = 0 := by
  rw [mkfs_inode ni nd k h1 h2 h4 hk, if_neg h0]
  unfold normInode zeroInode
  refine ⟨?_, ?_⟩
  · show toI32 (toU32 0) = 0
    decide
  intro t
  simp only
  split <;> rfl

theorem mkfs_live (ni nd k : Nat) (h2 : ni ≤ 32768) (h4 : nd ≤ 32768) (hk : k < ni)
    (h : inodeBit (mkfs ni nd) k = true) : k = 0 := by
  rw [mkfs_inodeBit ni nd k h2 h4 (by omega)] at h
  exact of_decide_eq_true h

theorem usedPtrs_nonneg (ino : inode_t) : 0 ≤ usedPtrs ino := Nat.zero_le _

/-- The invariant holds in a freshly formatted image. -/
theorem mkfs_inv (ni nd : Nat) (h1 : 1 ≤ ni) (h2 : ni ≤ 32768) (h3 : 1 ≤ nd)
    (h4 : nd ≤ 32768) : Inv (mkfs ni nd) (fun _ => 0) := by
  obtain ⟨hty, hsz, hd0, hdt⟩ := mkfs_root ni nd h1 h2 h4
  obtain ⟨hdra, hni, hnd, _, _, _⟩ := mkfs_dra ni nd h2 h4
  have hnum : (superOf (mkfs ni nd)).num_inodes.toNat = ni := by rw [hni]; rfl
  have hptr : ∀ t, (inodeOf (mkfs ni nd) 0).direct t ≠ 0 → t = 0 := by
    intro t h
    by_contra h0
    exact h (hdt t h0)
  obtain ⟨hr1, hr2, hr3, hr4⟩ := rootBlock_entries
  refine ⟨mkfs_wf ni nd h2 h4, ?_, ?_, ?_, ?_, ?_, ?_⟩
  · intro k hk hb
    rw [hnum] at hk
    have hk0 := mkfs_live ni nd k h2 h4 hk hb
    subst hk0
    refine ⟨Or.inr hty, ?_⟩
    intro t _ hne
    have ht0 := hptr t hne
    subst ht0
    rw [hd0]
    unfold allocated
    rw [hdra, hnd]
    refine ⟨le_refl _, by omega, ?_⟩
    rw [sub_self]
    exact (mkfs_dataBit ni nd 0 h2 h4 (by omega)).trans (by decide)
  · intro k1 hk1 hb1 t1 _ hne1 k2 hk2 hb2 t2 _ he
    rw [hnum] at hk1 hk2
    have e1 := mkfs_live ni nd k1 h2 h4 hk1 hb1
    have e2 := mkfs_live ni nd k2 h2 h4 hk2 hb2
    subst e1 e2
    have e3 := hptr t1 hne1
    have e4 := hptr t2 (he ▸ hne1)
    exact ⟨rfl, e3.trans e4.symm⟩
  · intro k hk hb
    rw [hnum] at hk
    have h0 : k ≠ 0 := by
      intro h
      rw [h, mkfs_inodeBit ni nd 0 h2 h4 (by omega)] at hb
      exact absurd hb (by decide)
    obtain ⟨a, b⟩ := mkfs_free ni nd k h1 h2 h4 hk h0
    exact ⟨a, fun t _ => b t⟩
  · refine ⟨by rw [hni]; omega, ?_, hty⟩
    exact (mkfs_inodeBit ni nd 0 h2 h4 (by omega)).trans (by decide)
  · intro k hk hb _ t _ hne j _
    rw [hnum] at hk
    have hk0 := mkfs_live ni nd k h2 h4 hk hb
    subst hk0
    have ht0 := hptr t hne
    subst ht0
    rw [hd0, mkfs_rootBlock ni nd h1]
    left
    by_cases hj0 : j = 0
    · subst hj0; right; left; exact hr1
    · by_cases hj1 : j = 1
      · subst hj1; right; right; exact hr3
      · left; exact rootBlock_rest j (by omega)
  · intro k hk hb _
    rw [hnum] at hk
    have hk0 := mkfs_live ni nd k h2 h4 hk hb
    subst hk0
    rw [hd0, mkfs_rootBlock ni nd h1, hsz]
    refine ⟨by omega, by simp [SIZEOF_DIR_ENT], ?_, hr1, hr2, hr3, hr4⟩
    simp only [UFS_BLOCK_SIZE, SIZEOF_DIR_ENT, Nat.cast_ofNat]
    have := usedPtrs_nonneg (inodeOf (mkfs ni nd) 0)
    omega

/-! ## Steps of the engine -/

/-- The pointer `q` lies in the data region and its bit is set in `d1`. -/
theorem allocated_of_same {d d1 : Disk} (hs : superOf d1 = superOf d) {q : Nat}
    (h : allocated d q)
    (hb : dataBit d1 ((q : Int) - (superOf d).data_region_addr).toNat = true) :
    allocated d1 q := by
  unfold allocated at h ⊢
  rw [hs]
  exact ⟨h.1, h.2.1, hb⟩

/-- The invariants (I1) and (I2) after a step: every pointer of a live inode of
`d1` is either a pointer that the inode had in `d`, at the same index, whose
block is not free in the intermediate bitmap `free`, or a block taken from the
free ones, and no free block is taken twice. -/
theorem p12_step {d d1 : Disk} (free : Nat → Bool) (hs : superOf d1 = superOf d)
    (h1 : I1 d) (h2 : I2 d)
    (hty : ∀ k, k < (superOf d).num_inodes.toNat → inodeBit d1 k = true →
      (inodeOf d1 k).type = UFS_REGULAR_FILE ∨ (inodeOf d1 k).type = UFS_DIRECTORY)
    (hcls : ∀ k, k < (superOf d).num_inodes.toNat → inodeBit d1 k = true →
      ∀ t, t < DIRECT_PTRS → (inodeOf d1 k).direct t ≠ 0 →
        dataBit d1 (((inodeOf d1 k).direct t : Int) - (superOf d).data_region_addr).toNat = true
        ∧ ((inodeBit d k = true ∧ (inodeOf d k).direct t = (inodeOf d1 k).direct t
            ∧ free (((inodeOf d1 k).direct t : Int) - (superOf d).data_region_addr).toNat = false)
          ∨ ((superOf d).data_region_addr ≤ ((inodeOf d1 k).direct t : Int)
            ∧ ((inodeOf d1 k).direct t : Int)
              < (superOf d).data_region_addr + (superOf d).num_data
            ∧ free (((inodeOf d1 k).direct t : Int) - (superOf d).data_region_addr).toNat = true)))
    (hinj : ∀ k1 t1 k2 t2, k1 < (superOf d).num_inodes.toNat → inodeBit d1 k1 = true →
      t1 < DIRECT_PTRS → (inodeOf d1 k1).direct t1 ≠ 0 →
      k2 < (superOf d).num_inodes.toNat → inodeBit d1 k2 = true → t2 < DIRECT_PTRS →
      free (((inodeOf d1 k1).direct t1 : Int) - (superOf d).data_region_addr).toNat = true →
      (inodeOf d1 k1).direct t1 = (inodeOf d1 k2).direct t2 → k1 = k2 ∧ t1 = t2) :
    I1 d1 ∧ I2 d1 := by
  constructor
  · intro k hk hb
    rw [hs] at hk
    refine ⟨hty k hk hb, ?_⟩
    intro t ht hne
    obtain ⟨hbit, hc⟩ := hcls k hk hb t ht hne
    rcases hc with ⟨hl, he, _⟩ | ⟨hr1, hr2, _⟩
    · have ha := (h1 k hk hl).2 t ht (by rw [he]; exact hne)
      rw [he] at ha
      exact allocated_of_same hs ha hbit
    · unfold allocated
      rw [hs]
      exact ⟨hr1, hr2, hbit⟩
  · intro k1 hk1 hb1 t1 ht1 hne1 k2 hk2 hb2 t2 ht2 he
    rw [hs] at hk1 hk2
    have hne2 : (inodeOf d1 k2).direct t2 ≠ 0 := he ▸ hne1
    obtain ⟨_, hc1⟩ := hcls k1 hk1 hb1 t1 ht1 hne1
    obtain ⟨_, hc2⟩ := hcls k2 hk2 hb2 t2 ht2 hne2
    rcases hc1 with ⟨hl1, he1, hf1⟩ | ⟨_, _, hf1⟩
    · rcases hc2 with ⟨hl2, he2, hf2⟩ | ⟨_, _, hf2⟩
      · exact h2 k1 hk1 hl1 t1 ht1 (by rw [he1]; exact hne1) k2 hk2 hl2 t2 ht2
          (by rw [he1, he2]; exact he)
      · rw [he, hf2] at hf1
        exact absurd hf1 (by decide)
    · exact hinj k1 t1 k2 t2 hk1 hb1 ht1 hne1 hk2 hb2 ht2 hf1 he

theorem entriesApart_iff (d : Disk) :
    EntriesApart d ↔ ∀ k, k < (superOf d).num_inodes.toNat → inodeBit d k = true →
      (inodeOf d k).type = UFS_DIRECTORY → ApartAt d k := Iff.rfl

theorem dotEntries_iff (d : Disk) (par : Nat → Int) :
    DotEntries d par ↔ ∀ k, k < (superOf d).num_inodes.toNat → inodeBit d k = true →
      (inodeOf d k).type = UFS_DIRECTORY → DotsAt d k (par k) := Iff.rfl

theorem apartAt_of_same {d d1 : Disk} {k : Nat} (hi : inodeOf d1 k = inodeOf d k)
    (hb : ∀ t, t < DIRECT_PTRS → (inodeOf d k).direct t ≠ 0 →
      d1.blocks ((inodeOf d k).direct t) = d.blocks ((inodeOf d k).direct t))
    (h : ApartAt d k) : ApartAt d1 k := by
  intro t ht hne j hj
  rw [hi] at hne ⊢
  rw [hb t ht hne]
  exact h t ht hne j hj

theorem dotsAt_of_same {d d1 : Disk} {k : Nat} {parent : Int}
    (hi : inodeOf d1 k = inodeOf d k)
    (hb : (inodeOf d k).direct 0 ≠ 0 →
      d1.blocks ((inodeOf d k).direct 0) = d.blocks ((inodeOf d k).direct 0))
    (h : DotsAt d k parent) : DotsAt d1 k parent := by
  unfold DotsAt at h ⊢
  rw [hi, hb h.1]
  exact h

/-- A live inode of type REGULAR_FILE or DIRECTORY has its bit set when free
slots are zero. -/
theorem live_of_type {d : Disk} (hfz : FreeZero d) {k : Nat}
    (hk : k < (superOf d).num_inodes.toNat)
    (hty : (inodeOf d k).type = UFS_REGULAR_FILE ∨ (inodeOf d k).type = UFS_DIRECTORY) :
    inodeBit d k = true := by
  cases hb : inodeBit d k with
  | true => rfl
  | false =>
    have h0 := (hfz k hk hb).1
    rcases hty with h | h <;> rw [h0] at h <;> exact absurd h (by decide)

theorem inodeOf_direct_lt (d : Disk) (k t : Nat) : (inodeOf d k).direct t < 4294967296 := by
  unfold inodeOf decodeInode
  simp only
  split
  · exact getU32_lt _ _
  · omega

theorem inodeOf_direct_ge (d : Disk) (k t : Nat) (ht : DIRECT_PTRS ≤ t) :
    (inodeOf d k).direct t = 0 := by
  unfold inodeOf decodeInode
  simp only
  rw [if_neg (by omega)]

theorem inodeOf_norm (d : Disk) (k : Nat) : normInode (inodeOf d k) = inodeOf d k := by
  unfold inodeOf
  exact normInode_decode _ _

/-! ## The shape of a write call -/

theorem toI32_sub_nonneg {x : Nat} {a : Int} (hx : x < 4294967296) (ha0 : 0 ≤ a)
    (ha1 : a < 2147483648) (h : 0 ≤ toI32 (toU32 ((x : Int) - a))) : a ≤ (x : Int) := by
  by_contra hlt
  push_neg at hlt
  have e : toU32 ((x : Int) - a) = ((x : Int) - a + 4294967296).toNat := by
    unfold toU32
    congr 1
    omega
  rw [e] at h
  unfold toI32 at h
  split at h <;> omega

theorem writeClear_ptrs (super : super_t) (cap : Nat) (h0 : 0 ≤ super.data_region_addr)
    (h1 : super.data_region_addr < 2147483648) :
    ∀ k i : Nat, ∀ bm : Block, ∀ direct : Nat → Nat, ∀ r,
      (∀ t, direct t < 4294967296) → writeClear super cap i k bm direct = some r →
      (0 < k → i + k ≤ DIRECT_PTRS)
      ∧ ∀ t, i ≤ t → t < i + k → super.data_region_addr ≤ (direct t : Int) := by
  intro k
  induction k with
  | zero =>
    intro i bm direct r _ _
    exact ⟨fun h => absurd h (by omega), fun t h1 h2 => absurd h2 (by omega)⟩
  | succ k ih =>
    intro i bm direct r hd h
    unfold writeClear at h
    split at h
    · cases h
    · rename_i hi
      simp only at h
      split at h
      · cases h
      · rename_i hb
        push_neg at hb
        have hrec := ih (i + 1) _ _ r (by
          intro t
          by_cases ht : t = i
          · rw [if_pos ht]; omega
          · rw [if_neg ht]; exact hd t) h
        have hi0 := toI32_sub_nonneg (hd i) h0 h1 hb.1
        refine ⟨fun _ => ?_, ?_⟩
        · by_cases hk : 0 < k
          · have := hrec.1 hk
            omega
          · omega
        · intro t ht1 ht2
          by_cases hti : t = i
          · rw [hti]; exact hi0
          · have := hrec.2 t (by omega) (by omega)
            rw [if_neg hti] at this
            exact this

theorem write_shape {d d1 : Disk} {i : Int} {buf : Block} {s r : Int} (hwf : WF d)
    (h : write d i buf s = some (d1, r)) :
    d1 = d ∨ ((0 ≤ i ∧ i < (superOf d).num_inodes)
      ∧ (inodeOf d i.toNat).type = UFS_REGULAR_FILE
      ∧ (0 ≤ s ∧ s ≤ (MAX_FILE_SIZE : Int))
      ∧ ∃ bm1 direct1 st,
        writeClear (superOf d) ((superOf d).data_bitmap_len.toNat * UFS_BLOCK_SIZE) 0
            (blocksOf (inodeOf d i.toNat).size).toNat
            (regionBuf d (superOf d).data_bitmap_addr.toNat (superOf d).data_bitmap_len.toNat)
            (inodeOf d i.toNat).direct = some (bm1, direct1)
        ∧ writeAlloc (superOf d) ((superOf d).data_bitmap_len.toNat * UFS_BLOCK_SIZE) buf 0
            (ceilBlocks s).toNat ⟨d, bm1, direct1, s, 0⟩ = some st
        ∧ d1 = commitWrite st.disk (superOf d)
            (fun k => if k = i.toNat then ⟨(inodeOf d i.toNat).type, s, st.direct⟩
              else inodeTable d (superOf d) (superOf d).inode_region_len.toNat k) st.dataBitmap
        ∧ r = st.bytesWritten) := by
  have hwf' := hwf
  unfold WF at hwf'
  by_cases hi : 0 ≤ i ∧ i < (superOf d).num_inodes
  swap
  · left
    unfold write at h
    rw [wf_readSuper hwf] at h
    simp only at h
    rw [if_pos (by omega)] at h
    injection h with h
    injection h with h1 h2
    exact h1.symm
  by_cases hty : (inodeOf d i.toNat).type = UFS_REGULAR_FILE
  swap
  · left
    unfold write at h
    rw [wf_readSuper hwf] at h
    simp only at h
    rw [if_neg (by omega), wf_readInodeRegion hwf] at h
    simp only at h
    rw [inodeTable_eq hwf (by omega), if_pos hty] at h
    injection h with h
    injection h with h1 h2
    exact h1.symm
  by_cases hs : 0 ≤ s ∧ s ≤ (MAX_FILE_SIZE : Int)
  swap
  · left
    unfold write at h
    rw [wf_readSuper hwf] at h
    simp only at h
    rw [if_neg (by omega), wf_readInodeRegion hwf] at h
    simp only at h
    rw [inodeTable_eq hwf (by omega), if_neg (by rw [hty]; simp), if_pos (by omega)] at h
    injection h with h
    injection h with h1 h2
    exact h1.symm
  rw [write_unfold d i buf s hwf hi hty hs] at h
  split at h
  · left
    injection h with h
    injection h with h1 h2
    exact h1.symm
  · right
    refine ⟨hi, hty, hs, ?_⟩
    split at h
    · cases h
    · rename_i bm1 direct1 hclear
      split at h
      · cases h
      · rename_i st hst
        have hspec := writeAlloc_spec (superOf d) d.numberOfBlocks _ buf (wf_allocOK hwf)
          (ceilBlocks s).toNat 0 ⟨d, bm1, direct1, s, 0⟩ st rfl (le_refl _)
          (by
            simp only [ceilBlocks, UFS_BLOCK_SIZE, MAX_FILE_SIZE, DIRECT_PTRS] at hs ⊢
            push_cast at hs ⊢
            omega) hst
        have hN := hspec.1
        unfold writeInodeRegion at h
        rw [writeInodeLoop_eq _ _ _ (by omega) _ (by rw [hN]; omega)] at h
        simp only at h
        unfold writeDataBitmap at h
        rw [writeRegion_eq _ _ _ (by omega) _ (by simp only [putInodes]; rw [hN]; omega)] at h
        simp only at h
        injection h with h
        injection h with h1 h2
        exact ⟨bm1, direct1, st, hclear, hst, h1.symm, h2.symm⟩

/-! ## Write preserves the invariant -/

theorem write_inv {d d1 : Disk} {par : Nat → Int} {i : Int} {buf : Block} {s r : Int}
    (hinv : Inv d par) (h : write d i buf s = some (d1, r)) : Inv d1 par := by
  obtain ⟨hwf, h1, h2, hfz, hroot, hap, hdots⟩ := hinv
  rcases write_shape hwf h with hsame | ⟨hi, hty, hs, bm1, direct1, st, hclear, hst, hd1, _⟩
  · rw [hsame]; exact ⟨hwf, h1, h2, hfz, hroot, hap, hdots⟩
  have hwf' := hwf
  unfold WF at hwf'
  have hD : DIRECT_PTRS = 30 := rfl
  generalize hfdef : i.toNat = f at *
  have hfi : (f : Int) = i := by omega
  have hfn : f < (superOf d).num_inodes.toNat := by omega
  have hflive : inodeBit d f = true := live_of_type hfz hfn (Or.inl hty)
  have hf1 := h1 f hfn hflive
  generalize hcbdef : (blocksOf (inodeOf d f).size).toNat = cb at *
  have hptr := writeClear_ptrs (superOf d) _ (by omega) (by omega) cb 0 _ _ _
    (fun t => inodeOf_direct_lt d f t) hclear
  have hcb : cb ≤ 30 := by
    by_cases hc : 0 < cb
    · have := hptr.1 hc
      omega
    · omega
  have hrange : ∀ t, t < cb → allocated d ((inodeOf d f).direct t) := by
    intro t ht
    apply hf1.2 t (by omega)
    intro e
    have := hptr.2 t (Nat.zero_le _) (by omega)
    rw [e] at this
    simp only [Nat.cast_zero] at this
    omega
  obtain ⟨bm', hc', hbm', _⟩ := writeClear_spec (superOf d) d.numberOfBlocks _ (wf_allocOK hwf)
    cb 0 (regionBuf d (superOf d).data_bitmap_addr.toNat (superOf d).data_bitmap_len.toNat)
    (inodeOf d f).direct (by omega)
    (fun t _ ht => ⟨(hrange t (by omega)).1, (hrange t (by omega)).2.1⟩)
  rw [hc'] at hclear
  injection hclear with hclear
  injection hclear with e1 e2
  subst e1
  subst e2
  generalize hnbdef : (ceilBlocks s).toNat = nb at *
  have hnb : nb ≤ 30 := by
    rw [← hnbdef]
    simp only [ceilBlocks, UFS_BLOCK_SIZE, MAX_FILE_SIZE, DIRECT_PTRS] at hs ⊢
    push_cast at hs ⊢
    omega
  obtain ⟨hN, hdir, hmono, hframe, hnew, hdist, _, _, _⟩ :=
    writeAlloc_spec (superOf d) d.numberOfBlocks _ buf (wf_allocOK hwf)
      nb 0 ⟨d, bm', _, s, 0⟩ st rfl (le_refl _)
      (by
        rw [← hnbdef]
        simp only [ceilBlocks, UFS_BLOCK_SIZE, MAX_FILE_SIZE, DIRECT_PTRS] at hs ⊢
        push_cast at hs ⊢
        omega) hst
  simp only at hN hdir hmono hframe hnew hdist
  have hb0 : st.disk.blocks 0 = d.blocks 0 := hframe 0 (by intro j hj _; omega)
  have hout : ∀ m : Nat, ((m : Int) < (superOf d).data_region_addr
      ∨ (superOf d).data_region_addr + (superOf d).num_data ≤ (m : Int)) →
      st.disk.blocks m = d.blocks m := fun m hm => hframe m (by intro j hj _; omega)
  have hsup : superOf d1 = superOf d := by rw [hd1]; exact commitWrite_super hwf _ _ hb0
  have hwf1 : WF d1 := by rw [hd1]; exact commitWrite_wf hwf _ _ hN hb0
  have hibit : ∀ k, k < (superOf d).num_inodes.toNat → inodeBit d1 k = inodeBit d k := by
    intro k hk
    rw [hd1]
    exact commitWrite_inodeBit hwf _ _ hb0 hout (by omega)
  have hdbit : ∀ j : Nat, (j : Int) < (superOf d).num_data →
      dataBit d1 j = !bitClear st.dataBitmap j := by
    intro j hj
    rw [hd1]
    exact commitWrite_dataBit hwf _ _ hb0 (by omega)
  have hino_other : ∀ k, k < (superOf d).num_inodes.toNat → k ≠ f →
      inodeOf d1 k = inodeOf d k := by
    intro k hk hkf
    rw [hd1, commitWrite_inode hwf _ _ hb0 (by omega)]
    rw [if_neg hkf, inodeTable_eq hwf (by omega), inodeOf_norm]
  have hino_f : inodeOf d1 f = normInode ⟨(inodeOf d f).type, s, st.direct⟩ := by
    rw [hd1, commitWrite_inode hwf _ _ hb0 (by omega)]
    simp only [if_true]
  have hdata : ∀ m : Nat, (superOf d).data_region_addr ≤ (m : Int) →
      (m : Int) < (superOf d).data_region_addr + (superOf d).num_data →
      d1.blocks m = st.disk.blocks m := by
    intro m hm1 hm2
    rw [hd1]
    exact commitWrite_data hwf _ _ hm1 hm2
  have hftype : (inodeOf d1 f).type = UFS_REGULAR_FILE := by
    rw [hino_f, hty]
    rfl
  -- the pointers of the file after the call
  have hfnew : ∀ t, t < nb → ∃ j : Nat, (j : Int) < (superOf d).num_data
      ∧ bitClear bm' j = true ∧ bitClear st.dataBitmap j = false
      ∧ (inodeOf d1 f).direct t = ((j : Int) + (superOf d).data_region_addr).toNat := by
    intro t ht
    obtain ⟨j, hj1, hj2, hj3, hj4, _⟩ := hnew t (Nat.zero_le _) (by omega)
    refine ⟨j, hj1, hj2, hj3, ?_⟩
    rw [hino_f]
    simp only [normInode]
    rw [if_pos (by omega), hj4]
    apply Nat.mod_eq_of_lt
    omega
  have hfold : ∀ t, nb ≤ t → t < DIRECT_PTRS →
      (inodeOf d1 f).direct t = if t < cb then 0 else (inodeOf d f).direct t := by
    intro t ht1 ht2
    rw [hino_f]
    simp only [normInode]
    rw [if_pos ht2, hdir t (Or.inr (by omega))]
    by_cases htc : t < cb
    · rw [if_pos ⟨Nat.zero_le _, by omega⟩, if_pos htc]
    · rw [if_neg (by omega), if_neg htc]
      exact Nat.mod_eq_of_lt (inodeOf_direct_lt d f t)
  -- the pointers that the call keeps
  have hkeep : ∀ k, k < (superOf d).num_inodes.toNat → inodeBit d k = true →
      ∀ t, t < DIRECT_PTRS → (inodeOf d k).direct t ≠ 0 → (k ≠ f ∨ cb ≤ t) →
      bitClear bm' (((inodeOf d k).direct t : Int) - (superOf d).data_region_addr).toNat = false
      ∧ d1.blocks ((inodeOf d k).direct t) = d.blocks ((inodeOf d k).direct t) := by
    intro k hk hlive t ht hne hkt
    have hal := (h1 k hk hlive).2 t ht hne
    have hclr : bitClear bm'
        (((inodeOf d k).direct t : Int) - (superOf d).data_region_addr).toNat = false := by
      apply Bool.eq_false_iff.mpr
      intro hc
      rcases (hbm' _).1 hc with hc0 | ⟨t', _, ht', hc1⟩
      · rw [dataBit_regionBuf hwf (by have := hal.1; have := hal.2.1; omega), hal.2.2] at hc0
        simp at hc0
      · have e : (inodeOf d f).direct t' = (inodeOf d k).direct t := by
          have := hal.1
          omega
        have := h2 f hfn hflive t' (by omega)
          (by rw [e]; exact hne) k hk hlive t ht e
        omega
    refine ⟨hclr, ?_⟩
    rw [hdata _ hal.1 hal.2.1]
    apply hframe
    intro j hj hjc e
    have : (((inodeOf d k).direct t : Int) - (superOf d).data_region_addr).toNat = j := by
      rw [e]
      omega
    rw [this, hjc] at hclr
    cases hclr
  have hclass : ∀ k, k < (superOf d).num_inodes.toNat → inodeBit d1 k = true →
      ∀ t, t < DIRECT_PTRS → (inodeOf d1 k).direct t ≠ 0 →
      (k = f ∧ t < nb ∧ ∃ j : Nat, (j : Int) < (superOf d).num_data
        ∧ bitClear bm' j = true ∧ bitClear st.dataBitmap j = false
        ∧ (inodeOf d1 k).direct t = ((j : Int) + (superOf d).data_region_addr).toNat)
      ∨ (inodeBit d k = true ∧ (inodeOf d k).direct t = (inodeOf d1 k).direct t
        ∧ bitClear bm'
          (((inodeOf d1 k).direct t : Int) - (superOf d).data_region_addr).toNat = false
        ∧ allocated d ((inodeOf d1 k).direct t)) := by
    intro k hk hlive t ht hne
    have hlive0 : inodeBit d k = true := by rw [← hibit k hk]; exact hlive
    by_cases hkf : k = f
    · subst hkf
      by_cases htn : t < nb
      · left
        exact ⟨rfl, htn, hfnew t htn⟩
      · right
        have e := hfold t (by omega) ht
        by_cases htc : t < cb
        · rw [if_pos htc] at e
          exact absurd e hne
        · rw [if_neg htc] at e
          rw [e] at hne ⊢
          exact ⟨hlive0, rfl, (hkeep k hk hlive0 t ht hne (Or.inr (by omega))).1,
            (h1 k hk hlive0).2 t ht hne⟩
    · right
      have e := hino_other k hk hkf
      rw [e] at hne ⊢
      exact ⟨hlive0, rfl, (hkeep k hk hlive0 t ht hne (Or.inl hkf)).1,
        (h1 k hk hlive0).2 t ht hne⟩
  have h12 : I1 d1 ∧ I2 d1 := by
    apply p12_step (fun j => bitClear bm' j) hsup h1 h2
    · intro k hk hlive
      by_cases hkf : k = f
      · rw [hkf]; exact Or.inl hftype
      · rw [hino_other k hk hkf]
        exact (h1 k hk (by rw [← hibit k hk]; exact hlive)).1
    · intro k hk hlive t ht hne
      rcases hclass k hk hlive t ht hne with ⟨_, _, j, hj1, hj2, hj3, hj4⟩ | ⟨ha, hb, hc, hal⟩
      · have ej : (((inodeOf d1 k).direct t : Int) - (superOf d).data_region_addr).toNat = j := by
          rw [hj4]
          omega
        rw [ej]
        refine ⟨by rw [hdbit j hj1, hj3]; rfl, Or.inr ⟨?_, ?_, hj2⟩⟩
        · rw [hj4]; omega
        · rw [hj4]; omega
      · refine ⟨?_, Or.inl ⟨ha, hb, hc⟩⟩
        rw [hdbit _ (by have := hal.1; have := hal.2.1; omega)]
        have : bitClear st.dataBitmap
            (((inodeOf d1 k).direct t : Int) - (superOf d).data_region_addr).toNat = false := by
          apply Bool.eq_false_iff.mpr
          intro hx
          rw [hmono _ hx] at hc
          cases hc
        rw [this]
        rfl
    · intro k1 t1 k2 t2 hk1 hl1 ht1 hne1 hk2 hl2 ht2 hfree e
      rcases hclass k1 hk1 hl1 t1 ht1 hne1 with ⟨hkf1, htn1, _⟩ | ⟨_, _, hc, _⟩
      swap
      · rw [hfree] at hc
        cases hc
      rcases hclass k2 hk2 hl2 t2 ht2 (by rw [← e]; exact hne1) with
        ⟨hkf2, htn2, _⟩ | ⟨_, _, hc, _⟩
      swap
      · rw [← e, hfree] at hc
        cases hc
      refine ⟨by rw [hkf1, hkf2], ?_⟩
      rw [hkf1] at e
      rw [hkf2] at e
      have hst1 : (inodeOf d1 f).direct t1 = st.direct t1 := by
        rw [hino_f]
        simp only [normInode]
        rw [if_pos ht1]
        obtain ⟨j, hj1, _, _, hj4, _⟩ := hnew t1 (Nat.zero_le _) (by omega)
        rw [hj4]
        apply Nat.mod_eq_of_lt
        omega
      have hst2 : (inodeOf d1 f).direct t2 = st.direct t2 := by
        rw [hino_f]
        simp only [normInode]
        rw [if_pos ht2]
        obtain ⟨j, hj1, _, _, hj4, _⟩ := hnew t2 (Nat.zero_le _) (by omega)
        rw [hj4]
        apply Nat.mod_eq_of_lt
        omega
      rw [hst1, hst2] at e
      rcases Nat.lt_trichotomy t1 t2 with hlt | heq | hgt
      · exact absurd e (hdist t1 t2 (Nat.zero_le _) hlt (by omega))
      · exact heq
      · exact absurd e.symm (hdist t2 t1 (Nat.zero_le _) hgt (by omega))
  have hdirk : ∀ k, k < (superOf d).num_inodes.toNat → inodeBit d1 k = true →
      (inodeOf d1 k).type = UFS_DIRECTORY →
      inodeBit d k = true ∧ inodeOf d1 k = inodeOf d k := by
    intro k hk hlive hdir
    have hkf : k ≠ f := by
      intro e
      rw [e, hftype] at hdir
      revert hdir
      decide
    exact ⟨by rw [← hibit k hk]; exact hlive, hino_other k hk hkf⟩
  have hkf_of : ∀ k, k < (superOf d).num_inodes.toNat →
      (inodeOf d k).type = UFS_DIRECTORY → k ≠ f := by
    intro k _ hdir e
    rw [e, hty] at hdir
    revert hdir
    decide
  refine ⟨hwf1, h12.1, h12.2, ?_, ?_, ?_, ?_⟩
  · intro k hk hfree
    rw [hsup] at hk
    rw [hibit k hk] at hfree
    have hkf : k ≠ f := by
      intro e
      rw [e, hflive] at hfree
      cases hfree
    rw [hino_other k hk hkf]
    exact hfz k hk hfree
  · obtain ⟨hr1, hr2, hr3⟩ := hroot
    have h0n : 0 < (superOf d).num_inodes.toNat := by omega
    rw [RootLive, hsup, hibit 0 h0n, hino_other 0 h0n (hkf_of 0 h0n hr3)]
    exact ⟨hr1, hr2, hr3⟩
  · rw [entriesApart_iff]
    intro k hk hlive hdir
    rw [hsup] at hk
    obtain ⟨hl0, e⟩ := hdirk k hk hlive hdir
    rw [e] at hdir
    apply apartAt_of_same e _ (hap k hk hl0 hdir)
    intro t ht hne
    exact (hkeep k hk hl0 t ht hne (Or.inl (hkf_of k hk hdir))).2
  · rw [dotEntries_iff]
    intro k hk hlive hdir
    rw [hsup] at hk
    obtain ⟨hl0, e⟩ := hdirk k hk hlive hdir
    rw [e] at hdir
    apply dotsAt_of_same e _ (hdots k hk hl0 hdir)
    intro hne
    exact (hkeep k hk hl0 0 (by omega) hne (Or.inl (hkf_of k hk hdir))).2

/-! ## The shape of a create call -/

theorem regionBuf_frame {d d1 : Disk} (start len : Nat)
    (h : ∀ m, start ≤ m → m < start + len → d1.blocks m = d.blocks m) :
    regionBuf d1 start len = regionBuf d start len := by
  funext idx
  unfold regionBuf
  by_cases hc : idx / UFS_BLOCK_SIZE < len
  · rw [if_pos hc, if_pos hc,
      h (start + idx / UFS_BLOCK_SIZE) (Nat.le_add_right _ _) (Nat.add_lt_add_left hc _)]
  · rw [if_neg hc, if_neg hc]

theorem createAppend_skip (d : Disk) (ino : inode_t) (k0 : Int) (name : List Nat)
    (hfull : ¬ toU64 ino.size / SIZEOF_DIR_ENT % 4294967296 < UFS_BLOCK_SIZE / SIZEOF_DIR_ENT) :
    ∀ k i r, createAppend d ino k0 name i k = some r → r = (d, ino, false) := by
  intro k
  induction k with
  | zero =>
    intro i r h
    unfold createAppend at h
    injection h with h
    exact h.symm
  | succ k ih =>
    intro i r h
    unfold createAppend at h
    split at h
    · split at h
      · cases h
      · simp only at h
        rw [if_neg hfull] at h
        exact ih _ _ h
    · exact ih _ _ h

theorem ret_left {d d1 : Disk} {e r : Int} (h : some (d, e) = some (d1, r)) (he : e < 0) :
    d1 = d ∧ r < 0 := by
  injection h with h
  injection h with h1 h2
  exact ⟨h1.symm, by rw [← h2]; exact he⟩

theorem create_shape {d d1 : Disk} {par : Nat → Int} {p t : Int} {name : List Nat} {r : Int}
    (hinv : Inv d par) (h : create d p t name = some (d1, r)) :
    (d1 = d ∧ r < 0)
    ∨ ((0 ≤ p ∧ p < (superOf d).num_inodes)
      ∧ (inodeOf d p.toNat).type = UFS_DIRECTORY
      ∧ (t = UFS_REGULAR_FILE ∨ t = UFS_DIRECTORY)
      ∧ name.length < DIR_ENT_NAME_SIZE - 1
      ∧ createNameLoop d (inodeOf d p.toNat) name 0
          (blocksOf (inodeOf d p.toNat).size).toNat = some false
      ∧ ∃ (k0 q : Nat) (blk : Block) (pino : inode_t) (dbm : Block),
        (k0 : Int) < (superOf d).num_inodes ∧ inodeBit d k0 = false
        ∧ (∀ k, k < k0 → inodeBit d k = true)
        ∧ EntryAdded d p.toNat k0 name q blk pino dbm
        ∧ ((t = UFS_DIRECTORY ∧ r = -ENOTENOUGHSPACE ∧ d1 = putBlock d q blk
              ∧ ∀ j : Nat, (j : Int) < (superOf d).num_data → bitClear dbm j = false)
          ∨ (t = UFS_REGULAR_FILE ∧ r = (k0 : Int)
              ∧ d1 = commitCreate (putBlock d q blk) (superOf d)
                  (createInodes d p.toNat k0 pino ⟨t, 0, fun _ => 0⟩)
                  (setBit (regionBuf d (superOf d).inode_bitmap_addr.toNat
                    (superOf d).inode_bitmap_len.toNat) k0) dbm)
          ∨ (t = UFS_DIRECTORY ∧ r = (k0 : Int)
              ∧ ∃ j2 : Nat, (j2 : Int) < (superOf d).num_data ∧ bitClear dbm j2 = true
                ∧ d1 = commitCreate
                    (putBlock (putBlock d q blk)
                      ((j2 : Int) + (superOf d).data_region_addr).toNat
                      (setEntry (setEntry zeroBlock 0 k0 [46]) 1 p [46, 46]))
                    (superOf d)
                    (createInodes d p.toNat k0 pino
                      ⟨t, 2 * (SIZEOF_DIR_ENT : Int),
                        fun i => if i = 0 then toU32 ((j2 : Int) + (superOf d).data_region_addr)
                          else 0⟩)
                    (setBit (regionBuf d (superOf d).inode_bitmap_addr.toNat
                      (superOf d).inode_bitmap_len.toNat) k0) (setBit dbm j2)))) := by
  obtain ⟨hwf, h1, h2, hfz, hroot, hap, hdots⟩ := hinv
  have hwf' := hwf
  unfold WF at hwf'
  unfold create at h
  rw [wf_readSuper hwf] at h
  simp only at h
  by_cases hp : 0 ≤ p ∧ p < (superOf d).num_inodes
  swap
  · left
    rw [if_pos (by omega)] at h
    exact ret_left h (by decide)
  rw [if_neg (by omega)] at h
  by_cases hlen : name.length < DIR_ENT_NAME_SIZE - 1
  swap
  · left
    rw [if_pos (by simp only [DIR_ENT_NAME_SIZE] at hlen ⊢; omega)] at h
    exact ret_left h (by decide)
  rw [if_neg (by simp only [DIR_ENT_NAME_SIZE] at hlen ⊢; omega)] at h
  by_cases ht : t = UFS_REGULAR_FILE ∨ t = UFS_DIRECTORY
  swap
  · left
    rw [if_pos (by
      constructor
      · exact fun h => ht (Or.inl h)
      · exact fun h => ht (Or.inr h))] at h
    exact ret_left h (by decide)
  rw [if_neg (by rcases ht with h | h <;> simp [h]), wf_stat hwf hp.1 hp.2 zeroInode] at h
  simp only at h
  by_cases hdir : (inodeOf d p.toNat).type = UFS_DIRECTORY
  swap
  · left
    rw [if_pos (Or.inr hdir)] at h
    exact ret_left h (by decide)
  rw [if_neg (by rw [hdir]; simp), wf_readInodeRegion hwf] at h
  simp only at h
  generalize hpn : p.toNat = pn at *
  have hpi : (pn : Int) = p := by omega
  have hpn1 : pn < (superOf d).num_inodes.toNat := by omega
  have hplive : inodeBit d pn = true := live_of_type hfz hpn1 (Or.inr hdir)
  obtain ⟨hd0, hsz1, hsz2, hdot0, hdot0i, hdot1, hdot1i⟩ := hdots pn hpn1 hplive hdir
  have hal0 := (h1 pn hpn1 hplive).2 0 (by decide) hd0
  have hu : usedPtrs (inodeOf d pn) ≤ 30 := Nat.count_le _
  have hS0 : 0 ≤ (inodeOf d pn).size := by
    simp only [SIZEOF_DIR_ENT, Nat.cast_ofNat] at hsz1
    omega
  have hS1 : (inodeOf d pn).size ≤ 5056 := by
    simp only [UFS_BLOCK_SIZE, SIZEOF_DIR_ENT, Nat.cast_ofNat] at hsz2
    omega
  cases hnl : createNameLoop d (inodeOf d pn) name 0 (blocksOf (inodeOf d pn).size).toNat with
  | none =>
    rw [hnl] at h
    cases h
  | some b =>
    rw [hnl] at h
    cases b with
    | true =>
      left
      exact ret_left h (by decide)
    | false =>
      simp only at h
      rw [wf_readInodeBitmap hwf] at h
      simp only at h
      rw [scanFree_eq _ _ _ 0 (by simp only [UFS_BLOCK_SIZE]; omega)] at h
      cases hk0 : findFirstFrom (bitClear (regionBuf d (superOf d).inode_bitmap_addr.toNat
          (superOf d).inode_bitmap_len.toNat)) 0 (superOf d).num_inodes.toNat with
      | none =>
        left
        rw [hk0] at h
        exact ret_left h (by decide)
      | some k0 =>
        rw [hk0] at h
        simp only at h
        have hk0s := findFirstFrom_spec (bitClear (regionBuf d (superOf d).inode_bitmap_addr.toNat
          (superOf d).inode_bitmap_len.toNat)) (superOf d).num_inodes.toNat 0
        rw [hk0] at hk0s
        simp only at hk0s
        have hk0n : (k0 : Int) < (superOf d).num_inodes := by omega
        have hibit : ∀ k : Nat, (k : Int) < (superOf d).num_inodes →
            inodeBit d k = !bitClear (regionBuf d (superOf d).inode_bitmap_addr.toNat
              (superOf d).inode_bitmap_len.toNat) k := by
          intro k hk
          unfold inodeBit
          rw [bitClear_regionBuf d _ _ k (by omega)]
        have hk0f : inodeBit d k0 = false := by
          rw [hibit k0 hk0n, hk0s.2.2.1]
          rfl
        have hk0m : ∀ k, k < k0 → inodeBit d k = true := by
          intro k hk
          rw [hibit k (by omega), hk0s.2.2.2 k (Nat.zero_le _) hk]
          rfl
        have hti : toI32 ((inodeOf d pn).direct 0) = ((inodeOf d pn).direct 0 : Nat) :=
          toI32_of_lt (by have := hal0.2.1; omega)
        have hr : d.readBlock (toI32 ((inodeOf d pn).direct 0))
            = some (d.blocks ((inodeOf d pn).direct 0)) := by
          rw [hti, readBlock_eq (by omega) (by have := hal0.2.1; omega), Int.toNat_ofNat]
        have hcnt_eq := @dirCount_eq (inodeOf d pn) hS0 (by omega)
        by_cases hcnt : dirCount (inodeOf d pn) < UFS_BLOCK_SIZE / SIZEOF_DIR_ENT
        · have hw : d.writeBlock (toI32 ((inodeOf d pn).direct 0))
              (setEntry (d.blocks ((inodeOf d pn).direct 0)) (dirCount (inodeOf d pn)) k0 name)
              = some (putBlock d ((inodeOf d pn).direct 0)
                  (setEntry (d.blocks ((inodeOf d pn).direct 0)) (dirCount (inodeOf d pn))
                    k0 name)) := by
            rw [hti, writeBlock_eq _ (by omega) (by have := hal0.2.1; omega), Int.toNat_ofNat]
          rw [createAppend_first d _ _ k0 name _ _ hd0 hr hcnt_eq hcnt hw] at h
          simp only at h
          rw [@readDataBitmap_same d _ hwf (putBlock_nblocks _ _ _)] at h
          simp only at h
          unfold createParentBlock at h
          simp only [if_true, Bool.not_true, Bool.false_eq_true, if_false] at h
          rw [@regionBuf_frame d _ (superOf d).data_bitmap_addr.toNat
            (superOf d).data_bitmap_len.toNat (by
              intro m hm1 hm2
              apply putBlock_other
              have := hal0.1
              have := hal0.2.1
              have hdj := hwf'.2.2.2.2.2.2.2.2.2.2.1
              unfold disjointRanges at hdj
              omega)] at h
          right
          refine ⟨hp, hdir, ht, hlen, rfl, k0, _, _, _, _, hk0n, hk0f, hk0m,
            Or.inl ⟨hcnt, rfl, rfl, rfl, rfl⟩, ?_⟩
          by_cases htd : t = UFS_DIRECTORY
          · rw [if_pos htd] at h
            rw [scanFree_eq _ _ _ 0 (by simp only [UFS_BLOCK_SIZE]; omega)] at h
            cases hj : findFirstFrom (bitClear (regionBuf d (superOf d).data_bitmap_addr.toNat
                (superOf d).data_bitmap_len.toNat)) 0 (superOf d).num_data.toNat with
            | none =>
              rw [hj] at h
              simp only at h
              have hj2 := findFirstFrom_spec (bitClear (regionBuf d
                (superOf d).data_bitmap_addr.toNat (superOf d).data_bitmap_len.toNat))
                (superOf d).num_data.toNat 0
              rw [hj] at hj2
              simp only at hj2
              injection h with h
              injection h with e1 e2
              left
              exact ⟨htd, e2.symm, e1.symm, fun j hj => hj2 j (Nat.zero_le _) (by omega)⟩
            | some j2 =>
              rw [hj] at h
              simp only at h
              have hj2 := findFirstFrom_spec (bitClear (regionBuf d
                (superOf d).data_bitmap_addr.toNat (superOf d).data_bitmap_len.toNat))
                (superOf d).num_data.toNat 0
              rw [hj] at hj2
              simp only at hj2
              rw [writeBlock_eq _ (by omega) (by rw [putBlock_nblocks]; omega)] at h
              simp only at h
              rw [writeInodeRegion_same hwf (by rfl)] at h
              simp only at h
              rw [writeInodeBitmap_same hwf (by rfl)] at h
              simp only at h
              rw [writeDataBitmap_same hwf (by rfl)] at h
              injection h with h
              injection h with e1 e2
              right
              right
              refine ⟨htd, e2.symm, j2, by omega, hj2.2.2.1, ?_⟩
              rw [← e1]
              rfl
          · rw [if_neg htd] at h
            rw [writeInodeRegion_same hwf (by rfl)] at h
            simp only at h
            rw [writeInodeBitmap_same hwf (by rfl)] at h
            simp only at h
            rw [writeDataBitmap_same hwf (by rfl)] at h
            injection h with h
            injection h with e1 e2
            right
            left
            refine ⟨by rcases ht with h | h; exact h; exact absurd h htd, e2.symm, ?_⟩
            rw [← e1]
            rfl
        · have hskip := createAppend_skip d (inodeOf d pn) k0 name
            (by rw [hcnt_eq]; exact hcnt) DIRECT_PTRS 0
          cases hca : createAppend d (inodeOf d pn) k0 name 0 DIRECT_PTRS with
          | none =>
            rw [hca] at h
            cases h
          | some res =>
            have hres := hskip res hca
            subst hres
            rw [hca] at h
            simp only at h
            rw [wf_readDataBitmap hwf] at h
            simp only at h
            unfold createParentBlock at h
            simp only [Bool.false_eq_true, if_false] at h
            rw [scanFree_eq _ _ _ 0 (by simp only [UFS_BLOCK_SIZE]; omega)] at h
            cases hj1 : findFirstFrom (bitClear (regionBuf d (superOf d).data_bitmap_addr.toNat
                (superOf d).data_bitmap_len.toNat)) 0 (superOf d).num_data.toNat with
            | none =>
              rw [hj1] at h
              simp only at h
              left
              exact ret_left h (by decide)
            | some j1 =>
              rw [hj1] at h
              simp only at h
              have hj1s := findFirstFrom_spec (bitClear (regionBuf d
                (superOf d).data_bitmap_addr.toNat (superOf d).data_bitmap_len.toNat))
                (superOf d).num_data.toNat 0
              rw [hj1] at hj1s
              simp only at hj1s
              cases hs0 : findFirst (fun s => (inodeOf d pn).direct s == 0) DIRECT_PTRS with
              | none =>
                rw [hs0] at h
                simp only [Bool.not_false, if_true] at h
                left
                exact ret_left h (by decide)
              | some s0 =>
                rw [hs0] at h
                simp only at h
                have hs0s := findFirst_some hs0
                have htq : toI32 (toU32 ((j1 : Int) + (superOf d).data_region_addr))
                    = (j1 : Int) + (superOf d).data_region_addr :=
                  toI32_toU32 (by omega) (by omega)
                simp only [if_true] at h
                rw [htq, writeBlock_eq _ (by omega) (by omega)] at h
                simp only [Bool.not_true, Bool.false_eq_true, if_false] at h
                right
                refine ⟨hp, hdir, ht, hlen, rfl, k0, _, _, _, _, hk0n, hk0f, hk0m,
                  Or.inr ⟨by omega, j1, s0, by omega, hj1s.2.2.1, hs0s.1,
                    by simpa using hs0s.2.1,
                    fun s hs => by simpa using hs0s.2.2 s hs, rfl, rfl, rfl, rfl⟩, ?_⟩
                by_cases htd : t = UFS_DIRECTORY
                · rw [if_pos htd] at h
                  rw [scanFree_eq _ _ _ 0 (by simp only [UFS_BLOCK_SIZE]; omega)] at h
                  cases hj : findFirstFrom (bitClear (setBit (regionBuf d
                      (superOf d).data_bitmap_addr.toNat (superOf d).data_bitmap_len.toNat) j1))
                      0 (superOf d).num_data.toNat with
                  | none =>
                    rw [hj] at h
                    simp only at h
                    have hj2 := findFirstFrom_spec (bitClear (setBit (regionBuf d
                      (superOf d).data_bitmap_addr.toNat (superOf d).data_bitmap_len.toNat) j1))
                      (superOf d).num_data.toNat 0
                    rw [hj] at hj2
                    simp only at hj2
                    injection h with h
                    injection h with e1 e2
                    left
                    exact ⟨htd, e2.symm, e1.symm, fun j hj => hj2 j (Nat.zero_le _) (by omega)⟩
                  | some j2 =>
                    rw [hj] at h
                    simp only at h
                    have hj2 := findFirstFrom_spec (bitClear (setBit (regionBuf d
                      (superOf d).data_bitmap_addr.toNat (superOf d).data_bitmap_len.toNat) j1))
                      (superOf d).num_data.toNat 0
                    rw [hj] at hj2
                    simp only at hj2
                    rw [writeBlock_eq _ (by omega) (by rw [putBlock_nblocks]; omega)] at h
                    simp only at h
                    rw [writeInodeRegion_same hwf (by rfl)] at h
                    simp only at h
                    rw [writeInodeBitmap_same hwf (by rfl)] at h
                    simp only at h
                    rw [writeDataBitmap_same hwf (by rfl)] at h
                    injection h with h
                    injection h with e1 e2
                    right
                    right
                    refine ⟨htd, e2.symm, j2, by omega, hj2.2.2.1, ?_⟩
                    rw [← e1]
                    rfl
                · rw [if_neg htd] at h
                  rw [writeInodeRegion_same hwf (by rfl)] at h
                  simp only at h
                  rw [writeInodeBitmap_same hwf (by rfl)] at h
                  simp only at h
                  rw [writeDataBitmap_same hwf (by rfl)] at h
                  injection h with h
                  injection h with e1 e2
                  right
                  left
                  refine ⟨by rcases ht with h | h; exact h; exact absurd h htd, e2.symm, ?_⟩
                  rw [← e1]
                  rfl

/-! ## Entries of directory blocks -/

theorem putBlock_blocks_same (d : Disk) (n : Nat) (buf : Block) :
    (putBlock d n buf).blocks n = stored buf := by
  unfold putBlock stored
  simp only [if_true]

theorem entName_stored (b : Block) (j : Nat) (hj : j < UFS_BLOCK_SIZE / SIZEOF_DIR_ENT) :
    entName (stored b) j = entName b j := by
  apply entName_congr
  intro o h1 h2
  unfold stored
  rw [if_pos (by simp only [UFS_BLOCK_SIZE, SIZEOF_DIR_ENT] at hj ⊢; omega)]

theorem entInum_stored (b : Block) (j : Nat) (hj : j < UFS_BLOCK_SIZE / SIZEOF_DIR_ENT) :
    entInum (stored b) j = entInum b j := by
  apply entInum_congr
  intro o h1 h2
  unfold stored
  rw [if_pos (by simp only [UFS_BLOCK_SIZE, SIZEOF_DIR_ENT] at hj ⊢; omega)]

theorem blockApart_stored {b : Block} {k : Nat} (h : BlockApart b k) : BlockApart (stored b) k := by
  intro j hj
  rw [entName_stored b j hj, entInum_stored b j hj]
  exact h j hj

theorem blockDots_stored {b : Block} {k : Nat} {parent : Int} (h : BlockDots b k parent) :
    BlockDots (stored b) k parent := by
  unfold BlockDots at h ⊢
  rw [entName_stored b 0 (by decide), entInum_stored b 0 (by decide),
    entName_stored b 1 (by decide), entInum_stored b 1 (by decide)]
  exact h

theorem entName_zeroBlock (j : Nat) : entName zeroBlock j = [] := by
  unfold entName
  exact cstr_zero _ _ _ rfl

theorem blockApart_zero (k : Nat) : BlockApart zeroBlock k := by
  intro j _
  left
  left
  exact entName_zeroBlock j

theorem entName_setEntry_other (b : Block) (n j : Nat) (inum : Int) (name : List Nat)
    (h : j ≠ n) : entName (setEntry b n inum name) j = entName b j := by
  apply entName_congr
  intro o h1 h2
  apply setEntry_other
  omega

theorem entInum_setEntry_other (b : Block) (n j : Nat) (inum : Int) (name : List Nat)
    (h : j ≠ n) : entInum (setEntry b n inum name) j = entInum b j := by
  apply entInum_congr
  intro o h1 h2
  apply setEntry_other
  omega

theorem blockApart_setEntry {b : Block} {k : Nat} (h : BlockApart b k) (n : Nat) (inum : Int)
    (name : List Nat) (h0 : inum ≠ (k : Int)) (h1 : inum ≠ 0) (h2 : -2147483648 ≤ inum)
    (h3 : inum < 2147483648) : BlockApart (setEntry b n inum name) k := by
  intro j hj
  by_cases hjn : j = n
  · right
    rw [hjn, entInum_setEntry_same b n inum name h2 h3]
    exact ⟨h0, h1⟩
  · rw [entName_setEntry_other b n j inum name hjn, entInum_setEntry_other b n j inum name hjn]
    exact h j hj

theorem blockDots_setEntry {b : Block} {k : Nat} {parent : Int} (h : BlockDots b k parent)
    (n : Nat) (inum : Int) (name : List Nat) (hn : 2 ≤ n) :
    BlockDots (setEntry b n inum name) k parent := by
  unfold BlockDots at h ⊢
  rw [entName_setEntry_other b n 0 inum name (by omega),
    entInum_setEntry_other b n 0 inum name (by omega),
    entName_setEntry_other b n 1 inum name (by omega),
    entInum_setEntry_other b n 1 inum name (by omega)]
  exact h

theorem entName_zeroEntry_same (b : Block) (j : Nat) : entName (zeroEntry b j) j = [] := by
  unfold entName
  apply cstr_zero
  unfold zeroEntry
  rw [if_pos (by simp only [SIZEOF_DIR_ENT, ENT_NAME_OFF]; omega)]

theorem cstr_shift (b b' : Block) :
    ∀ n off off' : Nat, (∀ i, i < n → b (off + i) = b' (off' + i)) →
      cstr b off n = cstr b' off' n := by
  intro n
  induction n with
  | zero => intro off off' _; rfl
  | succ n ih =>
    intro off off' h
    unfold cstr
    have h0 := h 0 (by omega)
    simp only [Nat.add_zero] at h0
    rw [h0]
    by_cases hz : b' off' = 0
    · rw [if_pos hz, if_pos hz]
    · rw [if_neg hz, if_neg hz]
      congr 1
      apply ih
      intro i hi
      have := h (i + 1) (by omega)
      rw [show off + 1 + i = off + (i + 1) by omega, show off' + 1 + i = off' + (i + 1) by omega]
      exact this

theorem entry_copy (b : Block) (j l : Nat) :
    entName (copyEntry b j l) j = entName b l ∧ entInum (copyEntry b j l) j = entInum b l := by
  constructor
  · unfold entName
    apply cstr_shift
    intro i hi
    unfold copyEntry
    simp only [SIZEOF_DIR_ENT, ENT_NAME_OFF, DIR_ENT_NAME_SIZE] at hi ⊢
    rw [if_pos (by omega)]
    congr 1
    omega
  · unfold entInum getI32 getU32 copyEntry
    simp only [SIZEOF_DIR_ENT, ENT_INUM_OFF]
    rw [if_pos (by omega), if_pos (by omega), if_pos (by omega), if_pos (by omega)]
    simp only [Nat.add_zero, Nat.sub_self, Nat.add_sub_cancel_left]

theorem blockApart_remove {b : Block} {k : Nat} (h : BlockApart b k) (j l : Nat)
    (hl : l < UFS_BLOCK_SIZE / SIZEOF_DIR_ENT) :
    BlockApart (zeroEntry (copyEntry b j l) l) k := by
  intro i hi
  by_cases hil : i = l
  · left
    left
    rw [hil]
    exact entName_zeroEntry_same _ _
  · have e1 : entName (zeroEntry (copyEntry b j l) l) i = entName (copyEntry b j l) i := by
      apply entName_congr
      intro o h1 h2
      apply zeroEntry_other
      omega
    have e2 : entInum (zeroEntry (copyEntry b j l) l) i = entInum (copyEntry b j l) i := by
      apply entInum_congr
      intro o h1 h2
      apply zeroEntry_other
      omega
    rw [e1, e2]
    by_cases hij : i = j
    · rw [hij, (entry_copy b j l).1, (entry_copy b j l).2]
      exact h l hl
    · have e3 : entName (copyEntry b j l) i = entName b i := by
        apply entName_congr
        intro o h1 h2
        apply copyEntry_other
        omega
      have e4 : entInum (copyEntry b j l) i = entInum b i := by
        apply entInum_congr
        intro o h1 h2
        apply copyEntry_other
        omega
      rw [e3, e4]
      exact h i hi

/-! ## Frames and pointer counts -/

theorem blockDots_remove {b : Block} {k : Nat} {parent : Int} (h : BlockDots b k parent)
    (j l : Nat) (hj : 2 ≤ j) (hl : 2 ≤ l) :
    BlockDots (zeroEntry (copyEntry b j l) l) k parent := by
  have e : ∀ i, i < 2 → entName (zeroEntry (copyEntry b j l) l) i = entName b i
      ∧ entInum (zeroEntry (copyEntry b j l) l) i = entInum b i := by
    intro i hi
    constructor
    · apply entName_congr
      intro o h1 h2
      rw [zeroEntry_other _ _ _ (by omega), copyEntry_other _ _ _ _ (by omega)]
    · apply entInum_congr
      intro o h1 h2
      rw [zeroEntry_other _ _ _ (by omega), copyEntry_other _ _ _ _ (by omega)]
  unfold BlockDots at h ⊢
  rw [(e 0 (by omega)).1, (e 0 (by omega)).2, (e 1 (by omega)).1, (e 1 (by omega)).2]
  exact h

theorem frame_views {d d1 : Disk} (hwf : WF d) (hn : d1.numberOfBlocks = d.numberOfBlocks)
    (hout : ∀ m : Nat, ((m : Int) < (superOf d).data_region_addr
        ∨ (superOf d).data_region_addr + (superOf d).num_data ≤ (m : Int)) →
        d1.blocks m = d.blocks m) :
    superOf d1 = superOf d ∧ WF d1
    ∧ (∀ k : Nat, (k : Int) < (superOf d).num_inodes → inodeOf d1 k = inodeOf d k)
    ∧ (∀ k : Nat, (k : Int) < (superOf d).num_inodes → inodeBit d1 k = inodeBit d k)
    ∧ (∀ j : Nat, (j : Int) < (superOf d).num_data → dataBit d1 j = dataBit d j) := by
  have hwf' := hwf
  unfold WF at hwf'
  have hs : superOf d1 = superOf d := superOf_of_block0 (hout 0 (Or.inl (by omega)))
  obtain ⟨hf1, hf2⟩ := regionByte_frame hwf hout
  refine ⟨hs, wf_of_same hwf hn hs, ?_, ?_, ?_⟩
  · intro k hk
    unfold inodeOf
    rw [hs]
    have e0 : UFS_BLOCK_SIZE / SIZEOF_INODE = 32 := rfl
    rw [e0, hout ((superOf d).inode_region_addr.toNat + k / 32) (by
      have hdj := hwf'.2.2.2.2.2.2.2.2.2.2.2
      unfold disjointRanges at hdj
      omega)]
  · intro k hk
    unfold inodeBit
    rw [hs, hf1 k (by omega)]
  · intro j hj
    unfold dataBit
    rw [hs, hf2 j (by omega)]

theorem meta_of_views {d d1 : Disk} (hs : superOf d1 = superOf d)
    (hino : ∀ k : Nat, (k : Int) < (superOf d).num_inodes → inodeOf d1 k = inodeOf d k)
    (hib : ∀ k : Nat, (k : Int) < (superOf d).num_inodes → inodeBit d1 k = inodeBit d k)
    (hdb : ∀ j : Nat, (j : Int) < (superOf d).num_data → dataBit d1 j = dataBit d j)
    (h1 : I1 d) (h2 : I2 d) (hfz : FreeZero d) (hroot : RootLive d) :
    I1 d1 ∧ I2 d1 ∧ FreeZero d1 ∧ RootLive d1 := by
  refine ⟨?_, ?_, ?_, ?_⟩
  · intro k hk hlive
    rw [hs] at hk
    have hki : (k : Int) < (superOf d).num_inodes := by omega
    rw [hib k hki] at hlive
    rw [hino k hki]
    have := h1 k hk hlive
    refine ⟨this.1, fun t ht hne => ?_⟩
    have hal := this.2 t ht hne
    apply allocated_of_same hs hal
    rw [hdb _ (by have := hal.1; have := hal.2.1; omega)]
    exact hal.2.2
  · intro k1 hk1 hl1 t1 ht1 hne1 k2 hk2 hl2 t2 ht2 e
    rw [hs] at hk1 hk2
    have hki1 : (k1 : Int) < (superOf d).num_inodes := by omega
    have hki2 : (k2 : Int) < (superOf d).num_inodes := by omega
    rw [hib k1 hki1] at hl1
    rw [hib k2 hki2] at hl2
    rw [hino k1 hki1] at hne1 e
    rw [hino k2 hki2] at e
    exact h2 k1 hk1 hl1 t1 ht1 hne1 k2 hk2 hl2 t2 ht2 e
  · intro k hk hfree
    rw [hs] at hk
    have hki : (k : Int) < (superOf d).num_inodes := by omega
    rw [hib k hki] at hfree
    rw [hino k hki]
    exact hfz k hk hfree
  · obtain ⟨hr1, hr2, hr3⟩ := hroot
    unfold RootLive
    rw [hs, hib 0 (by simpa using hr1), hino 0 (by simpa using hr1)]
    exact ⟨hr1, hr2, hr3⟩

theorem usedPtrs_congr {a b : inode_t} (h : ∀ t, t < DIRECT_PTRS → a.direct t = b.direct t) :
    usedPtrs a = usedPtrs b := by
  unfold usedPtrs
  apply count_congr
  intro i hi
  rw [h i hi]

theorem count_update (f : Nat → Nat) (s0 v : Nat) (h0 : f s0 = 0) (hv : v ≠ 0) :
    ∀ n, Nat.count (fun t => (if t = s0 then v else f t) ≠ 0) n
      = Nat.count (fun t => f t ≠ 0) n + (if s0 < n then 1 else 0) := by
  intro n
  induction n with
  | zero => simp
  | succ n ih =>
    rw [Nat.count_succ, Nat.count_succ, ih]
    by_cases hn : n = s0
    · subst hn
      simp [h0, hv]
    · by_cases hlt : s0 < n
      · have : s0 < n + 1 := by omega
        simp [hn, hlt, this]
        omega
      · have : ¬ s0 < n + 1 := by omega
        simp [hn, hlt, this]

theorem usedPtrs_update (a : inode_t) (s0 v : Nat) (hs : s0 < DIRECT_PTRS)
    (h0 : a.direct s0 = 0) (hv : v ≠ 0) (b : inode_t)
    (hb : ∀ t, t < DIRECT_PTRS → b.direct t = if t = s0 then v else a.direct t) :
    usedPtrs b = usedPtrs a + 1 := by
  have e : usedPtrs b = Nat.count (fun t => (if t = s0 then v else a.direct t) ≠ 0)
      DIRECT_PTRS := by
    unfold usedPtrs
    apply count_congr
    intro i hi
    rw [hb i hi]
  rw [e, count_update a.direct s0 v h0 hv DIRECT_PTRS, if_pos hs]
  rfl

theorem usedPtrs_pos {a : inode_t} (h : a.direct 0 ≠ 0) : 1 ≤ usedPtrs a := by
  unfold usedPtrs
  have h1 : Nat.count (fun t => a.direct t ≠ 0) 1 = 1 := by
    rw [Nat.count_succ, Nat.count_zero]
    simp [h]
  have h2 := Nat.count_monotone (fun t => a.direct t ≠ 0) (show 1 ≤ DIRECT_PTRS by decide)
  omega

/-! ## Create preserves the invariant -/

theorem apartAt_iff (d : Disk) (k : Nat) :
    ApartAt d k ↔ ∀ t, t < DIRECT_PTRS → (inodeOf d k).direct t ≠ 0 →
      BlockApart (d.blocks ((inodeOf d k).direct t)) k := Iff.rfl

theorem dotsAt_iff (d : Disk) (k : Nat) (parent : Int) :
    DotsAt d k parent ↔ ((inodeOf d k).direct 0 ≠ 0
      ∧ 2 * (SIZEOF_DIR_ENT : Int) ≤ (inodeOf d k).size
      ∧ (inodeOf d k).size ≤ UFS_BLOCK_SIZE + SIZEOF_DIR_ENT * usedPtrs (inodeOf d k)
      ∧ BlockDots (d.blocks ((inodeOf d k).direct 0)) k parent) := Iff.rfl

theorem toU32_toNat {x : Int} (h0 : 0 ≤ x) (h1 : x < 4294967296) : toU32 x = x.toNat := by
  have := toU32_of_nonneg h0 h1
  omega

theorem entryAdded_facts {d : Disk} {par : Nat → Int} {p k0 : Nat} {name : List Nat} {q : Nat}
    {blk : Block} {pino : inode_t} {dbm : Block}
    (hinv : Inv d par) (hp : (p : Int) < (superOf d).num_inodes)
    (hdir : (inodeOf d p).type = UFS_DIRECTORY)
    (hk0 : (k0 : Int) < (superOf d).num_inodes) (hk0f : inodeBit d k0 = false)
    (hE : EntryAdded d p k0 name q blk pino dbm) :
    ((superOf d).data_region_addr ≤ (q : Int)
      ∧ (q : Int) < (superOf d).data_region_addr + (superOf d).num_data)
    ∧ (pino.type = UFS_DIRECTORY ∧ pino.size = (inodeOf d p).size + SIZEOF_DIR_ENT
        ∧ pino.direct 0 = (inodeOf d p).direct 0)
    ∧ (∀ t, pino.direct t < 4294967296)
    ∧ (∀ t, t < DIRECT_PTRS → pino.direct t ≠ 0 →
        ((inodeOf d p).direct t ≠ 0 ∧ pino.direct t = (inodeOf d p).direct t)
        ∨ (pino.direct t = q
            ∧ dataBit d ((q : Int) - (superOf d).data_region_addr).toNat = false
            ∧ bitClear dbm ((q : Int) - (superOf d).data_region_addr).toNat = false
            ∧ ∀ t', t' < DIRECT_PTRS → pino.direct t' = q → t' = t))
    ∧ (∀ j : Nat, (j : Int) < (superOf d).num_data → bitClear dbm j = true →
        dataBit d j = false)
    ∧ (2 * (SIZEOF_DIR_ENT : Int) ≤ pino.size
        ∧ pino.size ≤ UFS_BLOCK_SIZE + SIZEOF_DIR_ENT * usedPtrs pino
        ∧ pino.size < 2147483648)
    ∧ BlockApart blk p
    ∧ (q = (inodeOf d p).direct 0 → BlockDots blk p (par p))
    ∧ (∀ k, k < (superOf d).num_inodes.toNat → inodeBit d k = true →
        ∀ t, t < DIRECT_PTRS → (inodeOf d k).direct t ≠ 0 → (inodeOf d k).direct t = q →
        k = p ∧ t = 0) := by
  obtain ⟨hwf, h1, h2, hfz, hroot, hap, hdots⟩ := hinv
  have hwf' := hwf
  unfold WF at hwf'
  have hpn : p < (superOf d).num_inodes.toNat := by omega
  have hplive : inodeBit d p = true := live_of_type hfz hpn (Or.inr hdir)
  have hdp := hdots p hpn hplive hdir
  obtain ⟨hd0, hsz1, hsz2, hdot⟩ := (dotsAt_iff d p (par p)).1 hdp
  have hal0 := (h1 p hpn hplive).2 0 (by decide) hd0
  have hu : usedPtrs (inodeOf d p) ≤ 30 := Nat.count_le _
  have hu1 := usedPtrs_pos hd0
  have hkp : (k0 : Int) ≠ (p : Int) := by
    intro e
    have : k0 = p := by omega
    rw [this, hplive] at hk0f
    cases hk0f
  have hk00 : (k0 : Int) ≠ 0 := by
    intro e
    have : k0 = 0 := by omega
    rw [this, hroot.2.1] at hk0f
    cases hk0f
  have hk0b := num_inodes_lt d
  have hbm : ∀ j : Nat, (j : Int) < (superOf d).num_data →
      bitClear (regionBuf d (superOf d).data_bitmap_addr.toNat
        (superOf d).data_bitmap_len.toNat) j = !dataBit d j :=
    fun j hj => dataBit_regionBuf hwf hj
  simp only [UFS_BLOCK_SIZE, SIZEOF_DIR_ENT, Nat.cast_ofNat, Nat.reduceDiv] at hsz1 hsz2 ⊢
  rcases hE with ⟨hcnt, hq, hblk, hpino, hdbm⟩ | ⟨hcnt, j1, s0, hj1, hj1c, hs0, hs0z, hs0m,
    hq, hblk, hpino, hdbm⟩
  · subst hq hblk hpino hdbm
    have hcnt2 : (inodeOf d p).size < 4096 := by
      unfold dirCount at hcnt
      simp only [UFS_BLOCK_SIZE, SIZEOF_DIR_ENT, Nat.cast_ofNat, Nat.reduceDiv] at hcnt
      omega
    refine ⟨⟨hal0.1, hal0.2.1⟩, ⟨hdir, rfl, rfl⟩, fun t => inodeOf_direct_lt d p t,
      fun t ht hne => Or.inl ⟨hne, rfl⟩, ?_, ⟨?_, ?_, ?_⟩, ?_, ?_, ?_⟩
    · intro j hj hc
      rw [hbm j hj] at hc
      simpa using hc
    · show (64 : Int) ≤ (inodeOf d p).size + 32
      omega
    · show (inodeOf d p).size + 32 ≤ 4096 + 32 * (usedPtrs (inodeOf d p) : Int)
      omega
    · show (inodeOf d p).size + 32 < 2147483648
      omega
    · exact blockApart_setEntry (hap p hpn hplive hdir 0 (by decide) hd0) _ _ _ hkp hk00
        (by omega) (by omega)
    · intro _
      apply blockDots_setEntry hdot
      unfold dirCount
      simp only [SIZEOF_DIR_ENT, Nat.cast_ofNat]
      omega
    · intro k hk hlive t ht hne e
      exact h2 k hk hlive t ht hne p hpn hplive 0 (by decide) e
  · subst hq hblk hpino hdbm
    have hs0ne : s0 ≠ 0 := by
      intro e
      rw [e] at hs0z
      exact hd0 hs0z
    have hqv : toU32 ((j1 : Int) + (superOf d).data_region_addr)
        = ((j1 : Int) + (superOf d).data_region_addr).toNat := toU32_toNat (by omega) (by omega)
    have hqj : ((((j1 : Int) + (superOf d).data_region_addr).toNat : Nat) : Int)
        - (superOf d).data_region_addr = (j1 : Int) := by omega
    have hj1free : dataBit d j1 = false := by
      have := hbm j1 hj1
      rw [hj1c] at this
      simpa using this.symm
    have hnotq : ∀ k, k < (superOf d).num_inodes.toNat → inodeBit d k = true →
        ∀ t, t < DIRECT_PTRS → (inodeOf d k).direct t ≠ 0 →
        (inodeOf d k).direct t ≠ ((j1 : Int) + (superOf d).data_region_addr).toNat := by
      intro k hk hlive t ht hne e
      have hal := (h1 k hk hlive).2 t ht hne
      have hb := hal.2.2
      rw [e, hqj, Int.toNat_ofNat, hj1free] at hb
      cases hb
    refine ⟨⟨by omega, by omega⟩, ⟨hdir, rfl, ?_⟩, ?_, ?_, ?_, ⟨?_, ?_, ?_⟩, ?_, ?_, ?_⟩
    · show (if 0 = s0 then _ else (inodeOf d p).direct 0) = (inodeOf d p).direct 0
      rw [if_neg (fun e => hs0ne e.symm)]
    · intro t
      show (if t = s0 then _ else (inodeOf d p).direct t) < 4294967296
      by_cases hts : t = s0
      · rw [if_pos hts]; exact toU32_lt _
      · rw [if_neg hts]; exact inodeOf_direct_lt d p t
    · intro t ht hne
      by_cases hts : t = s0
      · right
        refine ⟨?_, ?_, ?_, ?_⟩
        · show (if t = s0 then _ else (inodeOf d p).direct t) = _
          rw [if_pos hts, hqv]
        · rw [hqj, Int.toNat_ofNat]; exact hj1free
        · rw [hqj, Int.toNat_ofNat, bitClear_setBit, if_pos rfl]
        · intro t' ht' e'
          by_contra hne'
          have e2 : (inodeOf d p).direct t' = ((j1 : Int) + (superOf d).data_region_addr).toNat := by
            have : (if t' = s0 then toU32 ((j1 : Int) + (superOf d).data_region_addr)
                else (inodeOf d p).direct t') = _ := e'
            rw [if_neg (by rw [hts] at hne'; exact hne')] at this
            exact this
          have hne2 : (inodeOf d p).direct t' ≠ 0 := by
            rw [e2]; omega
          exact hnotq p hpn hplive t' ht' hne2 e2
      · left
        have : (if t = s0 then toU32 ((j1 : Int) + (superOf d).data_region_addr)
            else (inodeOf d p).direct t) ≠ 0 := hne
        rw [if_neg hts] at this
        refine ⟨this, ?_⟩
        show (if t = s0 then _ else (inodeOf d p).direct t) = _
        rw [if_neg hts]
    · intro j hj hc
      rw [bitClear_setBit] at hc
      by_cases hjj : j = j1
      · rw [if_pos hjj] at hc; cases hc
      · rw [if_neg hjj, hbm j hj] at hc
        simpa using hc
    · show (64 : Int) ≤ (inodeOf d p).size + 32
      omega
    · have hup := usedPtrs_update (inodeOf d p) s0
        (toU32 ((j1 : Int) + (superOf d).data_region_addr)) hs0 hs0z (by rw [hqv]; omega)
        { inodeOf d p with
            direct := fun t =>
              if t = s0 then toU32 ((j1 : Int) + (superOf d).data_region_addr)
              else (inodeOf d p).direct t
            size := (inodeOf d p).size + SIZEOF_DIR_ENT } (fun t _ => rfl)
      rw [hup]
      show (inodeOf d p).size + 32 ≤ 4096 + 32 * ((usedPtrs (inodeOf d p) + 1 : Nat) : Int)
      push_cast
      omega
    · show (inodeOf d p).size + 32 < 2147483648
      omega
    · exact blockApart_setEntry (blockApart_zero p) _ _ _ hkp hk00 (by omega) (by omega)
    · intro e
      exact absurd e.symm (hnotq p hpn hplive 0 (by decide) hd0)
    · intro k hk hlive t ht hne e
      exact absurd e (hnotq k hk hlive t ht hne)

theorem entry_inv {d : Disk} {par : Nat → Int} {p q : Nat} {blk : Block}
    (hinv : Inv d par)
    (hq : (superOf d).data_region_addr ≤ (q : Int)
      ∧ (q : Int) < (superOf d).data_region_addr + (superOf d).num_data)
    (hapart : BlockApart blk p)
    (hdots : q = (inodeOf d p).direct 0 → BlockDots blk p (par p))
    (honly : ∀ k, k < (superOf d).num_inodes.toNat → inodeBit d k = true →
        ∀ t, t < DIRECT_PTRS → (inodeOf d k).direct t ≠ 0 → (inodeOf d k).direct t = q →
        k = p) :
    Inv (putBlock d q blk) par := by
  obtain ⟨hwf, h1, h2, hfz, hroot, hap, hdt⟩ := hinv
  have hwf' := hwf
  unfold WF at hwf'
  obtain ⟨hs, hwf1, hino, hib, hdb⟩ := @frame_views d (putBlock d q blk) hwf rfl
    (fun m hm => putBlock_other d q m blk (by omega))
  obtain ⟨g1, g2, g3, g4⟩ := meta_of_views hs hino hib hdb h1 h2 hfz hroot
  refine ⟨hwf1, g1, g2, g3, g4, ?_, ?_⟩
  · rw [entriesApart_iff]
    intro k hk hlive hdir
    rw [hs] at hk
    have hki : (k : Int) < (superOf d).num_inodes := by omega
    rw [hib k hki] at hlive
    rw [hino k hki] at hdir
    rw [apartAt_iff]
    intro t ht hne
    rw [hino k hki] at hne ⊢
    by_cases e : (inodeOf d k).direct t = q
    · have hkp := honly k hk hlive t ht hne e
      rw [e, putBlock_blocks_same, hkp]
      exact blockApart_stored hapart
    · rw [putBlock_other d q _ blk e]
      exact hap k hk hlive hdir t ht hne
  · rw [dotEntries_iff]
    intro k hk hlive hdir
    rw [hs] at hk
    have hki : (k : Int) < (superOf d).num_inodes := by omega
    rw [hib k hki] at hlive
    rw [hino k hki] at hdir
    obtain ⟨hd0, hz1, hz2, hbd⟩ := (dotsAt_iff d k (par k)).1 (hdt k hk hlive hdir)
    rw [dotsAt_iff, hino k hki]
    refine ⟨hd0, hz1, hz2, ?_⟩
    by_cases e : (inodeOf d k).direct 0 = q
    · have hkp := honly k hk hlive 0 (by decide) hd0 e
      rw [e, putBlock_blocks_same]
      subst hkp
      exact blockDots_stored (hdots e.symm)
    · rw [putBlock_other d q _ blk e]
      exact hbd

theorem normInode_fields {x : inode_t}
    (ht : -2147483648 ≤ x.type ∧ x.type < 2147483648)
    (hs : -2147483648 ≤ x.size ∧ x.size < 2147483648)
    (hd : ∀ t, t < DIRECT_PTRS → x.direct t < 4294967296) :
    (normInode x).type = x.type ∧ (normInode x).size = x.size
    ∧ ∀ t, t < DIRECT_PTRS → (normInode x).direct t = x.direct t := by
  refine ⟨toI32_toU32 ht.1 ht.2, toI32_toU32 hs.1 hs.2, fun t h => ?_⟩
  show (if t < DIRECT_PTRS then x.direct t % 4294967296 else 0) = x.direct t
  rw [if_pos h, Nat.mod_eq_of_lt (hd t h)]

theorem inodeBit_regionBuf {d : Disk} (hwf : WF d) {k : Nat}
    (hk : (k : Int) < (superOf d).num_inodes) :
    bitClear (regionBuf d (superOf d).inode_bitmap_addr.toNat
      (superOf d).inode_bitmap_len.toNat) k = !inodeBit d k := by
  have hwf' := hwf
  unfold WF at hwf'
  unfold inodeBit
  rw [bitClear_regionBuf d _ _ k (by omega)]
  simp

theorem create_commit_inv {d : Disk} {par : Nat → Int} {p k0 : Nat} {name : List Nat} {q : Nat}
    {blk : Block} {pino : inode_t} {dbm : Block}
    (hinv : Inv d par) (hp : (p : Int) < (superOf d).num_inodes)
    (hdir : (inodeOf d p).type = UFS_DIRECTORY)
    (hk0 : (k0 : Int) < (superOf d).num_inodes) (hk0f : inodeBit d k0 = false)
    (hE : EntryAdded d p k0 name q blk pino dbm)
    (newInode : inode_t) (dD : Disk) (dbmF : Block)
    (ht : newInode.type = UFS_REGULAR_FILE ∨ newInode.type = UFS_DIRECTORY)
    (hnsz : 0 ≤ newInode.size ∧ newInode.size < 2147483648)
    (hnp : ∀ i, i < DIRECT_PTRS → 0 < i → newInode.direct i = 0)
    (hq2 : newInode.direct 0 ≠ 0 →
        ((superOf d).data_region_addr ≤ (newInode.direct 0 : Int)
        ∧ (newInode.direct 0 : Int) < (superOf d).data_region_addr + (superOf d).num_data
        ∧ bitClear dbm ((newInode.direct 0 : Int) - (superOf d).data_region_addr).toNat = true
        ∧ bitClear dbmF ((newInode.direct 0 : Int) - (superOf d).data_region_addr).toNat
            = false))
    (hmono : ∀ j, bitClear dbmF j = true → bitClear dbm j = true)
    (hDn : dD.numberOfBlocks = d.numberOfBlocks)
    (hDb : ∀ m, m ≠ newInode.direct 0 → dD.blocks m = (putBlock d q blk).blocks m)
    (hD0 : dD.blocks 0 = d.blocks 0)
    (hnd : newInode.type = UFS_DIRECTORY → newInode.direct 0 ≠ 0
        ∧ newInode.size = 2 * (SIZEOF_DIR_ENT : Int)
        ∧ BlockApart (dD.blocks (newInode.direct 0)) k0
        ∧ BlockDots (dD.blocks (newInode.direct 0)) k0 p) :
    Inv (commitCreate dD (superOf d) (createInodes d p k0 pino newInode)
        (setBit (regionBuf d (superOf d).inode_bitmap_addr.toNat
          (superOf d).inode_bitmap_len.toNat) k0) dbmF)
      (parAfter par p newInode.type k0) := by
  obtain ⟨F1, F2, F3, F4, F5, F7, F8, F9, F11⟩ := entryAdded_facts hinv hp hdir hk0 hk0f hE
  have hA : Inv (putBlock d q blk) par := entry_inv hinv F1 F8 F9
    (fun k hk hl t ht hne e => (F11 k hk hl t ht hne e).1)
  obtain ⟨hwf, h1, h2, hfz, hroot, hap, hdots⟩ := hinv
  have hwf' := hwf
  unfold WF at hwf'
  obtain ⟨hsA, _, hinoA, hibA, hdbA⟩ := @frame_views d (putBlock d q blk) hwf rfl
    (fun m hm => putBlock_other d q m blk (by omega))
  obtain ⟨_, _, _, _, _, hapA, hdotsA⟩ := hA
  have hpn : p < (superOf d).num_inodes.toNat := by omega
  have hk0n : k0 < (superOf d).num_inodes.toNat := by omega
  have hplive : inodeBit d p = true := live_of_type hfz hpn (Or.inr hdir)
  have hkp : k0 ≠ p := by
    intro e
    rw [e, hplive] at hk0f
    cases hk0f
  have hk00 : k0 ≠ 0 := by
    intro e
    rw [e, hroot.2.1] at hk0f
    cases hk0f
  have hD : DIRECT_PTRS = 30 := rfl
  generalize hd1 : commitCreate dD (superOf d) (createInodes d p k0 pino newInode)
        (setBit (regionBuf d (superOf d).inode_bitmap_addr.toNat
          (superOf d).inode_bitmap_len.toNat) k0) dbmF = d1
  have hc : Committed d1 dD (superOf d) (createInodes d p k0 pino newInode)
      (setBit (regionBuf d (superOf d).inode_bitmap_addr.toNat
          (superOf d).inode_bitmap_len.toNat) k0) dbmF := by
    rw [← hd1]
    unfold commitCreate
    exact committed_create hwf dD _ _ _
  have hs1 : superOf d1 = superOf d := committed_super hwf hc hD0
  have hwf1 : WF d1 := committed_wf hwf hc hDn hD0
  have hino : ∀ k : Nat, (k : Int) < (superOf d).num_inodes →
      inodeOf d1 k = normInode (createInodes d p k0 pino newInode k) :=
    fun k hk => committed_inode hwf hc hD0 hk
  have hib : ∀ k : Nat, (k : Int) < (superOf d).num_inodes →
      inodeBit d1 k = if k = k0 then true else inodeBit d k := by
    intro k hk
    rw [committed_inodeBit hwf hc hD0 (by omega), bitClear_setBit]
    by_cases e : k = k0
    · rw [if_pos e, if_pos e]; rfl
    · rw [if_neg e, if_neg e, inodeBit_regionBuf hwf hk]; simp
  have hdb : ∀ j : Nat, (j : Int) < (superOf d).num_data →
      dataBit d1 j = !bitClear dbmF j := fun j hj => committed_dataBit hwf hc hD0 (by omega)
  have hdata : ∀ m : Nat, (superOf d).data_region_addr ≤ (m : Int) →
      (m : Int) < (superOf d).data_region_addr + (superOf d).num_data →
      d1.blocks m = dD.blocks m := fun m h1 h2 => committed_data hwf hc h1 h2
  have hsz7 := F7
  simp only [SIZEOF_DIR_ENT, UFS_BLOCK_SIZE, Nat.cast_ofNat] at hsz7
  -- the records after the call
  have hrp : (inodeOf d1 p).type = UFS_DIRECTORY ∧ (inodeOf d1 p).size = pino.size
      ∧ ∀ t, t < DIRECT_PTRS → (inodeOf d1 p).direct t = pino.direct t := by
    rw [hino p hp]
    have e : createInodes d p k0 pino newInode p = pino := by
      unfold createInodes
      rw [if_pos rfl]
    rw [e]
    obtain ⟨a, b, c⟩ := normInode_fields (x := pino) (by rw [F2.1]; decide)
      ⟨by omega, F7.2.2⟩ (fun t _ => F3 t)
    exact ⟨by rw [a, F2.1], b, c⟩
  have hn0 : newInode.direct 0 < 2147483648 := by
    by_cases e : newInode.direct 0 = 0
    · rw [e]; decide
    · have := hq2 e
      omega
  have hrk : (inodeOf d1 k0).type = newInode.type ∧ (inodeOf d1 k0).size = newInode.size
      ∧ ∀ t, t < DIRECT_PTRS → (inodeOf d1 k0).direct t = newInode.direct t := by
    rw [hino k0 hk0]
    have e : createInodes d p k0 pino newInode k0 = newInode := by
      unfold createInodes
      rw [if_neg hkp, if_pos rfl]
    rw [e]
    exact normInode_fields (x := newInode) (by rcases ht with h | h <;> rw [h] <;> decide)
      ⟨by omega, hnsz.2⟩ (fun t htt => by
        by_cases e0 : t = 0
        · rw [e0]; omega
        · rw [hnp t htt (by omega)]; decide)
  have hro : ∀ k : Nat, (k : Int) < (superOf d).num_inodes → k ≠ p → k ≠ k0 →
      inodeOf d1 k = inodeOf d k := by
    intro k hk e1 e2
    rw [hino k hk]
    unfold createInodes
    rw [if_neg e1, if_neg e2, inodeTable_eq hwf hk, inodeOf_norm]
  -- bits and blocks of the pointers that were allocated
  have hbit_old : ∀ ptr : Nat, allocated d ptr →
      bitClear dbm ((ptr : Int) - (superOf d).data_region_addr).toNat = false
      ∧ dataBit d1 ((ptr : Int) - (superOf d).data_region_addr).toNat = true := by
    intro ptr hal
    have hj : ((((ptr : Int) - (superOf d).data_region_addr).toNat : Nat) : Int)
        < (superOf d).num_data := by
      have := hal.1
      have := hal.2.1
      omega
    have hx : bitClear dbm ((ptr : Int) - (superOf d).data_region_addr).toNat = false := by
      apply Bool.eq_false_iff.mpr
      intro hcl
      have := F5 _ hj hcl
      rw [hal.2.2] at this
      cases this
    refine ⟨hx, ?_⟩
    rw [hdb _ hj]
    have : bitClear dbmF ((ptr : Int) - (superOf d).data_region_addr).toNat = false := by
      apply Bool.eq_false_iff.mpr
      intro hcl
      rw [hmono _ hcl] at hx
      cases hx
    rw [this]
    rfl
  have hblk : ∀ ptr : Nat, (superOf d).data_region_addr ≤ (ptr : Int) →
      (ptr : Int) < (superOf d).data_region_addr + (superOf d).num_data →
      bitClear dbm ((ptr : Int) - (superOf d).data_region_addr).toNat = false →
      d1.blocks ptr = (putBlock d q blk).blocks ptr := by
    intro ptr hr1 hr2 hcl
    rw [hdata ptr hr1 hr2]
    apply hDb
    intro e
    by_cases e0 : newInode.direct 0 = 0
    · rw [e0] at e
      rw [e] at hr1
      simp only [Nat.cast_zero] at hr1
      omega
    · have := (hq2 e0).2.2.1
      rw [← e, hcl] at this
      cases this
  have hclass : ∀ k, k < (superOf d).num_inodes.toNat → inodeBit d1 k = true →
      ∀ t, t < DIRECT_PTRS → (inodeOf d1 k).direct t ≠ 0 →
      (inodeBit d k = true ∧ (inodeOf d k).direct t = (inodeOf d1 k).direct t
        ∧ allocated d ((inodeOf d1 k).direct t))
      ∨ (k = p ∧ (inodeOf d1 k).direct t = q
          ∧ dataBit d ((q : Int) - (superOf d).data_region_addr).toNat = false
          ∧ bitClear dbm ((q : Int) - (superOf d).data_region_addr).toNat = false
          ∧ ∀ t', t' < DIRECT_PTRS → (inodeOf d1 p).direct t' = q → t' = t)
      ∨ (k = k0 ∧ t = 0 ∧ (inodeOf d1 k).direct t = newInode.direct 0
          ∧ newInode.direct 0 ≠ 0) := by
    intro k hk hlive t htt hne
    have hki : (k : Int) < (superOf d).num_inodes := by omega
    by_cases e1 : k = p
    · subst e1
      rw [hrp.2.2 t htt] at hne ⊢
      rcases F4 t htt hne with ⟨ha, hb⟩ | ⟨ha, hb, hc2, hd2⟩
      · left
        rw [hb]
        exact ⟨hplive, rfl, (h1 k hpn hplive).2 t htt ha⟩
      · right
        left
        refine ⟨rfl, ha, hb, hc2, fun t' ht' e' => ?_⟩
        rw [hrp.2.2 t' ht'] at e'
        exact hd2 t' ht' e'
    · by_cases e2 : k = k0
      · subst e2
        rw [hrk.2.2 t htt] at hne ⊢
        have ht0 : t = 0 := by
          by_contra hn
          exact hne (hnp t htt (by omega))
        subst ht0
        right
        right
        exact ⟨rfl, rfl, rfl, hne⟩
      · left
        have hl0 : inodeBit d k = true := by
          rw [hib k hki, if_neg e2] at hlive
          exact hlive
        rw [hro k hki e1 e2] at hne ⊢
        exact ⟨hl0, rfl, (h1 k hk hl0).2 t htt hne⟩
  have h12 : I1 d1 ∧ I2 d1 := by
    apply p12_step (fun j => !dataBit d j) hs1 h1 h2
    · intro k hk hlive
      have hki : (k : Int) < (superOf d).num_inodes := by omega
      by_cases e1 : k = p
      · rw [e1]; exact Or.inr hrp.1
      · by_cases e2 : k = k0
        · rw [e2, hrk.1]; exact ht
        · rw [hro k hki e1 e2]
          rw [hib k hki, if_neg e2] at hlive
          exact (h1 k hk hlive).1
    · intro k hk hlive t htt hne
      rcases hclass k hk hlive t htt hne with ⟨ha, hb, hal⟩ | ⟨_, hb, hfr, hcl, _⟩
        | ⟨_, _, hb, hnz⟩
      · exact ⟨(hbit_old _ hal).2, Or.inl ⟨ha, hb, by rw [hal.2.2]; rfl⟩⟩
      · rw [hb]
        refine ⟨?_, Or.inr ⟨F1.1, F1.2, by rw [hfr]; rfl⟩⟩
        rw [hdb _ (by omega)]
        have : bitClear dbmF ((q : Int) - (superOf d).data_region_addr).toNat = false := by
          apply Bool.eq_false_iff.mpr
          intro hx
          rw [hmono _ hx] at hcl
          cases hcl
        rw [this]
        rfl
      · rw [hb]
        obtain ⟨r1, r2, r3, r4⟩ := hq2 hnz
        refine ⟨?_, Or.inr ⟨r1, r2, ?_⟩⟩
        · rw [hdb _ (by omega), r4]
          rfl
        · have := F5 _ (by omega) r3
          rw [this]
          rfl
    · intro k1 t1 k2 t2 hk1 hl1 ht1 hne1 hk2 hl2 ht2 hfree e
      have hne2 : (inodeOf d1 k2).direct t2 ≠ 0 := by rw [← e]; exact hne1
      have hfree2 := hfree
      rw [e] at hfree2
      rcases hclass k1 hk1 hl1 t1 ht1 hne1 with ⟨_, _, hal⟩ | ⟨ea, eb, efr, ecl, eun⟩
        | ⟨ea, eb, ec, enz⟩
      · rw [hal.2.2] at hfree
        cases hfree
      · rcases hclass k2 hk2 hl2 t2 ht2 hne2 with ⟨_, _, hal⟩ | ⟨fa, fb, _, _, _⟩
          | ⟨fa, fb, fc, fnz⟩
        · rw [hal.2.2] at hfree2
          cases hfree2
        · refine ⟨by rw [ea, fa], ?_⟩
          rw [fa] at fb
          exact (eun t2 ht2 fb).symm
        · exfalso
          have := (hq2 fnz).2.2.1
          rw [← fc, ← e, eb, ecl] at this
          cases this
      · rcases hclass k2 hk2 hl2 t2 ht2 hne2 with ⟨_, _, hal⟩ | ⟨fa, fb, _, fcl, _⟩
          | ⟨fa, fb, fc, fnz⟩
        · rw [hal.2.2] at hfree2
          cases hfree2
        · exfalso
          have := (hq2 enz).2.2.1
          rw [← ec, e, fb, fcl] at this
          cases this
        · exact ⟨by rw [ea, fa], by rw [eb, fb]⟩
  have hpar_other : ∀ k : Nat, k ≠ k0 → parAfter par p newInode.type k0 k = par k := by
    intro k e
    unfold parAfter
    rw [if_neg (fun h => e (by omega))]
  have hpar_new : newInode.type = UFS_DIRECTORY → parAfter par p newInode.type k0 k0 = p := by
    intro e
    unfold parAfter
    rw [if_pos ⟨by omega, e, rfl⟩]
  have hold_blk : ∀ k, k < (superOf d).num_inodes.toNat → inodeBit d k = true →
      ∀ t, t < DIRECT_PTRS → (inodeOf d k).direct t ≠ 0 →
      d1.blocks ((inodeOf d k).direct t) = (putBlock d q blk).blocks ((inodeOf d k).direct t) := by
    intro k hk hlive t htt hne
    have hal := (h1 k hk hlive).2 t htt hne
    exact hblk _ hal.1 hal.2.1 (hbit_old _ hal).1
  refine ⟨hwf1, h12.1, h12.2, ?_, ?_, ?_, ?_⟩
  · intro k hk hfree
    rw [hs1] at hk
    have hki : (k : Int) < (superOf d).num_inodes := by omega
    rw [hib k hki] at hfree
    have e2 : k ≠ k0 := by
      intro e
      rw [if_pos e] at hfree
      cases hfree
    rw [if_neg e2] at hfree
    have e1 : k ≠ p := by
      intro e
      rw [e, hplive] at hfree
      cases hfree
    rw [hro k hki e1 e2]
    exact hfz k hk hfree
  · obtain ⟨hr1, hr2, hr3⟩ := hroot
    unfold RootLive
    rw [hs1]
    have h0i : ((0 : Nat) : Int) < (superOf d).num_inodes := by simpa using hr1
    refine ⟨hr1, ?_, ?_⟩
    · rw [hib 0 h0i, if_neg (fun e => hk00 e.symm)]
      exact hr2
    · by_cases e1 : 0 = p
      · rw [e1]; exact hrp.1
      · rw [hro 0 h0i e1 (fun e => hk00 e.symm)]
        exact hr3
  · rw [entriesApart_iff]
    intro k hk hlive hdirk
    rw [hs1] at hk
    have hki : (k : Int) < (superOf d).num_inodes := by omega
    rw [apartAt_iff]
    intro t htt hne
    by_cases e2 : k = k0
    · subst e2
      rw [hrk.1] at hdirk
      obtain ⟨n1, n2, n3, n4⟩ := hnd hdirk
      rw [hrk.2.2 t htt] at hne ⊢
      have ht0 : t = 0 := by
        by_contra hn
        exact hne (hnp t htt (by omega))
      subst ht0
      obtain ⟨r1, r2, r3, r4⟩ := hq2 n1
      rw [hdata _ r1 r2]
      exact n3
    · by_cases e1 : k = p
      · subst e1
        rw [hrp.2.2 t htt] at hne ⊢
        rcases F4 t htt hne with ⟨ha, hb⟩ | ⟨ha, hb, hc2, hd2⟩
        · rw [hb, hold_blk k hpn hplive t htt ha]
          have this : ApartAt (putBlock d q blk) k := hapA k (by rw [hsA]; exact hpn) (by rw [hibA k hp]; exact hplive)
            (by rw [hinoA k hp]; exact hdir)
          rw [apartAt_iff] at this
          have h3 := this t htt (by rw [hinoA k hp]; exact ha)
          rw [hinoA k hp] at h3
          exact h3
        · rw [ha, hblk q F1.1 F1.2 hc2, putBlock_blocks_same]
          exact blockApart_stored F8
      · have hl0 : inodeBit d k = true := by
          rw [hib k hki, if_neg e2] at hlive
          exact hlive
        rw [hro k hki e1 e2] at hne hdirk ⊢
        rw [hold_blk k hk hl0 t htt hne]
        have this : ApartAt (putBlock d q blk) k := hapA k (by rw [hsA]; exact hk) (by rw [hibA k hki]; exact hl0)
          (by rw [hinoA k hki]; exact hdirk)
        rw [apartAt_iff] at this
        have h3 := this t htt (by rw [hinoA k hki]; exact hne)
        rw [hinoA k hki] at h3
        exact h3
  · rw [dotEntries_iff]
    intro k hk hlive hdirk
    rw [hs1] at hk
    have hki : (k : Int) < (superOf d).num_inodes := by omega
    rw [dotsAt_iff]
    by_cases e2 : k = k0
    · subst e2
      rw [hrk.1] at hdirk
      obtain ⟨n1, n2, n3, n4⟩ := hnd hdirk
      obtain ⟨r1, r2, r3, r4⟩ := hq2 n1
      rw [hpar_new hdirk, hrk.2.2 0 (by decide), hrk.2.1, n2, hdata _ r1 r2]
      refine ⟨n1, le_refl _, ?_, n4⟩
      simp only [SIZEOF_DIR_ENT, UFS_BLOCK_SIZE, Nat.cast_ofNat]
      omega
    · rw [hpar_other k e2]
      by_cases e1 : k = p
      · subst e1
        have hdA : DotsAt (putBlock d q blk) k (par k) := hdotsA k (by rw [hsA]; exact hpn) (by rw [hibA k hp]; exact hplive)
          (by rw [hinoA k hp]; exact hdir)
        rw [dotsAt_iff, hinoA k hp] at hdA
        obtain ⟨a1, a2, a3, a4⟩ := hdA
        rw [hrp.2.2 0 (by decide), hrp.2.1, F2.2.2, hold_blk k hpn hplive 0 (by decide) a1]
        refine ⟨a1, F7.1, ?_, a4⟩
        have := usedPtrs_congr (a := inodeOf d1 k) (b := pino) (fun t htt => hrp.2.2 t htt)
        rw [this]
        exact F7.2.1
      · have hl0 : inodeBit d k = true := by
          rw [hib k hki, if_neg e2] at hlive
          exact hlive
        rw [hro k hki e1 e2] at hdirk ⊢
        have hdA : DotsAt (putBlock d q blk) k (par k) := hdotsA k (by rw [hsA]; exact hk) (by rw [hibA k hki]; exact hl0)
          (by rw [hinoA k hki]; exact hdirk)
        rw [dotsAt_iff, hinoA k hki] at hdA
        obtain ⟨a1, a2, a3, a4⟩ := hdA
        rw [hold_blk k hk hl0 0 (by decide) a1]
        exact ⟨a1, a2, a3, a4⟩

theorem dotsBlock_dots (a : Nat) (b : Int) (ha : (a : Int) < 2147483648)
    (hb : -2147483648 ≤ b ∧ b < 2147483648) :
    BlockDots (setEntry (setEntry zeroBlock 0 a [46]) 1 b [46, 46]) a b := by
  refine ⟨?_, ?_, ?_, ?_⟩
  · rw [entName_setEntry_other _ 1 0 _ _ (by decide)]
    exact entName_setEntry_same _ 0 _ [46] (by decide) (by decide)
  · rw [entInum_setEntry_other _ 1 0 _ _ (by decide)]
    exact entInum_setEntry_same _ 0 _ [46] (by omega) ha
  · exact entName_setEntry_same _ 1 _ [46, 46] (by decide) (by decide)
  · exact entInum_setEntry_same _ 1 _ [46, 46] hb.1 hb.2

theorem dotsBlock_apart (a : Nat) (b : Int) (k : Nat) :
    BlockApart (setEntry (setEntry zeroBlock 0 a [46]) 1 b [46, 46]) k := by
  intro j _
  left
  by_cases h1 : j = 1
  · rw [h1]
    right
    right
    exact entName_setEntry_same _ 1 _ [46, 46] (by decide) (by decide)
  · rw [entName_setEntry_other _ 1 j _ _ h1]
    by_cases h0 : j = 0
    · rw [h0]
      right
      left
      exact entName_setEntry_same _ 0 _ [46] (by decide) (by decide)
    · rw [entName_setEntry_other _ 0 j _ _ h0]
      left
      exact entName_zeroBlock j

theorem parAfter_neg (par : Nat → Int) (p t r : Int) (h : r < 0) : parAfter par p t r = par := by
  funext k
  unfold parAfter
  rw [if_neg (by omega)]

theorem create_inv {d d1 : Disk} {par : Nat → Int} {p t : Int} {name : List Nat} {r : Int}
    (hinv : Inv d par) (h : create d p t name = some (d1, r)) :
    Inv d1 (parAfter par p t r) := by
  rcases create_shape hinv h with ⟨e, hr⟩ | ⟨hp, hdir, ht, hlen, hnl, k0, q, blk, pino, dbm,
    hk0, hk0f, hk0m, hE, hout⟩
  · rw [e, parAfter_neg par p t r hr]
    exact hinv
  obtain ⟨pn, hpn⟩ : ∃ pn : Nat, p = (pn : Int) := ⟨p.toNat, by omega⟩
  subst hpn
  simp only [Int.toNat_ofNat] at hdir hE hout
  have hwf := hinv.1
  have hwf' := hwf
  unfold WF at hwf'
  obtain ⟨F1, F2, F3, F4, F5, F7, F8, F9, F11⟩ := entryAdded_facts hinv hp.2 hdir hk0 hk0f hE
  rcases hout with ⟨htd, hr, hd1, _⟩ | ⟨htr, hr, hd1⟩ | ⟨htd, hr, j2, hj2, hj2c, hd1⟩
  · rw [hd1, parAfter_neg par _ t r (by rw [hr]; decide)]
    exact entry_inv hinv F1 F8 F9 (fun k hk hl t ht hne e => (F11 k hk hl t ht hne e).1)
  · have := create_commit_inv hinv hp.2 hdir hk0 hk0f hE ⟨t, 0, fun _ => 0⟩ (putBlock d q blk)
      dbm (Or.inl htr) ⟨le_refl _, by show (0 : Int) < 2147483648; decide⟩ (fun i _ _ => rfl) (fun h => absurd rfl h)
      (fun j h => h) rfl (fun m _ => rfl) (putBlock_other d q 0 blk (by omega))
      (fun h => absurd (htr.symm.trans h) (by decide))
    rw [hd1, hr]
    exact this
  · have hq2v : toU32 ((j2 : Int) + (superOf d).data_region_addr)
        = ((j2 : Int) + (superOf d).data_region_addr).toNat := toU32_toNat (by omega) (by omega)
    have hqj : ((((j2 : Int) + (superOf d).data_region_addr).toNat : Nat) : Int)
        - (superOf d).data_region_addr = (j2 : Int) := by omega
    have hk0b := num_inodes_lt d
    have := create_commit_inv hinv hp.2 hdir hk0 hk0f hE
      ⟨t, 2 * (SIZEOF_DIR_ENT : Int),
        fun i => if i = 0 then toU32 ((j2 : Int) + (superOf d).data_region_addr) else 0⟩
      (putBlock (putBlock d q blk) ((j2 : Int) + (superOf d).data_region_addr).toNat
        (setEntry (setEntry zeroBlock 0 k0 [46]) 1 pn [46, 46]))
      (setBit dbm j2) (Or.inr htd)
      ⟨by show (0 : Int) ≤ 2 * (SIZEOF_DIR_ENT : Int); decide,
        by show 2 * (SIZEOF_DIR_ENT : Int) < 2147483648; decide⟩
      (fun i _ hi => if_neg (by omega))
      (fun _ => by
        show _ ≤ ((if 0 = 0 then toU32 ((j2 : Int) + (superOf d).data_region_addr) else 0 : Nat) : Int)
          ∧ ((if 0 = 0 then toU32 ((j2 : Int) + (superOf d).data_region_addr) else 0 : Nat) : Int)
            < _ ∧ bitClear dbm (((if 0 = 0 then toU32 ((j2 : Int) + (superOf d).data_region_addr)
              else 0 : Nat) : Int) - _).toNat = true
            ∧ bitClear (setBit dbm j2) (((if 0 = 0 then
              toU32 ((j2 : Int) + (superOf d).data_region_addr) else 0 : Nat) : Int) - _).toNat
              = false
        rw [if_pos rfl, hq2v, hqj, Int.toNat_ofNat, bitClear_setBit, if_pos rfl]
        exact ⟨by omega, by omega, hj2c, rfl⟩)
      (fun j hj => by
        rw [bitClear_setBit] at hj
        by_cases e : j = j2
        · rw [if_pos e] at hj; cases hj
        · rw [if_neg e] at hj; exact hj)
      rfl
      (fun m hm => putBlock_other _ _ m _ (by
        intro e
        apply hm
        show m = (if 0 = 0 then toU32 ((j2 : Int) + (superOf d).data_region_addr) else 0)
        rw [if_pos rfl, hq2v]
        exact e))
      (by
        rw [putBlock_other _ _ 0 _ (by omega), putBlock_other d q 0 blk (by omega)])
      (fun _ => by
        show (if 0 = 0 then toU32 ((j2 : Int) + (superOf d).data_region_addr) else 0) ≠ 0
          ∧ 2 * (SIZEOF_DIR_ENT : Int) = 2 * (SIZEOF_DIR_ENT : Int)
          ∧ BlockApart ((putBlock (putBlock d q blk)
              ((j2 : Int) + (superOf d).data_region_addr).toNat
              (setEntry (setEntry zeroBlock 0 k0 [46]) 1 pn [46, 46])).blocks
                (if 0 = 0 then toU32 ((j2 : Int) + (superOf d).data_region_addr) else 0)) k0
          ∧ BlockDots ((putBlock (putBlock d q blk)
              ((j2 : Int) + (superOf d).data_region_addr).toNat
              (setEntry (setEntry zeroBlock 0 k0 [46]) 1 pn [46, 46])).blocks
                (if 0 = 0 then toU32 ((j2 : Int) + (superOf d).data_region_addr) else 0)) k0 pn
        rw [if_pos rfl, hq2v, putBlock_blocks_same]
        exact ⟨by omega, rfl, blockApart_stored (dotsBlock_apart k0 pn k0),
          blockDots_stored (dotsBlock_dots k0 pn (by omega) (by omega))⟩)
    rw [hd1, hr]
    exact this

/-! ## The shape of an unlink call -/

theorem cstr_nonzero (b : Block) : ∀ n off c, c ∈ cstr b off n → c ≠ 0 := by
  intro n
  induction n with
  | zero =>
    intro off c h
    unfold cstr at h
    cases h
  | succ n ih =>
    intro off c h
    unfold cstr at h
    split at h
    · cases h
    · rename_i hne
      rcases List.mem_cons.1 h with e | e
      · rw [e]; exact hne
      · exact ih _ _ e

theorem entName_nonzero (b : Block) (j : Nat) : ∀ c, c ∈ entName b j → c ≠ 0 := by
  intro c h
  unfold entName at h
  exact cstr_nonzero b _ _ c h

theorem lookupLoop_found (d : Disk) (ino : inode_t) (name : List Nat) (w : Nat) :
    ∀ k i v, lookupLoop d ino name w i k = some v → 0 ≤ v →
      ∃ i' j, i ≤ i' ∧ i' < i + k ∧ j < w
        ∧ name = entName (d.blocks (toI32 (ino.direct i')).toNat) j := by
  intro k
  induction k with
  | zero =>
    intro i v h hv
    unfold lookupLoop at h
    injection h with h
    rw [← h] at hv
    exact absurd hv (by decide)
  | succ k ih =>
    intro i v h hv
    unfold lookupLoop at h
    split at h
    · cases h
    · split at h
      · cases h
      · rename_i blk hr
        have hb := (readBlock_isSome hr).2.2
        split at h
        · rename_i j hj
          have hjs := findFirst_some hj
          refine ⟨i, j, le_refl _, by omega, hjs.1, ?_⟩
          rw [← hb]
          simpa using hjs.2.1
        · obtain ⟨i', j, h1, h2, h3, h4⟩ := ih _ _ h hv
          exact ⟨i', j, by omega, by omega, h3, h4⟩

theorem unlinkScan_shape (d : Disk) (ino : inode_t) (name : List Nat) (pfb : Int) :
    ∀ k i dA v, unlinkScan d ino name pfb i k = some (some (dA, v)) →
      ∃ i' j, i ≤ i' ∧ i' < i + k ∧ ino.direct i' ≠ 0
        ∧ 0 ≤ toI32 (ino.direct i') ∧ toI32 (ino.direct i') < d.numberOfBlocks
        ∧ j < (if (i' : Int) = pfb - 1 then
                toI32 (toU64 (cmod ino.size UFS_BLOCK_SIZE) / SIZEOF_DIR_ENT)
              else (tailEntries ino.size : Int)).toNat
        ∧ entName (d.blocks (toI32 (ino.direct i')).toNat) j = c_str name
        ∧ dA = putBlock d (toI32 (ino.direct i')).toNat
            (zeroEntry (copyEntry (d.blocks (toI32 (ino.direct i')).toNat) j
              ((if (i' : Int) = pfb - 1 then
                  toI32 (toU64 (cmod ino.size UFS_BLOCK_SIZE) / SIZEOF_DIR_ENT)
                else (tailEntries ino.size : Int)).toNat - 1))
              ((if (i' : Int) = pfb - 1 then
                  toI32 (toU64 (cmod ino.size UFS_BLOCK_SIZE) / SIZEOF_DIR_ENT)
                else (tailEntries ino.size : Int)).toNat - 1))
        ∧ v = entInum (d.blocks (toI32 (ino.direct i')).toNat) j := by
  intro k
  induction k with
  | zero =>
    intro i dA v h
    unfold unlinkScan at h
    cases h
  | succ k ih =>
    intro i dA v h
    unfold unlinkScan at h
    split at h
    · cases h
    · rename_i hne
      split at h
      · cases h
      · rename_i blk hr
        obtain ⟨hr0, hr1, hb⟩ := readBlock_isSome hr
        simp only at h
        split at h
        · rename_i j hj
          have hjs := findFirst_some hj
          split at h
          · cases h
          · rename_i d1 hw
            obtain ⟨_, _, hd1⟩ := writeBlock_isSome hw
            injection h with h
            injection h with h
            injection h with e1 e2
            refine ⟨i, j, le_refl _, by omega, hne, hr0, hr1, hjs.1, ?_, ?_, ?_⟩
            · rw [← hb]
              simpa using hjs.2.1
            · rw [← e1, hd1, hb]
            · rw [← e2, hb]
        · obtain ⟨i', j, h1, h2, h3⟩ := ih _ _ _ h
          exact ⟨i', j, by omega, by omega, h3⟩

theorem unlinkFree_spec (super : super_t) (ino : inode_t) (cap : Nat)
    (h0 : 0 ≤ super.data_region_addr) (h1 : super.data_region_addr < 2147483648)
    (hd : ∀ t, ino.direct t < 4294967296) :
    ∀ k i d bm dE bmU, unlinkFree super ino cap i k d bm = some (dE, bmU) →
      ∃ n, n ≤ k
        ∧ (∀ t, i ≤ t → t < i + n → ino.direct t ≠ 0
            ∧ super.data_region_addr ≤ (ino.direct t : Int)
            ∧ (ino.direct t : Int) < d.numberOfBlocks)
        ∧ dE.numberOfBlocks = d.numberOfBlocks
        ∧ (∀ m, (∀ t, i ≤ t → t < i + n → m ≠ ino.direct t) → dE.blocks m = d.blocks m)
        ∧ (∀ j : Nat, bitClear bmU j = true ↔
            (bitClear bm j = true
              ∨ ∃ t, i ≤ t ∧ t < i + n
                ∧ (ino.direct t : Int) = (j : Int) + super.data_region_addr)) := by
  intro k
  induction k with
  | zero =>
    intro i d bm dE bmU h
    unfold unlinkFree at h
    injection h with h
    injection h with e1 e2
    subst e1 e2
    refine ⟨0, le_refl _, fun t a b => absurd b (by omega), rfl, fun m _ => rfl, fun j => ?_⟩
    constructor
    · exact fun h => Or.inl h
    · rintro (h | ⟨t, a, b, _⟩)
      · exact h
      · omega
  | succ k ih =>
    intro i d bm dE bmU h
    unfold unlinkFree at h
    split at h
    · injection h with h
      injection h with e1 e2
      subst e1 e2
      refine ⟨0, by omega, fun t a b => absurd b (by omega), rfl, fun m _ => rfl, fun j => ?_⟩
      constructor
      · exact fun h => Or.inl h
      · rintro (h | ⟨t, a, b, _⟩)
        · exact h
        · omega
    · rename_i hne
      simp only at h
      split at h
      · cases h
      · rename_i hb
        push_neg at hb
        split at h
        · cases h
        · rename_i d1 hw
          obtain ⟨w0, w1, hd1⟩ := writeBlock_isSome hw
          have hge := toI32_sub_nonneg (hd i) h0 h1 hb.1
          have hlt31 : ino.direct i < 2147483648 := by
            by_contra hc
            unfold toI32 at w0
            rw [Nat.mod_eq_of_lt (hd i), if_neg (by omega)] at w0
            have := hd i
            omega
          have hti : toI32 (ino.direct i) = (ino.direct i : Nat) := toI32_of_lt hlt31
          rw [hti] at w0 w1 hd1
          rw [Int.toNat_ofNat] at hd1
          have hidx : (toI32 (toU32 ((ino.direct i : Int) - super.data_region_addr))).toNat
              = ((ino.direct i : Int) - super.data_region_addr).toNat := by
            rw [toI32_toU32 (by omega) (by omega)]
          rw [hidx] at h
          obtain ⟨n, hn, hr, hN, hblk, hbits⟩ := ih _ _ _ _ _ h
          have hN1 : d1.numberOfBlocks = d.numberOfBlocks := by rw [hd1]; rfl
          refine ⟨n + 1, by omega, ?_, by rw [hN, hN1], ?_, ?_⟩
          · intro t a b
            by_cases e : t = i
            · rw [e]
              exact ⟨hne, hge, w1⟩
            · have := hr t (by omega) (by omega)
              rw [hN1] at this
              exact this
          · intro m hm
            rw [hblk m (fun t a b => hm t (by omega) (by omega)), hd1]
            exact putBlock_other d _ m _ (hm i (le_refl _) (by omega))
          · intro j
            rw [hbits j, bitClear_clearBit]
            constructor
            · rintro (hc | ⟨t, a, b, c⟩)
              · by_cases e : j = ((ino.direct i : Int) - super.data_region_addr).toNat
                · right
                  exact ⟨i, le_refl _, by omega, by omega⟩
                · rw [if_neg e] at hc
                  exact Or.inl hc
              · right
                exact ⟨t, by omega, by omega, c⟩
            · rintro (hc | ⟨t, a, b, c⟩)
              · left
                by_cases e : j = ((ino.direct i : Int) - super.data_region_addr).toNat
                · rw [if_pos e]
                · rw [if_neg e]; exact hc
              · by_cases e : t = i
                · left
                  rw [if_pos (by rw [e] at c; omega)]
                · right
                  exact ⟨t, by omega, by omega, c⟩

theorem window_eq {size : Int} (h0 : 0 ≤ size) (x : Prop) [Decidable x] :
    (if x then toI32 (toU64 (cmod size UFS_BLOCK_SIZE) / SIZEOF_DIR_ENT)
      else (tailEntries size : Int)).toNat = tailEntries size := by
  by_cases hx : x
  · rw [if_pos hx, tailEntries_eq h0, cmod_of_nonneg h0 (by simp [UFS_BLOCK_SIZE])]
    unfold toU64
    simp only [UFS_BLOCK_SIZE, SIZEOF_DIR_ENT, Nat.cast_ofNat]
    rw [toI32_of_lt (by omega)]
    omega
  · rw [if_neg hx, Int.toNat_ofNat]

theorem unlink_shape {d d1 : Disk} {par : Nat → Int} {p : Int} {name : List Nat} {r : Int}
    (hinv : Inv d par) (h : unlink d p name = some (d1, r)) :
    d1 = d
    ∨ ((0 ≤ p ∧ p < (superOf d).num_inodes)
      ∧ (inodeOf d p.toNat).type = UFS_DIRECTORY
      ∧ (name ≠ [] ∧ name ≠ [46] ∧ name ≠ [46, 46] ∧ ∀ c, c ∈ name → c ≠ 0)
      ∧ 3 * (SIZEOF_DIR_ENT : Int) ≤ (inodeOf d p.toNat).size
      ∧ ∃ i' j v : Nat,
        i' < DIRECT_PTRS ∧ (inodeOf d p.toNat).direct i' ≠ 0
        ∧ j < tailEntries (inodeOf d p.toNat).size
        ∧ entName (d.blocks ((inodeOf d p.toNat).direct i')) j = name
        ∧ entInum (d.blocks ((inodeOf d p.toNat).direct i')) j = (v : Int)
        ∧ (v : Int) < (superOf d).num_inodes
        ∧ ((r = -EDIRNOTEMPTY
            ∧ d1 = putBlock d ((inodeOf d p.toNat).direct i')
                (zeroEntry (copyEntry (d.blocks ((inodeOf d p.toNat).direct i')) j
                  (tailEntries (inodeOf d p.toNat).size - 1))
                  (tailEntries (inodeOf d p.toNat).size - 1)))
          ∨ (r = 0 ∧ ∃ dE bmU,
              unlinkFree (superOf d) (inodeOf d v)
                ((superOf d).data_bitmap_len.toNat * UFS_BLOCK_SIZE) 0 DIRECT_PTRS
                (putBlock d ((inodeOf d p.toNat).direct i')
                  (zeroEntry (copyEntry (d.blocks ((inodeOf d p.toNat).direct i')) j
                    (tailEntries (inodeOf d p.toNat).size - 1))
                    (tailEntries (inodeOf d p.toNat).size - 1)))
                (regionBuf d (superOf d).data_bitmap_addr.toNat
                  (superOf d).data_bitmap_len.toNat) = some (dE, bmU)
              ∧ d1 = commitUnlink dE (superOf d) (unlinkedInodes d p.toNat v)
                  (clearBit (regionBuf d (superOf d).inode_bitmap_addr.toNat
                    (superOf d).inode_bitmap_len.toNat) v) bmU))) := by
  obtain ⟨hwf, h1, h2, hfz, hroot, hap, hdots⟩ := hinv
  have hwf' := hwf
  unfold WF at hwf'
  unfold unlink at h
  by_cases hsp : name = [46] ∨ name = [46, 46]
  · left
    rw [if_pos hsp] at h
    injection h with h
    injection h with e1 e2
    exact e1.symm
  rw [if_neg hsp, wf_readSuper hwf] at h
  simp only at h
  by_cases hp : 0 ≤ p ∧ p < (superOf d).num_inodes
  swap
  · left
    rw [if_pos (by omega)] at h
    injection h with h
    injection h with e1 e2
    exact e1.symm
  rw [if_neg (by omega)] at h
  by_cases hnm : name = [] ∨ (name.length : Int) ≥ (DIR_ENT_NAME_SIZE : Int) - 1
  · left
    rw [if_pos hnm] at h
    injection h with h
    injection h with e1 e2
    exact e1.symm
  rw [if_neg hnm, wf_stat hwf hp.1 hp.2 zeroInode] at h
  simp only at h
  by_cases hdir : (inodeOf d p.toNat).type = UFS_DIRECTORY
  swap
  · left
    rw [if_pos (Or.inr hdir)] at h
    injection h with h
    injection h with e1 e2
    exact e1.symm
  rw [if_neg (by rw [hdir]; simp)] at h
  generalize hpn : p.toNat = pn at *
  have hpi : (pn : Int) = p := by omega
  have hpn1 : pn < (superOf d).num_inodes.toNat := by omega
  have hplive : inodeBit d pn = true := live_of_type hfz hpn1 (Or.inr hdir)
  obtain ⟨hd0, hsz1, hsz2, hdot0, hdot0i, hdot1, hdot1i⟩ := hdots pn hpn1 hplive hdir
  have hal0 := (h1 pn hpn1 hplive).2 0 (by decide) hd0
  have hu : usedPtrs (inodeOf d pn) ≤ 30 := Nat.count_le _
  simp only [UFS_BLOCK_SIZE, SIZEOF_DIR_ENT, Nat.cast_ofNat] at hsz1 hsz2
  have hS0 : 0 ≤ (inodeOf d pn).size := by omega
  have hS1 : (inodeOf d pn).size ≤ 5056 := by omega
  cases hl : lookup d p name with
  | none =>
    rw [hl] at h
    cases h
  | some found =>
    rw [hl] at h
    simp only at h
    by_cases hfound : found < 0
    · left
      rw [if_pos hfound] at h
      injection h with h
      injection h with e1 e2
      exact e1.symm
    rw [if_neg hfound, wf_readInodeRegion hwf] at h
    simp only at h
    -- the name that lookup has found
    unfold lookup at hl
    rw [wf_readSuper hwf] at hl
    simp only at hl
    rw [if_neg (by omega), wf_stat hwf hp.1 hp.2 zeroInode] at hl
    simp only at hl
    rw [hpn, if_neg (by simp), if_neg (by rw [hdir]; simp)] at hl
    obtain ⟨i2, j2, _, hi2, hj2, hname2⟩ := lookupLoop_found d _ name _ _ _ _ hl (by omega)
    have hnz : ∀ c, c ∈ name → c ≠ 0 := by
      intro c hc
      rw [hname2] at hc
      exact entName_nonzero _ _ c hc
    have hcs : c_str name = name := c_str_of_nonzero name hnz
    have hti0 : toI32 ((inodeOf d pn).direct 0) = ((inodeOf d pn).direct 0 : Nat) :=
      toI32_of_lt (by have := hal0.2.1; omega)
    have hte := @tailEntries_eq (inodeOf d pn).size hS0
    have hsz96 : 3 * (SIZEOF_DIR_ENT : Int) ≤ (inodeOf d pn).size := by
      simp only [SIZEOF_DIR_ENT, Nat.cast_ofNat]
      by_cases hbig : (inodeOf d pn).size ≤ 4096
      · have hb1 : (blocksOf (inodeOf d pn).size).toNat = 1 := by
          rw [blocksOf_eq hS0]
          unfold ceilBlocks
          simp only [UFS_BLOCK_SIZE, Nat.cast_ofNat]
          omega
        rw [hb1] at hi2
        have hi0 : i2 = 0 := by omega
        rw [hi0, hti0, Int.toNat_ofNat] at hname2
        have hj22 : 2 ≤ j2 := by
          by_contra hc
          have : j2 = 0 ∨ j2 = 1 := by omega
          rcases this with e | e
          · rw [e, hdot0] at hname2
            exact hsp (Or.inl hname2)
          · rw [e, hdot1] at hname2
            exact hsp (Or.inr hname2)
        rw [hte] at hj2
        omega
      · omega
    cases hsc : unlinkScan d (inodeOf d pn) name
        (cdiv ((inodeOf d pn).size + UFS_BLOCK_SIZE - 1) UFS_BLOCK_SIZE) 0 DIRECT_PTRS with
    | none =>
      rw [hsc] at h
      cases h
    | some res =>
      rw [hsc] at h
      cases res with
      | none =>
        left
        simp only at h
        injection h with h
        injection h with e1 e2
        exact e1.symm
      | some res2 =>
        obtain ⟨dA, vv⟩ := res2
        simp only at h
        obtain ⟨i', j, _, hi', hne', hr0, hr1, hj, hent, hdA, hv⟩ :=
          unlinkScan_shape d _ name _ _ _ _ _ hsc
        rw [window_eq hS0] at hj hdA
        have hal' := (h1 pn hpn1 hplive).2 i' (by omega) hne'
        have hti : toI32 ((inodeOf d pn).direct i') = ((inodeOf d pn).direct i' : Nat) :=
          toI32_of_lt (by have := hal'.2.1; omega)
        rw [hti, Int.toNat_ofNat] at hent hdA hv
        rw [hcs] at hent
        by_cases hvr : vv < 0 ∨ vv ≥ (superOf d).num_inodes
        · rw [if_pos hvr] at h
          cases h
        rw [if_neg hvr] at h
        obtain ⟨v, hvv⟩ : ∃ v : Nat, vv = (v : Int) := ⟨vv.toNat, by omega⟩
        subst hvv
        have hvn : (v : Int) < (superOf d).num_inodes := by omega
        rw [Int.toNat_ofNat, inodeTable_eq hwf hvn] at h
        right
        refine ⟨hp, hdir, ⟨fun e => hnm (Or.inl e), fun e => hsp (Or.inl e),
          fun e => hsp (Or.inr e), hnz⟩, hsz96, i', j, v, by omega, hne', hj, hent, hv.symm,
          hvn, ?_⟩
        by_cases hempty : (inodeOf d v).type = UFS_DIRECTORY
            ∧ toU32 (inodeOf d v).size > 2 * SIZEOF_DIR_ENT
        · left
          rw [if_pos hempty] at h
          injection h with h
          injection h with e1 e2
          exact ⟨e2.symm, by rw [← e1, hdA]⟩
        · right
          rw [if_neg hempty] at h
          have hdAn : dA.numberOfBlocks = d.numberOfBlocks := by rw [hdA]; rfl
          rw [@readDataBitmap_same d dA hwf hdAn] at h
          simp only at h
          have hbmA : regionBuf dA (superOf d).data_bitmap_addr.toNat
              (superOf d).data_bitmap_len.toNat
              = regionBuf d (superOf d).data_bitmap_addr.toNat
                (superOf d).data_bitmap_len.toNat := by
            apply regionBuf_frame
            intro m hm1 hm2
            rw [hdA]
            apply putBlock_other
            have := hal'.1
            have := hal'.2.1
            have hdj := hwf'.2.2.2.2.2.2.2.2.2.2.1
            unfold disjointRanges at hdj
            omega
          rw [hbmA] at h
          cases hfr : unlinkFree (superOf d) (inodeOf d v)
              ((superOf d).data_bitmap_len.toNat * UFS_BLOCK_SIZE) 0 DIRECT_PTRS dA
              (regionBuf d (superOf d).data_bitmap_addr.toNat
                (superOf d).data_bitmap_len.toNat) with
          | none =>
            rw [hfr] at h
            cases h
          | some res3 =>
            obtain ⟨dE, bmU⟩ := res3
            rw [hfr] at h
            simp only at h
            obtain ⟨n, hn, hrng, hEn, hEblk, hEbits⟩ := unlinkFree_spec (superOf d)
              (inodeOf d v) _ (by omega) (by omega) (fun t => inodeOf_direct_lt d v t)
              _ _ _ _ _ _ hfr
            have hEN : dE.numberOfBlocks = d.numberOfBlocks := by rw [hEn, hdAn]
            have hvptr : ∀ t, t < n → allocated d ((inodeOf d v).direct t) := by
              intro t ht
              have hnz' := (hrng t (Nat.zero_le _) (by omega)).1
              have hvl : inodeBit d v = true := by
                by_contra hc
                have hc' : inodeBit d v = false := by simpa using hc
                exact hnz' ((hfz v (by omega) hc').2 t (by
                  have : DIRECT_PTRS = 30 := rfl
                  omega))
              exact (h1 v (by omega) hvl).2 t (by
                have : DIRECT_PTRS = 30 := rfl
                omega) hnz'
            rw [writeDataBitmap_same hwf hEN] at h
            simp only at h
            rw [@readInodeBitmap_same d (putRegion dE (superOf d).data_bitmap_addr.toNat bmU
              (superOf d).data_bitmap_len.toNat) hwf hEN] at h
            simp only at h
            have hibm : regionBuf (putRegion dE (superOf d).data_bitmap_addr.toNat bmU
                (superOf d).data_bitmap_len.toNat) (superOf d).inode_bitmap_addr.toNat
                (superOf d).inode_bitmap_len.toNat
                = regionBuf d (superOf d).inode_bitmap_addr.toNat
                  (superOf d).inode_bitmap_len.toNat := by
              apply regionBuf_frame
              intro m hm1 hm2
              have hdj1 := hwf'.2.2.2.2.2.2.1
              have hdj2 := hwf'.2.2.2.2.2.2.2.2.1
              unfold disjointRanges at hdj1 hdj2
              rw [putRegion_out _ _ _ _ m (by omega), hEblk m (fun t _ b => by
                have hvp := hvptr t (by omega)
                have := hvp.1
                have := hvp.2.1
                omega), hdA]
              apply putBlock_other
              have := hal'.1
              have := hal'.2.1
              omega
            rw [hibm] at h
            rw [if_neg (by simp only [UFS_BLOCK_SIZE]; omega),
              @writeInodeBitmap_same d (putRegion dE (superOf d).data_bitmap_addr.toNat bmU
                (superOf d).data_bitmap_len.toNat) hwf hEN] at h
            simp only at h
            rw [writeInodeRegion_same hwf (by exact hEN)] at h
            injection h with h
            injection h with e1 e2
            refine ⟨e2.symm, dE, bmU, by rw [← hdA]; exact hfr, ?_⟩
            rw [← e1]
            rfl

/-! ## Unlink preserves the invariant -/

/-- What `unlink` knows about the entry that it removes from the block `q` of
the directory `p`: the block after the removal keeps the entries apart and the
dot entries in place, and the inode `v` of the entry is neither `p` nor the
root. -/
theorem removed_facts {d : Disk} {par : Nat → Int} {pn i' j v : Nat} {name : List Nat}
    (hinv : Inv d par) (hp : (pn : Int) < (superOf d).num_inodes)
    (hdir : (inodeOf d pn).type = UFS_DIRECTORY)
    (hname : name ≠ [] ∧ name ≠ [46] ∧ name ≠ [46, 46])
    (hi' : i' < DIRECT_PTRS) (hne' : (inodeOf d pn).direct i' ≠ 0)
    (hj : j < tailEntries (inodeOf d pn).size)
    (hent : entName (d.blocks ((inodeOf d pn).direct i')) j = name)
    (hv : entInum (d.blocks ((inodeOf d pn).direct i')) j = (v : Int)) :
    v ≠ pn ∧ v ≠ 0
    ∧ Inv (putBlock d ((inodeOf d pn).direct i')
        (zeroEntry (copyEntry (d.blocks ((inodeOf d pn).direct i')) j
          (tailEntries (inodeOf d pn).size - 1)) (tailEntries (inodeOf d pn).size - 1))) par := by
  have hinv0 := hinv
  obtain ⟨hwf, h1, h2, hfz, hroot, hap, hdots⟩ := hinv
  have hpn1 : pn < (superOf d).num_inodes.toNat := by omega
  have hplive : inodeBit d pn = true := live_of_type hfz hpn1 (Or.inr hdir)
  obtain ⟨hd0, hsz1, hsz2, hbd⟩ := (dotsAt_iff d pn (par pn)).1 (hdots pn hpn1 hplive hdir)
  simp only [UFS_BLOCK_SIZE, SIZEOF_DIR_ENT, Nat.cast_ofNat] at hsz1 hsz2
  have hS0 : 0 ≤ (inodeOf d pn).size := by omega
  have hte := @tailEntries_eq (inodeOf d pn).size hS0
  have hw : tailEntries (inodeOf d pn).size < 128 := by rw [hte]; omega
  have hal' := (h1 pn hpn1 hplive).2 i' hi' hne'
  have hapb : BlockApart (d.blocks ((inodeOf d pn).direct i')) pn :=
    hap pn hpn1 hplive hdir i' hi' hne'
  have hjv := hapb j (by
    have : UFS_BLOCK_SIZE / SIZEOF_DIR_ENT = 128 := rfl
    omega)
  rw [hent, hv] at hjv
  have hv2 : (v : Int) ≠ (pn : Int) ∧ (v : Int) ≠ 0 := by
    rcases hjv with hs | hs
    · rcases hs with e | e | e
      · exact absurd e hname.1
      · exact absurd e hname.2.1
      · exact absurd e hname.2.2
    · exact hs
  refine ⟨fun e => hv2.1 (by rw [e]), fun e => hv2.2 (by rw [e]; rfl), ?_⟩
  apply entry_inv hinv0 ⟨hal'.1, hal'.2.1⟩
  · exact blockApart_remove hapb j _ (by
      have : UFS_BLOCK_SIZE / SIZEOF_DIR_ENT = 128 := rfl
      omega)
  · intro e
    rw [e] at hent ⊢
    have hj2 : 2 ≤ j := by
      by_contra hc
      have : j = 0 ∨ j = 1 := by omega
      rcases this with e0 | e0
      · rw [e0, hbd.1] at hent
        exact hname.2.1 hent.symm
      · rw [e0, hbd.2.2.1] at hent
        exact hname.2.2 hent.symm
    exact blockDots_remove hbd j _ hj2 (by omega)
  · intro k hk hlive t ht hne e
    exact (h2 k hk hlive t ht hne pn hpn1 hplive i' hi' e).1

theorem unlink_commit_inv {d dA dE : Disk} {par : Nat → Int} {pn v : Nat} {bmU : Block}
    (hinv : Inv d par) (hA : Inv dA par)
    (hAn : dA.numberOfBlocks = d.numberOfBlocks)
    (hAout : ∀ m : Nat, ((m : Int) < (superOf d).data_region_addr
        ∨ (superOf d).data_region_addr + (superOf d).num_data ≤ (m : Int)) →
        dA.blocks m = d.blocks m)
    (hp : (pn : Int) < (superOf d).num_inodes)
    (hdir : (inodeOf d pn).type = UFS_DIRECTORY)
    (hsz96 : 3 * (SIZEOF_DIR_ENT : Int) ≤ (inodeOf d pn).size)
    (hvn : (v : Int) < (superOf d).num_inodes) (hvp : v ≠ pn) (hv0 : v ≠ 0)
    (hfr : unlinkFree (superOf d) (inodeOf d v)
      ((superOf d).data_bitmap_len.toNat * UFS_BLOCK_SIZE) 0 DIRECT_PTRS dA
      (regionBuf d (superOf d).data_bitmap_addr.toNat (superOf d).data_bitmap_len.toNat)
      = some (dE, bmU)) :
    Inv (commitUnlink dE (superOf d) (unlinkedInodes d pn v)
      (clearBit (regionBuf d (superOf d).inode_bitmap_addr.toNat
        (superOf d).inode_bitmap_len.toNat) v) bmU) par
    ∧ ∀ k, k < (superOf d).num_inodes.toNat →
        inodeBit (commitUnlink dE (superOf d) (unlinkedInodes d pn v)
          (clearBit (regionBuf d (superOf d).inode_bitmap_addr.toNat
            (superOf d).inode_bitmap_len.toNat) v) bmU) k = true →
        ∀ t, t < DIRECT_PTRS →
          (inodeOf (commitUnlink dE (superOf d) (unlinkedInodes d pn v)
            (clearBit (regionBuf d (superOf d).inode_bitmap_addr.toNat
              (superOf d).inode_bitmap_len.toNat) v) bmU) k).direct t
            = (inodeOf d k).direct t := by
  obtain ⟨hwf, h1, h2, hfz, hroot, hap, hdots⟩ := hinv
  have hwf' := hwf
  unfold WF at hwf'
  obtain ⟨hsA, _, hinoA, hibA, hdbA⟩ := frame_views hwf hAn hAout
  obtain ⟨_, _, _, _, _, hapA, hdotsA⟩ := hA
  have hD : DIRECT_PTRS = 30 := rfl
  have hpn1 : pn < (superOf d).num_inodes.toNat := by omega
  have hplive : inodeBit d pn = true := live_of_type hfz hpn1 (Or.inr hdir)
  obtain ⟨n, hn, hrng, hEn, hEblk, hEbits⟩ := unlinkFree_spec (superOf d)
    (inodeOf d v) _ (by omega) (by omega) (fun t => inodeOf_direct_lt d v t)
    _ _ _ _ _ _ hfr
  have hEN : dE.numberOfBlocks = d.numberOfBlocks := by rw [hEn, hAn]
  have hvlive : 0 < n → inodeBit d v = true := by
    intro hpos
    have hnz' := (hrng 0 (Nat.zero_le _) (by omega)).1
    by_contra hc
    have hc' : inodeBit d v = false := by simpa using hc
    exact hnz' ((hfz v (by omega) hc').2 0 (by decide))
  have hvptr : ∀ t, t < n → allocated d ((inodeOf d v).direct t) := by
    intro t ht
    have hnz' := (hrng t (Nat.zero_le _) (by omega)).1
    exact (h1 v (by omega) (hvlive (by omega))).2 t (by omega) hnz'
  have hE0 : dE.blocks 0 = d.blocks 0 := by
    rw [hEblk 0 (fun t _ b => by
      have hvp := hvptr t (by omega)
      have := hvp.1
      omega)]
    exact hAout 0 (Or.inl (by omega))
  generalize hd1 : commitUnlink dE (superOf d) (unlinkedInodes d pn v)
      (clearBit (regionBuf d (superOf d).inode_bitmap_addr.toNat
        (superOf d).inode_bitmap_len.toNat) v) bmU = d1
  have hc : Committed d1 dE (superOf d) (unlinkedInodes d pn v)
      (clearBit (regionBuf d (superOf d).inode_bitmap_addr.toNat
        (superOf d).inode_bitmap_len.toNat) v) bmU := by
    rw [← hd1]
    unfold commitUnlink
    exact committed_unlink hwf dE _ _ _
  have hs1 : superOf d1 = superOf d := committed_super hwf hc hE0
  have hwf1 : WF d1 := committed_wf hwf hc hEN hE0
  have hino : ∀ k : Nat, (k : Int) < (superOf d).num_inodes →
      inodeOf d1 k = normInode (unlinkedInodes d pn v k) :=
    fun k hk => committed_inode hwf hc hE0 hk
  have hib : ∀ k : Nat, (k : Int) < (superOf d).num_inodes →
      inodeBit d1 k = if k = v then false else inodeBit d k := by
    intro k hk
    rw [committed_inodeBit hwf hc hE0 (by omega), bitClear_clearBit]
    by_cases e : k = v
    · rw [if_pos e, if_pos e]; rfl
    · rw [if_neg e, if_neg e, inodeBit_regionBuf hwf hk]; simp
  have hdb : ∀ j : Nat, (j : Int) < (superOf d).num_data →
      dataBit d1 j = !bitClear bmU j := fun j hj => committed_dataBit hwf hc hE0 (by omega)
  have hdata : ∀ m : Nat, (superOf d).data_region_addr ≤ (m : Int) →
      (m : Int) < (superOf d).data_region_addr + (superOf d).num_data →
      d1.blocks m = dE.blocks m := fun m h1 h2 => committed_data hwf hc h1 h2
  obtain ⟨hd0, hsz1, hsz2, hbd⟩ := (dotsAt_iff d pn (par pn)).1 (hdots pn hpn1 hplive hdir)
  have hu : usedPtrs (inodeOf d pn) ≤ 30 := Nat.count_le _
  have hrp : (inodeOf d1 pn).type = UFS_DIRECTORY
      ∧ (inodeOf d1 pn).size = (inodeOf d pn).size - SIZEOF_DIR_ENT
      ∧ ∀ t, t < DIRECT_PTRS → (inodeOf d1 pn).direct t = (inodeOf d pn).direct t := by
    rw [hino pn hp]
    have e : unlinkedInodes d pn v pn
        = { inodeOf d pn with size := (inodeOf d pn).size - SIZEOF_DIR_ENT } := by
      unfold unlinkedInodes
      rw [if_pos rfl]
    rw [e]
    obtain ⟨a, b, c⟩ := normInode_fields
      (x := { inodeOf d pn with size := (inodeOf d pn).size - SIZEOF_DIR_ENT })
      (by show _ ≤ (inodeOf d pn).type ∧ (inodeOf d pn).type < _; rw [hdir]; decide)
      (by
        show _ ≤ (inodeOf d pn).size - SIZEOF_DIR_ENT ∧ (inodeOf d pn).size - SIZEOF_DIR_ENT < _
        simp only [UFS_BLOCK_SIZE, SIZEOF_DIR_ENT, Nat.cast_ofNat] at hsz1 hsz2 ⊢
        omega)
      (fun t _ => inodeOf_direct_lt d pn t)
    exact ⟨by rw [a]; exact hdir, b, c⟩
  have hrv : (inodeOf d1 v).type = 0 ∧ ∀ t, t < DIRECT_PTRS → (inodeOf d1 v).direct t = 0 := by
    rw [hino v hvn]
    have e : unlinkedInodes d pn v v = zeroInode := by
      unfold unlinkedInodes
      rw [if_neg hvp, if_pos rfl]
    rw [e]
    refine ⟨by decide, fun t ht => ?_⟩
    show (if t < DIRECT_PTRS then 0 % 4294967296 else 0) = 0
    rw [if_pos ht]
  have hro : ∀ k : Nat, (k : Int) < (superOf d).num_inodes → k ≠ pn → k ≠ v →
      inodeOf d1 k = inodeOf d k := by
    intro k hk e1 e2
    rw [hino k hk]
    unfold unlinkedInodes
    rw [if_neg e1, if_neg e2, inodeTable_eq hwf hk, inodeOf_norm]
  have hptr_same : ∀ k, k < (superOf d).num_inodes.toNat → k ≠ v → ∀ t, t < DIRECT_PTRS →
      (inodeOf d1 k).direct t = (inodeOf d k).direct t := by
    intro k hk e2 t ht
    by_cases e1 : k = pn
    · rw [e1]; exact hrp.2.2 t ht
    · rw [hro k (by omega) e1 e2]
  have hkept : ∀ k, k < (superOf d).num_inodes.toNat → inodeBit d k = true → k ≠ v →
      ∀ t, t < DIRECT_PTRS → (inodeOf d k).direct t ≠ 0 →
      dataBit d1 (((inodeOf d k).direct t : Int) - (superOf d).data_region_addr).toNat = true
      ∧ d1.blocks ((inodeOf d k).direct t) = dA.blocks ((inodeOf d k).direct t) := by
    intro k hk hlive e2 t ht hne
    have hal := (h1 k hk hlive).2 t ht hne
    have hnotv : ∀ t', t' < n → (inodeOf d k).direct t ≠ (inodeOf d v).direct t' := by
      intro t' ht' e
      have hnz' := (hrng t' (Nat.zero_le _) (by omega)).1
      have := h2 v (by omega) (hvlive (by omega)) t' (by omega) hnz' k hk hlive t ht e.symm
      exact e2 this.1.symm
    constructor
    · rw [hdb _ (by have := hal.1; have := hal.2.1; omega)]
      have : bitClear bmU
          (((inodeOf d k).direct t : Int) - (superOf d).data_region_addr).toNat = false := by
        apply Bool.eq_false_iff.mpr
        intro hx
        rcases (hEbits _).1 hx with hb | ⟨t', _, ht', e⟩
        · rw [dataBit_regionBuf hwf (by have := hal.1; have := hal.2.1; omega), hal.2.2] at hb
          simp at hb
        · apply hnotv t' (by omega)
          have := hal.1
          omega
      rw [this]
      rfl
    · rw [hdata _ hal.1 hal.2.1]
      exact hEblk _ (fun t' _ ht' => hnotv t' (by omega))
  have h12 : I1 d1 ∧ I2 d1 := by
    apply p12_step (fun _ => false) hs1 h1 h2
    · intro k hk hlive
      have hki : (k : Int) < (superOf d).num_inodes := by omega
      by_cases e2 : k = v
      · rw [hib k hki, if_pos e2] at hlive
        cases hlive
      · rw [hib k hki, if_neg e2] at hlive
        by_cases e1 : k = pn
        · rw [e1]; exact Or.inr hrp.1
        · rw [hro k hki e1 e2]
          exact (h1 k hk hlive).1
    · intro k hk hlive t ht hne
      have hki : (k : Int) < (superOf d).num_inodes := by omega
      by_cases e2 : k = v
      · rw [hib k hki, if_pos e2] at hlive
        cases hlive
      · rw [hib k hki, if_neg e2] at hlive
        rw [hptr_same k hk e2 t ht] at hne ⊢
        exact ⟨(hkept k hk hlive e2 t ht hne).1, Or.inl ⟨hlive, rfl, rfl⟩⟩
    · intro k1 t1 k2 t2 _ _ _ _ _ _ _ hfree _
      cases hfree
  refine ⟨⟨hwf1, h12.1, h12.2, ?_, ?_, ?_, ?_⟩, ?_⟩
  rotate_right
  · intro k hk hlive t ht
    have e2 : k ≠ v := by
      intro e
      rw [hib k (by omega), if_pos e] at hlive
      cases hlive
    exact hptr_same k hk e2 t ht
  · intro k hk hfree
    rw [hs1] at hk
    have hki : (k : Int) < (superOf d).num_inodes := by omega
    by_cases e2 : k = v
    · rw [e2]
      exact hrv
    · rw [hib k hki, if_neg e2] at hfree
      have e1 : k ≠ pn := by
        intro e
        rw [e, hplive] at hfree
        cases hfree
      rw [hro k hki e1 e2]
      exact hfz k hk hfree
  · obtain ⟨hr1, hr2, hr3⟩ := hroot
    unfold RootLive
    rw [hs1]
    have h0i : ((0 : Nat) : Int) < (superOf d).num_inodes := by simpa using hr1
    refine ⟨hr1, ?_, ?_⟩
    · rw [hib 0 h0i, if_neg (fun e => hv0 e.symm)]
      exact hr2
    · by_cases e1 : 0 = pn
      · rw [e1]; exact hrp.1
      · rw [hro 0 h0i e1 (fun e => hv0 e.symm)]
        exact hr3
  · rw [entriesApart_iff]
    intro k hk hlive hdirk
    rw [hs1] at hk
    have hki : (k : Int) < (superOf d).num_inodes := by omega
    have e2 : k ≠ v := by
      intro e
      rw [hib k hki, if_pos e] at hlive
      cases hlive
    rw [hib k hki, if_neg e2] at hlive
    have hdk : (inodeOf d k).type = UFS_DIRECTORY := by
      by_cases e1 : k = pn
      · rw [e1]; exact hdir
      · rw [hro k hki e1 e2] at hdirk
        exact hdirk
    rw [apartAt_iff]
    intro t ht hne
    rw [hptr_same k hk e2 t ht] at hne ⊢
    rw [(hkept k hk hlive e2 t ht hne).2]
    have hA1 : ApartAt dA k := hapA k (by rw [hsA]; exact hk) (by rw [hibA k hki]; exact hlive)
      (by rw [hinoA k hki]; exact hdk)
    rw [apartAt_iff] at hA1
    have h3 := hA1 t ht (by rw [hinoA k hki]; exact hne)
    rw [hinoA k hki] at h3
    exact h3
  · rw [dotEntries_iff]
    intro k hk hlive hdirk
    rw [hs1] at hk
    have hki : (k : Int) < (superOf d).num_inodes := by omega
    have e2 : k ≠ v := by
      intro e
      rw [hib k hki, if_pos e] at hlive
      cases hlive
    rw [hib k hki, if_neg e2] at hlive
    have hdk : (inodeOf d k).type = UFS_DIRECTORY := by
      by_cases e1 : k = pn
      · rw [e1]; exact hdir
      · rw [hro k hki e1 e2] at hdirk
        exact hdirk
    have hdA : DotsAt dA k (par k) := hdotsA k (by rw [hsA]; exact hk)
      (by rw [hibA k hki]; exact hlive) (by rw [hinoA k hki]; exact hdk)
    rw [dotsAt_iff, hinoA k hki] at hdA
    obtain ⟨a1, a2, a3, a4⟩ := hdA
    rw [dotsAt_iff, hptr_same k hk e2 0 (by decide), (hkept k hk hlive e2 0 (by decide) a1).2]
    refine ⟨a1, ?_, ?_, a4⟩
    · by_cases e1 : k = pn
      · rw [e1, hrp.2.1]
        simp only [UFS_BLOCK_SIZE, SIZEOF_DIR_ENT, Nat.cast_ofNat] at hsz96 ⊢
        omega
      · rw [hro k hki e1 e2]
        exact a2
    · by_cases e1 : k = pn
      · have hup := usedPtrs_congr (a := inodeOf d1 k) (b := inodeOf d k)
          (fun t ht => hptr_same k hk e2 t ht)
        rw [hup, e1, hrp.2.1]
        rw [e1] at a3
        simp only [UFS_BLOCK_SIZE, SIZEOF_DIR_ENT, Nat.cast_ofNat] at a3 ⊢
        omega
      · rw [hro k hki e1 e2]
        exact a3

theorem unlink_inv_ptrs {d d1 : Disk} {par : Nat → Int} {p : Int} {name : List Nat} {r : Int}
    (hinv : Inv d par) (h : unlink d p name = some (d1, r)) :
    Inv d1 par
    ∧ ∀ k, k < (superOf d).num_inodes.toNat → inodeBit d1 k = true →
        ∀ t, t < DIRECT_PTRS → (inodeOf d1 k).direct t = (inodeOf d k).direct t := by
  rcases unlink_shape hinv h with e | ⟨hp, hdir, ⟨hn0, hn1, hn2, hnz⟩, hsz96, i', j, v, hi',
    hne', hj, hent, hv, hvn, hout⟩
  · rw [e]; exact ⟨hinv, fun _ _ _ _ _ => rfl⟩
  obtain ⟨pn, hpn⟩ : ∃ pn : Nat, p = (pn : Int) := ⟨p.toNat, by omega⟩
  subst hpn
  simp only [Int.toNat_ofNat] at hdir hsz96 hi' hne' hj hent hv hout
  have hwf := hinv.1
  have hwf' := hwf
  unfold WF at hwf'
  obtain ⟨hvp, hv0, hA⟩ := removed_facts hinv hp.2 hdir ⟨hn0, hn1, hn2⟩ hi' hne' hj hent hv
  have hal' := (hinv.2.1 pn (by omega)
    (live_of_type hinv.2.2.2.1 (by omega) (Or.inr hdir))).2 i' hi' hne'
  have hAout : ∀ m : Nat, ((m : Int) < (superOf d).data_region_addr
      ∨ (superOf d).data_region_addr + (superOf d).num_data ≤ (m : Int)) →
      (putBlock d ((inodeOf d pn).direct i')
        (zeroEntry (copyEntry (d.blocks ((inodeOf d pn).direct i')) j
          (tailEntries (inodeOf d pn).size - 1)) (tailEntries (inodeOf d pn).size - 1))).blocks m
        = d.blocks m := fun m hm => putBlock_other d _ m _ (by
      have := hal'.1
      have := hal'.2.1
      omega)
  rcases hout with ⟨_, hd1⟩ | ⟨_, dE, bmU, hfr, hd1⟩
  · rw [hd1]
    refine ⟨hA, fun k hk _ t _ => ?_⟩
    rw [(frame_views hwf (putBlock_nblocks d _ _) hAout).2.2.1 k (by omega)]
  · rw [hd1]
    exact unlink_commit_inv hinv hA rfl hAout hp.2 hdir hsz96 hvn hvp hv0 hfr

theorem unlink_inv {d d1 : Disk} {par : Nat → Int} {p : Int} {name : List Nat} {r : Int}
    (hinv : Inv d par) (h : unlink d p name = some (d1, r)) : Inv d1 par :=
  (unlink_inv_ptrs hinv h).1

theorem inv_of_reachableAny {d : Disk} {par : Nat → Int} (h : ReachableAny d par) :
    Inv d par := by
  induction h with
  | fresh ni nd h1 h2 h3 h4 => exact mkfs_inv ni nd h1 h2 h3 h4
  | create d d1 par p t name r _ hc ih => exact create_inv ih hc
  | write d d1 par i buf s r _ hw ih => exact write_inv ih hw
  | unlink d d1 par p name r _ hu ih => exact unlink_inv ih hu

theorem inv_of_reachable {d : Disk} {par : Nat → Int} (h : Reachable d par) : Inv d par :=
  inv_of_reachableAny (reachable_any h)

/-! ## Reachable states -/

theorem lookup_at (d : Disk) (p : Nat) (name : List Nat) (j : Nat)
    (hwf : WF d) (hp : (p : Int) < (superOf d).num_inodes)
    (hdir : (inodeOf d p).type = UFS_DIRECTORY)
    (hsz : 32 ≤ (inodeOf d p).size ∧ (inodeOf d p).size < 4096)
    (hb0 : (superOf d).data_region_addr ≤ ((inodeOf d p).direct 0 : Int)
      ∧ ((inodeOf d p).direct 0 : Int) < (superOf d).data_region_addr + (superOf d).num_data)
    (hj : j < dirCount (inodeOf d p))
    (hat : entName (d.blocks ((inodeOf d p).direct 0)) j = name)
    (hbefore : ∀ i, i < j → entName (d.blocks ((inodeOf d p).direct 0)) i ≠ name) :
    lookup d p name = some (entInum (d.blocks ((inodeOf d p).direct 0)) j) := by
  have hwf' := hwf
  unfold WF at hwf'
  have hS0 : 0 ≤ (inodeOf d p).size := by omega
  have hti : toI32 ((inodeOf d p).direct 0) = ((inodeOf d p).direct 0 : Nat) :=
    toI32_of_lt (by omega)
  have hr : d.readBlock (toI32 ((inodeOf d p).direct 0))
      = some (d.blocks ((inodeOf d p).direct 0)) := by
    rw [hti, readBlock_eq (by omega) (by omega), Int.toNat_ofNat]
  have hbl : (blocksOf (inodeOf d p).size).toNat = 1 := by
    rw [blocksOf_eq hS0]
    unfold ceilBlocks
    simp only [UFS_BLOCK_SIZE, Nat.cast_ofNat]
    omega
  have hte : tailEntries (inodeOf d p).size = dirCount (inodeOf d p) := by
    rw [tailEntries_eq hS0]
    unfold dirCount
    simp only [SIZEOF_DIR_ENT, Nat.cast_ofNat]
    omega
  unfold lookup
  rw [wf_readSuper hwf]
  simp only
  rw [if_neg (by omega), wf_stat hwf (by omega) hp zeroInode]
  simp only [Int.toNat_ofNat]
  rw [if_neg (by simp), if_neg (by rw [hdir]; simp), hbl, hte, lookupLoop, if_neg (by decide), hr]
  simp only
  rw [findFirst_eq_some (j := j) hj
    (by simp [hat]) (fun i hi => by simpa using fun h => hbefore i hi h.symm)]

theorem read_eq (d : Disk) (n : Int) (buf : Block) (size : Int) (hwf : WF d)
    (hs : 0 ≤ size ∧ size ≤ MAX_FILE_SIZE) (hn : 0 ≤ n ∧ n < (superOf d).num_inodes)
    (hsz : 0 ≤ (inodeOf d n.toNat).size)
    (hptr : ∀ t : Nat, (t : Int) * UFS_BLOCK_SIZE < min size (inodeOf d n.toNat).size →
          (inodeOf d n.toNat).direct t < d.numberOfBlocks) :
    read d n buf size = some (min size (inodeOf d n.toNat).size,
      fun (x : Nat) => if (x : Int) < min size (inodeOf d n.toNat).size then
          d.blocks ((inodeOf d n.toNat).direct (x / UFS_BLOCK_SIZE)) (x % UFS_BLOCK_SIZE)
        else buf x) := by
  have hwf' := hwf
  unfold WF at hwf'
  unfold read
  rw [if_neg (by omega), wf_readSuper hwf]
  simp only
  rw [if_neg (by omega), wf_stat hwf hn.1 hn.2 zeroInode]
  simp only
  rw [if_neg (by simp), readLoop_min]
  have hm0 : 0 ≤ min size (inodeOf d n.toNat).size := by omega
  have hB : UFS_BLOCK_SIZE = 4096 := rfl
  have hmax : min size (inodeOf d n.toNat).size ≤ 122880 := by
    have : size ≤ 122880 := by
      have := hs.2
      simpa [MAX_FILE_SIZE, DIRECT_PTRS, UFS_BLOCK_SIZE] using this
    omega
  have hloop := readLoop_spec d
    { inodeOf d n.toNat with size := min size (inodeOf d n.toNat).size }
    (min size (inodeOf d n.toNat).size)
    (fun x => d.blocks ((inodeOf d n.toNat).direct (x / 4096)) (x % 4096)) hm0 rfl
    (by
      intro t ht
      have hp := hptr t (by rw [hB]; exact ht)
      refine ⟨by omega, d.blocks ((inodeOf d n.toNat).direct t), ?_, ?_⟩
      · simp only
        rw [toI32_of_lt (by omega), readBlock_eq (by omega) (by omega), Int.toNat_ofNat]
      · intro o ho
        have e1 : (t * 4096 + o) / 4096 = t := by omega
        have e2 : (t * 4096 + o) % 4096 = o := by omega
        simp only [e1, e2])
    (min size (inodeOf d n.toNat).size).toNat 0 (size.toNat + 1) buf (by omega) (by omega)
  simp only [Nat.cast_zero, zero_mul] at hloop
  rw [min_eq_left hm0] at hloop
  rw [hloop]
  refine congrArg (fun g => some (min size (inodeOf d n.toNat).size, g)) (funext fun x => ?_)
  beta_reduce
  rw [hB]
  by_cases hx : (x : Int) < min size (inodeOf d n.toNat).size
  · rw [if_pos ⟨by omega, hx⟩, if_pos hx]
  · rw [if_neg (fun h => hx h.2), if_neg hx]

theorem create_dir_result {d d1 : Disk} {par : Nat → Int} {p : Int} {name : List Nat} {k : Int}
    (hinv : Inv d par) (hc : create d p UFS_DIRECTORY name = some (d1, k)) (hk : 0 ≤ k) :
    ∃ k0 q2 : Nat, k = (k0 : Int) ∧ (k0 : Int) < (superOf d).num_inodes
      ∧ (0 ≤ p ∧ p < (superOf d).num_inodes)
      ∧ superOf d1 = superOf d ∧ WF d1 ∧ inodeBit d k0 = false ∧ inodeBit d1 k0 = true
      ∧ (inodeOf d1 k0).type = UFS_DIRECTORY
      ∧ (inodeOf d1 k0).size = 2 * (SIZEOF_DIR_ENT : Int)
      ∧ (∀ t, (inodeOf d1 k0).direct t = if t = 0 then q2 else 0)
      ∧ ((superOf d).data_region_addr ≤ (q2 : Int)
        ∧ (q2 : Int) < (superOf d).data_region_addr + (superOf d).num_data)
      ∧ d1.blocks q2 = stored (setEntry (setEntry zeroBlock 0 k0 [46]) 1 p [46, 46]) := by
  have hinv1 := create_inv hinv hc
  rcases create_shape hinv hc with ⟨_, hr⟩ | ⟨hp, hdir, ht, hlen, hnl, k0, q, blk, pino, dbm,
    hk0, hk0f, hk0m, hE, hout⟩
  · omega
  obtain ⟨pn, hpn⟩ : ∃ pn : Nat, p = (pn : Int) := ⟨p.toNat, by omega⟩
  subst hpn
  simp only [Int.toNat_ofNat] at hdir hE hout
  obtain ⟨hwf, h1, h2, hfz, hroot, hap, hdots⟩ := hinv
  have hwf' := hwf
  unfold WF at hwf'
  obtain ⟨F1, F2, F3, F4, F5, F7, F8, F9, F11⟩ :=
    entryAdded_facts ⟨hwf, h1, h2, hfz, hroot, hap, hdots⟩ hp.2 hdir hk0 hk0f hE
  have hplive : inodeBit d pn = true := live_of_type hfz (by omega) (Or.inr hdir)
  have hkp : k0 ≠ pn := by
    intro e
    rw [e, hplive] at hk0f
    cases hk0f
  rcases hout with ⟨_, hr, _, _⟩ | ⟨htr, _, _⟩ | ⟨_, hr, j2, hj2, hj2c, hd1⟩
  · rw [hr] at hk
    exact absurd hk (by decide)
  · exact absurd htr (by decide)
  · have hq2v : toU32 ((j2 : Int) + (superOf d).data_region_addr)
        = ((j2 : Int) + (superOf d).data_region_addr).toNat := toU32_toNat (by omega) (by omega)
    have hc2 := committed_create hwf
      (putBlock (putBlock d q blk) ((j2 : Int) + (superOf d).data_region_addr).toNat
        (setEntry (setEntry zeroBlock 0 k0 [46]) 1 pn [46, 46]))
      (createInodes d pn k0 pino
        ⟨UFS_DIRECTORY, 2 * (SIZEOF_DIR_ENT : Int),
          fun i => if i = 0 then toU32 ((j2 : Int) + (superOf d).data_region_addr) else 0⟩)
      (setBit (regionBuf d (superOf d).inode_bitmap_addr.toNat
        (superOf d).inode_bitmap_len.toNat) k0) (setBit dbm j2)
    have hd1' : d1 = putRegion (putRegion (putInodes
        (putBlock (putBlock d q blk) ((j2 : Int) + (superOf d).data_region_addr).toNat
          (setEntry (setEntry zeroBlock 0 k0 [46]) 1 pn [46, 46])) (superOf d)
        (createInodes d pn k0 pino
          ⟨UFS_DIRECTORY, 2 * (SIZEOF_DIR_ENT : Int),
            fun i => if i = 0 then toU32 ((j2 : Int) + (superOf d).data_region_addr) else 0⟩)
        (superOf d).inode_region_len.toNat) (superOf d).inode_bitmap_addr.toNat
        (setBit (regionBuf d (superOf d).inode_bitmap_addr.toNat
          (superOf d).inode_bitmap_len.toNat) k0) (superOf d).inode_bitmap_len.toNat)
        (superOf d).data_bitmap_addr.toNat (setBit dbm j2)
        (superOf d).data_bitmap_len.toNat := hd1
    rw [← hd1'] at hc2
    have hD0 : (putBlock (putBlock d q blk) ((j2 : Int) + (superOf d).data_region_addr).toNat
        (setEntry (setEntry zeroBlock 0 k0 [46]) 1 pn [46, 46])).blocks 0 = d.blocks 0 := by
      rw [putBlock_other _ _ 0 _ (by omega), putBlock_other d q 0 blk (by omega)]
    refine ⟨k0, ((j2 : Int) + (superOf d).data_region_addr).toNat, hr, hk0, hp,
      committed_super hwf hc2 hD0, hinv1.1, hk0f, ?_, ?_, ?_, ?_, ⟨by omega, by omega⟩, ?_⟩
    · rw [committed_inodeBit hwf hc2 hD0 (by omega), bitClear_setBit, if_pos rfl]
      rfl
    · rw [committed_inode hwf hc2 hD0 hk0]
      unfold createInodes
      rw [if_neg hkp, if_pos rfl]
      rfl
    · rw [committed_inode hwf hc2 hD0 hk0]
      unfold createInodes
      rw [if_neg hkp, if_pos rfl]
      rfl
    · intro t
      rw [committed_inode hwf hc2 hD0 hk0]
      unfold createInodes
      rw [if_neg hkp, if_pos rfl]
      show (if t < DIRECT_PTRS then
          (if t = 0 then toU32 ((j2 : Int) + (superOf d).data_region_addr) else 0) % 4294967296
        else 0) = _
      by_cases h0 : t = 0
      · rw [h0, if_pos (by decide), if_pos rfl, if_pos rfl, hq2v]
        apply Nat.mod_eq_of_lt
        omega
      · rw [if_neg h0, if_neg h0]
        split <;> rfl
    · rw [committed_data hwf hc2 (by omega) (by omega), putBlock_blocks_same]

theorem par_root {d : Disk} {par : Nat → Int} (h : Reachable d par) : par 0 = 0 := by
  induction h with
  | fresh => rfl
  | create d d1 par p t name r hr hc hk ih =>
    unfold parAfter
    by_cases e : 0 ≤ r ∧ t = UFS_DIRECTORY ∧ ((0 : Nat) : Int) = r
    · exfalso
      have hinv := inv_of_reachable hr
      have hr0 : r = 0 := by omega
      rcases create_shape hinv hc with ⟨_, hneg⟩ | ⟨_, _, _, _, _, k0, q, blk, pino, dbm, hk0,
        hk0f, _, _, hout⟩
      · omega
      · rcases hout with ⟨_, hx, _, _⟩ | ⟨_, hx, _⟩ | ⟨_, hx, _⟩
        · rw [hx] at hr0
          exact absurd hr0 (by decide)
        · have : k0 = 0 := by omega
          rw [this, hinv.2.2.2.2.1.2.1] at hk0f
          cases hk0f
        · have : k0 = 0 := by omega
          rw [this, hinv.2.2.2.2.1.2.1] at hk0f
          cases hk0f
    · rw [if_neg e]
      exact ih
  | write d d1 par i buf s r _ _ _ ih => exact ih
  | unlink d d1 par p name _ _ ih => exact ih

/-- C7: pointer/bitmap consistency (P1) is an invariant. In every state that
successful calls of `create`, `write` and `unlink` reach from a freshly
formatted image, every inode whose inode-bitmap bit is set has the type
REGULAR_FILE or DIRECTORY, and each of its nonzero direct pointers lies in
`[data_region_addr, data_region_addr + num_data)` with its data-bitmap bit set
(`I1`, whose pointers are `allocated`). -/
theorem p1_is_invariant (d : Disk) (par : Nat → Int) (h : Reachable d par) : I1 d :=
  (inv_of_reachable h).2.1

set_option maxRecDepth 100000 in
/-- Witness for C7: the state after `create(0, REGULAR_FILE, "f")` on a fresh
image with 32 inodes and 2 data blocks. -/
theorem p1_is_invariant_witness :
    Reachable imgOneFile (parAfter (fun _ => 0) 0 UFS_REGULAR_FILE 1) ∧ I1 imgOneFile :=
  have h : Reachable imgOneFile (parAfter (fun _ => 0) 0 UFS_REGULAR_FILE 1) :=
    Reachable.create (mkfs 32 2) imgOneFile (fun _ => 0) 0 UFS_REGULAR_FILE [102] 1
      (Reachable.fresh 32 2 (by decide) (by decide) (by decide) (by decide))
      (eq_some_of_retOf (mkfs 32 2) (by decide!)) (by decide)
  ⟨h, p1_is_invariant imgOneFile _ h⟩

/-- C6: no shared data blocks (P2) is an invariant. In every state that
successful calls of `create`, `write` and `unlink` reach from a freshly
formatted image, a nonzero direct pointer of an inode whose inode-bitmap bit is
set is equal to no other direct pointer, neither of another such inode nor of
the same one (`I2`). -/
theorem p2_is_invariant (d : Disk) (par : Nat → Int) (h : Reachable d par) : I2 d :=
  (inv_of_reachable h).2.2.1

set_option maxRecDepth 100000 in
/-- Witness for C6: the state after `create(0, DIRECTORY, "d")` on a fresh image
with 32 inodes and 3 data blocks. -/
theorem p2_is_invariant_witness :
    Reachable (diskOf (create (mkfs 32 3) 0 UFS_DIRECTORY [100]) (mkfs 32 3))
      (parAfter (fun _ => 0) 0 UFS_DIRECTORY 1)
    ∧ I2 (diskOf (create (mkfs 32 3) 0 UFS_DIRECTORY [100]) (mkfs 32 3)) :=
  have h : Reachable (diskOf (create (mkfs 32 3) 0 UFS_DIRECTORY [100]) (mkfs 32 3))
      (parAfter (fun _ => 0) 0 UFS_DIRECTORY 1) :=
    Reachable.create (mkfs 32 3) _ (fun _ => 0) 0 UFS_DIRECTORY [100] 1
      (Reachable.fresh 32 3 (by decide) (by decide) (by decide) (by decide))
      (eq_some_of_retOf (mkfs 32 3) (by decide!)) (by decide)
  ⟨h, p2_is_invariant _ _ h⟩

/-- C16: dot entries (I4) are an invariant. For every device and parent,
`unlink(parent, ".")` and `unlink(parent, "..")` return UNLINK_NOT_ALLOWED and
leave the device as it was. In every state that successful calls of `create`,
`write` and `unlink` reach from a freshly formatted image, with `par k` the
parent that was given to the `create` call that made the directory `k` (the
root is its own parent, `par 0 = 0`), every directory `k` whose inode-bitmap bit
is set has an allocated first block `direct[0]`, a size of at least two
entries, and in the first two slots of that block the entries `.` with inum
`k` and `..` with inum `par k`. -/
theorem dot_entries_are_invariant (d : Disk) (par : Nat → Int) (h : Reachable d par) :
    (∀ p : Int, unlink d p [46] = some (d, -EUNLINKNOTALLOWED)
        ∧ unlink d p [46, 46] = some (d, -EUNLINKNOTALLOWED))
    ∧ par 0 = 0
    ∧ ∀ k, k < (superOf d).num_inodes.toNat → inodeBit d k = true →
        (inodeOf d k).type = UFS_DIRECTORY →
        allocated d ((inodeOf d k).direct 0)
        ∧ 2 * (SIZEOF_DIR_ENT : Int) ≤ (inodeOf d k).size
        ∧ entName (d.blocks ((inodeOf d k).direct 0)) 0 = [46]
        ∧ entInum (d.blocks ((inodeOf d k).direct 0)) 0 = (k : Int)
        ∧ entName (d.blocks ((inodeOf d k).direct 0)) 1 = [46, 46]
        ∧ entInum (d.blocks ((inodeOf d k).direct 0)) 1 = par k := by
  refine ⟨fun p => ⟨?_, ?_⟩, par_root h, ?_⟩
  · unfold unlink
    rw [if_pos (Or.inl rfl)]
  · unfold unlink
    rw [if_pos (Or.inr rfl)]
  · intro k hk hlive hdir
    obtain ⟨_, h1, _, _, _, _, hdots⟩ := inv_of_reachable h
    obtain ⟨a1, a2, _, a4, a5, a6, a7⟩ := hdots k hk hlive hdir
    exact ⟨(h1 k hk hlive).2 0 (by decide) a1, a2, a4, a5, a6, a7⟩

set_option maxRecDepth 100000 in
/-- Witness for C16: the state after `create(0, DIRECTORY, "d")` on a fresh
image with 32 inodes and 3 data blocks, in which the directory 1 has the
parent 0. -/
theorem dot_entries_are_invariant_witness :
    Reachable (diskOf (create (mkfs 32 3) 0 UFS_DIRECTORY [100]) (mkfs 32 3))
      (parAfter (fun _ => 0) 0 UFS_DIRECTORY 1)
    ∧ parAfter (fun _ => 0) 0 UFS_DIRECTORY 1 1 = 0
    ∧ entInum ((diskOf (create (mkfs 32 3) 0 UFS_DIRECTORY [100]) (mkfs 32 3)).blocks
        ((inodeOf (diskOf (create (mkfs 32 3) 0 UFS_DIRECTORY [100]) (mkfs 32 3)) 1).direct 0)) 1
        = parAfter (fun _ => 0) 0 UFS_DIRECTORY 1 1 :=
  have h : Reachable (diskOf (create (mkfs 32 3) 0 UFS_DIRECTORY [100]) (mkfs 32 3))
      (parAfter (fun _ => 0) 0 UFS_DIRECTORY 1) :=
    Reachable.create (mkfs 32 3) _ (fun _ => 0) 0 UFS_DIRECTORY [100] 1
      (Reachable.fresh 32 3 (by decide) (by decide) (by decide) (by decide))
      (eq_some_of_retOf (mkfs 32 3) (by decide!)) (by decide)
  ⟨h, by decide,
    ((dot_entries_are_invariant _ _ h).2.2 1 (by decide!) (by decide!) (by decide!)).2.2.2.2.2⟩

/-- C17: the root is never unlinked. In every state that calls of `create`,
`write` and `unlink` reach from a freshly formatted image, whatever they
return, a call `unlink(parent, name)` that returns leaves the inode-bitmap bit
of inode 0 set, its type DIRECTORY, every one of its direct pointers as it was,
and the data blocks behind its nonzero pointers allocated. -/
theorem root_never_unlinked (d : Disk) (par : Nat → Int) (h : ReachableAny d par)
    (p : Int) (name : List Nat) (d1 : Disk) (r : Int)
    (hu : unlink d p name = some (d1, r)) :
    inodeBit d1 0 = true ∧ (inodeOf d1 0).type = UFS_DIRECTORY
    ∧ ∀ t, t < DIRECT_PTRS →
        (inodeOf d1 0).direct t = (inodeOf d 0).direct t
        ∧ ((inodeOf d 0).direct t ≠ 0 → allocated d1 ((inodeOf d 0).direct t)) := by
  have hinv := inv_of_reachableAny h
  obtain ⟨hinv1, hptr⟩ := unlink_inv_ptrs hinv hu
  obtain ⟨_, h1, _, _, ⟨r1, r2, r3⟩, _, _⟩ := hinv1
  have hr0 := hinv.2.2.2.2.1.1
  refine ⟨r2, r3, fun t ht => ?_⟩
  have e := hptr 0 (by omega) r2 t ht
  refine ⟨e, fun hne => ?_⟩
  rw [← e] at hne ⊢
  exact (h1 0 (by omega) r2).2 t ht hne

set_option maxRecDepth 100000 in
/-- Witness for C17: on the state after `create(0, REGULAR_FILE, "a")` on a
fresh image with 32 inodes and 2 data blocks, the call `unlink(0, "a")`. -/
theorem root_never_unlinked_witness :
    ReachableAny (diskOf (create (mkfs 32 2) 0 UFS_REGULAR_FILE [97]) (mkfs 32 2))
      (parAfter (fun _ => 0) 0 UFS_REGULAR_FILE 1)
    ∧ retOf (unlink (diskOf (create (mkfs 32 2) 0 UFS_REGULAR_FILE [97]) (mkfs 32 2)) 0 [97])
      = some 0
    ∧ inodeBit (diskOf (unlink (diskOf (create (mkfs 32 2) 0 UFS_REGULAR_FILE [97]) (mkfs 32 2))
        0 [97]) (mkfs 32 2)) 0 = true :=
  have h : ReachableAny (diskOf (create (mkfs 32 2) 0 UFS_REGULAR_FILE [97]) (mkfs 32 2))
      (parAfter (fun _ => 0) 0 UFS_REGULAR_FILE 1) :=
    ReachableAny.create (mkfs 32 2) _ (fun _ => 0) 0 UFS_REGULAR_FILE [97] 1
      (ReachableAny.fresh 32 2 (by decide) (by decide) (by decide) (by decide))
      (eq_some_of_retOf (mkfs 32 2) (by decide!))
  have hr : retOf (unlink (diskOf (create (mkfs 32 2) 0 UFS_REGULAR_FILE [97]) (mkfs 32 2))
      0 [97]) = some 0 := by decide!
  ⟨h, hr, (root_never_unlinked _ _ h 0 [97] _ 0 (eq_some_of_retOf (mkfs 32 2) hr)).1⟩

/-- C15: fresh directory contents. In a state that successful calls of
`create`, `write` and `unlink` reach from a freshly formatted image, after a
call `create(parent, DIRECTORY, name)` that returns `k >= 0` the inode `k` has
the type DIRECTORY, the size of two entries and `direct[0]` as its only nonzero
pointer; `read(k, out, 2 * sizeof(entry))` returns `2 * sizeof(entry)` and puts
into the buffer exactly the bytes of the entry `{k, "."}` followed by the entry
`{parent, ".."}`; and `lookup(k, ".")` is `k` and `lookup(k, "..")` is
`parent`. -/
theorem fresh_directory_contents (d d1 : Disk) (par : Nat → Int) (p : Int) (name : List Nat)
    (k : Int) (out : Block) (hr : Reachable d par)
    (hc : create d p UFS_DIRECTORY name = some (d1, k)) (hk : 0 ≤ k) :
    (inodeOf d1 k.toNat).type = UFS_DIRECTORY
    ∧ (inodeOf d1 k.toNat).size = 2 * (SIZEOF_DIR_ENT : Int)
    ∧ (inodeOf d1 k.toNat).direct 0 ≠ 0
    ∧ (∀ t, 0 < t → (inodeOf d1 k.toNat).direct t = 0)
    ∧ read d1 k out (2 * (SIZEOF_DIR_ENT : Int))
        = some (2 * (SIZEOF_DIR_ENT : Int),
            fun x => if x < 2 * SIZEOF_DIR_ENT then
                setEntry (setEntry zeroBlock 0 k [46]) 1 p [46, 46] x
              else out x)
    ∧ lookup d1 k [46] = some k
    ∧ lookup d1 k [46, 46] = some p := by
  obtain ⟨k0, q2, hk0, hk0n, hp, hs1, hwf1, _, hlive, hty, hsz, hdir, hq2, hblk⟩ :=
    create_dir_result (inv_of_reachable hr) hc hk
  subst hk0
  have hwf' := hwf1
  unfold WF at hwf'
  rw [hs1] at hwf'
  have hnb := num_inodes_lt d
  simp only [Int.toNat_ofNat]
  have hd0 : (inodeOf d1 k0).direct 0 = q2 := by rw [hdir 0, if_pos rfl]
  have hq0 : q2 ≠ 0 := by omega
  have hbd := dotsBlock_dots k0 p (by omega) (by omega)
  have hn0 : entName (d1.blocks ((inodeOf d1 k0).direct 0)) 0 = [46] := by
    rw [hd0, hblk, entName_stored _ 0 (by decide)]
    exact hbd.1
  have hn1 : entName (d1.blocks ((inodeOf d1 k0).direct 0)) 1 = [46, 46] := by
    rw [hd0, hblk, entName_stored _ 1 (by decide)]
    exact hbd.2.2.1
  have hi0 : entInum (d1.blocks ((inodeOf d1 k0).direct 0)) 0 = (k0 : Int) := by
    rw [hd0, hblk, entInum_stored _ 0 (by decide)]
    exact hbd.2.1
  have hi1 : entInum (d1.blocks ((inodeOf d1 k0).direct 0)) 1 = p := by
    rw [hd0, hblk, entInum_stored _ 1 (by decide)]
    exact hbd.2.2.2
  have hcnt : dirCount (inodeOf d1 k0) = 2 := by
    unfold dirCount
    rw [hsz]
    decide
  have hsz' : 32 ≤ (inodeOf d1 k0).size ∧ (inodeOf d1 k0).size < 4096 := by
    rw [hsz]
    decide
  have hb0 : (superOf d1).data_region_addr ≤ ((inodeOf d1 k0).direct 0 : Int)
      ∧ ((inodeOf d1 k0).direct 0 : Int)
        < (superOf d1).data_region_addr + (superOf d1).num_data := by
    rw [hd0, hs1]
    exact hq2
  refine ⟨hty, hsz, by rw [hd0]; exact hq0, fun t ht => by rw [hdir t, if_neg (by omega)],
    ?_, ?_, ?_⟩
  · rw [read_eq d1 k0 out _ hwf1 ⟨by decide, by decide⟩ ⟨by omega, by rw [hs1]; exact hk0n⟩
      (by simp only [Int.toNat_ofNat]; rw [hsz]; decide)
      (by
        simp only [Int.toNat_ofNat]
        intro t ht
        rw [hsz] at ht
        have ht0 : t = 0 := by
          simp only [UFS_BLOCK_SIZE, SIZEOF_DIR_ENT, Nat.cast_ofNat] at ht
          omega
        rw [ht0, hd0]
        omega)]
    simp only [Int.toNat_ofNat]
    rw [hsz, min_self]
    refine congrArg (fun g => some (2 * (SIZEOF_DIR_ENT : Int), g)) (funext fun x => ?_)
    beta_reduce
    by_cases hx : x < 2 * SIZEOF_DIR_ENT
    · have hx' : x < 64 := hx
      rw [if_pos (by simp only [SIZEOF_DIR_ENT, Nat.cast_ofNat]; omega), if_pos hx]
      have e1 : x / UFS_BLOCK_SIZE = 0 := by
        simp only [UFS_BLOCK_SIZE]
        omega
      have e2 : x % UFS_BLOCK_SIZE = x := by
        simp only [UFS_BLOCK_SIZE]
        omega
      rw [e1, e2, hd0, hblk]
      unfold stored
      rw [if_pos (by simp only [UFS_BLOCK_SIZE]; omega)]
    · have hx' : ¬ x < 64 := hx
      rw [if_neg (by simp only [SIZEOF_DIR_ENT, Nat.cast_ofNat]; omega), if_neg hx]
  · rw [lookup_at d1 k0 [46] 0 hwf1 (by rw [hs1]; exact hk0n) hty hsz' hb0 (by omega) hn0
      (fun i hi => absurd hi (by omega)), hi0]
  · rw [lookup_at d1 k0 [46, 46] 1 hwf1 (by rw [hs1]; exact hk0n) hty hsz' hb0 (by omega) hn1
      (fun i hi => by
        have : i = 0 := by omega
        rw [this, hn0]
        decide), hi1]

set_option maxRecDepth 100000 in
/-- Witness for C15: `create(0, DIRECTORY, "d")` on a fresh image with 32 inodes
and 3 data blocks returns 1. -/
theorem fresh_directory_contents_witness :
    Reachable (mkfs 32 3) (fun _ => 0)
    ∧ retOf (create (mkfs 32 3) 0 UFS_DIRECTORY [100]) = some 1
    ∧ lookup (diskOf (create (mkfs 32 3) 0 UFS_DIRECTORY [100]) (mkfs 32 3)) 1 [46, 46]
      = some 0 :=
  have h : Reachable (mkfs 32 3) (fun _ => 0) :=
    Reachable.fresh 32 3 (by decide) (by decide) (by decide) (by decide)
  have hr : retOf (create (mkfs 32 3) 0 UFS_DIRECTORY [100]) = some 1 := by decide!
  ⟨h, hr, (fresh_directory_contents (mkfs 32 3) _ (fun _ => 0) 0 [100] 1 zeroBlock h
    (eq_some_of_retOf (mkfs 32 3) hr) (by decide)).2.2.2.2.2.2⟩

/-! ## Path splitting -/

theorem splitSlash_eq (cs : List Nat) :
    ∀ cur, splitSlash cs cur
      = (cs.splitOnP (fun x => x == 47)).modifyHead (fun l => cur.reverse ++ l) := by
  induction cs with
  | nil =>
    intro cur
    simp [splitSlash, List.splitOnP_nil, List.modifyHead]
  | cons c cs ih =>
    intro cur
    rw [List.splitOnP_cons]
    unfold splitSlash
    by_cases hc : c = 47
    · rw [if_pos hc, ih []]
      have e : (c == 47) = true := by simp [hc]
      rw [e]
      simp only [if_true, List.modifyHead, List.reverse_nil, List.nil_append, List.append_nil]
      congr 1
      cases List.splitOnP (fun x => x == 47) cs <;> simp [List.modifyHead]
    · rw [if_neg hc, ih (c :: cur)]
      have e : (c == 47) = false := by simp [hc]
      rw [e]
      simp only [Bool.false_eq_true, if_false]
      cases List.splitOnP (fun x => x == 47) cs <;> simp [List.modifyHead]

theorem splitSlash_splitOn (path : List Nat) : splitSlash path [] = path.splitOn 47 := by
  rw [splitSlash_eq]
  unfold List.splitOn
  cases List.splitOnP (fun x => x == 47) path <;> simp [List.modifyHead]

theorem splitSlash_cons (c : Nat) (cs cur : List Nat) :
    splitSlash (c :: cs) cur
      = if c = 47 then cur.reverse :: splitSlash cs [] else splitSlash cs (c :: cur) := rfl

theorem splitSlash_append (a b : List Nat) :
    ∀ cur, splitSlash (a ++ 47 :: b) cur = splitSlash a cur ++ splitSlash b [] := by
  induction a with
  | nil =>
    intro cur
    simp [splitSlash]
  | cons c cs ih =>
    intro cur
    simp only [List.cons_append]
    rw [splitSlash_cons c (cs ++ 47 :: b) cur, splitSlash_cons c cs cur]
    by_cases hc : c = 47
    · rw [if_pos hc, if_pos hc, ih]
      rfl
    · rw [if_neg hc, if_neg hc, ih]

theorem splitSlash_no_slash (cs : List Nat) :
    ∀ cur, (47 ∉ cur) → ∀ c ∈ splitSlash cs cur, 47 ∉ c := by
  induction cs with
  | nil =>
    intro cur hcur c hc
    simp only [splitSlash, List.mem_singleton] at hc
    rw [hc]
    simpa using hcur
  | cons x xs ih =>
    intro cur hcur c hc
    unfold splitSlash at hc
    by_cases hx : x = 47
    · rw [if_pos hx] at hc
      rcases List.mem_cons.1 hc with e | hin
      · rw [e]
        simpa using hcur
      · exact ih [] (by simp) c hin
    · rw [if_neg hx] at hc
      apply ih (x :: cur) _ c hc
      intro hm
      rcases List.mem_cons.1 hm with e | hin
      · exact hx e.symm
      · exact hcur hin

theorem handleGetPath_eq (path : List Nat) :
    handleGetPath path =
      match (path.splitOn 47).filter (fun c => decide (c ≠ [])) with
      | [] => none
      | _ :: components => some components := by
  unfold handleGetPath
  rw [splitSlash_splitOn]
  have e : (fun item : List Nat => !item.isEmpty) = (fun c => decide (c ≠ [])) := by
    funext c
    cases c <;> simp
  rw [e]

theorem components_append (a b : List Nat) :
    ((a ++ 47 :: b).splitOn 47).filter (fun c => decide (c ≠ []))
      = (a.splitOn 47).filter (fun c => decide (c ≠ []))
        ++ (b.splitOn 47).filter (fun c => decide (c ≠ [])) := by
  rw [← splitSlash_splitOn, ← splitSlash_splitOn, ← splitSlash_splitOn, splitSlash_append,
    List.filter_append]

set_option maxRecDepth 100000 in
/-- C22: for a path with at least one nonempty component, `handleGetPath`
returns the nonempty components of the path split on `/`, in order, without
the first one; no component returned is empty or contains `/`; a trailing slash
and a doubled slash do not change the result; `/ds3/a//b/` yields `a`, `b`. -/
theorem handleGetPath_components (path : List Nat)
    (h : ∃ c, c ∈ path.splitOn 47 ∧ c ≠ []) :
    handleGetPath path = some (specComponents path)
    ∧ (∀ c, c ∈ specComponents path → c ≠ [] ∧ 47 ∉ c)
    ∧ handleGetPath (path ++ [47]) = handleGetPath path
    ∧ (∀ a b, path = a ++ 47 :: b → handleGetPath (a ++ 47 :: 47 :: b) = handleGetPath path)
    ∧ handleGetPath pathSlashes = some [[97], [98]] := by
  refine ⟨?_, ?_, ?_, ?_, by decide⟩
  · rw [handleGetPath_eq]
    unfold specComponents
    obtain ⟨c, hc1, hc2⟩ := h
    have hm : c ∈ (path.splitOn 47).filter (fun c => decide (c ≠ [])) := by
      rw [List.mem_filter]
      exact ⟨hc1, by simpa using hc2⟩
    cases hf : (path.splitOn 47).filter (fun c => decide (c ≠ [])) with
    | nil => rw [hf] at hm; cases hm
    | cons x xs => rfl
  · intro c hc
    unfold specComponents at hc
    have hc1 := List.mem_of_mem_tail hc
    rw [List.mem_filter] at hc1
    refine ⟨by simpa using hc1.2, ?_⟩
    rw [← splitSlash_splitOn] at hc1
    exact splitSlash_no_slash path [] (by simp) c hc1.1
  · rw [handleGetPath_eq, handleGetPath_eq]
    have e := components_append path []
    rw [e]
    have e2 : ([] : List Nat).splitOn 47 = [[]] := by decide
    rw [e2]
    simp
  · intro a b hab
    have e3 := components_append [] b
    simp only [List.nil_append] at e3
    rw [handleGetPath_eq, handleGetPath_eq, hab, components_append, components_append a b, e3]
    have e2 : ([] : List Nat).splitOn 47 = [[]] := by decide
    rw [e2]
    simp

set_option maxRecDepth 100000 in
theorem handleGetPath_components_witness :
    (∃ c, c ∈ pathSlashes.splitOn 47 ∧ c ≠ [])
    ∧ handleGetPath pathSlashes = some (specComponents pathSlashes) :=
  ⟨⟨[97], by decide, by decide⟩,
    (handleGetPath_components pathSlashes ⟨[97], by decide, by decide⟩).1⟩

/-! ## The loop of read -/

theorem readIters_spec (inode : inode_t) (size : Int)
    (hs : 0 ≤ size ∧ size ≤ (MAX_FILE_SIZE : Int)) (hm : 0 ≤ min size inode.size) :
    ∀ n t fuel : Nat, min size inode.size ≤ ((t + n : Nat) : Int) * 4096 → n < fuel →
      ∃ tr, readIters inode size fuel (min ((t : Int) * 4096) (min size inode.size)) = some tr
        ∧ tr.length ≤ n ∧ ∀ x, x ∈ tr → IterSafe size x := by
  intro n
  induction n with
  | zero =>
    intro t fuel h1 h2
    obtain ⟨f, rfl⟩ : ∃ f, fuel = f + 1 := ⟨fuel - 1, by omega⟩
    refine ⟨[], ?_, le_refl _, fun x hx => by cases hx⟩
    unfold readIters
    rw [if_neg]
    simp only [add_zero] at h1
    omega
  | succ n ih =>
    intro t fuel h1 h2
    obtain ⟨f, rfl⟩ : ∃ f, fuel = f + 1 := ⟨fuel - 1, by omega⟩
    by_cases hlt : (t : Int) * 4096 < min size inode.size
    · obtain ⟨tr, htr, hlen, hsafe⟩ := ih (t + 1) f
        (by push_cast at h1 ⊢; omega) (by omega)
      have hb : min ((t : Int) * 4096) (min size inode.size) = (t : Int) * 4096 := by omega
      have hmod : cmod ((t : Int) * 4096) UFS_BLOCK_SIZE = 0 := by
        rw [cmod_of_nonneg (by omega) (by decide)]
        simp only [UFS_BLOCK_SIZE, Nat.cast_ofNat]
        omega
      have hdiv : cdiv ((t : Int) * 4096) UFS_BLOCK_SIZE = t := by
        rw [cdiv_of_nonneg (by omega) (by decide)]
        simp only [UFS_BLOCK_SIZE, Nat.cast_ofNat]
        omega
      have hcur : min_of_three (size - (t : Int) * 4096)
          ((UFS_BLOCK_SIZE : Int) - cmod ((t : Int) * 4096) UFS_BLOCK_SIZE)
          (inode.size - (t : Int) * 4096)
          = min (min size inode.size - (t : Int) * 4096) 4096 := by
        rw [min_of_three_eq, hmod]
        simp only [UFS_BLOCK_SIZE, Nat.cast_ofNat]
        omega
      have hnext : (t : Int) * 4096 + min (min size inode.size - (t : Int) * 4096) 4096
          = min (((t + 1 : Nat) : Int) * 4096) (min size inode.size) := by
        push_cast
        omega
      refine ⟨((t : Int) * 4096, min (min size inode.size - (t : Int) * 4096) 4096) :: tr,
        ?_, by simp only [List.length_cons]; omega, ?_⟩
      · unfold readIters
        rw [hb, if_pos (by omega)]
        simp only
        rw [hcur, hnext, htr]
        rfl
      · intro x hx
        rcases List.mem_cons.1 hx with e | hin
        · rw [e]
          unfold IterSafe
          simp only
          rw [hmod, hdiv]
          simp only [UFS_BLOCK_SIZE, DIRECT_PTRS, MAX_FILE_SIZE, Nat.cast_ofNat] at hs ⊢
          push_cast at hs ⊢
          refine ⟨?_, ?_, ?_, ?_, ?_, ?_, ?_, ?_⟩
          all_goals first | exact True.intro | omega
        · exact hsafe x hin
    · refine ⟨[], ?_, Nat.zero_le _, fun x hx => by cases hx⟩
      unfold readIters
      rw [if_neg]
      omega

theorem readLoop_of_iters (d : Disk) (inode : inode_t) (size : Int)
    (hread : ∀ t, t < DIRECT_PTRS → (d.readBlock (toI32 (inode.direct t))).isSome = true) :
    ∀ (fuel : Nat) (b : Int) (buf : Block) (tr : List (Int × Int)),
      readIters inode size fuel b = some tr → (∀ x, x ∈ tr → IterSafe size x) →
      ∃ r, readLoop d inode size fuel b buf = some r := by
  intro fuel
  induction fuel with
  | zero =>
    intro b buf tr h
    cases h
  | succ f ih =>
    intro b buf tr h hsafe
    unfold readIters at h
    unfold readLoop
    by_cases hc : b < size ∧ b < inode.size
    · rw [if_pos hc] at h ⊢
      simp only at h ⊢
      cases hrec : readIters inode size f
          (b + min_of_three (size - b) ((UFS_BLOCK_SIZE : Int) - cmod b UFS_BLOCK_SIZE)
            (inode.size - b)) with
      | none => rw [hrec] at h; cases h
      | some tr1 =>
        rw [hrec] at h
        simp only [Option.map_some'] at h
        injection h with h
        have hx := hsafe _ (by rw [← h]; exact List.mem_cons_self _ _)
        unfold IterSafe at hx
        simp only at hx
        obtain ⟨x1, x2, x3, x4, x5, x6, x7, x8⟩ := hx
        rw [if_neg (by omega)]
        have hlt : (cdiv b UFS_BLOCK_SIZE).toNat < DIRECT_PTRS := by omega
        cases hrb : d.readBlock (toI32 (inode.direct (cdiv b UFS_BLOCK_SIZE).toNat)) with
        | none =>
          have := hread _ hlt
          rw [hrb] at this
          cases this
        | some blk =>
          simp only
          apply ih _ _ tr1 hrec
          intro x hx
          exact hsafe x (by rw [← h]; exact List.mem_cons_of_mem _ hx)
    · rw [if_neg hc]
      exact ⟨_, rfl⟩

/-- C29: for every inode record and every `0 ≤ size ≤ D * B` the loop of `read`
ends after at most `D` iterations; each iteration copies between 1 and `B`
bytes, stays inside one block, uses an index of `direct[]` in `[0, D)` and does
not write at or behind `buf[size]`; on a device that can read the blocks named
by the pointers the loop of the model returns. -/
theorem read_loop_safe (inode : inode_t) (size : Int)
    (hs : 0 ≤ size ∧ size ≤ (MAX_FILE_SIZE : Int)) :
    ∃ tr, readIters inode size (size.toNat + 1) 0 = some tr
      ∧ tr.length ≤ DIRECT_PTRS
      ∧ (∀ x, x ∈ tr → IterSafe size x)
      ∧ ∀ (d : Disk) (buf : Block),
          (∀ t, t < DIRECT_PTRS → (d.readBlock (toI32 (inode.direct t))).isSome = true) →
          ∃ r, readLoop d inode size (size.toNat + 1) 0 buf = some r := by
  have key : ∃ tr, readIters inode size (size.toNat + 1) 0 = some tr
      ∧ tr.length ≤ DIRECT_PTRS ∧ (∀ x, x ∈ tr → IterSafe size x) := by
    by_cases hm : 0 ≤ min size inode.size
    · have hcb := @ceilBlocks_bounds size hs
      obtain ⟨tr, h1, h2, h3⟩ := readIters_spec inode size hs hm (ceilBlocks size).toNat 0
        (size.toNat + 1)
        (by
          simp only [ceilBlocks, UFS_BLOCK_SIZE, Nat.cast_ofNat] at hcb ⊢
          push_cast
          omega)
        (by
          simp only [ceilBlocks, UFS_BLOCK_SIZE, Nat.cast_ofNat] at hcb ⊢
          omega)
      have e0 : min (((0 : Nat) : Int) * 4096) (min size inode.size) = 0 := by
        push_cast
        omega
      rw [e0] at h1
      refine ⟨tr, h1, ?_, h3⟩
      simp only [ceilBlocks, UFS_BLOCK_SIZE, MAX_FILE_SIZE, DIRECT_PTRS, Nat.cast_ofNat] at hs hcb h2 ⊢
      push_cast at hs
      omega
    · refine ⟨[], ?_, Nat.zero_le _, fun x hx => by cases hx⟩
      unfold readIters
      rw [if_neg]
      omega
  obtain ⟨tr, h1, h2, h3⟩ := key
  exact ⟨tr, h1, h2, h3, fun d buf hread => readLoop_of_iters d inode size hread _ 0 buf tr h1 h3⟩

set_option maxRecDepth 100000 in
theorem read_loop_safe_witness :
    (0 ≤ (8000 : Int) ∧ (8000 : Int) ≤ (MAX_FILE_SIZE : Int))
    ∧ ∃ tr, readIters wildInode 8000 ((8000 : Int).toNat + 1) 0 = some tr
      ∧ tr.length ≤ DIRECT_PTRS
      ∧ (∀ x, x ∈ tr → IterSafe 8000 x)
      ∧ ∀ (d : Disk) (buf : Block),
          (∀ t, t < DIRECT_PTRS → (d.readBlock (toI32 (wildInode.direct t))).isSome = true) →
          ∃ r, readLoop d wildInode 8000 ((8000 : Int).toNat + 1) 0 buf = some r :=
  ⟨by decide, read_loop_safe wildInode 8000 (by decide)⟩

/-! ## The listing of a full directory -/

set_option maxRecDepth 100000 in
/-- C21 (code defect): `crowdedImg 128` satisfies the global invariants; its
root is a directory of 128 valid entries that fill one block, among them `ac`
for the regular file 1. `GET /ds3/` resolves to the root and answers 200 with
an empty body: for the last block `get` lists `(size % B) / sizeof(entry) = 0`
entries. -/
theorem get_full_directory_empty :
    GlobalInv (crowdedImg 128)
    ∧ (inodeOf (crowdedImg 128) 0).type = UFS_DIRECTORY
    ∧ dirCount (inodeOf (crowdedImg 128) 0) = 128
    ∧ dirEntName (crowdedImg 128) (inodeOf (crowdedImg 128) 0) 2 = [97, 99]
    ∧ dirEntInum (crowdedImg 128) (inodeOf (crowdedImg 128) 0) 2 = 1
    ∧ (inodeOf (crowdedImg 128) 1).type = UFS_REGULAR_FILE
    ∧ handleGetPath pathRoot = some []
    ∧ get ⟨crowdedImg 128, none⟩ pathRoot = some (STATUS_OK, []) :=
  ⟨crowded_globalInv 128 (by decide) (by decide), by decide!⟩

/-! ## Write leaves the other files alone -/

theorem write_frame {d d1 : Disk} {i : Int} {buf : Block} {s r : Int}
    (hwf : WF d) (h1 : I1 d) (h2 : I2 d) (hlive : inodeBit d i.toNat = true)
    (h : write d i buf s = some (d1, r)) :
    d1.numberOfBlocks = d.numberOfBlocks ∧ d1.blocks 0 = d.blocks 0
    ∧ (∀ k, k < (superOf d).num_inodes.toNat → inodeBit d1 k = inodeBit d k)
    ∧ (∀ k, k < (superOf d).num_inodes.toNat → k ≠ i.toNat → inodeOf d1 k = inodeOf d k)
    ∧ (∀ k, k < (superOf d).num_inodes.toNat → inodeBit d k = true → k ≠ i.toNat →
        ∀ t, t < DIRECT_PTRS → (inodeOf d k).direct t ≠ 0 →
          d1.blocks ((inodeOf d k).direct t) = d.blocks ((inodeOf d k).direct t)) := by
  rcases write_shape hwf h with hsame | ⟨hi, hty, hs, bm1, direct1, st, hclear, hst, hd1, _⟩
  · rw [hsame]
    exact ⟨rfl, rfl, fun _ _ => rfl, fun _ _ _ => rfl, fun _ _ _ _ _ _ _ => rfl⟩
  have hwf' := hwf
  unfold WF at hwf'
  have hD : DIRECT_PTRS = 30 := rfl
  generalize hfdef : i.toNat = f at *
  have hfi : (f : Int) = i := by omega
  have hfn : f < (superOf d).num_inodes.toNat := by omega
  have hf1 := h1 f hfn hlive
  generalize hcbdef : (blocksOf (inodeOf d f).size).toNat = cb at *
  have hptr := writeClear_ptrs (superOf d) _ (by omega) (by omega) cb 0 _ _ _
    (fun t => inodeOf_direct_lt d f t) hclear
  have hcb : cb ≤ 30 := by
    by_cases hc : 0 < cb
    · have := hptr.1 hc
      omega
    · omega
  have hrange : ∀ t, t < cb → allocated d ((inodeOf d f).direct t) := by
    intro t ht
    apply hf1.2 t (by omega)
    intro e
    have := hptr.2 t (Nat.zero_le _) (by omega)
    rw [e] at this
    simp only [Nat.cast_zero] at this
    omega
  obtain ⟨bm', hc', hbm', _⟩ := writeClear_spec (superOf d) d.numberOfBlocks _ (wf_allocOK hwf)
    cb 0 (regionBuf d (superOf d).data_bitmap_addr.toNat (superOf d).data_bitmap_len.toNat)
    (inodeOf d f).direct (by omega)
    (fun t _ ht => ⟨(hrange t (by omega)).1, (hrange t (by omega)).2.1⟩)
  rw [hc'] at hclear
  injection hclear with hclear
  injection hclear with e1 e2
  subst e1
  subst e2
  generalize hnbdef : (ceilBlocks s).toNat = nb at *
  obtain ⟨hN, hdir, hmono, hframe, hnew, hdist, _, _, _⟩ :=
    writeAlloc_spec (superOf d) d.numberOfBlocks _ buf (wf_allocOK hwf)
      nb 0 ⟨d, bm', _, s, 0⟩ st rfl (le_refl _)
      (by
        rw [← hnbdef]
        simp only [ceilBlocks, UFS_BLOCK_SIZE, MAX_FILE_SIZE, DIRECT_PTRS] at hs ⊢
        push_cast at hs ⊢
        omega) hst
  simp only at hN hdir hmono hframe hnew hdist
  have hb0 : st.disk.blocks 0 = d.blocks 0 := hframe 0 (by intro j hj _; omega)
  have hout : ∀ m : Nat, ((m : Int) < (superOf d).data_region_addr
      ∨ (superOf d).data_region_addr + (superOf d).num_data ≤ (m : Int)) →
      st.disk.blocks m = d.blocks m := fun m hm => hframe m (by intro j hj _; omega)
  have hdata : ∀ m : Nat, (superOf d).data_region_addr ≤ (m : Int) →
      (m : Int) < (superOf d).data_region_addr + (superOf d).num_data →
      d1.blocks m = st.disk.blocks m := by
    intro m hm1 hm2
    rw [hd1]
    exact commitWrite_data hwf _ _ hm1 hm2
  refine ⟨by rw [hd1, commitWrite_nblocks, hN], ?_, ?_, ?_, ?_⟩
  · rw [hd1]
    unfold commitWrite
    rw [putRegion_out _ _ _ _ _ (by omega), putInodes_out _ _ _ _ _ (by omega), hb0]
  · intro k hk
    rw [hd1]
    exact commitWrite_inodeBit hwf _ _ hb0 hout (by omega)
  · intro k hk hkf
    rw [hd1, commitWrite_inode hwf _ _ hb0 (by omega)]
    rw [if_neg hkf, inodeTable_eq hwf (by omega), inodeOf_norm]
  · intro k hk hlivek hkf t ht hne
    have hal := (h1 k hk hlivek).2 t ht hne
    have hclr : bitClear bm'
        (((inodeOf d k).direct t : Int) - (superOf d).data_region_addr).toNat = false := by
      apply Bool.eq_false_iff.mpr
      intro hc
      rcases (hbm' _).1 hc with hc0 | ⟨t', _, ht', hc1⟩
      · rw [dataBit_regionBuf hwf (by have := hal.1; have := hal.2.1; omega), hal.2.2] at hc0
        simp at hc0
      · have e : (inodeOf d f).direct t' = (inodeOf d k).direct t := by
          have := hal.1
          omega
        have := h2 f hfn hlive t' (by omega)
          (by rw [e]; exact hne) k hk hlivek t ht e
        omega
    rw [hdata _ hal.1 hal.2.1]
    apply hframe
    intro j hj hjc e
    have : (((inodeOf d k).direct t : Int) - (superOf d).data_region_addr).toNat = j := by
      rw [e]
      omega
    rw [this, hjc] at hclr
    cases hclr

theorem readLoop_congr (d d1 : Disk) (inode : inode_t) (size : Int)
    (hread : ∀ t, t < DIRECT_PTRS →
      d1.readBlock (toI32 (inode.direct t)) = d.readBlock (toI32 (inode.direct t))) :
    ∀ (fuel : Nat) (b : Int) (buf : Block),
      readLoop d1 inode size fuel b buf = readLoop d inode size fuel b buf := by
  intro fuel
  induction fuel with
  | zero =>
    intro b buf
    rfl
  | succ f ih =>
    intro b buf
    unfold readLoop
    by_cases hc : b < size ∧ b < inode.size
    · rw [if_pos hc, if_pos hc]
      simp only
      by_cases hg : cdiv b UFS_BLOCK_SIZE < 0 ∨ (DIRECT_PTRS : Int) ≤ cdiv b UFS_BLOCK_SIZE
          ∨ b < 0 ∨ cmod b UFS_BLOCK_SIZE < 0
          ∨ min_of_three (size - b) ((UFS_BLOCK_SIZE : Int) - cmod b UFS_BLOCK_SIZE)
              (inode.size - b) < 0
      · rw [if_pos hg, if_pos hg]
      · rw [if_neg hg, if_neg hg]
        rw [hread _ (by omega)]
        cases d.readBlock (toI32 (inode.direct (cdiv b UFS_BLOCK_SIZE).toNat)) with
        | none => rfl
        | some blk => exact ih _ _
    · rw [if_neg hc, if_neg hc]

theorem read_congr {d d1 : Disk} (hwf : WF d) (hn : d1.numberOfBlocks = d.numberOfBlocks)
    (hb0 : d1.blocks 0 = d.blocks 0) {j : Nat} (hj : (j : Int) < (superOf d).num_inodes)
    (hino : inodeOf d1 j = inodeOf d j)
    (hblk : ∀ t, t < DIRECT_PTRS →
      d1.blocks ((inodeOf d j).direct t) = d.blocks ((inodeOf d j).direct t)) :
    (∀ x, stat d1 j x = stat d j x)
    ∧ ∀ out size, read d1 j out size = read d j out size := by
  have hsup : superOf d1 = superOf d := superOf_of_block0 hb0
  have hwf1 : WF d1 := wf_of_same hwf hn hsup
  have hst : ∀ x, stat d1 j x = stat d j x := by
    intro x
    rw [wf_stat hwf1 (by omega) (by rw [hsup]; exact hj), wf_stat hwf (by omega) hj]
    simp only [Int.toNat_ofNat]
    rw [hino]
  refine ⟨hst, ?_⟩
  intro out size
  unfold read
  rw [wf_readSuper hwf1, wf_readSuper hwf, hsup, hst]
  by_cases hsz : size < 0 ∨ size > MAX_FILE_SIZE
  · rw [if_pos hsz, if_pos hsz]
  · rw [if_neg hsz, if_neg hsz]
    simp only
    by_cases hr : (j : Int) < 0 ∨ (j : Int) ≥ (superOf d).num_inodes
    · rw [if_pos hr, if_pos hr]
    · rw [if_neg hr, if_neg hr]
      rw [wf_stat hwf (by omega) hj]
      simp only [Int.toNat_ofNat]
      rw [if_neg (by decide), if_neg (by decide)]
      apply readLoop_congr
      intro t ht
      unfold Disk.readBlock
      rw [hn]
      by_cases hin : 0 ≤ toI32 ((inodeOf d j).direct t)
          ∧ toI32 ((inodeOf d j).direct t) < d.numberOfBlocks
      · rw [if_pos hin, if_pos hin]
        have hlt := inodeOf_direct_lt d j t
        have e : (toI32 ((inodeOf d j).direct t)).toNat = (inodeOf d j).direct t := by
          unfold toI32 at hin ⊢
          rw [Nat.mod_eq_of_lt hlt] at hin ⊢
          split at hin
          · rw [if_pos (by assumption)]
            omega
          · omega
        rw [e, hblk t ht]
      · rw [if_neg hin, if_neg hin]

/-- C28 (amended): in a state that satisfies (P1) and (P2), a call
`write(i, buf, s)` on a live inode `i` that returns, successfully or not,
changes no inode-bitmap bit, no record of an inode other than `i` and no block
that another live inode refers to; hence `stat` and `read` of every other live
inode return after the call what they returned before it. -/
theorem write_keeps_other_files {d d1 : Disk} {i : Int} {buf : Block} {s r : Int}
    (hwf : WF d) (h1 : I1 d) (h2 : I2 d) (hlive : inodeBit d i.toNat = true)
    (h : write d i buf s = some (d1, r)) :
    (∀ k : Nat, (k : Int) < (superOf d).num_inodes → inodeBit d1 k = inodeBit d k)
    ∧ (∀ k : Nat, (k : Int) < (superOf d).num_inodes → (k : Int) ≠ i →
        inodeOf d1 k = inodeOf d k)
    ∧ (∀ j : Nat, (j : Int) < (superOf d).num_inodes → inodeBit d j = true → (j : Int) ≠ i →
        (∀ t, t < DIRECT_PTRS → (inodeOf d j).direct t ≠ 0 →
          d1.blocks ((inodeOf d j).direct t) = d.blocks ((inodeOf d j).direct t))
        ∧ (∀ x, stat d1 j x = stat d j x)
        ∧ ∀ out size, read d1 j out size = read d j out size) := by
  by_cases hi : 0 ≤ i
  · obtain ⟨hn, hb0, hib, hino, hblk⟩ := write_frame hwf h1 h2 hlive h
    refine ⟨fun k hk => hib k (by omega), fun k hk hki => hino k (by omega) (by omega), ?_⟩
    intro j hj hjl hji
    have hb := hblk j (by omega) hjl (by omega)
    refine ⟨hb, ?_⟩
    apply read_congr hwf hn hb0 hj (hino j (by omega) (by omega))
    intro t ht
    by_cases hz : (inodeOf d j).direct t = 0
    · rw [hz, hb0]
    · exact hb t ht hz
  · rcases write_shape hwf h with hsame | ⟨hi2, _⟩
    · rw [hsame]
      exact ⟨fun _ _ => rfl, fun _ _ _ => rfl,
        fun _ _ _ _ => ⟨fun _ _ _ => rfl, fun _ => rfl, fun _ _ => rfl⟩⟩
    · exact absurd hi2.1 hi

set_option maxRecDepth 100000 in
/-- Witness for C28 (amended): five bytes are written to the live file of inode
1 of `imgOneFile`; reading the root directory gives the same result after the
call. -/
theorem write_keeps_other_files_witness :
    (WF imgOneFile ∧ I1 imgOneFile ∧ I2 imgOneFile ∧ inodeBit imgOneFile 1 = true
      ∧ retOf (write imgOneFile 1 helloBuf 5) = some 5)
    ∧ ∀ out size, read (diskOf (write imgOneFile 1 helloBuf 5) imgOneFile) (0 : Nat) out size
        = read imgOneFile (0 : Nat) out size :=
  have hr : Reachable imgOneFile (parAfter (fun _ => 0) 0 UFS_REGULAR_FILE 1) :=
    Reachable.create (mkfs 32 2) imgOneFile (fun _ => 0) 0 UFS_REGULAR_FILE [102] 1
      (Reachable.fresh 32 2 (by decide) (by decide) (by decide) (by decide))
      (eq_some_of_retOf (mkfs 32 2) (by decide!)) (by decide)
  have hinv := inv_of_reachable hr
  ⟨⟨hinv.1, hinv.2.1, hinv.2.2.1, by decide!, by decide!⟩,
    ((@write_keeps_other_files imgOneFile _ 1 helloBuf 5 5 hinv.1 hinv.2.1 hinv.2.2.1
      (by decide!) (eq_some_of_retOf imgOneFile (by decide!))).2.2 0 (by decide!) (by decide!)
      (by decide)).2.2⟩

/-! ## Write: first-fit allocation -/

theorem write_ok_args {d d1 : Disk} {i : Int} {buf : Block} {s r : Int} (hwf : WF d)
    (h : write d i buf s = some (d1, r)) (hr : 0 ≤ r) :
    (0 ≤ i ∧ i < (superOf d).num_inodes)
    ∧ (inodeOf d i.toNat).type = UFS_REGULAR_FILE
    ∧ (0 ≤ s ∧ s ≤ (MAX_FILE_SIZE : Int)) := by
  have hneg : ∀ e : Int, 0 < e → ¬ (some (d, -e) = some (d1, r)) := by
    intro e he hc
    injection hc with hc
    injection hc with _ hc
    omega
  unfold write at h
  rw [wf_readSuper hwf] at h
  simp only at h
  by_cases hi : i < 0 ∨ i ≥ (superOf d).num_inodes
  · rw [if_pos hi] at h
    exact absurd h (hneg _ (by decide))
  rw [if_neg hi, wf_readInodeRegion hwf] at h
  simp only at h
  rw [inodeTable_eq hwf (by omega)] at h
  by_cases hty : (inodeOf d i.toNat).type ≠ UFS_REGULAR_FILE
  · rw [if_pos hty] at h
    exact absurd h (hneg _ (by decide))
  rw [if_neg hty] at h
  by_cases hs : s < 0 ∨ s > MAX_FILE_SIZE
  · rw [if_pos hs] at h
    exact absurd h (hneg _ (by decide))
  exact ⟨by omega, by simpa using hty, by omega⟩

theorem writeAlloc_least (super : super_t) (N cap : Nat) (data : Block)
    (hok : AllocOK super N cap) :
    ∀ k i : Nat, ∀ st st' : WriteState,
      st.disk.numberOfBlocks = N → 0 ≤ st.bytesWritten →
      (k = 0 ∨ ((k : Int) - 1) * UFS_BLOCK_SIZE < st.bytesToWrite) →
      writeAlloc super cap data i k st = some st' →
      ∀ t, i ≤ t → t < i + k → ∀ m : Nat, (m : Int) < super.num_data →
        bitClear st.dataBitmap m = true →
        (st'.direct t : Int) ≤ (m : Int) + super.data_region_addr
        ∨ ∃ t', i ≤ t' ∧ t' < t ∧ st'.direct t' = ((m : Int) + super.data_region_addr).toNat := by
  have hok' := hok
  obtain ⟨hdra, hnd, hfit, hN, hcap⟩ := hok
  intro k
  induction k with
  | zero =>
    intro i st st' _ _ _ _ t h1 h2
    omega
  | succ k ih =>
    intro i st st' hN' hbw hk h t ht1 ht2 m hm hmc
    have hw : (k : Int) * UFS_BLOCK_SIZE < st.bytesToWrite := by
      rcases hk with hk | hk
      · omega
      · push_cast at hk; simpa using hk
    have hw0 : 0 < st.bytesToWrite := by
      have : (0 : Int) ≤ (k : Int) * UFS_BLOCK_SIZE := by positivity
      omega
    unfold writeAlloc at h
    rw [if_pos hw0, scanFree_eq _ _ _ _ (by omega)] at h
    simp only at h
    cases hfound : findFirstFrom (bitClear st.dataBitmap) 0 super.num_data.toNat with
    | none =>
      rw [hfound] at h
      simp only at h
      split at h
      · cases h
      · unfold Disk.writeBlock at h
        rw [if_neg (by omega)] at h
        cases h
    | some j0 =>
      rw [hfound] at h
      simp only at h
      obtain ⟨hj0n, hj0c, hj0min⟩ := findFirst_some (p := bitClear st.dataBitmap) hfound
      split at h
      · cases h
      · rename_i hguard
        have hi30 : i < DIRECT_PTRS := by omega
        rw [writeBlock_eq _ (by omega) (by rw [hN']; omega)] at h
        simp only at h
        have hmin : min (UFS_BLOCK_SIZE : Int) st.bytesToWrite
            = if (k : Int) = 0 ∧ st.bytesToWrite < UFS_BLOCK_SIZE then st.bytesToWrite
              else UFS_BLOCK_SIZE := by
          simp only [UFS_BLOCK_SIZE, Nat.cast_ofNat] at hw ⊢
          split <;> omega
        have hu : toU32 ((j0 : Int) + super.data_region_addr)
            = ((j0 : Int) + super.data_region_addr).toNat := by
          have := toU32_of_nonneg (x := (j0 : Int) + super.data_region_addr) (by omega) (by omega)
          omega
        have hc1 : (0 : Int) ≤ st.bytesWritten + min (UFS_BLOCK_SIZE : Int) st.bytesToWrite := by
          simp only [UFS_BLOCK_SIZE, Nat.cast_ofNat] at hmin ⊢; omega
        have hc2 : k = 0 ∨ ((k : Int) - 1) * UFS_BLOCK_SIZE
            < st.bytesToWrite - min (UFS_BLOCK_SIZE : Int) st.bytesToWrite := by
          by_cases hk0 : k = 0
          · left; exact hk0
          · right
            simp only [UFS_BLOCK_SIZE, Nat.cast_ofNat] at hw hmin ⊢
            have : (1 : Int) ≤ k := by omega
            rw [hmin, if_neg (by omega)]
            nlinarith
        have hspec := writeAlloc_spec super N cap data hok' k (i + 1) _ st'
          (by simpa [putBlock] using hN') hc1 hc2 h
        have hrec := ih (i + 1) _ st' (by simpa [putBlock] using hN') hc1 hc2 h
        simp only at hspec hrec
        have hdi : st'.direct i = ((j0 : Int) + super.data_region_addr).toNat := by
          rw [hspec.2.1 i (by omega), if_pos rfl, hu]
        by_cases hti : t = i
        · subst hti
          left
          rw [hdi]
          by_cases hlt : m < j0
          · rw [hj0min m hlt] at hmc
            cases hmc
          · omega
        · by_cases hmj : m = j0
          · right
            exact ⟨i, le_refl _, by omega, by rw [hmj]; exact hdi⟩
          · rcases hrec t (by omega) (by omega) m hm
                (by rw [bitClear_setBit, if_neg hmj]; exact hmc) with hle | ⟨t', h1, h2, h3⟩
            · left; exact hle
            · right; exact ⟨t', by omega, h2, h3⟩

theorem write_first_fit_core (d d1 : Disk) (i : Int) (buf : Block) (s r : Int)
    (hwf : WF d) (hp : packedFile d i.toNat)
    (h : write d i buf s = some (d1, r)) (hr : 0 ≤ r) :
    r = s
    ∧ (inodeOf d1 i.toNat).size = s
    ∧ (∀ j : Nat, ceilBlocks s ≤ (j : Int) → (inodeOf d1 i.toNat).direct j = 0)
    ∧ ∃ k : Nat → Nat,
        (∀ j : Nat, (j : Int) < ceilBlocks s →
          (k j : Int) < (superOf d).num_data ∧ freeAfterClear d i.toNat (k j)
          ∧ ((inodeOf d1 i.toNat).direct j : Int) = (superOf d).data_region_addr + (k j : Int)
          ∧ dataBit d1 (k j) = true
          ∧ ∀ o, o < UFS_BLOCK_SIZE →
              d1.blocks ((inodeOf d1 i.toNat).direct j) o = buf (j * UFS_BLOCK_SIZE + o))
        ∧ (∀ j1 j2 : Nat, j1 < j2 → (j2 : Int) < ceilBlocks s → k j1 < k j2)
        ∧ (∀ m : Nat, (m : Int) < (superOf d).num_data → freeAfterClear d i.toNat m →
            (∃ j : Nat, (j : Int) < ceilBlocks s ∧ k j = m)
            ∨ ∀ j : Nat, (j : Int) < ceilBlocks s → k j < m) := by
  obtain ⟨hi, hty, hs⟩ := write_ok_args hwf h hr
  obtain ⟨bm1, direct1, st, hclear, hst, hrs, hd1, _⟩ :=
    write_success hwf hi hty hs h (by
      intro e
      rw [e] at hr
      revert hr
      decide)
  have hwf' := hwf
  unfold WF at hwf'
  have hD : DIRECT_PTRS = 30 := rfl
  generalize hfdef : i.toNat = f at *
  have hfi : (f : Int) = i := by omega
  obtain ⟨hp0, hp1, hp2, hp3⟩ := hp
  have hcbb := ceilBlocks_bounds (s := (inodeOf d f).size) ⟨hp0, hp1⟩
  have hnbb := ceilBlocks_bounds (s := s) hs
  rw [blocksOf_eq hp0] at hclear
  generalize hcbdef : (ceilBlocks (inodeOf d f).size).toNat = cb at *
  have hcb : (cb : Int) = ceilBlocks (inodeOf d f).size := by omega
  have hcb30 : cb ≤ 30 := by omega
  obtain ⟨bm', hc', hbm', _⟩ := writeClear_spec (superOf d) d.numberOfBlocks _ (wf_allocOK hwf)
    cb 0 (regionBuf d (superOf d).data_bitmap_addr.toNat (superOf d).data_bitmap_len.toNat)
    (inodeOf d f).direct (by omega)
    (fun t _ ht => by
      have := (hp2 t (by omega)).1 (by omega)
      exact ⟨this.1, this.2.1⟩)
  rw [hc'] at hclear
  injection hclear with hclear
  injection hclear with e1 e2
  subst e1
  subst e2
  generalize hnbdef : (ceilBlocks s).toNat = nb at *
  have hnb : (nb : Int) = ceilBlocks s := by omega
  have hnb30 : nb ≤ 30 := by omega
  have hkcond : nb = 0 ∨ ((nb : Int) - 1) * UFS_BLOCK_SIZE < s := by
    simp only [UFS_BLOCK_SIZE, Nat.cast_ofNat]
    omega
  have hleast := writeAlloc_least (superOf d) d.numberOfBlocks _ buf (wf_allocOK hwf)
      nb 0 ⟨d, bm', _, s, 0⟩ st rfl (le_refl _) hkcond hst
  obtain ⟨hN, hdir, hmono, hframe, hnew, hdist, hbw, _, _⟩ :=
    writeAlloc_spec (superOf d) d.numberOfBlocks _ buf (wf_allocOK hwf)
      nb 0 ⟨d, bm', _, s, 0⟩ st rfl (le_refl _) hkcond hst
  simp only at hN hdir hmono hframe hnew hdist hbw hleast
  have hb0 : st.disk.blocks 0 = d.blocks 0 := hframe 0 (by intro j hj _; omega)
  have hino_f : inodeOf d1 f = normInode ⟨(inodeOf d f).type, s, st.direct⟩ := by
    rw [hd1, commitWrite_inode hwf _ _ hb0 (by omega)]
    simp only [if_true]
  have hdbit : ∀ j : Nat, (j : Int) < (superOf d).num_data →
      dataBit d1 j = !bitClear st.dataBitmap j := by
    intro j hj
    rw [hd1]
    exact commitWrite_dataBit hwf _ _ hb0 (by omega)
  have hfree : ∀ m : Nat, (m : Int) < (superOf d).num_data →
      (bitClear bm' m = true ↔ freeAfterClear d f m) := by
    intro m hm
    rw [hbm' m, dataBit_regionBuf hwf hm]
    unfold freeAfterClear
    constructor
    · rintro (h0 | ⟨t, _, ht, e⟩)
      · left
        cases hb : dataBit d m
        · rfl
        · rw [hb] at h0; cases h0
      · right; exact ⟨t, by omega, e⟩
    · rintro (h0 | ⟨t, ht, e⟩)
      · left; rw [h0]; rfl
      · right; exact ⟨t, Nat.zero_le _, by omega, e⟩
  have hptr : ∀ t, t < nb → ∃ j : Nat, (j : Int) < (superOf d).num_data
      ∧ bitClear bm' j = true ∧ bitClear st.dataBitmap j = false
      ∧ st.direct t = ((j : Int) + (superOf d).data_region_addr).toNat
      ∧ (inodeOf d1 f).direct t = st.direct t
      ∧ ∀ o, o < UFS_BLOCK_SIZE → d1.blocks (st.direct t) o = buf (t * UFS_BLOCK_SIZE + o) := by
    intro t ht
    obtain ⟨j, hj1, hj2, hj3, hj4, hj5⟩ := hnew t (Nat.zero_le _) (by omega)
    refine ⟨j, hj1, hj2, hj3, hj4, ?_, ?_⟩
    · rw [hino_f]
      simp only [normInode]
      rw [if_pos (by omega), hj4]
      apply Nat.mod_eq_of_lt
      omega
    · intro o ho
      rw [hj4, hd1, commitWrite_data hwf _ _ (by omega) (by omega), hj5 o ho]
      simp
  refine ⟨?_, ?_, ?_, fun j => (((inodeOf d1 f).direct j : Int)
    - (superOf d).data_region_addr).toNat, ?_, ?_, ?_⟩
  · rw [hrs, hbw]
    simp only [UFS_BLOCK_SIZE, Nat.cast_ofNat]
    omega
  · rw [hino_f]
    simp only [normInode]
    apply toI32_toU32
    · omega
    · simp only [MAX_FILE_SIZE, DIRECT_PTRS, UFS_BLOCK_SIZE] at hs
      push_cast at hs
      omega
  · intro j hj
    rw [hino_f]
    simp only [normInode]
    by_cases hj30 : j < DIRECT_PTRS
    · rw [if_pos hj30, hdir j (Or.inr (by omega))]
      by_cases hjc : j < cb
      · rw [if_pos ⟨Nat.zero_le _, by omega⟩]
      · rw [if_neg (by omega), (hp2 j hj30).2 (by omega)]
    · rw [if_neg hj30]
  · intro j hj
    beta_reduce
    obtain ⟨m, hm1, hm2, hm3, hm4, hm5, hm6⟩ := hptr j (by omega)
    have e : (((inodeOf d1 f).direct j : Int) - (superOf d).data_region_addr).toNat = m := by
      rw [hm5, hm4]
      omega
    rw [e]
    refine ⟨hm1, (hfree m hm1).1 hm2, ?_, ?_, ?_⟩
    · rw [hm5, hm4]; omega
    · rw [hdbit m hm1, hm3]; rfl
    · rw [hm5]; exact hm6
  · intro j1 j2 h12 hj2
    beta_reduce
    obtain ⟨m1, a1, a2, a3, a4, a5, _⟩ := hptr j1 (by omega)
    obtain ⟨m2, b1, b2, b3, b4, b5, _⟩ := hptr j2 (by omega)
    have e1 : (((inodeOf d1 f).direct j1 : Int) - (superOf d).data_region_addr).toNat = m1 := by
      rw [a5, a4]; omega
    have e2 : (((inodeOf d1 f).direct j2 : Int) - (superOf d).data_region_addr).toNat = m2 := by
      rw [b5, b4]; omega
    rw [e1, e2]
    have hne := hdist j1 j2 (Nat.zero_le _) h12 (by omega)
    rcases hleast j1 (Nat.zero_le _) (by omega) m2 b1 b2 with hle | ⟨t', _, ht', e⟩
    · rw [a4] at hle
      rw [a4, b4] at hne
      have : m1 ≠ m2 := fun e => hne (by rw [e])
      omega
    · exact absurd (e.trans b4.symm) (hdist t' j2 (Nat.zero_le _) (by omega) (by omega))
  · intro m hm hfm
    beta_reduce
    have hmc := (hfree m hm).2 hfm
    by_cases hex : ∃ j : Nat, (j : Int) < ceilBlocks s
        ∧ (((inodeOf d1 f).direct j : Int) - (superOf d).data_region_addr).toNat = m
    · left; exact hex
    · right
      intro j hj
      obtain ⟨m1, a1, a2, a3, a4, a5, _⟩ := hptr j (by omega)
      have e1 : (((inodeOf d1 f).direct j : Int) - (superOf d).data_region_addr).toNat = m1 := by
        rw [a5, a4]; omega
      rw [e1]
      have hne : m1 ≠ m := fun e => hex ⟨j, hj, by rw [e1, e]⟩
      rcases hleast j (Nat.zero_le _) (by omega) m hm hmc with hle | ⟨t', _, ht', e⟩
      · rw [a4] at hle
        omega
      · exfalso
        apply hex
        refine ⟨t', by omega, ?_⟩
        obtain ⟨m3, c1, c2, c3, c4, c5, _⟩ := hptr t' (by omega)
        rw [c5, e]
        omega

/-- C25 (amended): on a well-formed layout, for a packed file `i`, a successful
`write(i, buf, s)` returns `s` and leaves inode `i` with size `s`, with
`direct[j] = 0` for `ceil(s / B) ≤ j` and with `direct[j] = data_region_addr +
k j` for `j < ceil(s / B)`, where `k 0 < k 1 < ...` are the `ceil(s / B)` lowest
indices below `num_data` that are clear in the data bitmap once the bits of the
previous blocks of the file have been cleared; block `direct[j]` holds the
bytes `buf[j * B ..]` of the input. -/
theorem write_first_fit (d d1 : Disk) (i : Int) (buf : Block) (s r : Int)
    (hwf : WF d) (hp : packedFile d i.toNat)
    (h : write d i buf s = some (d1, r)) (hr : 0 ≤ r) :
    r = s
    ∧ (inodeOf d1 i.toNat).size = s
    ∧ (∀ j : Nat, ceilBlocks s ≤ (j : Int) → (inodeOf d1 i.toNat).direct j = 0)
    ∧ ∃ k : Nat → Nat,
        (∀ j : Nat, (j : Int) < ceilBlocks s →
          (k j : Int) < (superOf d).num_data ∧ freeAfterClear d i.toNat (k j)
          ∧ ((inodeOf d1 i.toNat).direct j : Int) = (superOf d).data_region_addr + (k j : Int)
          ∧ dataBit d1 (k j) = true
          ∧ ∀ o, o < UFS_BLOCK_SIZE →
              d1.blocks ((inodeOf d1 i.toNat).direct j) o = buf (j * UFS_BLOCK_SIZE + o))
        ∧ (∀ j1 j2 : Nat, j1 < j2 → (j2 : Int) < ceilBlocks s → k j1 < k j2)
        ∧ (∀ m : Nat, (m : Int) < (superOf d).num_data → freeAfterClear d i.toNat m →
            (∃ j : Nat, (j : Int) < ceilBlocks s ∧ k j = m)
            ∨ ∀ j : Nat, (j : Int) < ceilBlocks s → k j < m) :=
  write_first_fit_core d d1 i buf s r hwf hp h hr

set_option maxRecDepth 100000 in
/-- Counterexample to C25 as stated: `imgStale` satisfies (I1)-(I6) and inode 1
is a live regular file of size 0 that still points to data block 5. The call
`write(1, "hello", 0)` succeeds and `ceil(0 / B) = 0`, yet not every pointer
`direct[j]` with `j ≥ 0` is zero afterwards. -/
theorem write_first_fit_stale :
    GlobalInv imgStale
    ∧ inodeBit imgStale 1 = true
    ∧ (inodeOf imgStale 1).type = UFS_REGULAR_FILE
    ∧ retOf (write imgStale 1 helloBuf 0) = some 0
    ∧ ¬ (∀ j : Nat, ceilBlocks 0 ≤ (j : Int) →
        (inodeOf (diskOf (write imgStale 1 helloBuf 0) imgStale) 1).direct j = 0) :=
  ⟨by decide!, by decide!, by decide!, by decide!,
    fun hall => absurd (hall 0 (by decide)) (by decide!)⟩

set_option maxRecDepth 100000 in
/-- Witness for C25 (amended) on `imgOneFile`: five bytes are written to the
empty file of inode 1. -/
theorem write_first_fit_witness :
    (WF imgOneFile ∧ packedFile imgOneFile (1 : Int).toNat
      ∧ retOf (write imgOneFile 1 helloBuf 5) = some 5 ∧ (0 : Int) ≤ 5)
    ∧ (5 : Int) = 5
    ∧ (inodeOf (diskOf (write imgOneFile 1 helloBuf 5) imgOneFile) (1 : Int).toNat).size = 5 :=
  have h := write_first_fit imgOneFile (diskOf (write imgOneFile 1 helloBuf 5) imgOneFile) 1
    helloBuf 5 5 (by decide) (by decide) (eq_some_of_retOf imgOneFile (by decide)) (by decide)
  ⟨⟨by decide, by decide, by decide, by decide⟩, h.1, h.2.1⟩

/-! ## Views of a successful create -/

theorem create_ok_views {d d1 : Disk} {par : Nat → Int} {p t : Int} {name : List Nat} {r : Int}
    (hinv : Inv d par) (h : create d p t name = some (d1, r)) (hr : 0 ≤ r) :
    ∃ (pn k0 q : Nat) (blk : Block) (pino newInode : inode_t) (dbm dbmF : Block) (dD : Disk),
      p = (pn : Int) ∧ r = (k0 : Int)
      ∧ (pn : Int) < (superOf d).num_inodes ∧ (k0 : Int) < (superOf d).num_inodes
      ∧ k0 ≠ pn ∧ inodeBit d pn = true
      ∧ (inodeOf d pn).type = UFS_DIRECTORY
      ∧ (t = UFS_REGULAR_FILE ∨ t = UFS_DIRECTORY)
      ∧ name.length < DIR_ENT_NAME_SIZE - 1
      ∧ createNameLoop d (inodeOf d pn) name 0 (blocksOf (inodeOf d pn).size).toNat = some false
      ∧ inodeBit d k0 = false ∧ (∀ k, k < k0 → inodeBit d k = true)
      ∧ EntryAdded d pn k0 name q blk pino dbm
      ∧ ((t = UFS_REGULAR_FILE ∧ newInode = ⟨t, 0, fun _ => 0⟩ ∧ dbmF = dbm
            ∧ dD = putBlock d q blk)
          ∨ (t = UFS_DIRECTORY ∧ ∃ j2 : Nat, (j2 : Int) < (superOf d).num_data
              ∧ bitClear dbm j2 = true
              ∧ newInode = ⟨t, 2 * (SIZEOF_DIR_ENT : Int),
                  fun i => if i = 0 then toU32 ((j2 : Int) + (superOf d).data_region_addr)
                    else 0⟩
              ∧ dbmF = setBit dbm j2
              ∧ dD = putBlock (putBlock d q blk)
                  ((j2 : Int) + (superOf d).data_region_addr).toNat
                  (setEntry (setEntry zeroBlock 0 k0 [46]) 1 p [46, 46])))
      ∧ superOf d1 = superOf d ∧ WF d1 ∧ d1.numberOfBlocks = d.numberOfBlocks
      ∧ (∀ j : Nat, (j : Int) < (superOf d).num_inodes →
          inodeBit d1 j = if j = k0 then true else inodeBit d j)
      ∧ (∀ j : Nat, (j : Int) < (superOf d).num_data → dataBit d1 j = !bitClear dbmF j)
      ∧ inodeOf d1 k0 = normInode newInode
      ∧ inodeOf d1 pn = normInode pino
      ∧ (∀ k : Nat, (k : Int) < (superOf d).num_inodes → k ≠ k0 → k ≠ pn →
          inodeOf d1 k = inodeOf d k)
      ∧ (∀ m : Nat, (superOf d).data_region_addr ≤ (m : Int) →
          (m : Int) < (superOf d).data_region_addr + (superOf d).num_data →
          d1.blocks m = dD.blocks m) := by
  have hinv1 := create_inv hinv h
  rcases create_shape hinv h with ⟨_, hr2⟩ | ⟨hp, hdir, ht, hlen, hnl, k0, q, blk, pino, dbm,
    hk0, hk0f, hk0m, hE, hout⟩
  · omega
  obtain ⟨pn, hpn⟩ : ∃ pn : Nat, p = (pn : Int) := ⟨p.toNat, by omega⟩
  subst hpn
  simp only [Int.toNat_ofNat] at hdir hE hout hnl
  obtain ⟨hwf, h1, h2, hfz, hroot, hap, hdots⟩ := hinv
  have hwf' := hwf
  unfold WF at hwf'
  have hplive : inodeBit d pn = true := live_of_type hfz (by omega) (Or.inr hdir)
  have hkp : k0 ≠ pn := by
    intro e
    rw [e, hplive] at hk0f
    cases hk0f
  obtain ⟨F1, _⟩ := entryAdded_facts ⟨hwf, h1, h2, hfz, hroot, hap, hdots⟩ hp.2 hdir hk0 hk0f hE
  have key : ∀ (newInode : inode_t) (dbmF : Block) (dD : Disk),
      d1 = commitCreate dD (superOf d) (createInodes d pn k0 pino newInode)
        (setBit (regionBuf d (superOf d).inode_bitmap_addr.toNat
          (superOf d).inode_bitmap_len.toNat) k0) dbmF →
      dD.blocks 0 = d.blocks 0 → dD.numberOfBlocks = d.numberOfBlocks →
      superOf d1 = superOf d ∧ WF d1 ∧ d1.numberOfBlocks = d.numberOfBlocks
      ∧ (∀ j : Nat, (j : Int) < (superOf d).num_inodes →
          inodeBit d1 j = if j = k0 then true else inodeBit d j)
      ∧ (∀ j : Nat, (j : Int) < (superOf d).num_data → dataBit d1 j = !bitClear dbmF j)
      ∧ inodeOf d1 k0 = normInode newInode
      ∧ inodeOf d1 pn = normInode pino
      ∧ (∀ k : Nat, (k : Int) < (superOf d).num_inodes → k ≠ k0 → k ≠ pn →
          inodeOf d1 k = inodeOf d k)
      ∧ (∀ m : Nat, (superOf d).data_region_addr ≤ (m : Int) →
          (m : Int) < (superOf d).data_region_addr + (superOf d).num_data →
          d1.blocks m = dD.blocks m) := by
    intro newInode dbmF dD hd1 hD0 hDn
    have hc2 := committed_create hwf dD (createInodes d pn k0 pino newInode)
      (setBit (regionBuf d (superOf d).inode_bitmap_addr.toNat
        (superOf d).inode_bitmap_len.toNat) k0) dbmF
    have hd1' : d1 = putRegion (putRegion (putInodes dD (superOf d)
        (createInodes d pn k0 pino newInode)
        (superOf d).inode_region_len.toNat) (superOf d).inode_bitmap_addr.toNat
        (setBit (regionBuf d (superOf d).inode_bitmap_addr.toNat
          (superOf d).inode_bitmap_len.toNat) k0) (superOf d).inode_bitmap_len.toNat)
        (superOf d).data_bitmap_addr.toNat dbmF (superOf d).data_bitmap_len.toNat := hd1
    rw [← hd1'] at hc2
    refine ⟨committed_super hwf hc2 hD0, hinv1.1, ?_, ?_, ?_, ?_, ?_, ?_, ?_⟩
    · rw [hc2.1, hDn]
    · intro j hj
      rw [committed_inodeBit hwf hc2 hD0 (by omega), bitClear_setBit]
      by_cases hjk : j = k0
      · rw [if_pos hjk, if_pos hjk]; rfl
      · rw [if_neg hjk, if_neg hjk, inodeBit_regionBuf hwf hj]
        simp
    · intro j hj
      exact committed_dataBit hwf hc2 hD0 (by omega)
    · rw [committed_inode hwf hc2 hD0 hk0]
      unfold createInodes
      rw [if_neg hkp, if_pos rfl]
    · rw [committed_inode hwf hc2 hD0 hp.2]
      unfold createInodes
      rw [if_pos rfl]
    · intro k hk hk0' hkp'
      rw [committed_inode hwf hc2 hD0 hk]
      unfold createInodes
      rw [if_neg hkp', if_neg hk0', inodeTable_eq hwf hk, inodeOf_norm]
    · intro m hm1 hm2
      exact committed_data hwf hc2 hm1 hm2
  rcases hout with ⟨_, hr2, _, _⟩ | ⟨htr, hr2, hd1⟩ | ⟨htd, hr2, j2, hj2, hj2c, hd1⟩
  · rw [hr2] at hr
    exact absurd hr (by decide)
  · refine ⟨pn, k0, q, blk, pino, ⟨t, 0, fun _ => 0⟩, dbm, dbm, putBlock d q blk, rfl, hr2,
      hp.2, hk0, hkp, hplive, hdir, ht, hlen, hnl, hk0f, hk0m, hE,
      Or.inl ⟨htr, rfl, rfl, rfl⟩, ?_⟩
    exact key _ _ _ hd1 (putBlock_other d q 0 blk (by omega)) (putBlock_nblocks d q blk)
  · refine ⟨pn, k0, q, blk, pino, _, dbm, setBit dbm j2, _, rfl, hr2,
      hp.2, hk0, hkp, hplive, hdir, ht, hlen, hnl, hk0f, hk0m, hE,
      Or.inr ⟨htd, j2, hj2, hj2c, rfl, rfl, rfl⟩, ?_⟩
    apply key _ _ _ hd1
    · rw [putBlock_other _ _ 0 _ (by omega), putBlock_other d q 0 blk (by omega)]
    · rfl

theorem createNameLoop_none (d : Disk) (ino : inode_t) (name : List Nat) :
    ∀ k i, i + k ≤ DIRECT_PTRS →
      (∀ t, i ≤ t → t < i + k → ∃ b, d.readBlock (toI32 (ino.direct t)) = some b
        ∧ ∀ j, j < UFS_BLOCK_SIZE / SIZEOF_DIR_ENT → name ≠ entName b j) →
      createNameLoop d ino name i k = some false := by
  intro k
  induction k with
  | zero =>
    intro i _ _
    rfl
  | succ k ih =>
    intro i hik hall
    unfold createNameLoop
    obtain ⟨b, hb, hbn⟩ := hall i (le_refl _) (by omega)
    rw [if_neg (by omega), hb]
    simp only
    rw [findFirst_eq_none (fun j hj => by simpa using hbn j hj)]
    simp only
    exact ih (i + 1) (by omega) (fun t h1 h2 => hall t (by omega) (by omega))

theorem create_full_enospc {d : Disk} {par : Nat → Int} {pn : Nat} {t : Int} {name : List Nat}
    (hinv : Inv d par) (hp : (pn : Int) < (superOf d).num_inodes)
    (hdir : (inodeOf d pn).type = UFS_DIRECTORY)
    (ht : t = UFS_REGULAR_FILE ∨ t = UFS_DIRECTORY)
    (hlen : name.length < DIR_ENT_NAME_SIZE - 1)
    (hnew : ∀ i, i < (blocksOf (inodeOf d pn).size).toNat →
      ∀ j, j < UFS_BLOCK_SIZE / SIZEOF_DIR_ENT →
        entName (d.blocks ((inodeOf d pn).direct i)) j ≠ name)
    (hfull : ∀ k : Nat, (k : Int) < (superOf d).num_inodes → inodeBit d k = true) :
    create d pn t name = some (d, -ENOTENOUGHSPACE) := by
  obtain ⟨hwf, h1, h2, hfz, hroot, hap, hdots⟩ := hinv
  have hwf' := hwf
  unfold WF at hwf'
  have hpn1 : pn < (superOf d).num_inodes.toNat := by omega
  have hplive : inodeBit d pn = true := hfull pn hp
  obtain ⟨hd0, hsz1, hsz2, _⟩ := hdots pn hpn1 hplive hdir
  have hu : usedPtrs (inodeOf d pn) ≤ 30 := Nat.count_le _
  simp only [UFS_BLOCK_SIZE, SIZEOF_DIR_ENT, Nat.cast_ofNat] at hsz1 hsz2
  have hS0 : 0 ≤ (inodeOf d pn).size := by omega
  have hS1 : (inodeOf d pn).size ≤ 5056 := by omega
  have hblocks : (blocksOf (inodeOf d pn).size).toNat ≤ 2 := by
    rw [blocksOf_eq hS0]
    unfold ceilBlocks
    simp only [UFS_BLOCK_SIZE, Nat.cast_ofNat]
    omega
  have hnl : createNameLoop d (inodeOf d pn) name 0 (blocksOf (inodeOf d pn).size).toNat
      = some false := by
    apply createNameLoop_none
    · simp only [DIRECT_PTRS]; omega
    · intro i _ hi
      refine ⟨d.blocks ((inodeOf d pn).direct i), ?_, fun j hj e => hnew i (by omega) j hj e.symm⟩
      by_cases hz : (inodeOf d pn).direct i = 0
      · rw [hz]
        have e0 : toI32 0 = 0 := by decide
        rw [e0]
        exact readBlock_eq (le_refl _) (by omega)
      · have hal := (h1 pn hpn1 hplive).2 i (by simp only [DIRECT_PTRS]; omega) hz
        rw [toI32_of_lt (by have := hal.2.1; omega),
          readBlock_eq (by omega) (by have := hal.2.1; omega), Int.toNat_ofNat]
  unfold create
  rw [wf_readSuper hwf]
  simp only
  rw [if_neg (by omega),
    if_neg (by simp only [DIR_ENT_NAME_SIZE] at hlen ⊢; omega),
    if_neg (by
      rcases ht with e | e <;> rw [e] <;> simp),
    wf_stat hwf (by omega) hp zeroInode]
  simp only [Int.toNat_ofNat]
  rw [if_neg (by rw [hdir]; simp), wf_readInodeRegion hwf]
  simp only
  rw [hnl]
  simp only
  rw [wf_readInodeBitmap hwf]
  simp only
  rw [scanFree_eq _ _ _ 0 (by simp only [UFS_BLOCK_SIZE]; omega)]
  have hnone : findFirstFrom (bitClear (regionBuf d (superOf d).inode_bitmap_addr.toNat
      (superOf d).inode_bitmap_len.toNat)) 0 (superOf d).num_inodes.toNat = none := by
    apply findFirst_eq_none
    intro j hj
    rw [inodeBit_regionBuf hwf (by omega), hfull j (by omega)]
    rfl
  rw [hnone]

/-- The lowest free inode, for the names that the guard of `create` admits (see
C26): in every state reached from a fresh image, a successful
`create(parent, type, name)` returns the least `k0` below `num_inodes` whose
inode-bitmap bit is clear, sets that bit and no other inode-bitmap bit, and
leaves inode `k0` with the requested type (for a regular file with size 0 and
all direct pointers 0); if every bit below `num_inodes` is set, `create` on a
valid directory with a valid type and a name of fewer than `NAME_MAX - 1`
characters that no entry slot of the blocks of the directory carries returns
NOT_ENOUGH_SPACE and leaves the device unchanged. -/
theorem create_lowest_free_inode {d d1 : Disk} {par : Nat → Int} {p t : Int}
    {name : List Nat} {r : Int} (hre : ReachableAny d par) :
    (create d p t name = some (d1, r) → 0 ≤ r →
      ∃ k0 : Nat, r = (k0 : Int) ∧ (k0 : Int) < (superOf d).num_inodes
        ∧ inodeBit d k0 = false ∧ (∀ k, k < k0 → inodeBit d k = true)
        ∧ (∀ j : Nat, (j : Int) < (superOf d).num_inodes →
            inodeBit d1 j = if j = k0 then true else inodeBit d j)
        ∧ (inodeOf d1 k0).type = t
        ∧ (t = UFS_REGULAR_FILE →
            (inodeOf d1 k0).size = 0 ∧ ∀ i, (inodeOf d1 k0).direct i = 0))
    ∧ ((∀ k : Nat, (k : Int) < (superOf d).num_inodes → inodeBit d k = true) →
        (0 ≤ p ∧ p < (superOf d).num_inodes) →
        (inodeOf d p.toNat).type = UFS_DIRECTORY →
        (t = UFS_REGULAR_FILE ∨ t = UFS_DIRECTORY) →
        name.length < DIR_ENT_NAME_SIZE - 1 →
        (∀ i, i < (blocksOf (inodeOf d p.toNat).size).toNat →
          ∀ j, j < UFS_BLOCK_SIZE / SIZEOF_DIR_ENT →
            entName (d.blocks ((inodeOf d p.toNat).direct i)) j ≠ name) →
        create d p t name = some (d, -ENOTENOUGHSPACE)) := by
  have hinv := inv_of_reachableAny hre
  constructor
  · intro h hr
    obtain ⟨pn, k0, q, blk, pino, newInode, dbm, dbmF, dD, _, hrk, _, hk0, _, _, _, ht, _, _,
      hk0f, hk0m, _, hnew, _, _, _, hib, _, hino, _⟩ := create_ok_views hinv h hr
    have hty : newInode.type = t := by
      rcases hnew with ⟨_, e, _⟩ | ⟨_, _, _, _, e, _⟩ <;> rw [e]
    refine ⟨k0, hrk, hk0, hk0f, hk0m, hib, ?_, ?_⟩
    · rw [hino]
      show toI32 (toU32 newInode.type) = t
      rw [hty]
      rcases ht with e | e <;> rw [e] <;> rfl
    · intro htr
      rcases hnew with ⟨_, e, _⟩ | ⟨htd, _⟩
      · rw [hino, e]
        refine ⟨rfl, ?_⟩
        intro i
        show (if i < DIRECT_PTRS then 0 % 4294967296 else 0) = 0
        split <;> rfl
      · rw [htr] at htd
        exact absurd htd (by decide)
  · intro hfull hp hdir ht hlen hnew
    obtain ⟨pn, hpn⟩ : ∃ pn : Nat, p = (pn : Int) := ⟨p.toNat, by omega⟩
    subst hpn
    simp only [Int.toNat_ofNat] at hdir hnew
    exact create_full_enospc hinv hp.2 hdir ht hlen hnew hfull

set_option maxRecDepth 100000 in
/-- C26 (code defect): on a fresh image with a single inode every inode-bitmap
bit below `num_inodes` is set and the root is a valid directory; `name27` is
not empty, shorter than `NAME_MAX` and carried by no entry of the root, yet
`create(0, REGULAR_FILE, name27)` returns INVALID_NAME and not
NOT_ENOUGH_SPACE, which a one-letter name obtains: the guard of `create` turns
away every name of `DIR_ENT_NAME_SIZE - 1` characters or more before the inode
bitmap is read. -/
theorem create_full_rejects_long_name :
    (∀ k, k < (superOf (mkfs 1 2)).num_inodes.toNat → inodeBit (mkfs 1 2) k = true)
    ∧ (inodeOf (mkfs 1 2) 0).type = UFS_DIRECTORY
    ∧ name27 ≠ [] ∧ name27.length < DIR_ENT_NAME_SIZE
    ∧ (∀ idx, idx < dirCount (inodeOf (mkfs 1 2) 0) →
        dirEntName (mkfs 1 2) (inodeOf (mkfs 1 2) 0) idx ≠ name27)
    ∧ retOf (create (mkfs 1 2) 0 UFS_REGULAR_FILE name27) = some (-EINVALIDNAME)
    ∧ -EINVALIDNAME ≠ -ENOTENOUGHSPACE
    ∧ retOf (create (mkfs 1 2) 0 UFS_REGULAR_FILE [97]) = some (-ENOTENOUGHSPACE) := by
  decide!

set_option maxRecDepth 100000 in
/-- An instance of `create_lowest_free_inode`: `create(0, REGULAR_FILE, "a")`
on a fresh image with 32 inodes and 2 data blocks returns inode 1. -/
theorem create_lowest_free_inode_witness :
    ReachableAny (mkfs 32 2) (fun _ => 0)
    ∧ retOf (create (mkfs 32 2) 0 UFS_REGULAR_FILE [97]) = some 1
    ∧ ∃ k0 : Nat, (1 : Int) = (k0 : Int) ∧ (k0 : Int) < (superOf (mkfs 32 2)).num_inodes
        ∧ inodeBit (mkfs 32 2) k0 = false ∧ (∀ k, k < k0 → inodeBit (mkfs 32 2) k = true)
        ∧ (∀ j : Nat, (j : Int) < (superOf (mkfs 32 2)).num_inodes →
            inodeBit (diskOf (create (mkfs 32 2) 0 UFS_REGULAR_FILE [97]) (mkfs 32 2)) j
              = if j = k0 then true else inodeBit (mkfs 32 2) j)
        ∧ (inodeOf (diskOf (create (mkfs 32 2) 0 UFS_REGULAR_FILE [97]) (mkfs 32 2)) k0).type
            = UFS_REGULAR_FILE
        ∧ (UFS_REGULAR_FILE = UFS_REGULAR_FILE →
            (inodeOf (diskOf (create (mkfs 32 2) 0 UFS_REGULAR_FILE [97]) (mkfs 32 2)) k0).size
              = 0
            ∧ ∀ i, (inodeOf (diskOf (create (mkfs 32 2) 0 UFS_REGULAR_FILE [97])
                (mkfs 32 2)) k0).direct i = 0) :=
  have hre : ReachableAny (mkfs 32 2) (fun _ => 0) :=
    ReachableAny.fresh 32 2 (by decide) (by decide) (by decide) (by decide)
  ⟨hre, by decide!,
    (@create_lowest_free_inode (mkfs 32 2) _ _ 0 UFS_REGULAR_FILE [97] 1 hre).1
      (eq_some_of_retOf (mkfs 32 2) (by decide!)) (by decide)⟩

/-! ## Views of a successful unlink -/

theorem unlinkFree_full (super : super_t) (ino : inode_t) (cap : Nat)
    (h0 : 0 ≤ super.data_region_addr) (h1 : super.data_region_addr < 2147483648)
    (hd : ∀ t, ino.direct t < 4294967296) :
    ∀ k i d bm dE bmU, unlinkFree super ino cap i k d bm = some (dE, bmU) →
      ∃ n, n ≤ k
        ∧ (∀ t, i ≤ t → t < i + n → ino.direct t ≠ 0
            ∧ super.data_region_addr ≤ (ino.direct t : Int)
            ∧ (ino.direct t : Int) < d.numberOfBlocks)
        ∧ (n = k ∨ ino.direct (i + n) = 0)
        ∧ dE.numberOfBlocks = d.numberOfBlocks
        ∧ (∀ m, (∀ t, i ≤ t → t < i + n → m ≠ ino.direct t) → dE.blocks m = d.blocks m)
        ∧ (∀ t, i ≤ t → t < i + n → ∀ o, dE.blocks (ino.direct t) o = 0)
        ∧ (∀ j : Nat, bitClear bmU j = true ↔
            (bitClear bm j = true
              ∨ ∃ t, i ≤ t ∧ t < i + n
                ∧ (ino.direct t : Int) = (j : Int) + super.data_region_addr)) := by
  intro k
  induction k with
  | zero =>
    intro i d bm dE bmU h
    unfold unlinkFree at h
    injection h with h
    injection h with e1 e2
    subst e1 e2
    refine ⟨0, le_refl _, fun t a b => absurd b (by omega), Or.inl rfl, rfl, fun m _ => rfl,
      fun t a b => absurd b (by omega), fun j => ?_⟩
    constructor
    · exact fun h => Or.inl h
    · rintro (h | ⟨t, a, b, _⟩)
      · exact h
      · omega
  | succ k ih =>
    intro i d bm dE bmU h
    unfold unlinkFree at h
    split at h
    · rename_i hz
      injection h with h
      injection h with e1 e2
      subst e1 e2
      refine ⟨0, by omega, fun t a b => absurd b (by omega), Or.inr hz, rfl, fun m _ => rfl,
        fun t a b => absurd b (by omega), fun j => ?_⟩
      constructor
      · exact fun h => Or.inl h
      · rintro (h | ⟨t, a, b, _⟩)
        · exact h
        · omega
    · rename_i hne
      simp only at h
      split at h
      · cases h
      · rename_i hb
        push_neg at hb
        split at h
        · cases h
        · rename_i d1 hw
          obtain ⟨w0, w1, hd1⟩ := writeBlock_isSome hw
          have hge := toI32_sub_nonneg (hd i) h0 h1 hb.1
          have hlt31 : ino.direct i < 2147483648 := by
            by_contra hc
            unfold toI32 at w0
            rw [Nat.mod_eq_of_lt (hd i), if_neg (by omega)] at w0
            have := hd i
            omega
          have hti : toI32 (ino.direct i) = (ino.direct i : Nat) := toI32_of_lt hlt31
          rw [hti] at w0 w1 hd1
          rw [Int.toNat_ofNat] at hd1
          have hidx : (toI32 (toU32 ((ino.direct i : Int) - super.data_region_addr))).toNat
              = ((ino.direct i : Int) - super.data_region_addr).toNat := by
            rw [toI32_toU32 (by omega) (by omega)]
          rw [hidx] at h
          obtain ⟨n, hn, hr, hstop, hN, hblk, hzero, hbits⟩ := ih _ _ _ _ _ h
          have hN1 : d1.numberOfBlocks = d.numberOfBlocks := by rw [hd1]; rfl
          refine ⟨n + 1, by omega, ?_, ?_, by rw [hN, hN1], ?_, ?_, ?_⟩
          · intro t a b
            by_cases e : t = i
            · rw [e]
              exact ⟨hne, hge, w1⟩
            · have := hr t (by omega) (by omega)
              rw [hN1] at this
              exact this
          · rcases hstop with e | e
            · left; omega
            · right
              rw [← e]
              congr 1
              omega
          · intro m hm
            rw [hblk m (fun t a b => hm t (by omega) (by omega)), hd1]
            exact putBlock_other d _ m _ (hm i (le_refl _) (by omega))
          · intro t a b o
            by_cases hlater : ∃ t', i + 1 ≤ t' ∧ t' < i + 1 + n ∧ ino.direct t' = ino.direct t
            · obtain ⟨t', a', b', e'⟩ := hlater
              rw [← e']
              exact hzero t' a' b' o
            · have hti' : t = i := by
                by_contra hc
                exact hlater ⟨t, by omega, by omega, rfl⟩
              rw [hblk _ (fun t' a' b' e' => hlater ⟨t', a', b', e'.symm⟩), hd1, hti',
                putBlock_blocks_same]
              unfold stored zeroBlock
              split <;> rfl
          · intro j
            rw [hbits j, bitClear_clearBit]
            constructor
            · rintro (hc | ⟨t, a, b, c⟩)
              · by_cases e : j = ((ino.direct i : Int) - super.data_region_addr).toNat
                · right
                  exact ⟨i, le_refl _, by omega, by omega⟩
                · rw [if_neg e] at hc
                  exact Or.inl hc
              · right
                exact ⟨t, by omega, by omega, c⟩
            · rintro (hc | ⟨t, a, b, c⟩)
              · left
                by_cases e : j = ((ino.direct i : Int) - super.data_region_addr).toNat
                · rw [if_pos e]
                · rw [if_neg e]; exact hc
              · by_cases e : t = i
                · left
                  rw [if_pos (by rw [e] at c; omega)]
                · right
                  exact ⟨t, by omega, by omega, c⟩

theorem unlink_ok_views {d d1 : Disk} {par : Nat → Int} {p : Int} {name : List Nat}
    (hinv : Inv d par) (h : unlink d p name = some (d1, 0)) (hne : d1 ≠ d) :
    ∃ pn i' j v n : Nat, p = (pn : Int) ∧ (pn : Int) < (superOf d).num_inodes
      ∧ (inodeOf d pn).type = UFS_DIRECTORY ∧ inodeBit d pn = true
      ∧ i' < DIRECT_PTRS ∧ (inodeOf d pn).direct i' ≠ 0
      ∧ j < tailEntries (inodeOf d pn).size
      ∧ entName (d.blocks ((inodeOf d pn).direct i')) j = name
      ∧ entInum (d.blocks ((inodeOf d pn).direct i')) j = (v : Int)
      ∧ (v : Int) < (superOf d).num_inodes ∧ v ≠ pn ∧ v ≠ 0
      ∧ n ≤ DIRECT_PTRS
      ∧ (∀ t, t < n → (inodeOf d v).direct t ≠ 0 ∧ allocated d ((inodeOf d v).direct t))
      ∧ (n = DIRECT_PTRS ∨ (inodeOf d v).direct n = 0)
      ∧ superOf d1 = superOf d ∧ WF d1
      ∧ (∀ k : Nat, (k : Int) < (superOf d).num_inodes →
          inodeBit d1 k = if k = v then false else inodeBit d k)
      ∧ ((inodeOf d1 v).type = 0 ∧ (inodeOf d1 v).size = 0
          ∧ ∀ t, (inodeOf d1 v).direct t = 0)
      ∧ (∀ off, off < SIZEOF_INODE → inodeRecByte d1 v off = 0)
      ∧ ((inodeOf d1 pn).type = UFS_DIRECTORY
          ∧ (inodeOf d1 pn).size = (inodeOf d pn).size - SIZEOF_DIR_ENT
          ∧ ∀ t, t < DIRECT_PTRS → (inodeOf d1 pn).direct t = (inodeOf d pn).direct t)
      ∧ (∀ k : Nat, (k : Int) < (superOf d).num_inodes → k ≠ pn → k ≠ v →
          inodeOf d1 k = inodeOf d k)
      ∧ (∀ m : Nat, (m : Int) < (superOf d).num_data →
          (dataBit d1 m = true ↔ (dataBit d m = true
            ∧ ∀ t, t < n →
              ((inodeOf d v).direct t : Int) ≠ (m : Int) + (superOf d).data_region_addr)))
      ∧ (∀ t, t < n → ∀ o, d1.blocks ((inodeOf d v).direct t) o = 0) := by
  rcases unlink_shape hinv h with hsame | ⟨hp, hdir, hname, hsz96, i', j, v, hi', hne', hj, hent,
    hv, hvn, hout⟩
  · exact absurd hsame hne
  obtain ⟨pn, hpn⟩ : ∃ pn : Nat, p = (pn : Int) := ⟨p.toNat, by omega⟩
  subst hpn
  simp only [Int.toNat_ofNat] at hdir hsz96 hne' hj hent hv hout
  rcases hout with ⟨hr, _⟩ | ⟨_, dE, bmU, hfr, hd1⟩
  · exact absurd hr (by decide)
  obtain ⟨hvp, hv0, hA⟩ := removed_facts hinv hp.2 hdir ⟨hname.1, hname.2.1, hname.2.2.1⟩
    hi' hne' hj hent hv
  obtain ⟨hwf, h1, h2, hfz, hroot, hap, hdots⟩ := hinv
  have hwf' := hwf
  unfold WF at hwf'
  have hD : DIRECT_PTRS = 30 := rfl
  have hpn1 : pn < (superOf d).num_inodes.toNat := by omega
  have hplive : inodeBit d pn = true := live_of_type hfz hpn1 (Or.inr hdir)
  have hal' := (h1 pn hpn1 hplive).2 i' hi' hne'
  generalize hdA : putBlock d ((inodeOf d pn).direct i')
      (zeroEntry (copyEntry (d.blocks ((inodeOf d pn).direct i')) j
        (tailEntries (inodeOf d pn).size - 1)) (tailEntries (inodeOf d pn).size - 1)) = dA at *
  have hAn : dA.numberOfBlocks = d.numberOfBlocks := by rw [← hdA]; rfl
  have hAout : ∀ m : Nat, ((m : Int) < (superOf d).data_region_addr
        ∨ (superOf d).data_region_addr + (superOf d).num_data ≤ (m : Int)) →
        dA.blocks m = d.blocks m := by
    intro m hm
    rw [← hdA]
    apply putBlock_other
    intro e
    rw [e] at hm
    have := hal'.1
    have := hal'.2.1
    omega
  obtain ⟨n, hn, hrng, hstop, hEn, hEblk, hEzero, hEbits⟩ := unlinkFree_full (superOf d)
    (inodeOf d v) _ (by omega) (by omega) (fun t => inodeOf_direct_lt d v t)
    _ _ _ _ _ _ hfr
  have hEN : dE.numberOfBlocks = d.numberOfBlocks := by rw [hEn, hAn]
  have hvlive : 0 < n → inodeBit d v = true := by
    intro hpos
    have hnz' := (hrng 0 (Nat.zero_le _) (by omega)).1
    by_contra hc
    have hc' : inodeBit d v = false := by simpa using hc
    exact hnz' ((hfz v (by omega) hc').2 0 (by decide))
  have hvptr : ∀ t, t < n → allocated d ((inodeOf d v).direct t) := by
    intro t ht
    have hnz' := (hrng t (Nat.zero_le _) (by omega)).1
    exact (h1 v (by omega) (hvlive (by omega))).2 t (by omega) hnz'
  have hE0 : dE.blocks 0 = d.blocks 0 := by
    rw [hEblk 0 (fun t _ b => by
      have hvp := hvptr t (by omega)
      have := hvp.1
      omega)]
    exact hAout 0 (Or.inl (by omega))
  have hc : Committed d1 dE (superOf d) (unlinkedInodes d pn v)
      (clearBit (regionBuf d (superOf d).inode_bitmap_addr.toNat
        (superOf d).inode_bitmap_len.toNat) v) bmU := by
    rw [hd1]
    unfold commitUnlink
    exact committed_unlink hwf dE _ _ _
  have hs1 : superOf d1 = superOf d := committed_super hwf hc hE0
  have hwf1 : WF d1 := committed_wf hwf hc hEN hE0
  have hino : ∀ k : Nat, (k : Int) < (superOf d).num_inodes →
      inodeOf d1 k = normInode (unlinkedInodes d pn v k) :=
    fun k hk => committed_inode hwf hc hE0 hk
  have hdb : ∀ j : Nat, (j : Int) < (superOf d).num_data →
      dataBit d1 j = !bitClear bmU j := fun j hj => committed_dataBit hwf hc hE0 (by omega)
  have hdata : ∀ m : Nat, (superOf d).data_region_addr ≤ (m : Int) →
      (m : Int) < (superOf d).data_region_addr + (superOf d).num_data →
      d1.blocks m = dE.blocks m := fun m h1 h2 => committed_data hwf hc h1 h2
  obtain ⟨hd0, hsz1, hsz2, hbd⟩ := (dotsAt_iff d pn (par pn)).1 (hdots pn hpn1 hplive hdir)
  have hu : usedPtrs (inodeOf d pn) ≤ 30 := Nat.count_le _
  have ev : unlinkedInodes d pn v v = zeroInode := by
    unfold unlinkedInodes
    rw [if_neg hvp, if_pos rfl]
  refine ⟨pn, i', j, v, n, rfl, hp.2, hdir, hplive, hi', hne', hj, hent, hv, hvn, hvp, hv0,
    hn, fun t ht => ⟨(hrng t (Nat.zero_le _) (by omega)).1, hvptr t ht⟩, ?_, hs1, hwf1,
    ?_, ?_, ?_, ?_, ?_, ?_, ?_⟩
  · rcases hstop with e | e
    · left; exact e
    · right
      rw [Nat.zero_add] at e
      exact e
  · intro k hk
    rw [committed_inodeBit hwf hc hE0 (by omega), bitClear_clearBit]
    by_cases e : k = v
    · rw [if_pos e, if_pos e]; rfl
    · rw [if_neg e, if_neg e, inodeBit_regionBuf hwf hk]; simp
  · rw [hino v hvn, ev]
    refine ⟨by decide, by decide, fun t => ?_⟩
    show (if t < DIRECT_PTRS then 0 % 4294967296 else 0) = 0
    split <;> rfl
  · intro off hoff
    rw [committed_recByte hwf hc hE0 hvn hoff, ev]
    exact inodeByte_zero off
  · rw [hino pn hp.2]
    have e : unlinkedInodes d pn v pn
        = { inodeOf d pn with size := (inodeOf d pn).size - SIZEOF_DIR_ENT } := by
      unfold unlinkedInodes
      rw [if_pos rfl]
    rw [e]
    obtain ⟨a, b, c⟩ := normInode_fields
      (x := { inodeOf d pn with size := (inodeOf d pn).size - SIZEOF_DIR_ENT })
      (by show _ ≤ (inodeOf d pn).type ∧ (inodeOf d pn).type < _; rw [hdir]; decide)
      (by
        show _ ≤ (inodeOf d pn).size - SIZEOF_DIR_ENT ∧ (inodeOf d pn).size - SIZEOF_DIR_ENT < _
        simp only [UFS_BLOCK_SIZE, SIZEOF_DIR_ENT, Nat.cast_ofNat] at hsz1 hsz2 ⊢
        omega)
      (fun t _ => inodeOf_direct_lt d pn t)
    exact ⟨by rw [a]; exact hdir, b, c⟩
  · intro k hk e1 e2
    rw [hino k hk]
    unfold unlinkedInodes
    rw [if_neg e1, if_neg e2, inodeTable_eq hwf hk, inodeOf_norm]
  · intro m hm
    rw [hdb m hm]
    have hb := hEbits m
    rw [dataBit_regionBuf hwf hm] at hb
    constructor
    · intro hx
      have hcl : bitClear bmU m = false := by
        cases hq : bitClear bmU m
        · rfl
        · rw [hq] at hx; cases hx
      constructor
      · cases hq : dataBit d m
        · exfalso
          have := hb.2 (Or.inl (by rw [hq]; rfl))
          rw [hcl] at this
          cases this
        · rfl
      · intro t ht e
        have := hb.2 (Or.inr ⟨t, Nat.zero_le _, by omega, e⟩)
        rw [hcl] at this
        cases this
    · rintro ⟨hq, hall⟩
      cases hq2 : bitClear bmU m
      · rfl
      · exfalso
        rcases hb.1 hq2 with hx | ⟨t, _, ht, e⟩
        · rw [hq] at hx
          cases hx
        · exact hall t (by omega) e
  · intro t ht o
    have hal := hvptr t ht
    rw [hdata _ hal.1 hal.2.1]
    exact hEzero t (Nat.zero_le _) (by omega) o

/-! ## Pointers are packed in every reachable state -/

theorem filePtrs_initial {ino : inode_t} (h : FilePtrs ino) : PrefixPtrs ino := by
  intro t ht hne t' ht'
  have h1 := ((h.2.2 t ht).1 hne)
  exact (h.2.2 t' (by omega)).2 (by omega)

theorem packedFile_of_inv {d : Disk} {par : Nat → Int} {k : Nat} (hinv : Inv d par)
    (hk : k < (superOf d).num_inodes.toNat) (hlive : inodeBit d k = true)
    (hf : FilePtrs (inodeOf d k)) : packedFile d k := by
  obtain ⟨hwf, h1, h2, _⟩ := hinv
  obtain ⟨f0, f1, f2⟩ := hf
  refine ⟨f0, f1, ?_, ?_⟩
  · intro t ht
    constructor
    · intro hlt
      exact (h1 k hk hlive).2 t ht ((f2 t ht).2 hlt)
    · intro hge
      by_contra hne
      have := (f2 t ht).1 hne
      omega
  · intro t1 ht1 t2 ht2 h12 hlt e
    have hne2 := (f2 t2 ht2).2 hlt
    have := h2 k hk hlive t1 ht1 (by rw [e]; exact hne2) k hk hlive t2 ht2 e
    omega

theorem packed_same {d d1 : Disk} (hs : superOf d1 = superOf d)
    (hino : ∀ k : Nat, (k : Int) < (superOf d).num_inodes → inodeOf d1 k = inodeOf d k)
    (hib : ∀ k : Nat, (k : Int) < (superOf d).num_inodes → inodeBit d1 k = inodeBit d k)
    (hp : Packed d) : Packed d1 := by
  intro k hk hlive
  rw [hs] at hk
  have hki : (k : Int) < (superOf d).num_inodes := by omega
  rw [hib k hki] at hlive
  rw [hino k hki]
  exact hp k hk hlive

theorem write_packed {d d1 : Disk} {par : Nat → Int} {i : Int} {buf : Block} {s r : Int}
    (hinv : Inv d par) (hp : Packed d) (h : write d i buf s = some (d1, r)) : Packed d1 := by
  have hinv' := hinv
  obtain ⟨hwf, h1, h2, hfz, hroot, hap, hdots⟩ := hinv
  rcases write_shape hwf h with hsame | ⟨hi, hty, hs, bm1, direct1, st, hclear, hst, hd1, hrs⟩
  · rw [hsame]; exact hp
  have hfn : i.toNat < (superOf d).num_inodes.toNat := by omega
  have hflive : inodeBit d i.toNat = true := live_of_type hfz hfn (Or.inl hty)
  have hr : 0 ≤ r := by
    have hnbb := ceilBlocks_bounds (s := s) hs
    obtain ⟨_, _, _, _, _, _, hbw, _⟩ :=
      writeAlloc_spec (superOf d) d.numberOfBlocks _ buf (wf_allocOK hwf)
        (ceilBlocks s).toNat 0 ⟨d, bm1, direct1, s, 0⟩ st rfl (le_refl _)
        (by
          simp only [UFS_BLOCK_SIZE, Nat.cast_ofNat]
          omega) hst
    simp only at hbw
    rw [hrs, hbw]
    simp only [UFS_BLOCK_SIZE, Nat.cast_ofNat]
    omega
  have hpf := packedFile_of_inv hinv' hfn hflive ((hp _ hfn hflive).2 hty)
  obtain ⟨_, hsz, hzero, kf, hk1, _, _⟩ := write_first_fit_core d d1 i buf s r hwf hpf h hr
  obtain ⟨hn, hb0, hib, hino, _⟩ := write_frame hwf h1 h2 hflive h
  have hsup : superOf d1 = superOf d := superOf_of_block0 hb0
  have hwf' := hwf
  unfold WF at hwf'
  intro k hk hlive
  rw [hsup] at hk
  rw [hib k hk] at hlive
  by_cases hkf : k = i.toNat
  · rw [hkf]
    have hF : FilePtrs (inodeOf d1 i.toNat) := by
      refine ⟨by rw [hsz]; exact hs.1, by rw [hsz]; exact hs.2, ?_⟩
      intro t ht
      rw [hsz]
      constructor
      · intro hne
        by_contra hge
        exact hne (hzero t (by omega))
      · intro hlt hz
        have := (hk1 t hlt).2.2.1
        rw [hz] at this
        simp only [Nat.cast_zero] at this
        omega
    exact ⟨filePtrs_initial hF, fun _ => hF⟩
  · rw [hino k hk hkf]
    exact hp k hk hlive

theorem create_packed {d d1 : Disk} {par : Nat → Int} {p t : Int} {name : List Nat} {r : Int}
    (hinv : Inv d par) (hp : Packed d) (h : create d p t name = some (d1, r)) : Packed d1 := by
  have hwf := hinv.1
  have hwf' := hwf
  unfold WF at hwf'
  by_cases hr : 0 ≤ r
  · obtain ⟨pn, k0, q, blk, pino, newInode, dbm, dbmF, dD, hpn, hrk, hpn_lt, hk0, hkp, hplive,
      hdir, ht, hlen, hnl, hk0f, hk0m, hE, hnew, hsup, hwf1, hnb, hib, hdb, hino0, hinop, hinoo,
      hblk⟩ := create_ok_views hinv h hr
    obtain ⟨F1, F2, F3, _⟩ := entryAdded_facts hinv hpn_lt hdir hk0 hk0f hE
    intro k hk hlive
    rw [hsup] at hk
    have hki : (k : Int) < (superOf d).num_inodes := by omega
    by_cases e0 : k = k0
    · rw [e0, hino0]
      rcases hnew with ⟨htr, e, _⟩ | ⟨htd, j2, _, _, e, _⟩
      · rw [e]
        have hz : ∀ i, (normInode ⟨t, 0, fun _ => 0⟩).direct i = 0 := by
          intro i
          show (if i < DIRECT_PTRS then 0 % 4294967296 else 0) = 0
          split <;> rfl
        refine ⟨fun i _ hne => absurd (hz i) hne, fun _ => ⟨?_, ?_, ?_⟩⟩
        · show (0 : Int) ≤ toI32 (toU32 0)
          decide
        · show toI32 (toU32 0) ≤ (MAX_FILE_SIZE : Int)
          decide
        · intro i _
          constructor
          · intro hne
            exact absurd (hz i) hne
          · intro hlt
            have e1 : (normInode ⟨t, 0, fun _ => 0⟩).size = 0 := by
              show toI32 (toU32 0) = 0
              decide
            rw [e1] at hlt
            have e2 : ceilBlocks 0 = 0 := by decide
            rw [e2] at hlt
            omega
      · rw [e]
        constructor
        · intro i hi hne i' hi'
          exfalso
          apply hne
          show (if i < DIRECT_PTRS then
            (if i = 0 then toU32 ((j2 : Int) + (superOf d).data_region_addr) else 0)
              % 4294967296 else 0) = 0
          rw [if_pos hi, if_neg (by omega)]
        · intro hty
          exfalso
          have : toI32 (toU32 t) = UFS_REGULAR_FILE := hty
          rw [htd] at this
          revert this
          decide
    · rw [hib k hki, if_neg e0] at hlive
      by_cases ep : k = pn
      · rw [ep, hinop]
        have hold := (hp pn (by omega) hplive).1
        constructor
        · intro i hi hne i' hi'
          have hd1 : ∀ x, x < DIRECT_PTRS → (normInode pino).direct x = pino.direct x := by
            intro x hx
            show (if x < DIRECT_PTRS then pino.direct x % 4294967296 else 0) = _
            rw [if_pos hx]
            exact Nat.mod_eq_of_lt (F3 x)
          rw [hd1 i hi] at hne
          rw [hd1 i' (by omega)]
          rcases hE with ⟨_, _, _, hpino, _⟩ | ⟨_, j1, s0, hj1, hj1c, hs0, hs0z, hs0m, _, _,
            hpino, _⟩
          · rw [hpino] at hne ⊢
            exact hold i hi hne i' hi'
          · rw [hpino] at hne ⊢
            simp only at hne ⊢
            by_cases ei' : i' = s0
            · rw [if_pos ei']
              have := toU32_of_nonneg (x := (j1 : Int) + (superOf d).data_region_addr)
                (by omega) (by omega)
              intro hz
              rw [hz] at this
              simp only [Nat.cast_zero] at this
              omega
            · rw [if_neg ei']
              by_cases ei : i = s0
              · exact hs0m i' (by omega)
              · rw [if_neg ei] at hne
                exact hold i hi hne i' hi'
        · intro hty
          exfalso
          have : toI32 (toU32 pino.type) = UFS_REGULAR_FILE := hty
          rw [F2.1] at this
          revert this
          decide
      · rw [hinoo k hki e0 ep]
        exact hp k hk hlive
  · rcases create_shape hinv h with ⟨hsame, _⟩ | ⟨hpr, hdir, ht, hlen, hnl, k0, q, blk, pino, dbm,
      hk0, hk0f, hk0m, hE, hout⟩
    · rw [hsame]; exact hp
    rcases hout with ⟨_, _, hd1, _⟩ | ⟨_, hr2, _⟩ | ⟨_, hr2, _⟩
    · obtain ⟨pn, hpn⟩ : ∃ pn : Nat, p = (pn : Int) := ⟨p.toNat, by omega⟩
      subst hpn
      simp only [Int.toNat_ofNat] at hdir hE
      obtain ⟨F1, _⟩ := entryAdded_facts hinv hpr.2 hdir hk0 hk0f hE
      obtain ⟨hs, _, hino, hib, _⟩ := @frame_views d d1 hwf
        (by rw [hd1]; rfl)
        (by
          intro m hm
          rw [hd1]
          apply putBlock_other
          intro e
          rw [e] at hm
          omega)
      exact packed_same hs hino hib hp
    · omega
    · omega

theorem unlink_packed {d d1 : Disk} {par : Nat → Int} {p : Int} {name : List Nat} {r : Int}
    (hinv : Inv d par) (hp : Packed d) (h : unlink d p name = some (d1, r)) : Packed d1 := by
  have hwf := hinv.1
  have hwf' := hwf
  unfold WF at hwf'
  by_cases hsame : d1 = d
  · rw [hsame]; exact hp
  rcases unlink_shape hinv h with hs | ⟨hpr, hdir, hname, hsz96, i', j, v, hi', hne', hj, hent,
    hv, hvn, hout⟩
  · exact absurd hs hsame
  rcases hout with ⟨_, hd1⟩ | ⟨hr, _⟩
  · obtain ⟨_, h1, _, hfz, _⟩ := hinv
    have hplive : inodeBit d p.toNat = true := live_of_type hfz (by omega) (Or.inr hdir)
    have hal := (h1 p.toNat (by omega) hplive).2 i' hi' hne'
    obtain ⟨hs, _, hino, hib, _⟩ := @frame_views d d1 hwf
      (by rw [hd1]; rfl)
      (by
        intro m hm
        rw [hd1]
        apply putBlock_other
        intro e
        rw [e] at hm
        have := hal.1
        have := hal.2.1
        omega)
    exact packed_same hs hino hib hp
  · subst hr
    obtain ⟨pn, _, _, v, n, hpn, hpn_lt, hdir, hplive, _, _, _, _, _, hvn, hvp, hv0, _, _, _,
      hsup, _, hib, _, _, hpar, hoth, _, _⟩ := unlink_ok_views hinv h hsame
    intro k hk hlive
    rw [hsup] at hk
    have hki : (k : Int) < (superOf d).num_inodes := by omega
    rw [hib k hki] at hlive
    by_cases ev : k = v
    · rw [if_pos ev] at hlive
      cases hlive
    · rw [if_neg ev] at hlive
      by_cases ep : k = pn
      · rw [ep]
        have hold := (hp pn (by omega) hplive).1
        constructor
        · intro t ht hne t' ht'
          rw [hpar.2.2 t ht] at hne
          rw [hpar.2.2 t' (by omega)]
          exact hold t ht hne t' ht'
        · intro hty
          rw [hpar.1] at hty
          exact absurd hty (by decide)
      · rw [hoth k hki ep ev]
        exact hp k hk hlive

theorem mkfs_packed (ni nd : Nat) (h1 : 1 ≤ ni) (h2 : ni ≤ 32768) (h4 : nd ≤ 32768) :
    Packed (mkfs ni nd) := by
  intro k hk hlive
  rw [(mkfs_dra ni nd h2 h4).2.1] at hk
  have hk0 := mkfs_live ni nd k h2 h4 (by omega) hlive
  subst hk0
  obtain ⟨r1, _, _, r4⟩ := mkfs_root ni nd h1 h2 h4
  constructor
  · intro t _ hne t' ht'
    by_cases e : t = 0
    · omega
    · exact absurd (r4 t e) hne
  · intro hty
    rw [r1] at hty
    exact absurd hty (by decide)

theorem packed_of_reachableAny {d : Disk} {par : Nat → Int} (h : ReachableAny d par) :
    Packed d := by
  induction h with
  | fresh ni nd h1 h2 h3 h4 => exact mkfs_packed ni nd h1 h2 h4
  | create d d1 par p t name r hre hc ih => exact create_packed (inv_of_reachableAny hre) ih hc
  | write d d1 par i buf s r hre hc ih => exact write_packed (inv_of_reachableAny hre) ih hc
  | unlink d d1 par p name r hre hc ih => exact unlink_packed (inv_of_reachableAny hre) ih hc

/-! ## What unlink frees -/

/-- C27 (amended): in every state reached from a fresh image, a successful
`unlink(parent, name)` that removes an entry (the device changes) removes an
entry of the parent that carries the name and refers to an inode `v` other
than the parent; afterwards the inode-bitmap bit of `v` is clear and its
record is all zero, every block named by a nonzero pointer of `v` lies in the
data region, has its data-bitmap bit cleared and is zero-filled, no other
inode-bitmap bit and no other data-bitmap bit has changed, and the only other
inode record that has changed is the parent's, in its size, which is smaller by
one entry. -/
theorem unlink_frees_victim {d d1 : Disk} {par : Nat → Int} {p : Int} {name : List Nat}
    (hre : ReachableAny d par) (h : unlink d p name = some (d1, 0)) (hne : d1 ≠ d) :
    ∃ pn i' j v : Nat, p = (pn : Int) ∧ (pn : Int) < (superOf d).num_inodes
      ∧ i' < DIRECT_PTRS ∧ (inodeOf d pn).direct i' ≠ 0
      ∧ entName (d.blocks ((inodeOf d pn).direct i')) j = name
      ∧ entInum (d.blocks ((inodeOf d pn).direct i')) j = (v : Int)
      ∧ (v : Int) < (superOf d).num_inodes ∧ v ≠ pn
      ∧ inodeBit d1 v = false
      ∧ (∀ off, off < SIZEOF_INODE → inodeRecByte d1 v off = 0)
      ∧ ((inodeOf d1 v).type = 0 ∧ (inodeOf d1 v).size = 0 ∧ ∀ t, (inodeOf d1 v).direct t = 0)
      ∧ (∀ t, t < DIRECT_PTRS → (inodeOf d v).direct t ≠ 0 →
          ((superOf d).data_region_addr ≤ ((inodeOf d v).direct t : Int)
            ∧ ((inodeOf d v).direct t : Int)
              < (superOf d).data_region_addr + (superOf d).num_data)
          ∧ dataBit d1 (((inodeOf d v).direct t : Int) - (superOf d).data_region_addr).toNat
              = false
          ∧ ∀ o, d1.blocks ((inodeOf d v).direct t) o = 0)
      ∧ (∀ k : Nat, (k : Int) < (superOf d).num_inodes → k ≠ v → inodeBit d1 k = inodeBit d k)
      ∧ (∀ m : Nat, (m : Int) < (superOf d).num_data →
          (∀ t, t < DIRECT_PTRS →
            ((inodeOf d v).direct t : Int) ≠ (m : Int) + (superOf d).data_region_addr) →
          dataBit d1 m = dataBit d m)
      ∧ (∀ k : Nat, (k : Int) < (superOf d).num_inodes → k ≠ v → k ≠ pn →
          inodeOf d1 k = inodeOf d k)
      ∧ ((inodeOf d1 pn).type = (inodeOf d pn).type
          ∧ (inodeOf d1 pn).size = (inodeOf d pn).size - SIZEOF_DIR_ENT
          ∧ ∀ t, t < DIRECT_PTRS → (inodeOf d1 pn).direct t = (inodeOf d pn).direct t) := by
  have hinv := inv_of_reachableAny hre
  have hpk := packed_of_reachableAny hre
  obtain ⟨pn, i', j, v, n, hpn, hpn_lt, hdir, hplive, hi', hne', hj, hent, hv, hvn, hvp, hv0,
    hn, hpre, hstop, hsup, hwf1, hib, hzero, hrec, hpar, hoth, hdb, hblk⟩ :=
    unlink_ok_views hinv h hne
  obtain ⟨hwf, h1, h2, hfz, _⟩ := hinv
  have hwf' := hwf
  unfold WF at hwf'
  have hD : DIRECT_PTRS = 30 := rfl
  have hlt : ∀ t, t < DIRECT_PTRS → (inodeOf d v).direct t ≠ 0 → t < n := by
    intro t ht hnz
    by_contra hge
    rcases hstop with e | e
    · omega
    · by_cases hlive : inodeBit d v = true
      · have hp := (hpk v (by omega) hlive).1
        by_cases en : t = n
        · rw [en] at hnz
          exact hnz e
        · exact hp t ht hnz n (by omega) e
      · have hf : inodeBit d v = false := by simpa using hlive
        exact hnz ((hfz v (by omega) hf).2 t ht)
  refine ⟨pn, i', j, v, hpn, hpn_lt, hi', hne', hent, hv, hvn, hvp, ?_, hrec, hzero, ?_, ?_, ?_,
    ?_, ?_⟩
  · rw [hib v hvn, if_pos rfl]
  · intro t ht hnz
    have htn := hlt t ht hnz
    have hal := (hpre t htn).2
    refine ⟨⟨hal.1, hal.2.1⟩, ?_, hblk t htn⟩
    cases hq : dataBit d1 (((inodeOf d v).direct t : Int) - (superOf d).data_region_addr).toNat
    · rfl
    · exfalso
      have := ((hdb _ (by have := hal.1; have := hal.2.1; omega)).1 hq).2 t htn
      apply this
      have := hal.1
      omega
  · intro k hk hkv
    rw [hib k hk, if_neg hkv]
  · intro m hm hall
    cases hq : dataBit d m
    · cases hq1 : dataBit d1 m
      · rfl
      · have := ((hdb m hm).1 hq1).1
        rw [hq] at this
        cases this
    · exact (hdb m hm).2 ⟨hq, fun t ht => hall t (by omega)⟩
  · intro k hk hkv hkp
    exact hoth k hk hkp hkv
  · exact ⟨by rw [hpar.1, hdir], hpar.2.1, hpar.2.2⟩

set_option maxRecDepth 100000 in
/-- Counterexample to C27 as stated: `imgHole` satisfies (I1)-(I6); the entry
`f` of the root refers to the live regular file 1, whose pointer `direct[1]`
names data block 5 (data bit 1). `unlink(0, "f")` succeeds and clears the
inode-bitmap bit of inode 1, but the data-bitmap bit of block 5 stays set: the
loop that releases the blocks stops at `direct[0] = 0`. -/
theorem unlink_keeps_block_behind_hole :
    GlobalInv imgHole
    ∧ inodeBit imgHole 1 = true
    ∧ (inodeOf imgHole 1).type = UFS_REGULAR_FILE
    ∧ lookup imgHole 0 [102] = some 1
    ∧ (inodeOf imgHole 1).direct 1 = 5
    ∧ (superOf imgHole).data_region_addr = 4
    ∧ dataBit imgHole 1 = true
    ∧ retOf (unlink imgHole 0 [102]) = some 0
    ∧ inodeBit (diskOf (unlink imgHole 0 [102]) imgHole) 1 = false
    ∧ dataBit (diskOf (unlink imgHole 0 [102]) imgHole) 1 = true := by
  decide!

set_option maxRecDepth 100000 in
/-- Witness for C27 (amended): the file `a` is created in the root of a fresh
image with 32 inodes and 2 data blocks and unlinked again. -/
theorem unlink_frees_victim_witness :
    (ReachableAny (diskOf (create (mkfs 32 2) 0 UFS_REGULAR_FILE [97]) (mkfs 32 2))
        (parAfter (fun _ => 0) 0 UFS_REGULAR_FILE 1)
      ∧ retOf (unlink (diskOf (create (mkfs 32 2) 0 UFS_REGULAR_FILE [97]) (mkfs 32 2)) 0 [97])
        = some 0)
    ∧ ∃ v : Nat, v ≠ 0
      ∧ inodeBit (diskOf (unlink (diskOf (create (mkfs 32 2) 0 UFS_REGULAR_FILE [97])
          (mkfs 32 2)) 0 [97]) (mkfs 32 2)) v = false :=
  have hre : ReachableAny (diskOf (create (mkfs 32 2) 0 UFS_REGULAR_FILE [97]) (mkfs 32 2))
      (parAfter (fun _ => 0) 0 UFS_REGULAR_FILE 1) :=
    ReachableAny.create (mkfs 32 2) _ (fun _ => 0) 0 UFS_REGULAR_FILE [97] 1
      (ReachableAny.fresh 32 2 (by decide) (by decide) (by decide) (by decide))
      (eq_some_of_retOf (mkfs 32 2) (by decide!))
  have hu : retOf (unlink (diskOf (create (mkfs 32 2) 0 UFS_REGULAR_FILE [97]) (mkfs 32 2))
      0 [97]) = some 0 := by decide!
  have hne : diskOf (unlink (diskOf (create (mkfs 32 2) 0 UFS_REGULAR_FILE [97]) (mkfs 32 2))
      0 [97]) (mkfs 32 2) ≠ diskOf (create (mkfs 32 2) 0 UFS_REGULAR_FILE [97]) (mkfs 32 2) := by
    intro e
    have e1 := congrArg (fun x => inodeBit x 1) e
    revert e1
    decide!
  ⟨⟨hre, hu⟩,
    match unlink_frees_victim hre (eq_some_of_retOf _ hu) hne with
    | ⟨pn, _, _, v, hpn, _, _, _, _, _, _, hvp, hbit, _⟩ =>
      ⟨v, by
        intro e
        apply hvp
        have : (pn : Int) = 0 := hpn.symm
        omega, hbit⟩⟩

/-! ## A directory of more than one block -/

theorem wide_super (m n : Nat) : superOf (wideImg m n) = mkSuper 160 8 := by
  show decodeSuper (superImage (mkSuper 160 8)) = mkSuper 160 8
  apply decode_superImage <;> simp only [mkSuper] <;> constructor <;> omega

theorem wide_wf (m n : Nat) : WF (wideImg m n) := by
  unfold WF
  rw [wide_super]
  simp only [mkSuper, wideImg, disjointRanges]
  norm_num

theorem wide_inode (m n k : Nat) (hk : k < 160) :
    inodeOf (wideImg m n) k = normInode (wideInodes m n k) := by
  unfold inodeOf
  rw [wide_super]
  have e0 : UFS_BLOCK_SIZE / SIZEOF_INODE = 32 := by simp [UFS_BLOCK_SIZE, SIZEOF_INODE]
  have hd := decode_image (mkSuper 160 8) (wideInodes m n) k (by simp [mkSuper]; omega)
  rw [inodeBlockImage_wrap, e0] at hd
  rw [e0]
  have hb : (wideImg m n).blocks ((mkSuper 160 8).inode_region_addr.toNat + k / 32)
      = inodeBlockImage (mkSuper 160 8) (wideInodes m n) (k / 32) := by
    have e1 : (mkSuper 160 8).inode_region_addr.toNat = 3 := by simp [mkSuper]
    rw [e1]
    simp only [wideImg]
    rw [if_neg (by omega), if_neg (by omega), if_neg (by omega), if_pos (by omega)]
    have e2 : 3 + k / 32 - 3 = k / 32 := by omega
    rw [e2]
  rw [hb]
  exact hd

theorem wide_inodeBit (m n k : Nat) (hk : k < 160) :
    inodeBit (wideImg m n) k = decide (k < 127 + m + n) := by
  unfold inodeBit
  rw [bitClear_eq, wide_super]
  unfold regionByte
  have e1 : (mkSuper 160 8).inode_bitmap_addr.toNat = 1 := by simp [mkSuper]
  have e2 : k / 8 / UFS_BLOCK_SIZE = 0 := by simp only [UFS_BLOCK_SIZE]; omega
  have e3 : k / 8 % UFS_BLOCK_SIZE = k / 8 := by simp only [UFS_BLOCK_SIZE]; omega
  rw [e1, e2, e3]
  show (!!Nat.testBit (2 ^ (min 8 (127 + m + n - 8 * (k / 8))) - 1) (k % 8)) = _
  simp only [Bool.not_not]
  rw [Nat.testBit_two_pow_sub_one, decide_eq_decide, lt_min_iff]
  constructor
  · intro h
    omega
  · intro h
    constructor <;> omega

theorem wide_dataBit (m n j : Nat) (hj : j < 8) :
    dataBit (wideImg m n) j = decide (j < n + 2) := by
  unfold dataBit
  rw [bitClear_eq, wide_super]
  unfold regionByte
  have e1 : (mkSuper 160 8).data_bitmap_addr.toNat = 2 := by simp [mkSuper]
  have e2 : j / 8 = 0 := by omega
  have e3 : j % 8 = j := by omega
  rw [e1, e2, e3]
  show (!!Nat.testBit (2 ^ (n + 2) - 1) j) = _
  simp only [Bool.not_not]
  rw [Nat.testBit_two_pow_sub_one]

set_option maxRecDepth 100000 in
theorem spillBlock_names :
    ∀ j, j < 8 →
      entName (spillBlock 128) j = crowdedName (128 + j)
      ∧ entInum (spillBlock 128) j = crowdedInum (128 + j) := by
  decide!

theorem wide_root (m n : Nat) :
    (inodeOf (wideImg m n) 0).type = UFS_DIRECTORY
    ∧ (m + n ≤ 64 → (inodeOf (wideImg m n) 0).size = 32 * ((128 + m + n : Nat) : Int))
    ∧ ∀ t, t < DIRECT_PTRS →
        (inodeOf (wideImg m n) 0).direct t = if t ≤ n + 1 then 8 + t else 0 := by
  rw [wide_inode m n 0 (by omega)]
  unfold normInode wideInodes
  simp only [if_true]
  refine ⟨rfl, ?_, ?_⟩
  · intro h
    simp only [SIZEOF_DIR_ENT, Nat.cast_ofNat]
    rw [toI32_toU32 (by omega) (by omega)]
    ring
  · intro t ht
    rw [if_pos ht]
    apply Nat.mod_eq_of_lt
    simp only [DIRECT_PTRS] at ht
    split <;> omega

theorem wide_direct (m n k t : Nat) (hk : k < 160) (ht : t < DIRECT_PTRS)
    (h : (inodeOf (wideImg m n) k).direct t ≠ 0) :
    k = 0 ∧ t ≤ n + 1 ∧ (inodeOf (wideImg m n) k).direct t = 8 + t := by
  by_cases hk0 : k = 0
  · subst hk0
    rw [(wide_root m n).2.2 t ht] at h ⊢
    by_cases hle : t ≤ n + 1
    · rw [if_pos hle]
      exact ⟨rfl, hle, rfl⟩
    · rw [if_neg hle] at h
      exact absurd rfl h
  · exfalso
    apply h
    rw [wide_inode m n k hk]
    unfold normInode wideInodes zeroInode
    rw [if_neg hk0]
    split <;> simp

theorem wide_entry (m n idx : Nat) (hm : m ≤ 8) (hidx : idx < 128 + m) :
    dirEntName (wideImg m n) (inodeOf (wideImg m n) 0) idx = crowdedName idx
    ∧ dirEntInum (wideImg m n) (inodeOf (wideImg m n) 0) idx = crowdedInum idx := by
  unfold dirEntName dirEntInum
  have e0 : UFS_BLOCK_SIZE / SIZEOF_DIR_ENT = 128 := by simp [UFS_BLOCK_SIZE, SIZEOF_DIR_ENT]
  rw [e0]
  by_cases hlt : idx < 128
  · have e1 : idx / 128 = 0 := by omega
    have e2 : idx % 128 = idx := by omega
    rw [e1, e2, (wide_root m n).2.2 0 (by decide), if_pos (by omega)]
    have hb : ∀ o, 32 * idx ≤ o → o < 32 * idx + 32 →
        (wideImg m n).blocks (8 + 0) o = crowdedBlock o := by
      intro o _ h2
      show (if o < UFS_BLOCK_SIZE then crowdedBlock o else 0) = _
      rw [if_pos (by simp only [UFS_BLOCK_SIZE]; omega)]
    rw [entName_congr _ _ _ hb, entInum_congr _ _ _ hb]
    exact crowdedBlock_names idx hlt
  · have e1 : idx / 128 = 1 := by omega
    have e2 : idx % 128 = idx - 128 := by omega
    rw [e1, e2, (wide_root m n).2.2 1 (by decide), if_pos (by omega)]
    have hb : ∀ o, 32 * (idx - 128) ≤ o → o < 32 * (idx - 128) + 32 →
        (wideImg m n).blocks (8 + 1) o = spillBlock 128 o := by
      intro o _ h2
      show (if o < SIZEOF_DIR_ENT * m then spillBlock 128 o else 0) = _
      rw [if_pos (by simp only [SIZEOF_DIR_ENT]; omega)]
    rw [entName_congr _ _ _ hb, entInum_congr _ _ _ hb]
    have := spillBlock_names (idx - 128) (by omega)
    have e3 : 128 + (idx - 128) = idx := by omega
    rw [e3] at this
    exact this

theorem crowdedName_injective (i1 i2 : Nat) (h : crowdedName i1 = crowdedName i2) : i1 = i2 := by
  unfold crowdedName at h
  split at h <;> split at h <;> try split at h <;> try split at h
  all_goals first
    | omega
    | (simp only [List.cons.injEq, and_true, List.cons_ne_nil, and_false, List.ne_cons_self,
        reduceCtorEq] at h; omega)
    | (simp at h; omega)
    | (simp at h)

theorem wide_globalInv (m : Nat) (hm1 : 1 ≤ m) (hm : m ≤ 8) : GlobalInv (wideImg m 0) := by
  have hnum : (superOf (wideImg m 0)).num_inodes.toNat = 160 := by rw [wide_super]; rfl
  have hlive : ∀ k, k < 160 → inodeBit (wideImg m 0) k = true → k < 127 + m := by
    intro k hk h
    rw [wide_inodeBit m 0 k hk] at h
    simpa using h
  have hdir : ∀ k, k < 160 → inodeBit (wideImg m 0) k = true →
      (inodeOf (wideImg m 0) k).type = UFS_DIRECTORY → k = 0 := by
    intro k hk hb h
    have hl := hlive k hk hb
    rw [wide_inode m 0 k hk] at h
    unfold normInode wideInodes at h
    by_contra hk0
    rw [if_neg hk0, if_pos (by omega)] at h
    revert h
    decide
  obtain ⟨r1, r2, r3⟩ := wide_root m 0
  have hsz := r2 (by omega)
  have hcnt : dirCount (inodeOf (wideImg m 0) 0) = 128 + m := by
    unfold dirCount
    rw [hsz]
    simp only [SIZEOF_DIR_ENT, Nat.cast_ofNat]
    omega
  refine ⟨wide_wf m 0, ?_, ?_, ?_, ?_, ?_, ?_⟩
  · intro k hk hb
    rw [hnum] at hk
    have hl := hlive k hk hb
    constructor
    · rw [wide_inode m 0 k hk]
      unfold normInode wideInodes
      by_cases hk0 : k = 0
      · right; rw [if_pos hk0]; rfl
      · left; rw [if_neg hk0, if_pos (by omega)]; rfl
    · intro t ht hne
      obtain ⟨_, htl, e⟩ := wide_direct m 0 k t hk ht hne
      rw [e]
      unfold allocated
      rw [wide_super]
      refine ⟨by simp [mkSuper], by simp [mkSuper]; omega, ?_⟩
      have e2 : (((8 + t : Nat) : Int) - (mkSuper 160 8).data_region_addr).toNat = t := by
        simp [mkSuper]
      rw [e2, wide_dataBit m 0 t (by omega)]
      simpa using (by omega : t < 0 + 2)
  · intro k1 hk1 _ t1 ht1 hne1 k2 hk2 _ t2 ht2 he
    rw [hnum] at hk1 hk2
    obtain ⟨a1, _, a3⟩ := wide_direct m 0 k1 t1 hk1 ht1 hne1
    obtain ⟨b1, _, b3⟩ := wide_direct m 0 k2 t2 hk2 ht2 (he ▸ hne1)
    rw [a3, b3] at he
    omega
  · intro k hk hb ht
    rw [hnum] at hk
    have hk0 := hdir k hk hb ht
    subst hk0
    rw [hsz]
    simp only [SIZEOF_DIR_ENT, MAX_FILE_SIZE, DIRECT_PTRS, UFS_BLOCK_SIZE, Nat.cast_ofNat]
    push_cast
    omega
  · intro k hk hb ht
    rw [hnum] at hk
    have hk0 := hdir k hk hb ht
    subst hk0
    rw [hcnt]
    constructor
    · refine ⟨0, by omega, ?_, ?_⟩
      · rw [(wide_entry m 0 0 hm (by omega)).1]; rfl
      · rw [(wide_entry m 0 0 hm (by omega)).2]; rfl
    · refine ⟨1, by omega, ?_, fun _ => rfl⟩
      rw [(wide_entry m 0 1 hm (by omega)).1]; rfl
  · intro k hk hb ht
    rw [hnum] at hk
    have hk0 := hdir k hk hb ht
    subst hk0
    rw [hcnt]
    intro i1 h1 i2 h2 he
    rw [(wide_entry m 0 i1 hm h1).1, (wide_entry m 0 i2 hm h2).1] at he
    exact crowdedName_injective i1 i2 he
  · intro k hk hb ht
    rw [hnum] at hk
    have hk0 := hdir k hk hb ht
    subst hk0
    rw [hcnt]
    intro idx h1
    rw [(wide_entry m 0 idx hm h1).1]
    unfold crowdedName
    simp only [DIR_ENT_NAME_SIZE]
    split
    · simp
    · split <;> simp

set_option maxRecDepth 100000 in
/-- C24 (code defect): `wideImg 1 0` satisfies the global invariants; its root
is a live directory of 129 entries, size `S = 4128` with `S mod B = 32`, whose
last occupied block `direct[1] = 9` holds one entry and has its slot 1 free.
`create(0, REGULAR_FILE, "new")` succeeds and returns 128, but it sets data
bit 2, records block 10 in `direct[2]` and stores the entry at offset 0 of
that block; slot 1 of block 9 stays empty. The size becomes `S + 32`. -/
theorem create_allocates_despite_room :
    GlobalInv (wideImg 1 0)
    ∧ (inodeBit (wideImg 1 0) 0 = true
      ∧ (inodeOf (wideImg 1 0) 0).type = UFS_DIRECTORY
      ∧ (inodeOf (wideImg 1 0) 0).size = 4128
      ∧ (inodeOf (wideImg 1 0) 0).size % (UFS_BLOCK_SIZE : Int) = 32
      ∧ (inodeOf (wideImg 1 0) 0).direct 1 = 9
      ∧ (inodeOf (wideImg 1 0) 0).direct 2 = 0
      ∧ dataBit (wideImg 1 0) 2 = false
      ∧ entName ((wideImg 1 0).blocks 9) 1 = []
      ∧ retOf (create (wideImg 1 0) 0 UFS_REGULAR_FILE [110, 101, 119]) = some 128
      ∧ dataBit (diskOf (create (wideImg 1 0) 0 UFS_REGULAR_FILE [110, 101, 119])
          (wideImg 1 0)) 2 = true
      ∧ (inodeOf (diskOf (create (wideImg 1 0) 0 UFS_REGULAR_FILE [110, 101, 119])
          (wideImg 1 0)) 0).direct 2 = 10
      ∧ (inodeOf (diskOf (create (wideImg 1 0) 0 UFS_REGULAR_FILE [110, 101, 119])
          (wideImg 1 0)) 0).size = 4160
      ∧ entName ((diskOf (create (wideImg 1 0) 0 UFS_REGULAR_FILE [110, 101, 119])
          (wideImg 1 0)).blocks 9) 1 = []
      ∧ entName ((diskOf (create (wideImg 1 0) 0 UFS_REGULAR_FILE [110, 101, 119])
          (wideImg 1 0)).blocks 10) 0 = [110, 101, 119]
      ∧ entInum ((diskOf (create (wideImg 1 0) 0 UFS_REGULAR_FILE [110, 101, 119])
          (wideImg 1 0)).blocks 10) 0 = 128) :=
  ⟨wide_globalInv 1 (by decide) (by decide), by decide!⟩

set_option maxRecDepth 100000 in
/-- C23 (code defect): `wideImg 3 0` satisfies the global invariants; its root
is a live directory of 131 valid entries, a full block followed by a packed
tail block of three entries, among them `ac` for inode 1 (entry 2, in the
first block) and `ic` for inode 129 (entry 130, the last of the tail block).
`unlink(0, "ac")` succeeds and the size of the root shrinks by one entry, but
the valid entries afterwards contain a zeroed slot (entry 2) and no longer
contain `ic`: `unlink` takes the three entries of the tail block for the
number of entries of the first block as well. -/
theorem unlink_loses_tail_entry :
    GlobalInv (wideImg 3 0)
    ∧ (inodeBit (wideImg 3 0) 0 = true
      ∧ (inodeOf (wideImg 3 0) 0).type = UFS_DIRECTORY
      ∧ dirCount (inodeOf (wideImg 3 0) 0) = 131
      ∧ dirEntName (wideImg 3 0) (inodeOf (wideImg 3 0) 0) 2 = [97, 99]
      ∧ dirEntInum (wideImg 3 0) (inodeOf (wideImg 3 0) 0) 2 = 1
      ∧ dirEntName (wideImg 3 0) (inodeOf (wideImg 3 0) 0) 130 = [105, 99]
      ∧ dirEntInum (wideImg 3 0) (inodeOf (wideImg 3 0) 0) 130 = 129
      ∧ retOf (unlink (wideImg 3 0) 0 [97, 99]) = some 0
      ∧ inodeBit (diskOf (unlink (wideImg 3 0) 0 [97, 99]) (wideImg 3 0)) 1 = false
      ∧ dirCount (inodeOf (diskOf (unlink (wideImg 3 0) 0 [97, 99]) (wideImg 3 0)) 0) = 130
      ∧ dirEntName (diskOf (unlink (wideImg 3 0) 0 [97, 99]) (wideImg 3 0))
          (inodeOf (diskOf (unlink (wideImg 3 0) 0 [97, 99]) (wideImg 3 0)) 0) 2 = []
      ∧ dirEntInum (diskOf (unlink (wideImg 3 0) 0 [97, 99]) (wideImg 3 0))
          (inodeOf (diskOf (unlink (wideImg 3 0) 0 [97, 99]) (wideImg 3 0)) 0) 2 = 0
      ∧ ∀ idx, idx < 130 →
          dirEntName (diskOf (unlink (wideImg 3 0) 0 [97, 99]) (wideImg 3 0))
            (inodeOf (diskOf (unlink (wideImg 3 0) 0 [97, 99]) (wideImg 3 0)) 0) idx
            ≠ [105, 99]) :=
  ⟨wide_globalInv 3 (by decide) (by decide), by decide!⟩

/-! ## Successful creation of a regular file -/

theorem findFirstFrom_exists (p : Nat → Bool) (n : Nat) (h : ∃ k, k < n ∧ p k = true) :
    ∃ k0, findFirstFrom p 0 n = some k0 := by
  cases hf : findFirstFrom p 0 n with
  | some k0 => exact ⟨k0, rfl⟩
  | none =>
    exfalso
    have hs := findFirstFrom_spec p n 0
    rw [hf] at hs
    simp only at hs
    obtain ⟨k, hk, hpk⟩ := h
    rw [hs k (Nat.zero_le _) (by omega)] at hpk
    cases hpk

theorem createAppend_full (d : Disk) (ino : inode_t) (k0 : Int) (name : List Nat)
    (hfull : ¬ toU64 ino.size / SIZEOF_DIR_ENT % 4294967296 < UFS_BLOCK_SIZE / SIZEOF_DIR_ENT)
    (hread : ∀ i, ino.direct i ≠ 0 → ∃ b, d.readBlock (toI32 (ino.direct i)) = some b) :
    ∀ k i, createAppend d ino k0 name i k = some (d, ino, false) := by
  intro k
  induction k with
  | zero =>
    intro i
    rfl
  | succ k ih =>
    intro i
    unfold createAppend
    by_cases hne : ino.direct i ≠ 0
    · obtain ⟨b, hb⟩ := hread i hne
      rw [if_pos hne, hb]
      simp only
      rw [if_neg hfull]
      exact ih _
    · rw [if_neg hne]
      exact ih _

theorem create_reg_ok {d : Disk} {par : Nat → Int} {pn : Nat} {name : List Nat}
    (hinv : Inv d par) (hp : (pn : Int) < (superOf d).num_inodes)
    (hdir : (inodeOf d pn).type = UFS_DIRECTORY)
    (hlen : name.length < DIR_ENT_NAME_SIZE - 1)
    (hnl : createNameLoop d (inodeOf d pn) name 0 (blocksOf (inodeOf d pn).size).toNat
      = some false)
    (hfree : ∃ k, k < (superOf d).num_inodes.toNat ∧ inodeBit d k = false)
    (hroom : dirCount (inodeOf d pn) < UFS_BLOCK_SIZE / SIZEOF_DIR_ENT
      ∨ ((∃ j : Nat, (j : Int) < (superOf d).num_data ∧ dataBit d j = false)
        ∧ ∃ s, s < DIRECT_PTRS ∧ (inodeOf d pn).direct s = 0)) :
    ∃ d1 r, create d pn UFS_REGULAR_FILE name = some (d1, r) ∧ 0 ≤ r := by
  obtain ⟨hwf, h1, h2, hfz, hroot, hap, hdots⟩ := hinv
  have hwf' := hwf
  unfold WF at hwf'
  have hpn1 : pn < (superOf d).num_inodes.toNat := by omega
  have hplive : inodeBit d pn = true := live_of_type hfz hpn1 (Or.inr hdir)
  obtain ⟨hd0, hsz1, hsz2, hdot0, hdot0i, hdot1, hdot1i⟩ := hdots pn hpn1 hplive hdir
  have hal0 := (h1 pn hpn1 hplive).2 0 (by decide) hd0
  have hu : usedPtrs (inodeOf d pn) ≤ 30 := Nat.count_le _
  simp only [UFS_BLOCK_SIZE, SIZEOF_DIR_ENT, Nat.cast_ofNat] at hsz1 hsz2
  have hS0 : 0 ≤ (inodeOf d pn).size := by omega
  have hS1 : (inodeOf d pn).size ≤ 5056 := by omega
  obtain ⟨k0, hk0⟩ := findFirstFrom_exists (bitClear (regionBuf d
      (superOf d).inode_bitmap_addr.toNat (superOf d).inode_bitmap_len.toNat))
      (superOf d).num_inodes.toNat (by
        obtain ⟨k, hk, hkf⟩ := hfree
        refine ⟨k, hk, ?_⟩
        rw [inodeBit_regionBuf hwf (by omega), hkf]
        rfl)
  have hti : toI32 ((inodeOf d pn).direct 0) = ((inodeOf d pn).direct 0 : Nat) :=
    toI32_of_lt (by have := hal0.2.1; omega)
  have hr : d.readBlock (toI32 ((inodeOf d pn).direct 0))
      = some (d.blocks ((inodeOf d pn).direct 0)) := by
    rw [hti, readBlock_eq (by omega) (by have := hal0.2.1; omega), Int.toNat_ofNat]
  have hcnt_eq := @dirCount_eq (inodeOf d pn) hS0 (by omega)
  unfold create
  rw [wf_readSuper hwf]
  simp only
  rw [if_neg (by omega),
    if_neg (by simp only [DIR_ENT_NAME_SIZE] at hlen ⊢; omega),
    if_neg (by simp),
    wf_stat hwf (by omega) hp zeroInode]
  simp only [Int.toNat_ofNat]
  rw [if_neg (by rw [hdir]; simp), wf_readInodeRegion hwf]
  simp only
  rw [hnl]
  simp only
  rw [wf_readInodeBitmap hwf]
  simp only
  rw [scanFree_eq _ _ _ 0 (by simp only [UFS_BLOCK_SIZE]; omega), hk0]
  simp only
  by_cases hcnt : dirCount (inodeOf d pn) < UFS_BLOCK_SIZE / SIZEOF_DIR_ENT
  · have hw : d.writeBlock (toI32 ((inodeOf d pn).direct 0))
        (setEntry (d.blocks ((inodeOf d pn).direct 0)) (dirCount (inodeOf d pn)) k0 name)
        = some (putBlock d ((inodeOf d pn).direct 0)
            (setEntry (d.blocks ((inodeOf d pn).direct 0)) (dirCount (inodeOf d pn))
              k0 name)) := by
      rw [hti, writeBlock_eq _ (by omega) (by have := hal0.2.1; omega), Int.toNat_ofNat]
    rw [createAppend_first d _ _ k0 name _ _ hd0 hr hcnt_eq hcnt hw]
    simp only
    rw [@readDataBitmap_same d _ hwf (putBlock_nblocks _ _ _)]
    simp only
    unfold createParentBlock
    simp only [if_true, Bool.not_true, Bool.false_eq_true, if_false]
    rw [if_neg (by decide)]
    rw [writeInodeRegion_same hwf (by rfl)]
    simp only
    rw [writeInodeBitmap_same hwf (by rfl)]
    simp only
    rw [writeDataBitmap_same hwf (by rfl)]
    exact ⟨_, _, rfl, by omega⟩
  · rcases hroom with hx | ⟨⟨j, hj, hjf⟩, s, hs, hsz⟩
    · exact absurd hx hcnt
    rw [createAppend_full d (inodeOf d pn) k0 name (by rw [hcnt_eq]; exact hcnt) (by
      intro i hne
      by_cases hi : i < DIRECT_PTRS
      · have hal := (h1 pn hpn1 hplive).2 i hi hne
        refine ⟨d.blocks ((inodeOf d pn).direct i), ?_⟩
        rw [toI32_of_lt (by have := hal.2.1; omega),
          readBlock_eq (by omega) (by have := hal.2.1; omega), Int.toNat_ofNat]
      · exact absurd (inodeOf_direct_ge d pn i (by omega)) hne)]
    simp only
    rw [wf_readDataBitmap hwf]
    simp only
    unfold createParentBlock
    simp only [Bool.false_eq_true, if_false]
    rw [scanFree_eq _ _ _ 0 (by simp only [UFS_BLOCK_SIZE]; omega)]
    obtain ⟨j1, hj1⟩ := findFirstFrom_exists (bitClear (regionBuf d
      (superOf d).data_bitmap_addr.toNat (superOf d).data_bitmap_len.toNat))
      (superOf d).num_data.toNat ⟨j, by omega, by
        rw [dataBit_regionBuf hwf hj, hjf]
        rfl⟩
    have hj1s := findFirstFrom_spec (bitClear (regionBuf d
      (superOf d).data_bitmap_addr.toNat (superOf d).data_bitmap_len.toNat))
      (superOf d).num_data.toNat 0
    rw [hj1] at hj1s
    simp only at hj1s
    rw [hj1]
    simp only
    obtain ⟨s0, hs0⟩ : ∃ s0, findFirst (fun s => (inodeOf d pn).direct s == 0) DIRECT_PTRS
        = some s0 := findFirstFrom_exists _ _ ⟨s, hs, by simp [hsz]⟩
    rw [hs0]
    simp only [if_true]
    have htq : toI32 (toU32 ((j1 : Int) + (superOf d).data_region_addr))
        = (j1 : Int) + (superOf d).data_region_addr :=
      toI32_toU32 (by omega) (by omega)
    rw [htq, writeBlock_eq _ (by omega) (by omega)]
    simp only [Bool.not_true, Bool.false_eq_true, if_false]
    rw [if_neg (by decide)]
    rw [writeInodeRegion_same hwf (by rfl)]
    simp only
    rw [writeInodeBitmap_same hwf (by rfl)]
    simp only
    rw [writeDataBitmap_same hwf (by rfl)]
    exact ⟨_, _, rfl, by omega⟩

theorem crowdedName_two (k : Nat) (h : 2 ≤ k) : crowdedName k = [97 + k / 16, 97 + k % 16] := by
  unfold crowdedName
  rw [if_neg (by omega), if_neg (by omega)]

/-- A successful `create` of a regular file in the root of an image of 160
inodes and 8 data blocks, in a reachable state whose inodes `0 .. k0 - 1` are
in use: the call returns `k0`, and the views of the state after it. -/
theorem create_root_file {d : Disk} {par : Nat → Int} {name : List Nat} {k0 : Nat}
    (hr : Reachable d par) (hsup : superOf d = mkSuper 160 8)
    (hbits : ∀ j, j < 160 → inodeBit d j = decide (j < k0)) (hk0 : k0 < 160)
    (hlen : name.length < DIR_ENT_NAME_SIZE - 1)
    (hnl : createNameLoop d (inodeOf d 0) name 0 (blocksOf (inodeOf d 0).size).toNat
      = some false)
    (hroom : dirCount (inodeOf d 0) < UFS_BLOCK_SIZE / SIZEOF_DIR_ENT
      ∨ ((∃ j : Nat, j < 8 ∧ dataBit d j = false)
        ∧ ∃ s, s < DIRECT_PTRS ∧ (inodeOf d 0).direct s = 0)) :
    ∃ (d1 : Disk) (q : Nat) (blk : Block) (pino : inode_t) (dbm : Block),
      create d 0 UFS_REGULAR_FILE name = some (d1, (k0 : Int))
      ∧ Reachable d1 (parAfter par 0 UFS_REGULAR_FILE (k0 : Int))
      ∧ EntryAdded d 0 k0 name q blk pino dbm
      ∧ superOf d1 = mkSuper 160 8
      ∧ (∀ j, j < 160 → inodeBit d1 j = decide (j < k0 + 1))
      ∧ (∀ j, j < 8 → dataBit d1 j = !bitClear dbm j)
      ∧ inodeOf d1 0 = normInode pino
      ∧ (∀ m, 8 ≤ m → m < 16 → d1.blocks m = (putBlock d q blk).blocks m) := by
  have hinv := inv_of_reachable hr
  have hroot := hinv.2.2.2.2.1
  have hni : (superOf d).num_inodes = 160 := by rw [hsup]; rfl
  have hnd : (superOf d).num_data = 8 := by rw [hsup]; rfl
  have hdra : (superOf d).data_region_addr = 8 := by rw [hsup]; rfl
  obtain ⟨d1, r, hc, hr0⟩ := @create_reg_ok d par 0 name hinv (by rw [hni]; decide)
    hroot.2.2 hlen hnl
    ⟨k0, by rw [hni]; exact hk0, by rw [hbits k0 hk0]; simp⟩
    (by
      rcases hroom with h | ⟨⟨j, hj, hjf⟩, hs⟩
      · exact Or.inl h
      · exact Or.inr ⟨⟨j, by rw [hnd]; omega, hjf⟩, hs⟩)
  have hc0 : create d 0 UFS_REGULAR_FILE name = some (d1, r) := hc
  obtain ⟨pn, k, q, blk, pino, newInode, dbm, dbmF, dD, hpn, hrk, hpn_lt, hk_lt, hkp, hplive,
      hdir, ht, hlen1, hnl1, hkf, hkm, hE, hnew, hsup1, hwf1, hnb, hib, hdb, hino0, hinop, hinoo,
      hblk⟩ := create_ok_views hinv hc0 hr0
  have e0 : pn = 0 := by omega
  subst e0
  rw [hni] at hk_lt
  have ek : k = k0 := by
    have h1 := hbits k (by omega)
    rw [hkf] at h1
    have h2 : ¬ k < k0 := by
      intro h
      simp [h] at h1
    by_contra hne
    have h3 := hkm k0 (by omega)
    rw [hbits k0 hk0] at h3
    simp at h3
  subst ek
  rcases hnew with ⟨_, _, hdbm, hdD⟩ | ⟨htd, _⟩
  swap
  · exact absurd htd (by decide)
  rw [hrk] at hc0
  refine ⟨d1, q, blk, pino, dbm, hc0, ?_, hE, by rw [hsup1, hsup], ?_, ?_, hinop, ?_⟩
  · have := Reachable.create d d1 par 0 UFS_REGULAR_FILE name r hr hc (by omega)
    rw [hrk] at this
    exact this
  · intro j hj
    rw [hib j (by rw [hni]; omega), hbits j hj]
    by_cases e : j = k
    · rw [if_pos e]
      simp [e]
    · rw [if_neg e]
      exact decide_eq_decide.2 (by omega)
  · intro j hj
    rw [hdb j (by rw [hnd]; omega), hdbm]
  · intro m h1 h2
    rw [hblk m (by rw [hdra]; omega) (by rw [hdra, hnd]; omega), hdD]

theorem crowdedName_len (k : Nat) (h : 2 ≤ k) :
    (crowdedName k).length < DIR_ENT_NAME_SIZE - 1 := by
  rw [crowdedName_two k h]
  show 2 < 28 - 1
  omega

theorem crowdedName_chars (k : Nat) (h : 2 ≤ k) : ∀ c, c ∈ crowdedName k → c ≠ 0 := by
  rw [crowdedName_two k h]
  intro c hc
  simp only [List.mem_cons, List.mem_singleton, List.not_mem_nil, or_false] at hc
  omega

theorem rootFill_step {d : Disk} {par : Nat → Int} {k : Nat}
    (hr : Reachable d par) (hf : RootFill d k) (h2 : 2 ≤ k) (hk : k < 128) :
    ∃ d1, create d 0 UFS_REGULAR_FILE (crowdedName k) = some (d1, ((k - 1 : Nat) : Int))
      ∧ Reachable d1 (parAfter par 0 UFS_REGULAR_FILE ((k - 1 : Nat) : Int))
      ∧ RootFill d1 (k + 1) := by
  obtain ⟨hsup, hib, hdb, hty, hsz, hd0, hdz, hent⟩ := hf
  have hinv := inv_of_reachable hr
  have hwf := hinv.1
  have hwf' := hwf
  unfold WF at hwf'
  have hni : (superOf d).num_inodes = 160 := by rw [hsup]; rfl
  have hnd : (superOf d).num_data = 8 := by rw [hsup]; rfl
  have hdra : (superOf d).data_region_addr = 8 := by rw [hsup]; rfl
  rw [hdra, hnd] at hwf'
  have hname := crowdedName_two k h2
  have hcnt : dirCount (inodeOf d 0) = k := by
    unfold dirCount
    rw [hsz]
    simp only [SIZEOF_DIR_ENT, Nat.cast_ofNat]
    omega
  have hblocks : (blocksOf (inodeOf d 0).size).toNat = 1 := by
    rw [hsz]
    unfold blocksOf
    rw [cdiv_of_nonneg (by omega) (by decide), cmod_of_nonneg (by omega) (by decide)]
    simp only [UFS_BLOCK_SIZE, Nat.cast_ofNat]
    rw [if_pos (by omega)]
    omega
  have hnl : createNameLoop d (inodeOf d 0) (crowdedName k) 0
      (blocksOf (inodeOf d 0).size).toNat = some false := by
    rw [hblocks]
    apply createNameLoop_none d _ _ 1 0 (by decide)
    intro t _ ht1
    have et : t = 0 := by omega
    subst et
    rw [hd0]
    refine ⟨d.blocks 8, ?_, ?_⟩
    · have e8 : toI32 8 = 8 := by decide
      rw [e8]
      exact readBlock_eq (by decide) (by omega)
    · intro j hj heq
      rw [hent j hj] at heq
      by_cases hjk : j < k
      · rw [if_pos hjk] at heq
        have := crowdedName_injective k j heq
        omega
      · rw [if_neg hjk, hname] at heq
        cases heq
  obtain ⟨d1, q, blk, pino, dbm, hc, hr1, hE, hsup1, hib1, hdb1, hino, hblk⟩ :=
    @create_root_file d par (crowdedName k) (k - 1) hr hsup
      (by
        intro j hj
        rw [hib j hj]
        exact decide_eq_decide.2 (by omega))
      (by omega) (crowdedName_len k h2) hnl
      (Or.inl (by rw [hcnt]; exact hk))
  rcases hE with ⟨_, hq, hblk1, hpino, hdbm⟩ | ⟨hge, _⟩
  swap
  · rw [hcnt] at hge
    exact absurd hge (by
      simp only [UFS_BLOCK_SIZE, SIZEOF_DIR_ENT]
      omega)
  have hfields := @normInode_fields pino
    (by rw [hpino]; simp only; rw [hty]; decide)
    (by rw [hpino]; simp only [SIZEOF_DIR_ENT, Nat.cast_ofNat]; omega)
    (by
      intro t _
      rw [hpino]
      simp only
      by_cases e : t = 0
      · rw [e, hd0]
        decide
      · rw [hdz t e]
        decide)
  refine ⟨d1, hc, hr1, hsup1, ?_, ?_, ?_, ?_, ?_, ?_, ?_⟩
  · intro j hj
    rw [hib1 j hj]
    exact decide_eq_decide.2 (by omega)
  · intro j hj
    rw [hdb1 j hj, hdbm, dataBit_regionBuf hwf (by rw [hnd]; omega), hdb j hj]
    simp
  · rw [hino, hfields.1, hpino]
    exact hty
  · rw [hino, hfields.2.1, hpino]
    simp only [SIZEOF_DIR_ENT, Nat.cast_ofNat]
    rw [hsz]
    push_cast
    ring
  · rw [hino, hfields.2.2 0 (by decide), hpino]
    exact hd0
  · intro t ht
    by_cases h30 : t < DIRECT_PTRS
    · rw [hino, hfields.2.2 t h30, hpino]
      exact hdz t ht
    · exact inodeOf_direct_ge d1 0 t (by omega)
  · intro j hj
    rw [hblk 8 (by omega) (by omega), hq, hd0, putBlock_blocks_same,
      entName_stored _ _ hj, hblk1, hcnt, hd0]
    by_cases e : j = k
    · rw [e, entName_setEntry_same _ _ _ _ (crowdedName_len k h2) (crowdedName_chars k h2),
        if_pos (by omega)]
    · rw [entName_setEntry_other _ _ _ _ _ e, hent j hj]
      by_cases hjk : j < k
      · rw [if_pos hjk, if_pos (by omega)]
      · rw [if_neg hjk, if_neg (by omega)]

theorem rootWide_free {d : Disk} {c : Nat} {names : Nat → List Nat}
    (hw : RootWide d c names) (hc : c ≤ 2) : ∃ j : Nat, j < 8 ∧ dataBit d j = false := by
  obtain ⟨_, _, hdb, _, _, hd0, _, _, _, _⟩ := hw
  by_contra hno
  have hall : ∀ j, j < 8 → dataBit d j = true := by
    intro j hj
    by_contra h
    exact hno ⟨j, hj, by simpa using h⟩
  obtain ⟨t1, h1, e1⟩ := hdb 1 (by omega) (hall 1 (by omega))
  obtain ⟨t2, h2, e2⟩ := hdb 2 (by omega) (hall 2 (by omega))
  obtain ⟨t3, h3, e3⟩ := hdb 3 (by omega) (hall 3 (by omega))
  have b1 : t1 ≤ 2 := by omega
  have b2 : t2 ≤ 2 := by omega
  have b3 : t3 ≤ 2 := by omega
  interval_cases t1 <;> interval_cases t2 <;> interval_cases t3 <;> omega

theorem rootWide_step {d : Disk} {par : Nat → Int} {c : Nat} {names : Nat → List Nat}
    {name : List Nat}
    (hr : Reachable d par) (hw : RootWide d c names) (hc : c ≤ 2)
    (hlen : name.length < DIR_ENT_NAME_SIZE - 1) (hch : ∀ x, x ∈ name → x ≠ 0)
    (hne : name ≠ []) (hold : ∀ j, j < 128 → name ≠ crowdedName j)
    (hsp1 : 1 ≤ c → name ≠ names 1) :
    ∃ d1, create d 0 UFS_REGULAR_FILE name = some (d1, ((127 + c : Nat) : Int))
      ∧ Reachable d1 (parAfter par 0 UFS_REGULAR_FILE ((127 + c : Nat) : Int))
      ∧ RootWide d1 (c + 1) (fun t => if t = c + 1 then name else names t)
      ∧ (∀ t, t ≤ c → (inodeOf d1 0).direct t = (inodeOf d 0).direct t
          ∧ d1.blocks ((inodeOf d 0).direct t) = d.blocks ((inodeOf d 0).direct t)) := by
  have hfree := rootWide_free hw hc
  obtain ⟨hsup, hib, hdb, hty, hsz, hd0, hdn, hdz, hent, hsp⟩ := hw
  have hinv := inv_of_reachable hr
  have hwf := hinv.1
  have hwf' := hwf
  unfold WF at hwf'
  have hni : (superOf d).num_inodes = 160 := by rw [hsup]; rfl
  have hnd : (superOf d).num_data = 8 := by rw [hsup]; rfl
  have hdra : (superOf d).data_region_addr = 8 := by rw [hsup]; rfl
  rw [hdra, hnd] at hwf'
  have hlive : inodeBit d 0 = true := hinv.2.2.2.2.1.2.1
  have halloc : ∀ t, t ≤ c → 8 ≤ (inodeOf d 0).direct t ∧ (inodeOf d 0).direct t < 16
      ∧ dataBit d ((inodeOf d 0).direct t - 8) = true := by
    intro t ht
    have hal := (hinv.2.1 0 (by rw [hni]; decide) hlive).2 t
      (by simp only [DIRECT_PTRS]; omega) (hdn t ht)
    unfold allocated at hal
    rw [hdra, hnd] at hal
    refine ⟨by omega, by omega, ?_⟩
    have e : (((inodeOf d 0).direct t : Nat) : Int) - 8
        = (((inodeOf d 0).direct t - 8 : Nat) : Int) := by omega
    have h3 := hal.2.2
    rw [e, Int.toNat_ofNat] at h3
    exact h3
  have hcnt : dirCount (inodeOf d 0) = 128 + c := by
    unfold dirCount
    rw [hsz]
    simp only [SIZEOF_DIR_ENT, Nat.cast_ofNat]
    omega
  have hblocks : (blocksOf (inodeOf d 0).size).toNat ≤ 2
      ∧ (blocksOf (inodeOf d 0).size).toNat ≤ c + 1 := by
    rw [hsz]
    unfold blocksOf
    rw [cdiv_of_nonneg (by omega) (by decide), cmod_of_nonneg (by omega) (by decide)]
    simp only [UFS_BLOCK_SIZE, Nat.cast_ofNat]
    split <;> omega
  have hnl : createNameLoop d (inodeOf d 0) name 0
      (blocksOf (inodeOf d 0).size).toNat = some false := by
    apply createNameLoop_none d _ _ _ 0 (by simp only [DIRECT_PTRS]; omega)
    intro t _ ht1
    have htc : t ≤ c := by omega
    obtain ⟨ha1, ha2, _⟩ := halloc t htc
    refine ⟨d.blocks ((inodeOf d 0).direct t), ?_, ?_⟩
    · rw [toI32_of_lt (by omega), readBlock_eq (by omega) (by omega), Int.toNat_ofNat]
    · intro j hj heq
      by_cases e : t = 0
      · rw [e, hd0, hent j hj] at heq
        exact hold j hj heq
      · have e1 : t = 1 := by omega
        rw [e1] at heq
        obtain ⟨hn1, _, hrest⟩ := hsp 1 (le_refl _) (by omega)
        by_cases ej : j = 0
        · rw [ej, hn1] at heq
          exact hsp1 (by omega) heq
        · rw [hrest j (by omega) hj] at heq
          exact hne heq
  obtain ⟨d1, q, blk, pino, dbm, hcr, hr1, hE, hsup1, hib1, hdb1, hino, hblk⟩ :=
    @create_root_file d par name (127 + c) hr hsup hib (by omega) hlen hnl
      (Or.inr ⟨hfree, c + 1, by simp only [DIRECT_PTRS]; omega, hdz (c + 1) (by omega)⟩)
  rcases hE with ⟨hlt, _⟩ | ⟨_, j1, s0, hj1, hj1c, hs0, hs0z, hs0m, hq, hblk1, hpino, hdbm⟩
  · rw [hcnt] at hlt
    exact absurd hlt (by
      simp only [UFS_BLOCK_SIZE, SIZEOF_DIR_ENT]
      omega)
  rw [hnd] at hj1
  rw [hdra] at hq hpino
  have es0 : s0 = c + 1 := by
    have h1 : ¬ s0 ≤ c := fun h => hdn s0 h hs0z
    by_contra h2
    exact hs0m (c + 1) (by omega) (hdz (c + 1) (by omega))
  subst es0
  have hj1f : dataBit d j1 = false := by
    have := dataBit_regionBuf hwf (k := j1) (by rw [hnd]; omega)
    rw [hj1c] at this
    simpa using this
  have hq8 : q = j1 + 8 := by omega
  have hu : toU32 ((j1 : Int) + 8) = j1 + 8 := by
    have := toU32_of_nonneg (x := (j1 : Int) + 8) (by omega) (by omega)
    omega
  have hneq : ∀ t, t ≤ c → (inodeOf d 0).direct t ≠ j1 + 8 := by
    intro t ht e
    have := (halloc t ht).2.2
    rw [e, Nat.add_sub_cancel, hj1f] at this
    cases this
  have hfields := @normInode_fields pino
    (by rw [hpino]; simp only; rw [hty]; decide)
    (by rw [hpino]; simp only [SIZEOF_DIR_ENT, Nat.cast_ofNat]; omega)
    (by
      intro t _
      rw [hpino]
      simp only
      by_cases e : t = c + 1
      · rw [if_pos e]
        exact toU32_lt _
      · rw [if_neg e]
        by_cases e2 : t ≤ c
        · have := (halloc t e2).2.1
          omega
        · rw [hdz t (by omega)]
          decide)
  have hdir1 : ∀ t, t < DIRECT_PTRS →
      (inodeOf d1 0).direct t = if t = c + 1 then j1 + 8 else (inodeOf d 0).direct t := by
    intro t ht
    rw [hino, hfields.2.2 t ht, hpino]
    simp only
    by_cases e : t = c + 1
    · rw [if_pos e, if_pos e, hu]
    · rw [if_neg e, if_neg e]
  have hb8 : ∀ m, 8 ≤ m → m < 16 → m ≠ j1 + 8 → d1.blocks m = d.blocks m := by
    intro m h1 h2 h3
    rw [hblk m h1 h2, putBlock_other _ _ _ _ (by omega)]
  have hbq : d1.blocks (j1 + 8) = stored blk := by
    rw [hblk (j1 + 8) (by omega) (by omega), hq8, putBlock_blocks_same]
  refine ⟨d1, hcr, hr1, ⟨hsup1, ?_, ?_, ?_, ?_, ?_, ?_, ?_, ?_, ?_⟩, ?_⟩
  · intro j hj
    rw [hib1 j hj]
    exact decide_eq_decide.2 (by omega)
  · intro j hj hset
    rw [hdb1 j hj, hdbm, bitClear_setBit] at hset
    by_cases e : j = j1
    · refine ⟨c + 1, le_refl _, ?_⟩
      rw [hdir1 (c + 1) (by simp only [DIRECT_PTRS]; omega), if_pos rfl, e]
    · rw [if_neg e, dataBit_regionBuf hwf (by rw [hnd]; omega)] at hset
      obtain ⟨t, ht, et⟩ := hdb j hj (by simpa using hset)
      refine ⟨t, by omega, ?_⟩
      rw [hdir1 t (by simp only [DIRECT_PTRS]; omega), if_neg (by omega)]
      exact et
  · rw [hino, hfields.1, hpino]
    exact hty
  · rw [hino, hfields.2.1, hpino]
    simp only [SIZEOF_DIR_ENT, Nat.cast_ofNat]
    rw [hsz]
    push_cast
    ring
  · rw [hdir1 0 (by decide), if_neg (by omega)]
    exact hd0
  · intro t ht
    rw [hdir1 t (by simp only [DIRECT_PTRS]; omega)]
    by_cases e : t = c + 1
    · rw [if_pos e]
      omega
    · rw [if_neg e]
      exact hdn t (by omega)
  · intro t ht
    by_cases h30 : t < DIRECT_PTRS
    · rw [hdir1 t h30, if_neg (by omega)]
      exact hdz t (by omega)
    · exact inodeOf_direct_ge d1 0 t (by omega)
  · intro j hj
    have h0 := hneq 0 (Nat.zero_le _)
    rw [hd0] at h0
    rw [hb8 8 (by omega) (by omega) h0]
    exact hent j hj
  · intro t ht1 ht2
    rw [hdir1 t (by simp only [DIRECT_PTRS]; omega)]
    by_cases e : t = c + 1
    · rw [if_pos e, hbq, hblk1]
      simp only [if_pos e]
      refine ⟨?_, ?_, ?_⟩
      · rw [entName_stored _ _ (by decide), entName_setEntry_same _ _ _ _ hlen hch]
      · rw [entInum_stored _ _ (by decide),
          entInum_setEntry_same _ _ _ _ (by omega) (by omega), e]
        omega
      · intro j hj1 hj2
        rw [entName_stored _ _ hj2, entName_setEntry_other _ _ _ _ _ (by omega),
          entName_zeroBlock]
    · rw [if_neg e]
      simp only [if_neg e]
      obtain ⟨ha1, ha2, _⟩ := halloc t (by omega)
      rw [hb8 _ ha1 ha2 (hneq t (by omega))]
      exact hsp t ht1 (by omega)
  · intro t ht
    obtain ⟨ha1, ha2, _⟩ := halloc t ht
    refine ⟨?_, hb8 _ ha1 ha2 (hneq t ht)⟩
    rw [hdir1 t (by simp only [DIRECT_PTRS]; omega), if_neg (by omega)]

theorem createFiles_cons {d d1 : Disk} {name : List Nat} {r : Int} (rest : List (List Nat))
    (h : create d 0 UFS_REGULAR_FILE name = some (d1, r)) (hr : 0 ≤ r) :
    createFiles d (name :: rest) = createFiles d1 rest := by
  rw [createFiles, h]
  simp only
  rw [if_pos hr]

theorem rootFill_run : ∀ (n k : Nat) (d : Disk) (par : Nat → Int) (rest : List (List Nat)),
    Reachable d par → RootFill d k → 2 ≤ k → k + n ≤ 128 →
    ∃ d1 par1, createFiles d (crowdedNamesFrom k n ++ rest) = createFiles d1 rest
      ∧ Reachable d1 par1 ∧ RootFill d1 (k + n) := by
  intro n
  induction n with
  | zero =>
    intro k d par rest hr hf _ _
    exact ⟨d, par, rfl, hr, hf⟩
  | succ n ih =>
    intro k d par rest hr hf h2 hk
    obtain ⟨d1, hc, hr1, hf1⟩ := rootFill_step hr hf h2 (by omega)
    obtain ⟨d2, par2, he, hr2, hf2⟩ := ih (k + 1) d1 _ rest hr1 hf1 (by omega) (by omega)
    refine ⟨d2, par2, ?_, hr2, ?_⟩
    · show createFiles d (crowdedName k :: (crowdedNamesFrom (k + 1) n ++ rest)) = _
      rw [createFiles_cons _ hc (by omega)]
      exact he
    · have e : k + (n + 1) = k + 1 + n := by omega
      rw [e]
      exact hf2

theorem mkfs_rootFill : RootFill (mkfs 160 8) 2 := by
  obtain ⟨hty, hsz, hd0, hdz⟩ := mkfs_root 160 8 (by decide) (by decide) (by decide)
  have hblk := mkfs_rootBlock 160 8 (by decide)
  refine ⟨mkfs_super 160 8 (by decide) (by decide), ?_, ?_, hty, ?_, hd0, hdz, ?_⟩
  · intro j hj
    rw [mkfs_inodeBit 160 8 j (by decide) (by decide) (by omega)]
    exact decide_eq_decide.2 (by omega)
  · intro j hj
    exact mkfs_dataBit 160 8 j (by decide) (by decide) (by omega)
  · rw [hsz]
    rfl
  · intro j _
    have e : (mkfs 160 8).blocks 8 = setEntry (setEntry zeroBlock 0 0 [46]) 1 0 [46, 46] := hblk
    rw [e]
    by_cases h0 : j = 0
    · rw [h0, rootBlock_entries.1]
      rfl
    · by_cases h1 : j = 1
      · rw [h1, rootBlock_entries.2.2.1]
        rfl
      · rw [rootBlock_rest j (by omega), if_neg (by omega)]

theorem rootWide_of_fill {d : Disk} (hf : RootFill d 128) (names : Nat → List Nat) :
    RootWide d 0 names := by
  obtain ⟨hsup, hib, hdb, hty, hsz, hd0, hdz, hent⟩ := hf
  refine ⟨hsup, ?_, ?_, hty, ?_, hd0, ?_, ?_, ?_, ?_⟩
  · intro j hj
    rw [hib j hj]
    exact decide_eq_decide.2 (by omega)
  · intro j hj hset
    rw [hdb j hj] at hset
    have e : j = 0 := by simpa using hset
    exact ⟨0, le_refl _, by rw [hd0, e]⟩
  · rw [hsz]
  · intro t ht hz
    have e : t = 0 := by omega
    rw [e, hd0] at hz
    omega
  · intro t ht
    exact hdz t (by omega)
  · intro j hj
    rw [hent j hj, if_pos hj]
  · intro t h1 h0
    omega

/-! ## Name uniqueness fails in a large directory -/

/-- C13, on the code: `create` does not keep the names of a directory apart.
From the freshly formatted image of 160 inodes and 8 data blocks, the 127
calls `create(0, UFS_REGULAR_FILE, name)` for the names `crowdedName 2 ..
crowdedName 128` succeed and lead to a state `d0`, reached by successful calls
only. There the call `create(0, UFS_REGULAR_FILE, "ib")` returns the inode 128
and stores the entry in a block of its own, behind the pointer `direct[2]` of
the root. The same call, issued again at once, does not return
`-EINVALIDNAME`: it returns the inode 129 and stores a second entry `ib` behind
`direct[3]`, so that two different blocks of the root directory carry an entry
of that name, for the inodes 128 and 129. -/
theorem create_same_name_twice :
    ∃ (d0 d1 d2 : Disk) (par : Nat → Int),
      createFiles (mkfs 160 8) ((List.range 127).map (fun i => crowdedName (i + 2))) = some d0
      ∧ Reachable d0 par
      ∧ create d0 0 UFS_REGULAR_FILE [105, 98] = some (d1, 128)
      ∧ create d1 0 UFS_REGULAR_FILE [105, 98] = some (d2, 129)
      ∧ (inodeOf d1 0).direct 2 ≠ 0
      ∧ entName (d1.blocks ((inodeOf d1 0).direct 2)) 0 = [105, 98]
      ∧ entInum (d1.blocks ((inodeOf d1 0).direct 2)) 0 = 128
      ∧ (inodeOf d2 0).direct 2 = (inodeOf d1 0).direct 2
      ∧ (inodeOf d2 0).direct 3 ≠ 0
      ∧ (inodeOf d2 0).direct 3 ≠ (inodeOf d2 0).direct 2
      ∧ entName (d2.blocks ((inodeOf d2 0).direct 2)) 0 = [105, 98]
      ∧ entInum (d2.blocks ((inodeOf d2 0).direct 2)) 0 = 128
      ∧ entName (d2.blocks ((inodeOf d2 0).direct 3)) 0 = [105, 98]
      ∧ entInum (d2.blocks ((inodeOf d2 0).direct 3)) 0 = 129 := by
  have hlist : (List.range 127).map (fun i => crowdedName (i + 2))
      = crowdedNamesFrom 2 126 ++ [crowdedName 128] := by decide
  have hm : Reachable (mkfs 160 8) (fun _ => 0) :=
    Reachable.fresh 160 8 (by decide) (by decide) (by decide) (by decide)
  obtain ⟨dA, parA, heA, hrA, hfA⟩ :=
    rootFill_run 126 2 _ _ [crowdedName 128] hm mkfs_rootFill (le_refl _) (by decide)
  have hwA := rootWide_of_fill hfA (fun _ => [])
  obtain ⟨d0, hc0, hr0, hw0, _⟩ := @rootWide_step dA parA 0 _ (crowdedName 128) hrA hwA
    (by decide) (crowdedName_len 128 (by decide)) (crowdedName_chars 128 (by decide))
    (by decide)
    (fun j hj e => by
      have := crowdedName_injective 128 j e
      omega)
    (fun h => absurd h (by decide))
  have hname : ([105, 98] : List Nat) = crowdedName 129 := by decide
  have hold : ∀ j, j < 128 → ([105, 98] : List Nat) ≠ crowdedName j := by
    intro j hj e
    rw [hname] at e
    have := crowdedName_injective 129 j e
    omega
  obtain ⟨d1, hc1, hr1, hw1, _⟩ := @rootWide_step d0 _ 1 _ [105, 98] hr0 hw0
    (by decide) (by decide) (by decide) (by decide) hold (fun _ => by decide)
  obtain ⟨d2, hc2, hr2, hw2, hk2⟩ := @rootWide_step d1 _ 2 _ [105, 98] hr1 hw1
    (by decide) (by decide) (by decide) (by decide) hold (fun _ => by decide)
  obtain ⟨_, _, _, _, _, _, hdn1, _, _, hsp1⟩ := hw1
  obtain ⟨hsup2, _, _, _, _, _, hdn2, _, _, hsp2⟩ := hw2
  obtain ⟨hn1, hi1, _⟩ := hsp1 2 (by decide) (le_refl _)
  obtain ⟨hn2, hi2, _⟩ := hsp2 2 (by decide) (by decide)
  obtain ⟨hn3, hi3, _⟩ := hsp2 3 (by decide) (le_refl _)
  have hinv2 := inv_of_reachable hr2
  refine ⟨d0, d1, d2, _, ?_, hr0, hc1, hc2, hdn1 2 (le_refl _), hn1, hi1, (hk2 2 (le_refl _)).1,
    hdn2 3 (le_refl _), ?_, hn2, hi2, hn3, hi3⟩
  · rw [hlist, heA, createFiles_cons [] hc0 (by omega)]
    rfl
  · intro e
    have := hinv2.2.2.1 0 (by rw [hsup2]; decide) hinv2.2.2.2.2.1.2.1 3 (by decide)
      (hdn2 3 (le_refl _)) 0 (by rw [hsup2]; decide) hinv2.2.2.2.2.1.2.1 2 (by decide) e
    omega

/-! ## Write on a free inode -/

set_option maxRecDepth 100000 in
/-- Counterexample to C28 as stated: `imgGhost` satisfies (P1) and (P2), and
(I1)-(I6) altogether; inode 1 is a live regular file of size 5 whose pointer
`direct[0]` names block 5, which holds `hello`, and the inode-bitmap bit of
inode 2 is clear. `write(2, buf, 5)` with a buffer of zero bytes succeeds and
returns 5; it stores the buffer in block 5, which the other, live inode 1 still
refers to, so that `read(1, out, 5)` returns five zero bytes after the call
where it returned `hello` before it. -/
theorem write_on_free_inode_overwrites_file :
    GlobalInv imgGhost
    ∧ inodeBit imgGhost 1 = true
    ∧ inodeBit imgGhost 2 = false
    ∧ (inodeOf imgGhost 1).type = UFS_REGULAR_FILE
    ∧ (inodeOf imgGhost 1).size = 5
    ∧ (inodeOf imgGhost 1).direct 0 = 5
    ∧ retOf (write imgGhost 2 zeroBlock 5) = some 5
    ∧ inodeBit (diskOf (write imgGhost 2 zeroBlock 5) imgGhost) 1 = true
    ∧ (inodeOf (diskOf (write imgGhost 2 zeroBlock 5) imgGhost) 1).size = 5
    ∧ (inodeOf (diskOf (write imgGhost 2 zeroBlock 5) imgGhost) 1).direct 0 = 5
    ∧ (List.range 5).map (imgGhost.blocks 5) = [104, 101, 108, 108, 111]
    ∧ (List.range 5).map ((diskOf (write imgGhost 2 zeroBlock 5) imgGhost).blocks 5)
        = [0, 0, 0, 0, 0]
    ∧ (read imgGhost 1 zeroBlock 5).map (fun x => (x.1, (List.range 5).map x.2))
        = some (5, [104, 101, 108, 108, 111])
    ∧ (read (diskOf (write imgGhost 2 zeroBlock 5) imgGhost) 1 zeroBlock 5).map
          (fun x => (x.1, (List.range 5).map x.2))
        = some (5, [0, 0, 0, 0, 0]) := by
  decide!

end UFS
